import Mathlib

/-!
# Tabulated-function interpolation engine: `CUInterpolator` and `CUCSpline`

A shallow embedding of `src/builder/Interpolator.{hpp,cpp}` and
`src/builder/CSpline.{hpp,cpp}`.

Modelling conventions.

* `FloatDP` (C `double`) is modelled by `ℚ`: all statements are about exact
  arithmetic.  Division by zero has the value `0` in `ℚ` where IEEE arithmetic
  gives an infinity or a NaN; a theorem whose conclusion is the value of a
  quotient shows the divisor nonzero.
* `UNativeInt` (C `unsigned int`) is modelled by `Nat`; subtraction and
  addition that may wrap are written `usub` / `uadd` (modulo `2 ^ 32`).
* A heap buffer is a `List`; the null pointer and a zero-length buffer are both
  `[]`.  Storage returned by `new[]` has indeterminate contents, modelled as
  zero-filled.  Allocation itself is assumed to succeed (`std::bad_alloc` is not
  modelled).
* The table accessors `xval` / `yval` do not validate their index in the source
  (the header leaves that to the caller).  Here they are partial: an index that
  is not a table index (`≥ m_uEntries`) or a raw buffer index outside its buffer
  yields `none`, and the enclosing operation then reports
  `Status.undefined_behaviour` (configuration) or `none` (evaluation).
* The two classes share one record; `isCSpline` plays the role of the dynamic
  type and selects the virtual overrides.
-/

namespace IotBuilder

/-- Modulus of `UNativeInt` (`typedef unsigned int UNativeInt`, 32 bits). -/
def UNativeInt_MOD : Nat := 4294967296

/-- Wrapping addition `a + b` of two `UNativeInt` values (both below the modulus). -/
def uadd (a b : Nat) : Nat :=
  if a + b < UNativeInt_MOD then a + b else a + b - UNativeInt_MOD

/-- Wrapping subtraction `a - b` of two `UNativeInt` values (both below the modulus). -/
def usub (a b : Nat) : Nat :=
  if b ≤ a then a - b else a + UNativeInt_MOD - b

/-- The type `FloatDP` in exact arithmetic. -/
abbrev FloatDP : Type := ℚ

/-- One row of the configuration table: `struct SUConfigurationTableEntry`. -/
structure SUConfigurationTableEntry where
  fIndependentValue : FloatDP
  fDependentValue : FloatDP
  deriving DecidableEq

instance : Inhabited SUConfigurationTableEntry := ⟨⟨0, 0⟩⟩

/-- Argument of a thrown `std::invalid_argument`. -/
inductive What where
  | NoTableInit
  | InvalidTableLength
  | NoTableRange
  deriving DecidableEq

/-- How a `configure` call ends: normal return, a thrown `std::invalid_argument`,
or an access outside a table or buffer. -/
inductive Status where
  | ok
  | invalid_argument (what : What)
  | undefined_behaviour
  deriving DecidableEq

/-- Object state of a `CUInterpolator`, together with the members `CUCSpline`
adds (`m_bNaturalSpline`, its own `m_uAllocatedEntries`, `m_pafd2ydx2`). -/
structure CUInterpolator where
  isCSpline : Bool
  m_uAllocatedEntries : Nat
  m_uEntries : Nat
  m_paTable : List SUConfigurationTableEntry
  m_fdydx_L : FloatDP
  m_fdydx_H : FloatDP
  m_fXStep : FloatDP
  m_uLastEntry : Nat
  m_bNaturalSpline : Bool
  m_uAllocatedEntries_CSpline : Nat
  m_pafd2ydx2 : List FloatDP
  deriving DecidableEq

/-- Counted loop `for (i = start; i < start + k; ++i) body(i)`, stopping at the
first failing iteration. -/
def forLoop {σ : Type} (body : Nat → σ → Option σ) : Nat → Nat → σ → Option σ
  | 0, _, st => some st
  | k + 1, i, st => (body i st).bind fun st' => forLoop body k (i + 1) st'

/-- Counting-down loop `for (ui = k; ui > 0; ) { --ui; body(ui) }`. -/
def forDown {σ : Type} (body : Nat → σ → Option σ) : Nat → σ → Option σ
  | 0, st => some st
  | ui + 1, st => (body ui st).bind fun st' => forDown body ui st'

/-- Read of table row `i` of a table with `n` entries held in buffer `tbl`. -/
def tableRead (n : Nat) (tbl : List SUConfigurationTableEntry) (i : Nat) :
    Option SUConfigurationTableEntry :=
  if i < n then tbl[i]? else none

/-- Write of table row `i`. -/
def tableWrite (n : Nat) (tbl : List SUConfigurationTableEntry) (i : Nat)
    (e : SUConfigurationTableEntry) : Option (List SUConfigurationTableEntry) :=
  if i < n ∧ i < tbl.length then some (tbl.set i e) else none

/-- Read of element `i` of a raw `FloatDP` buffer. -/
def bufRead (buf : List FloatDP) (i : Nat) : Option FloatDP := buf[i]?

/-- Write of element `i` of a raw `FloatDP` buffer. -/
def bufWrite (buf : List FloatDP) (i : Nat) (v : FloatDP) : Option (List FloatDP) :=
  if i < buf.length then some (buf.set i v) else none

/-- The accessor `xval(uIndex)`. -/
def CUInterpolator.xval (s : CUInterpolator) (uIndex : Nat) : Option FloatDP :=
  (tableRead s.m_uEntries s.m_paTable uIndex).map fun e => e.fIndependentValue

/-- The accessor `yval(uIndex)`. -/
def CUInterpolator.yval (s : CUInterpolator) (uIndex : Nat) : Option FloatDP :=
  (tableRead s.m_uEntries s.m_paTable uIndex).map fun e => e.fDependentValue

/-- The accessor `lowestTableIndex()`. -/
def CUInterpolator.lowestTableIndex (_s : CUInterpolator) : Nat := 0

/-- The accessor `highestTableIndex()`, `m_uEntries - 1` in unsigned arithmetic. -/
def CUInterpolator.highestTableIndex (s : CUInterpolator) : Nat := usub s.m_uEntries 1

/-- The accessor `lowestXval()`. -/
def CUInterpolator.lowestXval (s : CUInterpolator) : Option FloatDP :=
  s.xval s.lowestTableIndex

/-- The accessor `highestXval()`. -/
def CUInterpolator.highestXval (s : CUInterpolator) : Option FloatDP :=
  s.xval s.highestTableIndex

/-- The accessor `lowestYval()`. -/
def CUInterpolator.lowestYval (s : CUInterpolator) : Option FloatDP :=
  s.yval s.lowestTableIndex

/-- The accessor `highestYval()`. -/
def CUInterpolator.highestYval (s : CUInterpolator) : Option FloatDP :=
  s.yval s.highestTableIndex

/-- The query `tableEntries()`. -/
def CUInterpolator.tableEntries (s : CUInterpolator) : Nat := s.m_uEntries

/-- The query `tableIsInitialized()`. -/
def CUInterpolator.tableIsInitialized (s : CUInterpolator) : Bool := s.m_uEntries != 0

/-- The virtual `tableSizeIsValid`: at least 2 rows, at least 3 for `CUCSpline`. -/
def CUInterpolator.tableSizeIsValid (s : CUInterpolator) (uTableEntries : Nat) : Bool :=
  if s.isCSpline then decide (uTableEntries ≥ 3) else decide (uTableEntries ≥ 2)

/-- The override `CUCSpline::allocateDerivedBuffers`.  After releasing for a zero
request the source falls through to `new FloatDP[0]`, so the buffer is then a
zero-length array. -/
def CUCSpline.allocateDerivedBuffers (s : CUInterpolator) (uTableEntries : Nat) :
    CUInterpolator :=
  if uTableEntries = 0 ∨ uTableEntries > s.m_uAllocatedEntries_CSpline then
    let s1 : CUInterpolator :=
      if s.m_uAllocatedEntries_CSpline ≠ 0 then
        { s with m_uAllocatedEntries_CSpline := 0, m_pafd2ydx2 := [] }
      else s
    { s1 with
      m_pafd2ydx2 := List.replicate uTableEntries 0
      m_uAllocatedEntries_CSpline := uTableEntries }
  else s

/-- The virtual `allocateDerivedBuffers`: a no-op in the base class. -/
def CUInterpolator.allocateDerivedBuffers (s : CUInterpolator) (uTableEntries : Nat) :
    CUInterpolator :=
  if s.isCSpline then CUCSpline.allocateDerivedBuffers s uTableEntries else s

/-- The private `allocateTable`: returns whether there is a buffer of non-zero
length, and the new state. -/
def CUInterpolator.allocateTable (s : CUInterpolator) (uTableEntries : Nat) :
    Bool × CUInterpolator :=
  if uTableEntries = 0 ∨ uTableEntries > s.m_uAllocatedEntries then
    let s1 : CUInterpolator :=
      if s.m_uAllocatedEntries ≠ 0 then
        { s with m_paTable := [], m_uEntries := 0, m_uAllocatedEntries := 0 }
      else s
    if uTableEntries = 0 then
      (false, s1.allocateDerivedBuffers 0)
    else
      let s2 : CUInterpolator :=
        { s1 with
          m_paTable := List.replicate uTableEntries default
          m_uAllocatedEntries := uTableEntries }
      let s3 := s2.allocateDerivedBuffers s2.m_uAllocatedEntries
      (true, { s3 with m_uEntries := uTableEntries })
  else
    (true, { s with m_uEntries := uTableEntries })

/-- Body of the inner sort loop: exchange rows `ui` and `uj` when
`xval(uj) < xval(ui)`. -/
def sortInner (n ui uj : Nat) (tbl : List SUConfigurationTableEntry) :
    Option (List SUConfigurationTableEntry) := do
  let ej ← tableRead n tbl uj
  let ei ← tableRead n tbl ui
  if ej.fIndependentValue < ei.fIndependentValue then
    let t ← tableWrite n tbl uj ei
    tableWrite n t ui ej
  else
    pure tbl

/-- Body of the outer sort loop: `for (uj = ui + 1; uj < m_uEntries; ++uj)`. -/
def sortOuter (n ui : Nat) (tbl : List SUConfigurationTableEntry) :
    Option (List SUConfigurationTableEntry) :=
  forLoop (sortInner n ui) (n - (ui + 1)) (ui + 1) tbl

/-- The sort of `configure`: `for (ui = 0; ui < m_uEntries - 1; ++ui)`. -/
def sortTable (n : Nat) (tbl : List SUConfigurationTableEntry) :
    Option (List SUConfigurationTableEntry) :=
  forLoop (sortOuter n) (usub n 1) 0 tbl

/-- The call `memmove(m_paTable + dst, m_paTable + src, cnt rows)`. -/
def memmoveRows (tbl : List SUConfigurationTableEntry) (dst src cnt : Nat) :
    Option (List SUConfigurationTableEntry) :=
  if src + cnt ≤ tbl.length ∧ dst + cnt ≤ tbl.length then
    some (tbl.take dst ++ ((tbl.drop src).take cnt ++ tbl.drop (dst + cnt)))
  else none

/-- The duplicate-removal loop of `configure`,
`for (ui = 0; ui < m_uEntries - 1; ++ui)`, whose bound changes as rows are
removed.  The first argument bounds the number of iterations. -/
def dedupLoop : Nat → Nat → Nat → List SUConfigurationTableEntry →
    Option (Nat × List SUConfigurationTableEntry)
  | 0, _, _, _ => none
  | fuel + 1, ui, n, tbl =>
    if ui < usub n 1 then do
      let eR ← tableRead n tbl (ui + 1)
      let eL ← tableRead n tbl ui
      if eR.fIndependentValue ≠ eL.fIndependentValue then
        dedupLoop fuel (ui + 1) n tbl
      else do
        let t ← memmoveRows tbl ui (ui + 1) (n - (ui + 1))
        dedupLoop fuel (ui + 1) (usub n 1) t
    else
      pure (n, tbl)

/-- The call `memcpy(m_paTable, paConfigTable, m_uEntries rows)`. -/
def memcpyRows (tbl src : List SUConfigurationTableEntry) (n : Nat) :
    Option (List SUConfigurationTableEntry) :=
  if n ≤ src.length ∧ n ≤ tbl.length then some (src.take n ++ tbl.drop n) else none

/-- One iteration of the tridiagonal decomposition loop of
`CUCSpline::deriveSecondDerivatives`; the loop state is the pair
(`m_pafd2ydx2`, `pafBuffer`). -/
def decompStep (s : CUInterpolator) (ui : Nat) (st : List FloatDP × List FloatDP) :
    Option (List FloatDP × List FloatDP) := do
  let xi ← s.xval ui
  let xim ← s.xval (ui - 1)
  let xip ← s.xval (ui + 1)
  let fSig := (xi - xim) / (xip - xim)
  let dPrev ← bufRead st.1 (ui - 1)
  let fTemp := fSig * dPrev + 2
  let d2 ← bufWrite st.1 ui ((fSig - 1) / fTemp)
  let yip ← s.yval (ui + 1)
  let yi ← s.yval ui
  let yim ← s.yval (ui - 1)
  let b1 ← bufWrite st.2 ui ((yip - yi) / (xip - xi) - (yi - yim) / (xi - xim))
  let bi ← bufRead b1 ui
  let bPrev ← bufRead b1 (ui - 1)
  let b2 ← bufWrite b1 ui ((6 * bi / (xip - xim) - fSig * bPrev) / fTemp)
  pure (d2, b2)

/-- One iteration of the back-substitution loop; `pafBuffer` is only read. -/
def backSubstStep (pafBuffer : List FloatDP) (ui : Nat) (d2 : List FloatDP) :
    Option (List FloatDP) := do
  let di ← bufRead d2 ui
  let dn ← bufRead d2 (ui + 1)
  let bi ← bufRead pafBuffer ui
  bufWrite d2 ui (di * dn + bi)

/-- Initialisation of the low boundary in `deriveSecondDerivatives`. -/
def lowBoundary (s : CUInterpolator) (pafBuffer : List FloatDP) :
    Option (List FloatDP × List FloatDP) :=
  if s.m_bNaturalSpline then do
    let d2 ← bufWrite s.m_pafd2ydx2 0 0
    let b ← bufWrite pafBuffer 0 0
    pure (d2, b)
  else do
    let d2 ← bufWrite s.m_pafd2ydx2 0 (-(1 / 2))
    let x1 ← s.xval 1
    let x0 ← s.xval 0
    let y1 ← s.yval 1
    let y0 ← s.yval 0
    let b ← bufWrite pafBuffer 0 ((3 / (x1 - x0)) * ((y1 - y0) / (x1 - x0) - s.m_fdydx_L))
    pure (d2, b)

/-- The upper boundary values `(fqn, fun)` in `deriveSecondDerivatives`. -/
def highBoundary (s : CUInterpolator) : Option (FloatDP × FloatDP) :=
  if s.m_bNaturalSpline then pure (0, 0)
  else do
    let xH ← s.xval s.highestTableIndex
    let xH1 ← s.xval (usub s.highestTableIndex 1)
    let yH ← s.yval s.highestTableIndex
    let yH1 ← s.yval (usub s.highestTableIndex 1)
    pure (1 / 2, (3 / (xH - xH1)) * (s.m_fdydx_H - (yH - yH1) / (xH - xH1)))

/-- The method `CUCSpline::deriveSecondDerivatives`. -/
def CUCSpline.deriveSecondDerivatives (s : CUInterpolator) : Option CUInterpolator := do
  let pafBuffer : List FloatDP := List.replicate s.tableEntries 0
  let st0 ← lowBoundary s pafBuffer
  let st1 ← forLoop (decompStep s) (s.highestTableIndex - 1) 1 st0
  let q ← highBoundary s
  let bH1 ← bufRead st1.2 (usub s.highestTableIndex 1)
  let dH1 ← bufRead st1.1 (usub s.highestTableIndex 1)
  let d2 ← bufWrite st1.1 s.highestTableIndex ((q.2 - q.1 * bH1) / (q.1 * dH1 + 1))
  let d2 ← forDown (backSubstStep st1.2) s.highestTableIndex d2
  pure { s with m_pafd2ydx2 := d2 }

/-- The override `CUCSpline::deriveConfiguration`. -/
def CUCSpline.deriveConfiguration (s : CUInterpolator) : Option CUInterpolator :=
  CUCSpline.deriveSecondDerivatives s

/-- The virtual `deriveConfiguration`: a no-op in the base class. -/
def CUInterpolator.deriveConfiguration (s : CUInterpolator) : Option CUInterpolator :=
  if s.isCSpline then CUCSpline.deriveConfiguration s else some s

/-- First part of `configure` after allocation: copy the caller's rows into the
table, sort them, remove duplicates. -/
def CUInterpolator.fillTable (s : CUInterpolator) (paConfigTable : List SUConfigurationTableEntry) :
    Option CUInterpolator := do
  let t0 ← memcpyRows s.m_paTable paConfigTable s.m_uEntries
  let t1 ← sortTable s.m_uEntries t0
  let r ← dedupLoop s.m_uEntries 0 s.m_uEntries t1
  pure { s with m_paTable := r.2, m_uEntries := r.1 }

/-- Last part of `configure`: the spacing flag (the regularity test is compiled
out, `m_fXStep = 0.0`), the two end derivatives, the derived configuration and
the search cursor. -/
def CUInterpolator.finishConfigure (s : CUInterpolator) : Option CUInterpolator := do
  let s1 : CUInterpolator := { s with m_fXStep := 0 }
  let yL1 ← s1.yval (s1.lowestTableIndex + 1)
  let yL ← s1.yval s1.lowestTableIndex
  let xL1 ← s1.xval (s1.lowestTableIndex + 1)
  let xL ← s1.xval s1.lowestTableIndex
  let s2 : CUInterpolator := { s1 with m_fdydx_L := (yL1 - yL) / (xL1 - xL) }
  let yH ← s2.yval s2.highestTableIndex
  let yH1 ← s2.yval (usub s2.highestTableIndex 1)
  let xH ← s2.xval s2.highestTableIndex
  let xH1 ← s2.xval (usub s2.highestTableIndex 1)
  let s3 : CUInterpolator := { s2 with m_fdydx_H := (yH - yH1) / (xH - xH1) }
  let s4 ← s3.deriveConfiguration
  pure { s4 with m_uLastEntry := (usub s4.m_uEntries 1) / 2 }

/-- The method `configure ( uTableEntries, paConfigTable )`; `none` is the null
pointer.  The state returned with a thrown status is the state the object is
left in. -/
def CUInterpolator.configure (s : CUInterpolator) (uTableEntries : Nat)
    (paConfigTable : Option (List SUConfigurationTableEntry)) : Status × CUInterpolator :=
  if uTableEntries ≠ 0 ∧ paConfigTable = none then
    (Status.invalid_argument What.NoTableInit, s)
  else if uTableEntries ≠ 0 ∧ s.tableSizeIsValid uTableEntries = false then
    (Status.invalid_argument What.InvalidTableLength, s)
  else
    let r := s.allocateTable uTableEntries
    if r.1 = false then (Status.ok, r.2)
    else
      match r.2.fillTable (paConfigTable.getD []) with
      | none => (Status.undefined_behaviour, r.2)
      | some s2 =>
        if s2.tableSizeIsValid s2.m_uEntries = false then
          (Status.invalid_argument What.InvalidTableLength, (s2.allocateTable 0).2)
        else
          match s2.finishConfigure with
          | none => (Status.undefined_behaviour, s2)
          | some s3 => (Status.ok, s3)

/-- Body of the fill loop of `configure ( uTableEntries, pafIndependentValues,
pafDependentValues )`. -/
def zipStep (n : Nat) (xs ys : List FloatDP) (uEntry : Nat)
    (paTable : List SUConfigurationTableEntry) : Option (List SUConfigurationTableEntry) := do
  let x ← bufRead xs uEntry
  let y ← bufRead ys uEntry
  tableWrite n paTable uEntry ⟨x, y⟩

/-- The method `configure ( uTableEntries, pafIndependentValues,
pafDependentValues )`. -/
def CUInterpolator.configureArrays (s : CUInterpolator) (uTableEntries : Nat)
    (pafIndependentValues pafDependentValues : Option (List FloatDP)) :
    Status × CUInterpolator :=
  if uTableEntries ≠ 0 ∧ (pafIndependentValues = none ∨ pafDependentValues = none) then
    (Status.invalid_argument What.NoTableInit, s)
  else if uTableEntries ≠ 0 ∧ s.tableSizeIsValid uTableEntries = false then
    (Status.invalid_argument What.InvalidTableLength, s)
  else
    let paTable : List SUConfigurationTableEntry := List.replicate uTableEntries default
    match forLoop (zipStep uTableEntries (pafIndependentValues.getD [])
        (pafDependentValues.getD [])) uTableEntries 0 paTable with
    | none => (Status.undefined_behaviour, s)
    | some t => s.configure uTableEntries (some t)

/-- The bound swap attempted by the range-based `configure` methods when
`max < min`: the three assignments `fDRange = min; min = max; min = fDRange;`
threaded through the triple `(fDRange, min, max)`.  Returns `(min, max)` as
they are afterwards. -/
def swapBounds (fIndependentValueMin fIndependentValueMax : FloatDP) : FloatDP × FloatDP :=
  if fIndependentValueMax < fIndependentValueMin then
    let st0 : FloatDP × FloatDP × FloatDP :=
      (fIndependentValueMin, fIndependentValueMin, fIndependentValueMax)
    let st1 : FloatDP × FloatDP × FloatDP := (st0.1, st0.2.2, st0.2.2)
    let st2 : FloatDP × FloatDP × FloatDP := (st1.1, st1.1, st1.2.2)
    (st2.2.1, st2.2.2)
  else
    (fIndependentValueMin, fIndependentValueMax)

/-- Body of the grid loop of `configure ( uTableEntries, min, max,
pafDependentValues )`; `fIRange` is `(FloatDP)( m_uEntries - 1 )`. -/
def gridStepValues (n : Nat) (fMin fDRange fIRange : FloatDP) (ys : List FloatDP)
    (uEntry : Nat) (paTable : List SUConfigurationTableEntry) :
    Option (List SUConfigurationTableEntry) := do
  let x := fMin + fDRange * ((uEntry : FloatDP) / fIRange)
  let y ← bufRead ys uEntry
  tableWrite n paTable uEntry ⟨x, y⟩

/-- The method `configure ( uTableEntries, fIndependentValueMin,
fIndependentValueMax, pafDependentValues )`. -/
def CUInterpolator.configureRange (s : CUInterpolator) (uTableEntries : Nat)
    (fIndependentValueMin fIndependentValueMax : FloatDP)
    (pafDependentValues : Option (List FloatDP)) : Status × CUInterpolator :=
  if uTableEntries ≠ 0 ∧ pafDependentValues = none then
    (Status.invalid_argument What.NoTableInit, s)
  else if uTableEntries ≠ 0 ∧ s.tableSizeIsValid uTableEntries = false then
    (Status.invalid_argument What.InvalidTableLength, s)
  else
    let b := swapBounds fIndependentValueMin fIndependentValueMax
    if b.2 = b.1 then
      (Status.invalid_argument What.NoTableRange, s)
    else
      let paTable : List SUConfigurationTableEntry := List.replicate uTableEntries default
      let fIRange : FloatDP := ((usub s.m_uEntries 1 : Nat) : FloatDP)
      let fDRange : FloatDP := b.2 - b.1
      let ys := pafDependentValues.getD []
      let uLast := usub uTableEntries 1
      let filled := do
        let t ← forLoop (gridStepValues uTableEntries b.1 fDRange fIRange ys) uLast 0 paTable
        let y ← bufRead ys uLast
        tableWrite uTableEntries t uLast ⟨b.2, y⟩
      match filled with
      | none => (Status.undefined_behaviour, s)
      | some t => s.configure uTableEntries (some t)

/-- A call through the function pointer `pfnMap`; `none` is the null pointer. -/
def callMap (pfnMap : Option (FloatDP → Nat → FloatDP)) (x : FloatDP) (pMapContext : Nat) :
    Option FloatDP :=
  pfnMap.map fun f => f x pMapContext

/-- Body of the grid loop of `configure ( uTableEntries, min, max, pfnMap,
pMapContext )`. -/
def gridStepMap (n : Nat) (fMin fDRange fIRange : FloatDP)
    (pfnMap : Option (FloatDP → Nat → FloatDP)) (pMapContext : Nat) (uEntry : Nat)
    (paTable : List SUConfigurationTableEntry) : Option (List SUConfigurationTableEntry) := do
  let x := fMin + fDRange * ((uEntry : FloatDP) / fIRange)
  let y ← callMap pfnMap x pMapContext
  tableWrite n paTable uEntry ⟨x, y⟩

/-- The method `configure ( uTableEntries, fIndependentValueMin,
fIndependentValueMax, pfnMap, pMapContext )`; the context pointer is a number
handed to the mapping function unchanged. -/
def CUInterpolator.configureMap (s : CUInterpolator) (uTableEntries : Nat)
    (fIndependentValueMin fIndependentValueMax : FloatDP)
    (pfnMap : Option (FloatDP → Nat → FloatDP)) (pMapContext : Nat) :
    Status × CUInterpolator :=
  if uTableEntries ≠ 0 ∧ pfnMap.isNone = true then
    (Status.invalid_argument What.NoTableInit, s)
  else if uTableEntries ≠ 0 ∧ s.tableSizeIsValid uTableEntries = false then
    (Status.invalid_argument What.InvalidTableLength, s)
  else
    let b := swapBounds fIndependentValueMin fIndependentValueMax
    if b.2 = b.1 then
      (Status.invalid_argument What.NoTableRange, s)
    else
      let paTable : List SUConfigurationTableEntry := List.replicate uTableEntries default
      let fIRange : FloatDP := ((usub s.m_uEntries 1 : Nat) : FloatDP)
      let fDRange : FloatDP := b.2 - b.1
      let uLast := usub uTableEntries 1
      let filled := do
        let t ← forLoop (gridStepMap uTableEntries b.1 fDRange fIRange pfnMap pMapContext)
          uLast 0 paTable
        let y ← callMap pfnMap b.2 pMapContext
        tableWrite uTableEntries t uLast ⟨b.2, y⟩
      match filled with
      | none => (Status.undefined_behaviour, s)
      | some t => s.configure uTableEntries (some t)

/-- The binary search of `mapTableIndex`:
`while ( ( uR - uL ) > 1 ) { uTest = ( uR + uL ) >> 1; ... }`.  The first argument
bounds the number of iterations; `none` also stands for a search that does not
finish within that bound. -/
def bsearch (s : CUInterpolator) (fxval : FloatDP) : Nat → Nat → Nat → Option Nat
  | 0, uL, uR => if usub uR uL > 1 then none else some uL
  | fuel + 1, uL, uR =>
    if usub uR uL > 1 then
      let uTest := (uadd uR uL) >>> 1
      (s.xval uTest).bind fun xt =>
        if xt > fxval then bsearch s fxval fuel uL uTest
        else bsearch s fxval fuel uTest uR
    else some uL

/-- The test `( fxval >= xval(uL) ) && ( fxval < xval(uR) )`; the right operand
is read only when the left one holds. -/
def inInterval (s : CUInterpolator) (fxval : FloatDP) (uL uR : Nat) : Option Bool := do
  let xL ← s.xval uL
  if fxval ≥ xL then
    let xR ← s.xval uR
    pure (decide (fxval < xR))
  else
    pure false

/-- The method `mapTableIndex`.  In the regular-spacing branch the conversion of
the floor to `UNativeInt` is defined only for values in range. -/
def CUInterpolator.mapTableIndex (s : CUInterpolator) (fxval : FloatDP) : Option Nat :=
  if s.m_fXStep ≠ 0 then do
    let x0 ← s.xval 0
    let q : Int := ⌊(fxval - x0) / s.m_fXStep⌋
    if q < 0 ∨ (UNativeInt_MOD : Int) ≤ q then none
    else
      let uL := q.toNat
      pure (if uL ≥ s.highestTableIndex then usub uL 1 else uL)
  else do
    let uL := s.m_uLastEntry
    let uL := if uL = s.highestTableIndex then usub uL 1 else uL
    let uR := uadd uL 1
    if (← inInterval s fxval uL uR) then pure uL
    else
      let xL ← s.xval uL
      if fxval > xL then
        let uL := uadd uL 1
        let uR := uadd uR 1
        if (← inInterval s fxval uL uR) then pure uL
        else bsearch s fxval s.m_uEntries uL s.highestTableIndex
      else
        let uL := usub uL 1
        let uR := usub uR 1
        if (← inInterval s fxval uL uR) then pure uL
        else bsearch s fxval s.m_uEntries s.lowestTableIndex uR

/-- The base-class `CUInterpolator::doExtrapolateLow`. -/
def CUInterpolator.doExtrapolateLow (s : CUInterpolator) (fxval : FloatDP) : Option FloatDP := do
  let uL := s.lowestTableIndex
  let yL ← s.yval uL
  let xL ← s.xval uL
  pure (yL - (xL - fxval) * s.m_fdydx_L)

/-- The base-class `CUInterpolator::doExtrapolateHigh`. -/
def CUInterpolator.doExtrapolateHigh (s : CUInterpolator) (fxval : FloatDP) : Option FloatDP := do
  let uR := s.highestTableIndex
  let yR ← s.yval uR
  let xR ← s.xval uR
  pure (yR + (fxval - xR) * s.m_fdydx_H)

/-- The base-class `CUInterpolator::doInterpolate`. -/
def CUInterpolator.doInterpolate (s : CUInterpolator) (fxval : FloatDP) (uEntry : Nat) :
    Option FloatDP := do
  let uL := uEntry
  let uR := uadd uL 1
  let xR ← s.xval uR
  let xL ← s.xval uL
  let fwL := (xR - fxval) / (xR - xL)
  let fwR := 1 - fwL
  let yL ← s.yval uL
  let yR ← s.yval uR
  pure (fwL * yL + fwR * yR)

/-- The override `CUCSpline::doExtrapolateLow`. -/
def CUCSpline.doExtrapolateLow (s : CUInterpolator) (fxval : FloatDP) : Option FloatDP := do
  let uL := s.lowestTableIndex
  let xL ← s.xval uL
  let fInterval := xL - fxval
  let yL ← s.yval uL
  let dL ← bufRead s.m_pafd2ydx2 uL
  pure (yL - fInterval * s.m_fdydx_L - (1 / 2) * fInterval * fInterval * dL)

/-- The override `CUCSpline::doExtrapolateHigh`. -/
def CUCSpline.doExtrapolateHigh (s : CUInterpolator) (fxval : FloatDP) : Option FloatDP := do
  let uR := s.highestTableIndex
  let xR ← s.xval uR
  let fInterval := fxval - xR
  let yR ← s.yval uR
  let dR ← bufRead s.m_pafd2ydx2 uR
  pure (yR + fInterval * s.m_fdydx_H + (1 / 2) * fInterval * fInterval * dR)

/-- The override `CUCSpline::doInterpolate`. -/
def CUCSpline.doInterpolate (s : CUInterpolator) (fxval : FloatDP) (uEntry : Nat) :
    Option FloatDP := do
  let uL := uEntry
  let uR := uadd uL 1
  let xR ← s.xval uR
  let xL ← s.xval uL
  let fSpan := xR - xL
  let fwL := (xR - fxval) / fSpan
  let fwR := 1 - fwL
  let yL ← s.yval uL
  let yR ← s.yval uR
  let dL ← bufRead s.m_pafd2ydx2 uL
  let dR ← bufRead s.m_pafd2ydx2 uR
  pure (fwL * yL + fwR * yR
    + (((fwL * fwL * fwL - fwL) * dL + (fwR * fwR * fwR - fwR) * dR) * (fSpan * fSpan)) / 6)

/-- Virtual dispatch of `doExtrapolateLow`. -/
def CUInterpolator.vDoExtrapolateLow (s : CUInterpolator) (fxval : FloatDP) : Option FloatDP :=
  if s.isCSpline then CUCSpline.doExtrapolateLow s fxval else s.doExtrapolateLow fxval

/-- Virtual dispatch of `doExtrapolateHigh`. -/
def CUInterpolator.vDoExtrapolateHigh (s : CUInterpolator) (fxval : FloatDP) : Option FloatDP :=
  if s.isCSpline then CUCSpline.doExtrapolateHigh s fxval else s.doExtrapolateHigh fxval

/-- Virtual dispatch of `doInterpolate`. -/
def CUInterpolator.vDoInterpolate (s : CUInterpolator) (fxval : FloatDP) (uEntry : Nat) :
    Option FloatDP :=
  if s.isCSpline then CUCSpline.doInterpolate s fxval uEntry else s.doInterpolate fxval uEntry

/-- The method `interpolate`: the value returned and the state left behind (the
search cursor `m_uLastEntry` is the only member it assigns). -/
def CUInterpolator.interpolate (s : CUInterpolator) (fIndependentValue : FloatDP) :
    Option (FloatDP × CUInterpolator) :=
  if 0 = s.m_uEntries then
    pure (fIndependentValue, s)
  else do
    let xLow ← s.lowestXval
    if fIndependentValue ≤ xLow then
      let s1 : CUInterpolator := { s with m_uLastEntry := s.lowestTableIndex }
      let y ← s1.vDoExtrapolateLow fIndependentValue
      pure (y, s1)
    else
      let xHigh ← s.highestXval
      if fIndependentValue ≥ xHigh then
        let s1 : CUInterpolator := { s with m_uLastEntry := s.highestTableIndex }
        let y ← s1.vDoExtrapolateHigh fIndependentValue
        pure (y, s1)
      else
        let uL ← s.mapTableIndex fIndependentValue
        let s1 : CUInterpolator := { s with m_uLastEntry := uL }
        let y ← s1.vDoInterpolate fIndependentValue uL
        pure (y, s1)

/-- The value of `interpolate` alone. -/
def CUInterpolator.evaluate (s : CUInterpolator) (x : FloatDP) : Option FloatDP :=
  (s.interpolate x).map Prod.fst

/-- A buffer as a pointer argument: an empty buffer is the null pointer. -/
def ptrOf {α : Type} (buf : List α) : Option (List α) :=
  if buf.isEmpty then none else some buf

/-- The virtual `doCopy`: `CUCSpline::doCopy` first takes over the boundary flag,
then both classes configure from the reference object's table. -/
def CUInterpolator.doCopy (s Ref : CUInterpolator) : Status × CUInterpolator :=
  let s1 : CUInterpolator :=
    if s.isCSpline then { s with m_bNaturalSpline := Ref.m_bNaturalSpline } else s
  s1.configure Ref.tableEntries (ptrOf Ref.m_paTable)

/-- The method `copy`. -/
def CUInterpolator.copy (s Ref : CUInterpolator) : Status × CUInterpolator := s.doCopy Ref

/-- The method `CUCSpline::configureNaturalSpline`. -/
def CUCSpline.configureNaturalSpline (s : CUInterpolator) (bUseNaturalSpline : Bool) :
    Option CUInterpolator :=
  if s.m_bNaturalSpline ≠ bUseNaturalSpline then
    CUCSpline.deriveConfiguration { s with m_bNaturalSpline := bUseNaturalSpline }
  else
    some s

/-- The method `extractTable`: the count returned and the destination buffer
afterwards (`none` is a null destination). -/
def CUInterpolator.extractTable (s : CUInterpolator)
    (paTable : Option (List SUConfigurationTableEntry)) (uMaxValues : Nat) :
    Option (Nat × Option (List SUConfigurationTableEntry)) :=
  if 0 = s.m_uEntries then some (0, paTable)
  else
    let uMaxValues := if uMaxValues > s.m_uEntries then s.m_uEntries else uMaxValues
    match paTable with
    | none => some (uMaxValues, none)
    | some dst =>
      (forLoop (fun uEntry (d : List SUConfigurationTableEntry) => do
          let e ← tableRead s.m_uEntries s.m_paTable uEntry
          tableWrite d.length d uEntry e) uMaxValues 0 dst).map
        fun d => (uMaxValues, some d)

/-- The default constructor `CUInterpolator ( void )`; members the constructor
leaves indeterminate are modelled as `0`. -/
def CUInterpolator.new : CUInterpolator :=
  { isCSpline := false, m_uAllocatedEntries := 0, m_uEntries := 0, m_paTable := [],
    m_fdydx_L := 0, m_fdydx_H := 0, m_fXStep := 0, m_uLastEntry := 0,
    m_bNaturalSpline := false, m_uAllocatedEntries_CSpline := 0, m_pafd2ydx2 := [] }

/-- The default constructor `CUCSpline ( bNaturalSpline )`. -/
def CUCSpline.new (bNaturalSpline : Bool) : CUInterpolator :=
  { CUInterpolator.new with isCSpline := true, m_bNaturalSpline := bNaturalSpline }

/-- Consistency of the counters with the buffers, as it holds in every object
built by the constructors and the methods above. -/
def CUInterpolator.WellFormed (s : CUInterpolator) : Prop :=
  s.m_paTable.length = s.m_uAllocatedEntries ∧
  s.m_uEntries ≤ s.m_uAllocatedEntries ∧
  s.m_uAllocatedEntries < UNativeInt_MOD ∧
  (s.isCSpline = true →
    s.m_uAllocatedEntries_CSpline = s.m_uAllocatedEntries ∧
    s.m_pafd2ydx2.length = s.m_uAllocatedEntries)

instance (s : CUInterpolator) : Decidable s.WellFormed := by
  unfold CUInterpolator.WellFormed; infer_instance

/-- The table held: the first `m_uEntries` rows of the buffer. -/
def CUInterpolator.table (s : CUInterpolator) : List SUConfigurationTableEntry :=
  s.m_paTable.take s.m_uEntries

/-- Row `a` of the buffer does not exceed row `b` in the independent value. -/
def rowLe (t : List SUConfigurationTableEntry) (a b : Nat) : Prop :=
  ∀ ea eb, t[a]? = some ea → t[b]? = some eb → ea.fIndependentValue ≤ eb.fIndependentValue

/-- Invariant of the outer sort loop at index `ui`, started from buffer `t0`. -/
def SortInv (n : Nat) (t0 t : List SUConfigurationTableEntry) (ui : Nat) : Prop :=
  t.length = t0.length ∧ t.Perm t0 ∧ (∀ b, n ≤ b → t[b]? = t0[b]?) ∧
    ∀ a b, a < ui → a ≤ b → b < n → rowLe t a b

/-- The first `n` rows of the buffer are strictly ascending in the independent value. -/
def StrictAsc (n : Nat) (t : List SUConfigurationTableEntry) : Prop :=
  ∀ a b ea eb, a < b → b < n → t[a]? = some ea → t[b]? = some eb →
    ea.fIndependentValue < eb.fIndependentValue

/-- A configured evaluator whose table is strictly ascending, whose buffers
cover the table and whose index arithmetic cannot wrap. -/
def CUInterpolator.Ready (s : CUInterpolator) : Prop :=
  2 ≤ s.m_uEntries ∧ s.m_uEntries ≤ s.m_paTable.length ∧
  2 * s.m_uEntries ≤ UNativeInt_MOD ∧
  StrictAsc s.m_uEntries s.m_paTable ∧ s.m_fXStep = 0 ∧
  (s.isCSpline = true → s.m_uEntries ≤ s.m_pafd2ydx2.length)

/-- Independent value of row `i` of a buffer (`0` outside the buffer). -/
def rowX (t : List SUConfigurationTableEntry) (i : Nat) : FloatDP :=
  (t.getD i default).fIndependentValue

/-- Dependent value of row `i` of a buffer (`0` outside the buffer). -/
def rowY (t : List SUConfigurationTableEntry) (i : Nat) : FloatDP :=
  (t.getD i default).fDependentValue

/-- Element `i` of the second-derivative buffer `m_pafd2ydx2` (`0` outside the
buffer). -/
def d2At (s : CUInterpolator) (i : Nat) : FloatDP := s.m_pafd2ydx2.getD i 0

/-- Brute-force interval search, written from the specification's words: scan
the intervals from the left and return the first index `L` with
`x[L] ≤ x < x[L+1]`. -/
def bruteForceIndex (s : CUInterpolator) (fxval : FloatDP) : Option Nat :=
  (List.range (s.m_uEntries - 1)).find? fun L =>
    decide (rowX s.m_paTable L ≤ fxval ∧ fxval < rowX s.m_paTable (L + 1))

/-- A finite sequence of `interpolate` calls on one object: the values
returned, in order. -/
def interpolateAll : CUInterpolator → List FloatDP → Option (List FloatDP)
  | _, [] => some []
  | s, x :: xs =>
    (s.interpolate x).bind fun r => (interpolateAll r.2 xs).map fun vs => r.1 :: vs

/-- Reference value of linear interpolation on the interval `[L, L+1]`, written
from the specification: `wL*y[L] + (1-wL)*y[L+1]` with
`wL = (x[L+1]-x)/(x[L+1]-x[L])`. -/
def refLinearPiece (t : List SUConfigurationTableEntry) (L : Nat) (x : FloatDP) : FloatDP :=
  let wL := (rowX t (L + 1) - x) / (rowX t (L + 1) - rowX t L)
  wL * rowY t L + (1 - wL) * rowY t (L + 1)

/-- Reference value of cubic-spline interpolation on the interval `[L, L+1]`,
written from the specification:
`wL*y[L] + wR*y[L+1] + ((wL^3-wL)*d2y[L] + (wR^3-wR)*d2y[L+1])*span^2/6`. -/
def refCubicPiece (t : List SUConfigurationTableEntry) (d2y : Nat → FloatDP) (L : Nat)
    (x : FloatDP) : FloatDP :=
  let span := rowX t (L + 1) - rowX t L
  let wL := (rowX t (L + 1) - x) / span
  let wR := 1 - wL
  wL * rowY t L + wR * rowY t (L + 1)
    + ((wL ^ 3 - wL) * d2y L + (wR ^ 3 - wR) * d2y (L + 1)) * span ^ 2 / 6

/-- The relation the two loops of `CUCSpline::deriveSecondDerivatives` establish
between the table, the end derivatives, the boundary flag and the buffer
`m_pafd2ydx2`: `c` and `b` are the decomposition coefficients held in
`m_pafd2ydx2` and `pafBuffer` after the decomposition loop, and the buffer holds
the back-substituted values. -/
def SplineSolved (s : CUInterpolator) : Prop :=
  ∃ c b : Nat → FloatDP,
    c 0 = (if s.m_bNaturalSpline then 0 else -(1 / 2)) ∧
    b 0 = (if s.m_bNaturalSpline then 0
      else (3 / (rowX s.m_paTable 1 - rowX s.m_paTable 0))
        * ((rowY s.m_paTable 1 - rowY s.m_paTable 0)
            / (rowX s.m_paTable 1 - rowX s.m_paTable 0) - s.m_fdydx_L)) ∧
    (∀ i, 1 ≤ i → i + 1 < s.m_uEntries →
      c i = ((rowX s.m_paTable i - rowX s.m_paTable (i - 1))
              / (rowX s.m_paTable (i + 1) - rowX s.m_paTable (i - 1)) - 1)
            / ((rowX s.m_paTable i - rowX s.m_paTable (i - 1))
              / (rowX s.m_paTable (i + 1) - rowX s.m_paTable (i - 1)) * c (i - 1) + 2) ∧
      b i = (6 * ((rowY s.m_paTable (i + 1) - rowY s.m_paTable i)
                  / (rowX s.m_paTable (i + 1) - rowX s.m_paTable i)
                - (rowY s.m_paTable i - rowY s.m_paTable (i - 1))
                  / (rowX s.m_paTable i - rowX s.m_paTable (i - 1)))
              / (rowX s.m_paTable (i + 1) - rowX s.m_paTable (i - 1))
            - (rowX s.m_paTable i - rowX s.m_paTable (i - 1))
              / (rowX s.m_paTable (i + 1) - rowX s.m_paTable (i - 1)) * b (i - 1))
            / ((rowX s.m_paTable i - rowX s.m_paTable (i - 1))
              / (rowX s.m_paTable (i + 1) - rowX s.m_paTable (i - 1)) * c (i - 1) + 2)) ∧
    d2At s (s.m_uEntries - 1) =
      ((if s.m_bNaturalSpline then 0
        else (3 / (rowX s.m_paTable (s.m_uEntries - 1) - rowX s.m_paTable (s.m_uEntries - 2)))
          * (s.m_fdydx_H - (rowY s.m_paTable (s.m_uEntries - 1)
              - rowY s.m_paTable (s.m_uEntries - 2))
            / (rowX s.m_paTable (s.m_uEntries - 1) - rowX s.m_paTable (s.m_uEntries - 2))))
        - (if s.m_bNaturalSpline then 0 else 1 / 2) * b (s.m_uEntries - 2))
      / ((if s.m_bNaturalSpline then 0 else 1 / 2) * c (s.m_uEntries - 2) + 1) ∧
    ∀ i, i + 1 < s.m_uEntries → d2At s i = c i * d2At s (i + 1) + b i

/-- Formal derivative in `x` of the reference cubic piece `refCubicPiece` on the
interval `[x[L], x[L+1]]`. -/
def refCubicSlope (t : List SUConfigurationTableEntry) (d2y : Nat → FloatDP) (L : Nat)
    (x : FloatDP) : FloatDP :=
  let span := rowX t (L + 1) - rowX t L
  let wL := (rowX t (L + 1) - x) / span
  let wR := 1 - wL
  (rowY t (L + 1) - rowY t L) / span
    + ((3 * wR ^ 2 - 1) * d2y (L + 1) - (3 * wL ^ 2 - 1) * d2y L) * span / 6

/-- The accessor `lowestIndependentValue()`. -/
def CUInterpolator.lowestIndependentValue (s : CUInterpolator) : Option FloatDP := s.lowestXval

/-- The accessor `highestIndependentValue()`. -/
def CUInterpolator.highestIndependentValue (s : CUInterpolator) : Option FloatDP :=
  s.highestXval

/-- The accessor `lowestDependentValue()`. -/
def CUInterpolator.lowestDependentValue (s : CUInterpolator) : Option FloatDP := s.lowestYval

/-- The accessor `highestDependentValue()`. -/
def CUInterpolator.highestDependentValue (s : CUInterpolator) : Option FloatDP :=
  s.highestYval

/-- The states an evaluator object can be brought into from construction by
explicit-table and parallel-array `configure` calls (successful or failing),
`copy`, `configureNaturalSpline` on a configured spline, and `interpolate`.  A
count is a `UNativeInt`, and a non-null source array holds at least the number
of entries the call names. -/
inductive Reachable : CUInterpolator → Prop
  | linear : Reachable CUInterpolator.new
  | spline (bNaturalSpline : Bool) : Reachable (CUCSpline.new bNaturalSpline)
  | configure (s : CUInterpolator) (uTableEntries : Nat)
      (paConfigTable : Option (List SUConfigurationTableEntry)) :
      Reachable s → uTableEntries < UNativeInt_MOD →
      (∀ l, paConfigTable = some l → uTableEntries ≤ l.length) →
      Reachable (s.configure uTableEntries paConfigTable).2
  | configureArrays (s : CUInterpolator) (uTableEntries : Nat)
      (pafIndependentValues pafDependentValues : Option (List FloatDP)) :
      Reachable s → uTableEntries < UNativeInt_MOD →
      (∀ l, pafIndependentValues = some l → uTableEntries ≤ l.length) →
      (∀ l, pafDependentValues = some l → uTableEntries ≤ l.length) →
      Reachable (s.configureArrays uTableEntries pafIndependentValues pafDependentValues).2
  | copy (s Ref : CUInterpolator) :
      Reachable s → Reachable Ref → (s.isCSpline = true → Ref.isCSpline = true) →
      Reachable (s.copy Ref).2
  | configureNaturalSpline (s : CUInterpolator) (bUseNaturalSpline : Bool)
      (s' : CUInterpolator) :
      Reachable s → s.isCSpline = true → s.m_uEntries ≠ 0 →
      CUCSpline.configureNaturalSpline s bUseNaturalSpline = some s' → Reachable s'
  | interpolate (s : CUInterpolator) (x y : FloatDP) (s' : CUInterpolator) :
      Reachable s → s.interpolate x = some (y, s') → Reachable s'

/-- The class invariant: the counters agree with the buffers, and the table is
either empty or of valid size with the search cursor inside it and the
regular-spacing step cleared. -/
def CUInterpolator.ClassInvariant (s : CUInterpolator) : Prop :=
  s.WellFormed ∧
  (s.m_uEntries = 0 ∨
    (s.tableSizeIsValid s.m_uEntries = true ∧ s.m_uLastEntry < s.m_uEntries ∧ s.m_fXStep = 0))

/-- An index decrement (`--u`, `u - 1`) with a check: `none` if the unsigned
index would be taken below `0`. -/
def checkedDec (u : Nat) : Option Nat := if 0 < u then some (u - 1) else none

/-- An index increment (`++u`, `u + 1`) with a check: `none` if the index would
be taken past the highest table index `m_uEntries - 1`. -/
def CUInterpolator.checkedInc (s : CUInterpolator) (u : Nat) : Option Nat :=
  if u + 1 < s.m_uEntries then some (u + 1) else none

/-- The binary search of `mapTableIndex` with its progress checked: as
`bsearch`, but `none` if an iteration does not make the width `uR - uL`
strictly smaller. -/
def bsearchChecked (s : CUInterpolator) (fxval : FloatDP) : Nat → Nat → Nat → Option Nat
  | 0, uL, uR => if usub uR uL > 1 then none else some uL
  | fuel + 1, uL, uR =>
    if usub uR uL > 1 then
      let uTest := (uadd uR uL) >>> 1
      (s.xval uTest).bind fun xt =>
        if xt > fxval then
          if usub uTest uL < usub uR uL then bsearchChecked s fxval fuel uL uTest else none
        else
          if usub uR uTest < usub uR uL then bsearchChecked s fxval fuel uTest uR else none
    else some uL

/-- The locality search of `mapTableIndex` (the branch taken when `m_fXStep` is
`0.0`) with every index update checked: as `mapTableIndex`, but `none` if an
index is decremented below `0` or incremented past `m_uEntries - 1`, or if the
binary search fails to narrow. -/
def CUInterpolator.localitySearchChecked (s : CUInterpolator) (fxval : FloatDP) : Option Nat := do
  let uL := s.m_uLastEntry
  let uStart : Option Nat := if uL = s.highestTableIndex then checkedDec uL else some uL
  let uL ← uStart
  let uR ← s.checkedInc uL
  if (← inInterval s fxval uL uR) then pure uL
  else
    let xL ← s.xval uL
    if fxval > xL then
      let uL ← s.checkedInc uL
      let uR ← s.checkedInc uR
      if (← inInterval s fxval uL uR) then pure uL
      else bsearchChecked s fxval s.m_uEntries uL s.highestTableIndex
    else
      let uL ← checkedDec uL
      let uR ← checkedDec uR
      if (← inInterval s fxval uL uR) then pure uL
      else bsearchChecked s fxval s.m_uEntries s.lowestTableIndex uR

/-- Two evaluator objects hold the same configuration: class, boundary flag,
table size, table entries, end derivatives, spacing step, search cursor and,
for a cubic spline, the second derivatives of the table entries.  Buffer
capacity and buffer contents beyond the table are not compared. -/
def CUInterpolator.SameConfiguration (s s' : CUInterpolator) : Prop :=
  s'.isCSpline = s.isCSpline ∧ s'.m_bNaturalSpline = s.m_bNaturalSpline ∧
  s'.m_uEntries = s.m_uEntries ∧ s'.table = s.table ∧
  s'.m_fdydx_L = s.m_fdydx_L ∧ s'.m_fdydx_H = s.m_fdydx_H ∧
  s'.m_fXStep = s.m_fXStep ∧ s'.m_uLastEntry = s.m_uLastEntry ∧
  (s.isCSpline = true →
    s'.m_pafd2ydx2.take s'.m_uEntries = s.m_pafd2ydx2.take s.m_uEntries)

/-! ## Lemmas and theorems -/

theorem usub_one_of_pos {n : Nat} (h0 : 0 < n) (_hn : n < UNativeInt_MOD) : usub n 1 = n - 1 := by
  unfold usub
  rw [if_pos (by omega)]

theorem usub_of_le {a b : Nat} (hb : b ≤ a) (_ha : a < UNativeInt_MOD) : usub a b = a - b := by
  unfold usub
  rw [if_pos hb]

theorem uadd_of_lt {a b : Nat} (h : a + b < UNativeInt_MOD) : uadd a b = a + b := by
  unfold uadd
  rw [if_pos h]

theorem forLoop_inv {σ : Type} (body : Nat → σ → Option σ) (P : Nat → σ → Prop) :
    ∀ (k i : Nat) (st : σ), P i st →
      (∀ j st, i ≤ j → j < i + k → P j st → ∃ st', body j st = some st' ∧ P (j + 1) st') →
      ∃ st', forLoop body k i st = some st' ∧ P (i + k) st' := by
  intro k
  induction k with
  | zero => intro i st h _; exact ⟨st, rfl, by simpa using h⟩
  | succ k ih =>
    intro i st h hstep
    obtain ⟨st1, hb, hP1⟩ := hstep i st (Nat.le_refl i) (by omega) h
    obtain ⟨st2, hl, hP2⟩ := ih (i + 1) st1 hP1 (fun j st hj1 hj2 hp => hstep j st (by omega) (by omega) hp)
    refine ⟨st2, ?_, ?_⟩
    · simp [forLoop, hb, hl]
    · have : i + (k + 1) = i + 1 + k := by omega
      rw [this]; exact hP2

theorem forDown_inv {σ : Type} (body : Nat → σ → Option σ) (P : Nat → σ → Prop) :
    ∀ (k : Nat) (st : σ), P k st →
      (∀ j st, j < k → P (j + 1) st → ∃ st', body j st = some st' ∧ P j st') →
      ∃ st', forDown body k st = some st' ∧ P 0 st' := by
  intro k
  induction k with
  | zero => intro st h _; exact ⟨st, rfl, h⟩
  | succ k ih =>
    intro st h hstep
    obtain ⟨st1, hb, hP1⟩ := hstep k st (by omega) h
    obtain ⟨st2, hl, hP2⟩ := ih st1 hP1 (fun j st hj hp => hstep j st (by omega) hp)
    exact ⟨st2, by simp [forDown, hb, hl], hP2⟩

theorem count_set_add {α : Type} [DecidableEq α] (a b : α) :
    ∀ (l : List α) (i : Nat) (c : α), l[i]? = some c →
      (l.set i b).count a + (if c = a then 1 else 0) = l.count a + (if b = a then 1 else 0) := by
  intro l
  induction l with
  | nil => intro i c h; simp at h
  | cons h t ih =>
    intro i c hc
    cases i with
    | zero =>
      simp at hc
      subst hc
      simp [List.count_cons]
      omega
    | succ i =>
      simp at hc
      have := ih i c hc
      simp [List.count_cons]
      omega

theorem swap_perm {α : Type} [DecidableEq α] (l : List α) (i j : Nat) (ei ej : α)
    (hi : l[i]? = some ei) (hj : l[j]? = some ej) :
    ((l.set j ei).set i ej).Perm l := by
  rw [List.perm_iff_count]
  intro a
  have h1 := count_set_add a ei l j ej hj
  have hi' : (l.set j ei)[i]? = some ei := by
    by_cases hij : j = i
    · subst hij
      have : j < l.length := by
        rcases List.getElem?_eq_some_iff.mp hj with ⟨h, _⟩; exact h
      simp [List.getElem?_set, this]
    · rw [List.getElem?_set_ne hij]; exact hi
  have h2 := count_set_add a ej (l.set j ei) i ei hi'
  omega

theorem tableRead_of_lt {n : Nat} {t : List SUConfigurationTableEntry} {i : Nat}
    (hi : i < n) (hn : n ≤ t.length) : ∃ e, tableRead n t i = some e ∧ t[i]? = some e := by
  have : i < t.length := by omega
  exact ⟨t[i], by simp [tableRead, hi, this], by simp [this]⟩

theorem swap_getElem? {α : Type} (l : List α) (i j k : Nat) (ei ej : α)
    (hi : i < l.length) (hj : j < l.length) (hij : i ≠ j) :
    ((l.set j ei).set i ej)[k]? =
      if k = i then some ej else if k = j then some ei else l[k]? := by
  by_cases h1 : k = i
  · subst h1; simp [List.getElem?_set, hi]
  · by_cases h2 : k = j
    · subst h2
      simp [h1, List.getElem?_set, hj, Ne.symm h1]
    · simp [h1, h2, List.getElem?_set, Ne.symm h1, Ne.symm h2]

theorem sortInner_step (n ui : Nat) (t0 : List SUConfigurationTableEntry)
    (j : Nat) (t : List SUConfigurationTableEntry)
    (hui : ui < j) (hj : j < n) (hn : n ≤ t0.length)
    (hinv : SortInv n t0 t ui) (h5 : ∀ b, ui < b → b < j → rowLe t ui b) :
    ∃ t', sortInner n ui j t = some t' ∧ SortInv n t0 t' ui ∧
      ∀ b, ui < b → b < j + 1 → rowLe t' ui b := by
  obtain ⟨hlen, hperm, hrest, h4⟩ := hinv
  have hnl : n ≤ t.length := by omega
  obtain ⟨ej, hrj, hgj⟩ := tableRead_of_lt hj hnl
  obtain ⟨ei, hri, hgi⟩ := tableRead_of_lt (show ui < n by omega) hnl
  by_cases hlt : ej.fIndependentValue < ei.fIndependentValue
  · have hw1 : tableWrite n t j ei = some (t.set j ei) := by
      simp [tableWrite, hj]; omega
    have hw2 : tableWrite n (t.set j ei) ui ej = some ((t.set j ei).set ui ej) := by
      simp [tableWrite]; omega
    have hget : ∀ k, ((t.set j ei).set ui ej)[k]? =
        if k = ui then some ej else if k = j then some ei else t[k]? :=
      fun k => swap_getElem? t ui j k ei ej (by omega) (by omega) (by omega)
    refine ⟨(t.set j ei).set ui ej, ?_, ⟨?_, ?_, ?_, ?_⟩, ?_⟩
    · simp [sortInner, hrj, hri, hlt, hw1, hw2]
    · simp [hlen]
    · exact (swap_perm t ui j ei ej hgi hgj).trans hperm
    · intro b hb
      rw [hget b, if_neg (by omega), if_neg (by omega)]
      exact hrest b hb
    · intro a b ha hab hb ea eb hea heb
      rw [hget a, if_neg (by omega), if_neg (by omega)] at hea
      rw [hget b] at heb
      by_cases hb1 : b = ui
      · rw [if_pos hb1] at heb
        cases heb
        exact h4 a j ha (by omega) hj ea ej hea hgj
      · rw [if_neg hb1] at heb
        by_cases hb2 : b = j
        · rw [if_pos hb2] at heb
          cases heb
          exact h4 a ui ha (by omega) (by omega) ea ei hea hgi
        · rw [if_neg hb2] at heb
          exact h4 a b ha hab hb ea eb hea heb
    · intro b hb1 hb2 ea eb hea heb
      rw [hget ui, if_pos rfl] at hea
      cases hea
      rw [hget b, if_neg (by omega)] at heb
      by_cases hbj : b = j
      · rw [if_pos hbj] at heb
        cases heb
        exact le_of_lt hlt
      · rw [if_neg hbj] at heb
        exact le_trans (le_of_lt hlt) (h5 b hb1 (by omega) ei eb hgi heb)
  · refine ⟨t, ?_, ⟨hlen, hperm, hrest, h4⟩, ?_⟩
    · simp [sortInner, hrj, hri, hlt]
    · intro b hb1 hb2 ea eb hea heb
      by_cases hbj : b = j
      · subst hbj
        rw [hgi] at hea; rw [hgj] at heb
        cases hea; cases heb
        exact not_lt.mp hlt
      · exact h5 b hb1 (by omega) ea eb hea heb

theorem sortOuter_step (n : Nat) (t0 : List SUConfigurationTableEntry)
    (ui : Nat) (t : List SUConfigurationTableEntry)
    (hui : ui + 1 < n) (hn : n ≤ t0.length) (hinv : SortInv n t0 t ui) :
    ∃ t', sortOuter n ui t = some t' ∧ SortInv n t0 t' (ui + 1) := by
  have h := forLoop_inv (sortInner n ui)
    (fun j t => SortInv n t0 t ui ∧ ∀ b, ui < b → b < j → rowLe t ui b)
    (n - (ui + 1)) (ui + 1) t ⟨hinv, fun b h1 h2 => by omega⟩
    (fun j t hj1 hj2 hp => by
      obtain ⟨t', h1, h2, h3⟩ := sortInner_step n ui t0 j t (by omega) (by omega) hn hp.1 hp.2
      exact ⟨t', h1, h2, h3⟩)
  obtain ⟨t', hrun, ⟨hlen, hperm, hrest, h4⟩, h5⟩ := h
  refine ⟨t', hrun, hlen, hperm, hrest, ?_⟩
  intro a b ha hab hb
  by_cases hau : a < ui
  · exact h4 a b hau hab hb
  · have hau' : a = ui := by omega
    subst hau'
    by_cases hba : b = a
    · subst hba
      intro ea eb hea heb
      rw [hea] at heb; cases heb; exact le_refl _
    · exact h5 b (by omega) (by omega)

theorem sortTable_spec (n : Nat) (t0 : List SUConfigurationTableEntry)
    (h0 : 0 < n) (hn : n ≤ t0.length) (hmod : n < UNativeInt_MOD) :
    ∃ t, sortTable n t0 = some t ∧ t.length = t0.length ∧ t.Perm t0 ∧
      (∀ b, n ≤ b → t[b]? = t0[b]?) ∧ ∀ a b, a ≤ b → b < n → rowLe t a b := by
  have h := forLoop_inv (sortOuter n) (fun ui t => SortInv n t0 t ui) (usub n 1) 0 t0
    ⟨rfl, List.Perm.refl _, fun _ _ => rfl, fun a b ha => by omega⟩
    (fun j t _ hj2 hp => by
      rw [usub_one_of_pos h0 hmod] at hj2
      exact sortOuter_step n t0 j t (by omega) hn hp)
  obtain ⟨t, hrun, hlen, hperm, hrest, h4⟩ := h
  rw [usub_one_of_pos h0 hmod] at h4
  refine ⟨t, hrun, hlen, hperm, hrest, ?_⟩
  intro a b hab hb
  by_cases ha : a < 0 + (n - 1)
  · exact h4 a b ha hab hb
  · have : a = b := by omega
    subst this
    intro ea eb hea heb
    rw [hea] at heb; cases heb; exact le_refl _

theorem dedupLoop_of_strictAsc (n : Nat) (t : List SUConfigurationTableEntry)
    (hn : n ≤ t.length) (hmod : n < UNativeInt_MOD) (hs : StrictAsc n t) :
    ∀ fuel ui, ui < n → n ≤ fuel + ui → dedupLoop fuel ui n t = some (n, t) := by
  intro fuel
  induction fuel with
  | zero => intro ui h1 h2; omega
  | succ fuel ih =>
    intro ui h1 h2
    have hu : usub n 1 = n - 1 := usub_one_of_pos (by omega) hmod
    rw [dedupLoop, hu]
    by_cases hlt : ui < n - 1
    · obtain ⟨eR, hrR, hgR⟩ := tableRead_of_lt (show ui + 1 < n by omega) hn
      obtain ⟨eL, hrL, hgL⟩ := tableRead_of_lt h1 hn
      have hne : eR.fIndependentValue ≠ eL.fIndependentValue :=
        ne_of_gt (hs ui (ui + 1) eL eR (by omega) (by omega) hgL hgR)
      simp only [if_pos hlt, hrR, hrL, Option.bind_eq_bind, Option.some_bind, ne_eq, hne,
        not_false_eq_true, if_true]
      exact ih (ui + 1) (by omega) (by omega)
    · simp [hlt]

theorem xval_of_get {s : CUInterpolator} {i : Nat} {e : SUConfigurationTableEntry}
    (hi : i < s.m_uEntries) (he : s.m_paTable[i]? = some e) :
    s.xval i = some e.fIndependentValue := by
  simp [CUInterpolator.xval, tableRead, hi, he]

theorem yval_of_get {s : CUInterpolator} {i : Nat} {e : SUConfigurationTableEntry}
    (hi : i < s.m_uEntries) (he : s.m_paTable[i]? = some e) :
    s.yval i = some e.fDependentValue := by
  simp [CUInterpolator.yval, tableRead, hi, he]

theorem row_of_lt {s : CUInterpolator} {i : Nat}
    (hi : i < s.m_uEntries) (hlen : s.m_uEntries ≤ s.m_paTable.length) :
    ∃ e, s.m_paTable[i]? = some e ∧ s.xval i = some e.fIndependentValue ∧
      s.yval i = some e.fDependentValue := by
  have : i < s.m_paTable.length := by omega
  exact ⟨s.m_paTable[i], by simp [this], xval_of_get hi (by simp [this]),
    yval_of_get hi (by simp [this])⟩

theorem bufRead_of_lt {buf : List FloatDP} {i : Nat} (hi : i < buf.length) :
    bufRead buf i = some buf[i] := by
  simp [bufRead, hi]

theorem bufWrite_of_lt {buf : List FloatDP} {i : Nat} (v : FloatDP) (hi : i < buf.length) :
    bufWrite buf i v = some (buf.set i v) := by
  simp [bufWrite, hi]

theorem decompStep_ok (s : CUInterpolator) (ui : Nat) (st : List FloatDP × List FloatDP)
    (h1 : 1 ≤ ui) (h2 : ui + 1 < s.m_uEntries) (hlen : s.m_uEntries ≤ s.m_paTable.length)
    (hd : s.m_uEntries ≤ st.1.length) (hb : s.m_uEntries ≤ st.2.length) :
    ∃ st', decompStep s ui st = some st' ∧ st'.1.length = st.1.length ∧
      st'.2.length = st.2.length := by
  obtain ⟨e0, -, hx0, hy0⟩ := row_of_lt (show ui - 1 < s.m_uEntries by omega) hlen
  obtain ⟨e1, -, hx1, hy1⟩ := row_of_lt (show ui < s.m_uEntries by omega) hlen
  obtain ⟨e2, -, hx2, hy2⟩ := row_of_lt h2 hlen
  have r1 := bufRead_of_lt (show ui - 1 < st.1.length by omega)
  simp only [decompStep, hx0, hx1, hx2, hy0, hy1, hy2, r1, Option.bind_eq_bind,
    Option.some_bind, Option.pure_def]
  rw [bufWrite_of_lt _ (show ui < st.1.length by omega)]
  rw [bufWrite_of_lt _ (show ui < st.2.length by omega)]
  simp only [Option.some_bind]
  rw [bufRead_of_lt (show ui < (st.2.set ui _).length by simp; omega)]
  rw [bufRead_of_lt (show ui - 1 < (st.2.set ui _).length by simp; omega)]
  simp only [Option.some_bind]
  rw [bufWrite_of_lt _ (show ui < (st.2.set ui _).length by simp; omega)]
  simp

theorem backSubstStep_ok (pafBuffer : List FloatDP) (ui : Nat) (d2 : List FloatDP)
    (h1 : ui + 1 < d2.length) (h2 : ui < pafBuffer.length) :
    ∃ d, backSubstStep pafBuffer ui d2 = some d ∧ d.length = d2.length := by
  simp only [backSubstStep, bufRead_of_lt (show ui < d2.length by omega), bufRead_of_lt h1,
    bufRead_of_lt h2, Option.bind_eq_bind, Option.some_bind]
  rw [bufWrite_of_lt _ (show ui < d2.length by omega)]
  simp

theorem deriveSecondDerivatives_ok (s : CUInterpolator) (h3 : 3 ≤ s.m_uEntries)
    (hlen : s.m_uEntries ≤ s.m_paTable.length) (hmod : s.m_uEntries < UNativeInt_MOD)
    (hd : s.m_uEntries ≤ s.m_pafd2ydx2.length) :
    ∃ d2, CUCSpline.deriveSecondDerivatives s = some { s with m_pafd2ydx2 := d2 } ∧
      d2.length = s.m_pafd2ydx2.length := by
  have hH : s.highestTableIndex = s.m_uEntries - 1 := usub_one_of_pos (by omega) hmod
  have hH1 : usub (s.m_uEntries - 1) 1 = s.m_uEntries - 2 := by
    rw [usub_of_le (by omega) (by omega)]; omega
  obtain ⟨e0, -, hx0, hy0⟩ := row_of_lt (show 0 < s.m_uEntries by omega) hlen
  obtain ⟨e1, -, hx1, hy1⟩ := row_of_lt (show 1 < s.m_uEntries by omega) hlen
  obtain ⟨eH, -, hxH, hyH⟩ := row_of_lt (show s.m_uEntries - 1 < s.m_uEntries by omega) hlen
  obtain ⟨eH1, -, hxH1, hyH1⟩ := row_of_lt (show s.m_uEntries - 2 < s.m_uEntries by omega) hlen
  -- low boundary
  have hlow : ∃ st0, lowBoundary s (List.replicate s.tableEntries 0) = some st0 ∧
      st0.1.length = s.m_pafd2ydx2.length ∧ st0.2.length = s.m_uEntries := by
    unfold lowBoundary
    have hb : 0 < (List.replicate s.tableEntries (0 : FloatDP)).length := by
      simp [CUInterpolator.tableEntries]; omega
    by_cases hnat : s.m_bNaturalSpline = true
    · simp only [hnat, if_true, bufWrite_of_lt _ (show 0 < s.m_pafd2ydx2.length by omega),
        bufWrite_of_lt _ hb, Option.bind_eq_bind, Option.some_bind, Option.pure_def]
      exact ⟨_, rfl, by simp, by simp [CUInterpolator.tableEntries]⟩
    · simp only [hnat, bufWrite_of_lt _ (show 0 < s.m_pafd2ydx2.length by omega),
        bufWrite_of_lt _ hb, hx0, hx1, hy0, hy1, Option.bind_eq_bind, Option.some_bind,
        Option.pure_def]
      exact ⟨_, rfl, by simp, by simp [CUInterpolator.tableEntries]⟩
  obtain ⟨st0, hst0, hl01, hl02⟩ := hlow
  -- decomposition
  have hdec := forLoop_inv (decompStep s)
    (fun _ st => st.1.length = s.m_pafd2ydx2.length ∧ st.2.length = s.m_uEntries)
    (s.highestTableIndex - 1) 1 st0 ⟨hl01, hl02⟩
    (fun j st hj1 hj2 hp => by
      rw [hH] at hj2
      obtain ⟨st', h1, h2, h3⟩ := decompStep_ok s j st hj1 (by omega) hlen
        (by rw [hp.1]; exact hd) (by rw [hp.2])
      exact ⟨st', h1, h2.trans hp.1, h3.trans hp.2⟩)
  obtain ⟨st1, hst1, hl11, hl12⟩ := hdec
  rw [hH] at hst1
  -- high boundary
  have hhigh : ∃ q, highBoundary s = some q := by
    unfold highBoundary
    by_cases hnat : s.m_bNaturalSpline = true
    · simp [hnat]
    · simp [hnat, hH, hH1, hxH, hxH1, hyH, hyH1]
  obtain ⟨q, hq⟩ := hhigh
  obtain ⟨bH1, hbH1⟩ : ∃ v, bufRead st1.2 (s.m_uEntries - 2) = some v :=
    ⟨_, bufRead_of_lt (show s.m_uEntries - 2 < st1.2.length by omega)⟩
  obtain ⟨dH1, hdH1⟩ : ∃ v, bufRead st1.1 (s.m_uEntries - 2) = some v :=
    ⟨_, bufRead_of_lt (show s.m_uEntries - 2 < st1.1.length by omega)⟩
  have hw := bufWrite_of_lt ((q.2 - q.1 * bH1) / (q.1 * dH1 + 1))
    (show s.m_uEntries - 1 < st1.1.length by omega)
  have hback := forDown_inv (backSubstStep st1.2)
    (fun _ d => d.length = s.m_pafd2ydx2.length) (s.m_uEntries - 1)
    (st1.1.set (s.m_uEntries - 1) ((q.2 - q.1 * bH1) / (q.1 * dH1 + 1)))
    (by simp [hl11])
    (fun j d hj hp => by
      obtain ⟨d', h1, h2⟩ := backSubstStep_ok st1.2 j d (by omega) (by omega)
      exact ⟨d', h1, h2.trans hp⟩)
  obtain ⟨d2, hd2, hl2⟩ := hback
  refine ⟨d2, ?_, hl2⟩
  unfold CUCSpline.deriveSecondDerivatives
  simp only [hst0, hst1, hq, hH, hH1, Option.bind_eq_bind, Option.some_bind, Option.pure_def,
    hbH1, hdH1, hw, hd2]

theorem allocateTable_reuse (s : CUInterpolator) (n : Nat) (hn0 : n ≠ 0)
    (hle : n ≤ s.m_uAllocatedEntries) :
    s.allocateTable n = (true, { s with m_uEntries := n }) := by
  unfold CUInterpolator.allocateTable
  rw [if_neg (by omega)]

theorem allocateDerivedBuffers_grow (s : CUInterpolator) (n : Nat)
    (hgt : n > s.m_uAllocatedEntries_CSpline) :
    CUCSpline.allocateDerivedBuffers s n =
      { s with m_pafd2ydx2 := List.replicate n 0, m_uAllocatedEntries_CSpline := n } := by
  unfold CUCSpline.allocateDerivedBuffers
  rw [if_pos (Or.inr hgt)]
  by_cases h : s.m_uAllocatedEntries_CSpline = 0
  · simp only [h, ne_eq, not_true_eq_false, if_false]
  · simp only [h, ne_eq, not_false_eq_true, if_true]

theorem allocateTable_grow (s : CUInterpolator) (n : Nat) (hn0 : n ≠ 0)
    (hgt : n > s.m_uAllocatedEntries)
    (hc : s.isCSpline = true → s.m_uAllocatedEntries_CSpline = s.m_uAllocatedEntries) :
    s.allocateTable n = (true, { s with
      m_paTable := List.replicate n default
      m_uAllocatedEntries := n
      m_uEntries := n
      m_pafd2ydx2 := if s.isCSpline then List.replicate n 0 else s.m_pafd2ydx2
      m_uAllocatedEntries_CSpline := if s.isCSpline then n else s.m_uAllocatedEntries_CSpline }) := by
  unfold CUInterpolator.allocateTable CUInterpolator.allocateDerivedBuffers
  rw [if_pos (Or.inr hgt), if_neg hn0]
  cases hsp : s.isCSpline
  · by_cases h : s.m_uAllocatedEntries = 0
    · simp only [h, hsp, ne_eq, not_true_eq_false, if_false, Bool.false_eq_true]
    · simp only [h, hsp, ne_eq, not_false_eq_true, if_true, Bool.false_eq_true, if_false]
  · have h5 := hc hsp
    by_cases h : s.m_uAllocatedEntries = 0
    · simp only [h, hsp, ne_eq, not_true_eq_false, if_false, if_true]
      rw [allocateDerivedBuffers_grow _ _ (by simp only []; omega)]
    · simp only [h, hsp, ne_eq, not_false_eq_true, if_true]
      rw [allocateDerivedBuffers_grow _ _ (by simp only []; omega)]

theorem allocateTable_pos (s : CUInterpolator) (n : Nat) (hwf : s.WellFormed)
    (hn0 : n ≠ 0) (hmod : n < UNativeInt_MOD) :
    (s.allocateTable n).1 = true ∧ (s.allocateTable n).2.m_uEntries = n ∧
      (s.allocateTable n).2.WellFormed ∧
      (s.allocateTable n).2.isCSpline = s.isCSpline ∧
      (s.allocateTable n).2.m_bNaturalSpline = s.m_bNaturalSpline := by
  obtain ⟨h1, h2, h3, h4⟩ := hwf
  by_cases hgt : n > s.m_uAllocatedEntries
  · rw [allocateTable_grow s n hn0 hgt (fun hc => (h4 hc).1)]
    refine ⟨rfl, rfl, ⟨?_, ?_, ?_, ?_⟩, rfl, rfl⟩
    · simp
    · simp
    · exact hmod
    · intro hc
      have hc' : s.isCSpline = true := hc
      simp [hc']
  · rw [allocateTable_reuse s n hn0 (by omega)]
    exact ⟨rfl, rfl, ⟨h1, by simp only []; omega, h3, h4⟩, rfl, rfl⟩

theorem take_perm_of_rest {α : Type} (n : Nat) (t t0 : List α) (hperm : t.Perm t0)
    (hrest : ∀ b, n ≤ b → t[b]? = t0[b]?) : (t.take n).Perm (t0.take n) := by
  have hdrop : t.drop n = t0.drop n := by
    apply List.ext_getElem?
    intro i
    rw [List.getElem?_drop, List.getElem?_drop]
    exact hrest (n + i) (by omega)
  have h : (t.take n ++ t.drop n).Perm (t0.take n ++ t.drop n) := by
    rw [List.take_append_drop, hdrop, List.take_append_drop]; exact hperm
  exact (List.perm_append_right_iff _).mp h

theorem strictAsc_of_sorted_nodup (n : Nat) (t : List SUConfigurationTableEntry)
    (hsorted : ∀ a b, a ≤ b → b < n → rowLe t a b)
    (hnodup : ((t.take n).map fun e => e.fIndependentValue).Nodup) : StrictAsc n t := by
  intro a b ea eb hab hb hea heb
  have hle := hsorted a b (by omega) hb ea eb hea heb
  refine lt_of_le_of_ne hle ?_
  intro heq
  have hblen : b < t.length := (List.getElem?_eq_some_iff.mp heb).1
  have h := (List.nodup_iff_getElem?_ne_getElem?.mp hnodup) a b hab
    (by simp; omega)
  apply h
  rw [List.getElem?_map, List.getElem?_map, List.getElem?_take_of_lt (by omega),
    List.getElem?_take_of_lt hb, hea, heb]
  simp [heq]

theorem fillTable_distinct (s : CUInterpolator) (src : List SUConfigurationTableEntry)
    (h0 : 0 < s.m_uEntries) (hlen : s.m_uEntries ≤ s.m_paTable.length)
    (hsrc : s.m_uEntries ≤ src.length) (hmod : s.m_uEntries < UNativeInt_MOD)
    (hnodup : ((src.take s.m_uEntries).map fun e => e.fIndependentValue).Nodup) :
    ∃ t, s.fillTable src = some { s with m_paTable := t } ∧
      t.length = s.m_paTable.length ∧ StrictAsc s.m_uEntries t ∧
      (t.take s.m_uEntries).Perm (src.take s.m_uEntries) := by
  have hcpy : memcpyRows s.m_paTable src s.m_uEntries =
      some (src.take s.m_uEntries ++ s.m_paTable.drop s.m_uEntries) := by
    simp [memcpyRows, hsrc, hlen]
  have hl0 : (src.take s.m_uEntries ++ s.m_paTable.drop s.m_uEntries).length
      = s.m_paTable.length := by
    simp; omega
  obtain ⟨t, hsort, hlt, hperm, hrest, hsorted⟩ :=
    sortTable_spec s.m_uEntries (src.take s.m_uEntries ++ s.m_paTable.drop s.m_uEntries)
      h0 (by omega) hmod
  have htake : (t.take s.m_uEntries).Perm (src.take s.m_uEntries) := by
    have := take_perm_of_rest s.m_uEntries t _ hperm hrest
    rwa [List.take_left' (by simp; omega)] at this
  have hstrict : StrictAsc s.m_uEntries t :=
    strictAsc_of_sorted_nodup _ t hsorted
      ((List.Perm.nodup_iff (htake.map _)).mpr hnodup)
  have hdd := dedupLoop_of_strictAsc s.m_uEntries t (by omega) hmod hstrict s.m_uEntries 0
    h0 (by omega)
  refine ⟨t, ?_, by omega, hstrict, htake⟩
  unfold CUInterpolator.fillTable
  rw [hcpy]
  simp only [Option.bind_eq_bind, Option.some_bind]
  rw [hsort]
  simp only [Option.some_bind]
  rw [hdd]
  rfl

theorem finishConfigure_ok (s : CUInterpolator) (hv : s.tableSizeIsValid s.m_uEntries = true)
    (hlen : s.m_uEntries ≤ s.m_paTable.length) (hmod : s.m_uEntries < UNativeInt_MOD)
    (hd : s.isCSpline = true → s.m_uEntries ≤ s.m_pafd2ydx2.length) :
    ∃ e0 e1 eH1 eH d2, s.m_paTable[0]? = some e0 ∧ s.m_paTable[1]? = some e1 ∧
      s.m_paTable[s.m_uEntries - 2]? = some eH1 ∧ s.m_paTable[s.m_uEntries - 1]? = some eH ∧
      d2.length = s.m_pafd2ydx2.length ∧
      s.finishConfigure = some { s with
        m_fXStep := 0
        m_fdydx_L := (e1.fDependentValue - e0.fDependentValue)
          / (e1.fIndependentValue - e0.fIndependentValue)
        m_fdydx_H := (eH.fDependentValue - eH1.fDependentValue)
          / (eH.fIndependentValue - eH1.fIndependentValue)
        m_pafd2ydx2 := d2
        m_uLastEntry := (s.m_uEntries - 1) / 2 } := by
  have h2 : 2 ≤ s.m_uEntries := by
    unfold CUInterpolator.tableSizeIsValid at hv
    split at hv <;> simp at hv <;> omega
  have hu1 : usub s.m_uEntries 1 = s.m_uEntries - 1 := usub_one_of_pos (by omega) hmod
  have hu2 : usub (s.m_uEntries - 1) 1 = s.m_uEntries - 2 := by
    rw [usub_of_le (by omega) (by omega)]; omega
  obtain ⟨e0, hr0, hg0⟩ := tableRead_of_lt (show 0 < s.m_uEntries by omega) hlen
  obtain ⟨e1, hr1, hg1⟩ := tableRead_of_lt (show 1 < s.m_uEntries by omega) hlen
  obtain ⟨eH1, hrH1, hgH1⟩ := tableRead_of_lt (show s.m_uEntries - 2 < s.m_uEntries by omega) hlen
  obtain ⟨eH, hrH, hgH⟩ := tableRead_of_lt (show s.m_uEntries - 1 < s.m_uEntries by omega) hlen
  have hfin : ∃ d2, d2.length = s.m_pafd2ydx2.length ∧
      CUInterpolator.deriveConfiguration { s with
        m_fXStep := 0
        m_fdydx_L := (e1.fDependentValue - e0.fDependentValue)
          / (e1.fIndependentValue - e0.fIndependentValue)
        m_fdydx_H := (eH.fDependentValue - eH1.fDependentValue)
          / (eH.fIndependentValue - eH1.fIndependentValue) } = some { s with
        m_fXStep := 0
        m_fdydx_L := (e1.fDependentValue - e0.fDependentValue)
          / (e1.fIndependentValue - e0.fIndependentValue)
        m_fdydx_H := (eH.fDependentValue - eH1.fDependentValue)
          / (eH.fIndependentValue - eH1.fIndependentValue)
        m_pafd2ydx2 := d2 } := by
    by_cases hc : s.isCSpline = true
    · have h3 : 3 ≤ s.m_uEntries := by
        unfold CUInterpolator.tableSizeIsValid at hv
        simp [hc] at hv; exact hv
      obtain ⟨d2, hder, hdl⟩ := deriveSecondDerivatives_ok
        { s with
          m_fXStep := 0
          m_fdydx_L := (e1.fDependentValue - e0.fDependentValue)
            / (e1.fIndependentValue - e0.fIndependentValue)
          m_fdydx_H := (eH.fDependentValue - eH1.fDependentValue)
            / (eH.fIndependentValue - eH1.fIndependentValue) } h3 hlen hmod (hd hc)
      refine ⟨d2, hdl, ?_⟩
      unfold CUInterpolator.deriveConfiguration CUCSpline.deriveConfiguration
      rw [if_pos hc]
      exact hder
    · refine ⟨s.m_pafd2ydx2, rfl, ?_⟩
      unfold CUInterpolator.deriveConfiguration
      rw [if_neg hc]
  obtain ⟨d2, hdl, hder⟩ := hfin
  refine ⟨e0, e1, eH1, eH, d2, hg0, hg1, hgH1, hgH, hdl, ?_⟩
  unfold CUInterpolator.finishConfigure
  simp only [CUInterpolator.lowestTableIndex, CUInterpolator.highestTableIndex,
    CUInterpolator.xval, CUInterpolator.yval, Nat.zero_add, hu1, hu2, hr0, hr1, hrH, hrH1,
    Option.map_some', Option.bind_eq_bind, Option.some_bind, hder, Option.pure_def]

theorem tableSizeIsValid_ge_two {s : CUInterpolator} {n : Nat}
    (hv : s.tableSizeIsValid n = true) : 2 ≤ n := by
  unfold CUInterpolator.tableSizeIsValid at hv
  split at hv <;> simp at hv <;> omega

theorem tableSizeIsValid_congr (s s' : CUInterpolator) (h : s'.isCSpline = s.isCSpline)
    (n : Nat) : s'.tableSizeIsValid n = s.tableSizeIsValid n := by
  unfold CUInterpolator.tableSizeIsValid
  rw [h]

theorem configure_distinct (s : CUInterpolator) (hwf : s.WellFormed) (n : Nat)
    (src : List SUConfigurationTableEntry) (hv : s.tableSizeIsValid n = true)
    (hmod : n < UNativeInt_MOD) (hsrc : n ≤ src.length)
    (hnodup : ((src.take n).map fun e => e.fIndependentValue).Nodup) :
    ∃ s', s.configure n (some src) = (Status.ok, s') ∧ s'.m_uEntries = n ∧ s'.WellFormed ∧
      s'.isCSpline = s.isCSpline ∧ s'.m_bNaturalSpline = s.m_bNaturalSpline ∧
      StrictAsc n s'.m_paTable ∧ (s'.m_paTable.take n).Perm (src.take n) ∧
      s'.m_fXStep = 0 ∧ s'.m_uLastEntry = (n - 1) / 2 := by
  have h2 : 2 ≤ n := tableSizeIsValid_ge_two hv
  obtain ⟨ha1, ha2, ha3, ha4, ha5⟩ := allocateTable_pos s n hwf (by omega) hmod
  rcases hr : s.allocateTable n with ⟨ok, s1⟩
  rw [hr] at ha1 ha2 ha3 ha4 ha5
  simp only at ha1 ha2 ha3 ha4 ha5
  obtain ⟨hw1, hw2, hw3, hw4⟩ := ha3
  have hlen1 : s1.m_uEntries ≤ s1.m_paTable.length := by omega
  obtain ⟨t, hfill, htl, hstrict, hperm⟩ := fillTable_distinct s1 src (by omega) hlen1
    (by omega) (by omega) (by rw [ha2]; exact hnodup)
  have hv2 : CUInterpolator.tableSizeIsValid { s1 with m_paTable := t } s1.m_uEntries = true := by
    rw [tableSizeIsValid_congr s { s1 with m_paTable := t } ha4, ha2]; exact hv
  obtain ⟨e0, e1, eH1, eH, d2, -, -, -, -, hdl, hfin⟩ :=
    finishConfigure_ok { s1 with m_paTable := t } hv2 (by simp only []; omega)
      (by simp only []; omega)
      (fun hc => by
        have := (hw4 hc).2
        simp only []; omega)
  simp only [] at hdl
  refine ⟨{ s1 with
      m_paTable := t
      m_fXStep := 0
      m_fdydx_L := (e1.fDependentValue - e0.fDependentValue)
        / (e1.fIndependentValue - e0.fIndependentValue)
      m_fdydx_H := (eH.fDependentValue - eH1.fDependentValue)
        / (eH.fIndependentValue - eH1.fIndependentValue)
      m_pafd2ydx2 := d2
      m_uLastEntry := (s1.m_uEntries - 1) / 2 }, ?_, ?_⟩
  · unfold CUInterpolator.configure
    rw [if_neg (by simp), if_neg (by simp [hv])]
    simp only [hr, ha1, Option.getD_some, hfill, hv2, hfin]
    simp
  · refine ⟨ha2, ⟨?_, ?_, hw3, ?_⟩, ha4, ha5, ?_, ?_, rfl, ?_⟩
    · simp only []; omega
    · simp only []; omega
    · intro hc
      have := hw4 hc
      simp only []
      exact ⟨this.1, by omega⟩
    · simp only []; rw [← ha2]; exact hstrict
    · simp only []; rw [← ha2]; exact hperm
    · simp only []; rw [ha2]

theorem rowX_of_get {t : List SUConfigurationTableEntry} {i : Nat}
    {e : SUConfigurationTableEntry} (h : t[i]? = some e) : rowX t i = e.fIndependentValue := by
  simp [rowX, List.getD, h]

theorem rowY_of_get {t : List SUConfigurationTableEntry} {i : Nat}
    {e : SUConfigurationTableEntry} (h : t[i]? = some e) : rowY t i = e.fDependentValue := by
  simp [rowY, List.getD, h]

theorem xval_eq_rowX {s : CUInterpolator} {i : Nat} (hi : i < s.m_uEntries)
    (hlen : s.m_uEntries ≤ s.m_paTable.length) : s.xval i = some (rowX s.m_paTable i) := by
  obtain ⟨e, hg, hx, -⟩ := row_of_lt hi hlen
  rw [hx, rowX_of_get hg]

theorem yval_eq_rowY {s : CUInterpolator} {i : Nat} (hi : i < s.m_uEntries)
    (hlen : s.m_uEntries ≤ s.m_paTable.length) : s.yval i = some (rowY s.m_paTable i) := by
  obtain ⟨e, hg, -, hy⟩ := row_of_lt hi hlen
  rw [hy, rowY_of_get hg]

theorem strictAsc_rowX {n : Nat} {t : List SUConfigurationTableEntry} (hs : StrictAsc n t)
    (hn : n ≤ t.length) {a b : Nat} (hab : a < b) (hb : b < n) : rowX t a < rowX t b := by
  have ha' : a < t.length := by omega
  have hb' : b < t.length := by omega
  have h1 : t[a]? = some t[a] := by simp [ha']
  have h2 : t[b]? = some t[b] := by simp [hb']
  rw [rowX_of_get h1, rowX_of_get h2]
  exact hs a b _ _ hab hb h1 h2

theorem strictAsc_rowX_le {n : Nat} {t : List SUConfigurationTableEntry} (hs : StrictAsc n t)
    (hn : n ≤ t.length) {a b : Nat} (hab : a ≤ b) (hb : b < n) : rowX t a ≤ rowX t b := by
  rcases Nat.eq_or_lt_of_le hab with h | h
  · subst h; exact le_refl _
  · exact le_of_lt (strictAsc_rowX hs hn h hb)

theorem shiftRight_one_eq (a : Nat) : a >>> 1 = a / 2 := by
  simp [Nat.shiftRight_eq_div_pow]

theorem bsearch_spec (s : CUInterpolator) (fxval : FloatDP)
    (hlen : s.m_uEntries ≤ s.m_paTable.length) (hmod : 2 * s.m_uEntries ≤ UNativeInt_MOD) :
    ∀ fuel uL uR, uL < uR → uR < s.m_uEntries → uR - uL ≤ fuel + 1 →
      rowX s.m_paTable uL ≤ fxval → fxval < rowX s.m_paTable uR →
      ∃ L, bsearch s fxval fuel uL uR = some L ∧ uL ≤ L ∧ L < uR ∧
        rowX s.m_paTable L ≤ fxval ∧ fxval < rowX s.m_paTable (L + 1) := by
  intro fuel
  induction fuel with
  | zero =>
    intro uL uR h1 h2 h3 h4 h5
    have hu : usub uR uL = uR - uL := usub_of_le (by omega) (by omega)
    have hR : uR = uL + 1 := by omega
    refine ⟨uL, ?_, le_refl _, h1, h4, by rw [← hR]; exact h5⟩
    rw [bsearch, hu, if_neg (by omega)]
  | succ fuel ih =>
    intro uL uR h1 h2 h3 h4 h5
    have hu : usub uR uL = uR - uL := usub_of_le (by omega) (by omega)
    rw [bsearch, hu]
    by_cases hw : uR - uL > 1
    · have ha : uadd uR uL = uR + uL := uadd_of_lt (by omega)
      have hT1 : uL < (uR + uL) / 2 := by omega
      have hT2 : (uR + uL) / 2 < uR := by omega
      rw [if_pos hw]
      simp only [ha, shiftRight_one_eq]
      rw [xval_eq_rowX (show (uR + uL) / 2 < s.m_uEntries by omega) hlen]
      simp only [Option.some_bind]
      by_cases hgt : rowX s.m_paTable ((uR + uL) / 2) > fxval
      · rw [if_pos hgt]
        obtain ⟨L, hL, hL1, hL2, hL3, hL4⟩ := ih uL ((uR + uL) / 2) hT1 (by omega) (by omega) h4 hgt
        exact ⟨L, hL, hL1, by omega, hL3, hL4⟩
      · rw [if_neg hgt]
        obtain ⟨L, hL, hL1, hL2, hL3, hL4⟩ := ih ((uR + uL) / 2) uR hT2 h2 (by omega)
          (not_lt.mp hgt) h5
        exact ⟨L, hL, by omega, hL2, hL3, hL4⟩
    · have hR : uR = uL + 1 := by omega
      rw [if_neg hw]
      exact ⟨uL, rfl, le_refl _, h1, h4, by rw [← hR]; exact h5⟩

theorem inInterval_eq (s : CUInterpolator) (fxval : FloatDP) (uL uR : Nat)
    (hlen : s.m_uEntries ≤ s.m_paTable.length) (hL : uL < s.m_uEntries)
    (hR : uR < s.m_uEntries) :
    inInterval s fxval uL uR =
      some (decide (rowX s.m_paTable uL ≤ fxval ∧ fxval < rowX s.m_paTable uR)) := by
  unfold inInterval
  rw [xval_eq_rowX hL hlen, xval_eq_rowX hR hlen]
  by_cases h : fxval ≥ rowX s.m_paTable uL
  · simp [h]
  · simp [h]

theorem mapTableIndex_spec (s : CUInterpolator) (hr : s.Ready) (fxval : FloatDP)
    (hc : s.m_uLastEntry < s.m_uEntries)
    (hlo : rowX s.m_paTable 0 < fxval)
    (hhi : fxval < rowX s.m_paTable (s.m_uEntries - 1)) :
    ∃ L, s.mapTableIndex fxval = some L ∧ L + 1 < s.m_uEntries ∧
      rowX s.m_paTable L ≤ fxval ∧ fxval < rowX s.m_paTable (L + 1) := by
  obtain ⟨h2, hlen, hmod, hasc, hstep, -⟩ := hr
  have hmod' : s.m_uEntries < UNativeInt_MOD := by omega
  have hH : s.highestTableIndex = s.m_uEntries - 1 := usub_one_of_pos (by omega) hmod'
  unfold CUInterpolator.mapTableIndex
  rw [if_neg (by simp [hstep]), hH]
  simp only [CUInterpolator.lowestTableIndex]
  -- the starting interval
  obtain ⟨uL, huL, hLlt⟩ : ∃ uL, (if s.m_uLastEntry = s.m_uEntries - 1 then usub s.m_uLastEntry 1
      else s.m_uLastEntry) = uL ∧ uL + 1 < s.m_uEntries := by
    by_cases hce : s.m_uLastEntry = s.m_uEntries - 1
    · rw [if_pos hce, usub_of_le (by omega) (by omega)]
      exact ⟨_, rfl, by omega⟩
    · rw [if_neg hce]
      exact ⟨_, rfl, by omega⟩
  rw [huL]
  have hR0 : uadd uL 1 = uL + 1 := uadd_of_lt (by omega)
  rw [hR0, inInterval_eq s fxval uL (uL + 1) hlen (by omega) hLlt]
  simp only [Option.bind_eq_bind, Option.some_bind, Option.pure_def]
  by_cases hin : rowX s.m_paTable uL ≤ fxval ∧ fxval < rowX s.m_paTable (uL + 1)
  · simp only [hin, and_self, decide_True, if_true]
    exact ⟨uL, rfl, hLlt, hin.1, hin.2⟩
  · simp only [hin, decide_False, Bool.false_eq_true, if_false]
    rw [xval_eq_rowX (show uL < s.m_uEntries by omega) hlen]
    simp only [Option.some_bind]
    by_cases hgt : fxval > rowX s.m_paTable uL
    · -- search upwards
      rw [if_pos hgt]
      have hge : rowX s.m_paTable (uL + 1) ≤ fxval := by
        by_contra hcon
        exact hin ⟨le_of_lt hgt, not_le.mp hcon⟩
      have hne : uL + 1 ≠ s.m_uEntries - 1 := by
        intro heq
        rw [heq] at hge
        exact absurd hhi (not_lt.mpr hge)
      have hR1 : uadd (uL + 1) 1 = uL + 2 := by
        rw [uadd_of_lt (by omega)]
      rw [hR1, inInterval_eq s fxval (uL + 1) (uL + 2) hlen (by omega) (by omega)]
      simp only [Option.some_bind]
      by_cases hin2 : rowX s.m_paTable (uL + 1) ≤ fxval ∧ fxval < rowX s.m_paTable (uL + 2)
      · simp only [hin2, and_self, decide_True, if_true]
        exact ⟨uL + 1, rfl, by omega, hin2.1, hin2.2⟩
      · simp only [hin2, decide_False, Bool.false_eq_true, if_false]
        obtain ⟨L, hL, hL1, hL2, hL3, hL4⟩ := bsearch_spec s fxval hlen hmod s.m_uEntries
          (uL + 1) (s.m_uEntries - 1) (by omega) (by omega) (by omega) hge hhi
        exact ⟨L, hL, by omega, hL3, hL4⟩
    · -- search downwards
      rw [if_neg hgt]
      have hlt : fxval < rowX s.m_paTable uL := by
        rcases lt_or_eq_of_le (not_lt.mp hgt) with h | h
        · exact h
        · exfalso
          apply hin
          refine ⟨le_of_eq h.symm, ?_⟩
          rw [h]
          exact strictAsc_rowX hasc hlen (by omega) hLlt
      have hpos : 0 < uL := by
        rcases Nat.eq_zero_or_pos uL with h | h
        · rw [h] at hlt
          exact absurd hlo (not_lt.mpr (le_of_lt hlt))
        · exact h
      have hL1 : usub uL 1 = uL - 1 := usub_of_le (by omega) (by omega)
      have hR1 : usub (uL + 1) 1 = uL := by
        rw [usub_of_le (by omega) (by omega)]; omega
      rw [hL1, hR1, inInterval_eq s fxval (uL - 1) uL hlen (by omega) (by omega)]
      simp only [Option.some_bind]
      by_cases hin2 : rowX s.m_paTable (uL - 1) ≤ fxval ∧ fxval < rowX s.m_paTable uL
      · simp only [hin2, and_self, decide_True, if_true]
        refine ⟨uL - 1, rfl, by omega, hin2.1, ?_⟩
        have : uL - 1 + 1 = uL := by omega
        rw [this]; exact hin2.2
      · simp only [hin2, decide_False, Bool.false_eq_true, if_false]
        obtain ⟨L, hL, hL1, hL2, hL3, hL4⟩ := bsearch_spec s fxval hlen hmod s.m_uEntries
          0 uL hpos (by omega) (by omega) (le_of_lt hlo) hlt
        exact ⟨L, hL, by omega, hL3, hL4⟩

theorem bufRead_some_of_lt {buf : List FloatDP} {i : Nat} (hi : i < buf.length) :
    ∃ v, bufRead buf i = some v := ⟨_, bufRead_of_lt hi⟩

theorem vDoExtrapolateLow_at (s : CUInterpolator) (hr : s.Ready) :
    s.vDoExtrapolateLow (rowX s.m_paTable 0) = some (rowY s.m_paTable 0) := by
  obtain ⟨h2, hlen, hmod, hasc, hstep, hd⟩ := hr
  have hx := xval_eq_rowX (show 0 < s.m_uEntries by omega) hlen
  have hy := yval_eq_rowY (show 0 < s.m_uEntries by omega) hlen
  unfold CUInterpolator.vDoExtrapolateLow
  by_cases hc : s.isCSpline = true
  · obtain ⟨v, hv⟩ := bufRead_some_of_lt (show 0 < s.m_pafd2ydx2.length by have := hd hc; omega)
    rw [if_pos hc]
    simp [CUCSpline.doExtrapolateLow, CUInterpolator.lowestTableIndex, hx, hy, hv]
  · rw [if_neg hc]
    simp [CUInterpolator.doExtrapolateLow, CUInterpolator.lowestTableIndex, hx, hy]

theorem vDoExtrapolateHigh_at (s : CUInterpolator) (hr : s.Ready) :
    s.vDoExtrapolateHigh (rowX s.m_paTable (s.m_uEntries - 1))
      = some (rowY s.m_paTable (s.m_uEntries - 1)) := by
  obtain ⟨h2, hlen, hmod, hasc, hstep, hd⟩ := hr
  have hH : s.highestTableIndex = s.m_uEntries - 1 := usub_one_of_pos (by omega) (by omega)
  have hx := xval_eq_rowX (show s.m_uEntries - 1 < s.m_uEntries by omega) hlen
  have hy := yval_eq_rowY (show s.m_uEntries - 1 < s.m_uEntries by omega) hlen
  unfold CUInterpolator.vDoExtrapolateHigh
  by_cases hc : s.isCSpline = true
  · obtain ⟨v, hv⟩ := bufRead_some_of_lt
      (show s.m_uEntries - 1 < s.m_pafd2ydx2.length by have := hd hc; omega)
    rw [if_pos hc]
    simp [CUCSpline.doExtrapolateHigh, hH, hx, hy, hv]
  · rw [if_neg hc]
    simp [CUInterpolator.doExtrapolateHigh, hH, hx, hy]

theorem vDoInterpolate_at (s : CUInterpolator) (hr : s.Ready) (k : Nat)
    (hk : k + 1 < s.m_uEntries) :
    s.vDoInterpolate (rowX s.m_paTable k) k = some (rowY s.m_paTable k) := by
  obtain ⟨h2, hlen, hmod, hasc, hstep, hd⟩ := hr
  have hR : uadd k 1 = k + 1 := uadd_of_lt (by omega)
  have hxL := xval_eq_rowX (show k < s.m_uEntries by omega) hlen
  have hyL := yval_eq_rowY (show k < s.m_uEntries by omega) hlen
  have hxR := xval_eq_rowX hk hlen
  have hyR := yval_eq_rowY hk hlen
  have hne : rowX s.m_paTable (k + 1) - rowX s.m_paTable k ≠ 0 :=
    sub_ne_zero.mpr (ne_of_gt (strictAsc_rowX hasc hlen (by omega) hk))
  unfold CUInterpolator.vDoInterpolate
  by_cases hc : s.isCSpline = true
  · obtain ⟨vL, hvL⟩ := bufRead_some_of_lt
      (show k < s.m_pafd2ydx2.length by have := hd hc; omega)
    obtain ⟨vR, hvR⟩ := bufRead_some_of_lt
      (show k + 1 < s.m_pafd2ydx2.length by have := hd hc; omega)
    rw [if_pos hc]
    simp only [CUCSpline.doInterpolate, hR, hxL, hxR, hyL, hyR, hvL, hvR, Option.bind_eq_bind,
      Option.some_bind, Option.pure_def, Option.some.injEq]
    rw [div_self hne]
    ring
  · rw [if_neg hc]
    simp only [CUInterpolator.doInterpolate, hR, hxL, hxR, hyL, hyR, Option.bind_eq_bind,
      Option.some_bind, Option.pure_def, Option.some.injEq]
    rw [div_self hne]
    ring

theorem ready_set_cursor {s : CUInterpolator} (hr : s.Ready) (c : Nat) :
    CUInterpolator.Ready { s with m_uLastEntry := c } := hr

theorem evaluate_at_row (s : CUInterpolator) (hr : s.Ready)
    (hc : s.m_uLastEntry < s.m_uEntries) (k : Nat) (hk : k < s.m_uEntries) :
    s.evaluate (rowX s.m_paTable k) = some (rowY s.m_paTable k) := by
  have hr' := hr
  obtain ⟨h2, hlen, hmod, hasc, hstep, hd⟩ := hr
  have hH : s.highestTableIndex = s.m_uEntries - 1 := usub_one_of_pos (by omega) (by omega)
  have hx0 := xval_eq_rowX (show 0 < s.m_uEntries by omega) hlen
  have hxH := xval_eq_rowX (show s.m_uEntries - 1 < s.m_uEntries by omega) hlen
  unfold CUInterpolator.evaluate CUInterpolator.interpolate
  rw [if_neg (by omega)]
  simp only [CUInterpolator.lowestXval, CUInterpolator.highestXval,
    CUInterpolator.lowestTableIndex, hH, hx0, hxH, Option.bind_eq_bind, Option.some_bind,
    Option.pure_def]
  by_cases hlow : rowX s.m_paTable k ≤ rowX s.m_paTable 0
  · have hk0 : k = 0 := by
      by_contra hne
      exact absurd (strictAsc_rowX hasc hlen (Nat.pos_of_ne_zero hne) hk) (not_lt.mpr hlow)
    subst hk0
    rw [if_pos hlow]
    have := vDoExtrapolateLow_at _ (ready_set_cursor hr' 0)
    simp only [] at this
    rw [this]
    rfl
  · rw [if_neg hlow]
    by_cases hhigh : rowX s.m_paTable k ≥ rowX s.m_paTable (s.m_uEntries - 1)
    · have hkH : k = s.m_uEntries - 1 := by
        by_contra hne
        exact absurd (strictAsc_rowX hasc hlen (show k < s.m_uEntries - 1 by omega)
          (by omega)) (not_lt.mpr hhigh)
      rw [if_pos hhigh]
      have := vDoExtrapolateHigh_at _ (ready_set_cursor hr' (s.m_uEntries - 1))
      simp only [] at this
      rw [hkH, this]
      rfl
    · rw [if_neg hhigh]
      obtain ⟨L, hL, hL1, hL2, hL3⟩ := mapTableIndex_spec s hr' (rowX s.m_paTable k) hc
        (not_le.mp hlow) (not_le.mp hhigh)
      have hLk : L = k := by
        rcases Nat.lt_trichotomy L k with h | h | h
        · exact absurd hL3 (not_lt.mpr
            (strictAsc_rowX_le hasc hlen (show L + 1 ≤ k by omega) hk))
        · exact h
        · exact absurd (strictAsc_rowX hasc hlen h (by omega)) (not_lt.mpr hL2)
      subst hLk
      rw [hL]
      simp only [Option.some_bind]
      have := vDoInterpolate_at _ (ready_set_cursor hr' L) L hL1
      simp only [] at this
      rw [this]
      rfl

theorem mem_take_row {n : Nat} {t : List SUConfigurationTableEntry}
    {e : SUConfigurationTableEntry} (h : e ∈ t.take n) :
    ∃ k, k < n ∧ t[k]? = some e := by
  obtain ⟨k, hk⟩ := List.mem_iff_getElem?.mp h
  have hlt : k < (t.take n).length := (List.getElem?_eq_some_iff.mp hk).1
  have hkn : k < n := by
    rw [List.length_take] at hlt; omega
  rw [List.getElem?_take_of_lt hkn] at hk
  exact ⟨k, hkn, hk⟩

/-- C1 (sample reproduction).  Explicit-table `configure` on a well-formed
evaluator (linear or cubic spline, either boundary mode) from `n` rows with
pairwise distinct independent values, `n` meeting the minimum size, succeeds,
and afterwards `interpolate` returns `y` at the `x` of every input row `(x, y)`,
whatever table index the search cursor holds.  The row count is assumed to fit
the index arithmetic of the search (`2 * n ≤ 2 ^ 32`). -/
theorem sample_reproduction (s : CUInterpolator) (hwf : s.WellFormed) (n : Nat)
    (src : List SUConfigurationTableEntry) (hlen : src.length = n)
    (hmin : if s.isCSpline = true then 3 ≤ n else 2 ≤ n)
    (hmod : 2 * n ≤ UNativeInt_MOD)
    (hdist : (src.map fun e => e.fIndependentValue).Nodup) :
    ∃ s', s.configure n (some src) = (Status.ok, s') ∧
      ∀ e ∈ src, ∀ c, c < s'.m_uEntries →
        CUInterpolator.evaluate { s' with m_uLastEntry := c } e.fIndependentValue
          = some e.fDependentValue := by
  have hv : s.tableSizeIsValid n = true := by
    unfold CUInterpolator.tableSizeIsValid
    split <;> simp_all
  have h2 : 2 ≤ n := tableSizeIsValid_ge_two hv
  have htake : src.take n = src := by rw [← hlen]; exact List.take_length src
  obtain ⟨s', hcfg, hn, hwf', hsp, -, hasc, hperm, hstep, -⟩ :=
    configure_distinct s hwf n src hv (by unfold UNativeInt_MOD at *; omega) (by omega)
      (by rw [htake]; exact hdist)
  obtain ⟨hw1, hw2, hw3, hw4⟩ := hwf'
  refine ⟨s', hcfg, ?_⟩
  intro e he c hc
  have hready : CUInterpolator.Ready { s' with m_uLastEntry := c } := by
    refine ⟨?_, ?_, ?_, ?_, hstep, ?_⟩
    · simp only []; omega
    · simp only []; omega
    · simp only []; omega
    · simp only []; rw [hn]; exact hasc
    · intro hcs
      have := hw4 hcs
      simp only []; omega
  have hmem : e ∈ s'.m_paTable.take n := by
    rw [htake] at hperm
    exact hperm.symm.subset he
  obtain ⟨k, hk, hget⟩ := mem_take_row hmem
  have := evaluate_at_row _ hready (by simp only []; exact hc) k (by simp only []; omega)
  simp only [] at this
  rw [rowX_of_get hget, rowY_of_get hget] at this
  exact this

theorem interpolate_of_no_entries (s : CUInterpolator) (x : FloatDP) (h : s.m_uEntries = 0) :
    s.interpolate x = some (x, s) := by
  unfold CUInterpolator.interpolate
  rw [if_pos h.symm]
  rfl

/-- C6 (an unconfigured evaluator is the identity).  For every evaluator state
with table size 0, linear or cubic spline, `interpolate` returns its argument
and leaves the state as it was. -/
theorem unconfigured_identity (s : CUInterpolator) (x : FloatDP) (h : s.m_uEntries = 0) :
    s.interpolate x = some (x, s) :=
  interpolate_of_no_entries s x h

theorem unconfigured_identity_witness :
    (CUCSpline.new true).m_uEntries = 0 ∧
      (CUCSpline.new true).interpolate 5 = some (5, CUCSpline.new true) :=
  ⟨rfl, unconfigured_identity (CUCSpline.new true) 5 rfl⟩

theorem tableSizeIsValid_false {s : CUInterpolator} {n : Nat}
    (h : if s.isCSpline = true then n < 3 else n < 2) : s.tableSizeIsValid n = false := by
  unfold CUInterpolator.tableSizeIsValid
  split <;> simp_all

/-- C7 (rejected requests leave the evaluator untouched).  For a nonzero count,
each of the four `configure` shapes throws `std::invalid_argument` and leaves
every member of the object as it was when a required source array or callback
is null, or when the count is below the minimum (2 rows, 3 for a spline). -/
theorem rejected_request_unchanged (s : CUInterpolator) (n : Nat) (hn : n ≠ 0) :
    (∀ src, (src = none ∨ (if s.isCSpline = true then n < 3 else n < 2)) →
      ∃ w, s.configure n src = (Status.invalid_argument w, s)) ∧
    (∀ xs ys, (xs = none ∨ ys = none ∨ (if s.isCSpline = true then n < 3 else n < 2)) →
      ∃ w, s.configureArrays n xs ys = (Status.invalid_argument w, s)) ∧
    (∀ lo hi ys, (ys = none ∨ (if s.isCSpline = true then n < 3 else n < 2)) →
      ∃ w, s.configureRange n lo hi ys = (Status.invalid_argument w, s)) ∧
    (∀ lo hi f ctx, (f = none ∨ (if s.isCSpline = true then n < 3 else n < 2)) →
      ∃ w, s.configureMap n lo hi f ctx = (Status.invalid_argument w, s)) := by
  refine ⟨?_, ?_, ?_, ?_⟩
  · intro src h
    unfold CUInterpolator.configure
    by_cases h1 : src = none
    · exact ⟨_, by rw [if_pos ⟨hn, h1⟩]⟩
    · rcases h with h | h
      · exact absurd h h1
      · exact ⟨_, by rw [if_neg (by simp [h1]), if_pos ⟨hn, tableSizeIsValid_false h⟩]⟩
  · intro xs ys h
    unfold CUInterpolator.configureArrays
    by_cases h1 : xs = none ∨ ys = none
    · exact ⟨_, by rw [if_pos ⟨hn, h1⟩]⟩
    · have h2 : if s.isCSpline = true then n < 3 else n < 2 := by
        rcases h with h | h | h
        · exact absurd (Or.inl h) h1
        · exact absurd (Or.inr h) h1
        · exact h
      exact ⟨_, by rw [if_neg (by simp [h1]), if_pos ⟨hn, tableSizeIsValid_false h2⟩]⟩
  · intro lo hi ys h
    unfold CUInterpolator.configureRange
    by_cases h1 : ys = none
    · exact ⟨_, by rw [if_pos ⟨hn, h1⟩]⟩
    · rcases h with h | h
      · exact absurd h h1
      · exact ⟨_, by rw [if_neg (by simp [h1]), if_pos ⟨hn, tableSizeIsValid_false h⟩]⟩
  · intro lo hi f ctx h
    unfold CUInterpolator.configureMap
    by_cases h1 : f = none
    · exact ⟨_, by rw [if_pos ⟨hn, by simp [h1]⟩]⟩
    · rcases h with h | h
      · exact absurd h h1
      · have h3 : ¬ (n ≠ 0 ∧ f.isNone = true) := by
          intro hc
          exact h1 (Option.isNone_iff_eq_none.mp hc.2)
        exact ⟨_, by rw [if_neg h3, if_pos ⟨hn, tableSizeIsValid_false h⟩]⟩

theorem rejected_request_unchanged_witness :
    (2 : Nat) ≠ 0 ∧
    ∃ w, (CUCSpline.new true).configure 2 (some [⟨0, 0⟩, ⟨1, 1⟩])
      = (Status.invalid_argument w, CUCSpline.new true) :=
  ⟨by decide, (rejected_request_unchanged (CUCSpline.new true) 2 (by decide)).1
    (some [⟨0, 0⟩, ⟨1, 1⟩]) (Or.inr (by decide))⟩

theorem allocateDerivedBuffers_frame (s : CUInterpolator) (n : Nat) :
    (s.allocateDerivedBuffers n).m_uAllocatedEntries = s.m_uAllocatedEntries ∧
    (s.allocateDerivedBuffers n).m_uEntries = s.m_uEntries ∧
    (s.allocateDerivedBuffers n).m_paTable = s.m_paTable ∧
    (s.allocateDerivedBuffers n).isCSpline = s.isCSpline ∧
    (s.allocateDerivedBuffers n).m_bNaturalSpline = s.m_bNaturalSpline := by
  unfold CUInterpolator.allocateDerivedBuffers CUCSpline.allocateDerivedBuffers
  by_cases h1 : s.isCSpline = true
  · rw [if_pos h1]
    by_cases h2 : n = 0 ∨ n > s.m_uAllocatedEntries_CSpline
    · rw [if_pos h2]
      by_cases h3 : s.m_uAllocatedEntries_CSpline ≠ 0
      · rw [if_pos h3]; exact ⟨rfl, rfl, rfl, rfl, rfl⟩
      · rw [if_neg h3]; exact ⟨rfl, rfl, rfl, rfl, rfl⟩
    · rw [if_neg h2]; exact ⟨rfl, rfl, rfl, rfl, rfl⟩
  · rw [if_neg h1]; exact ⟨rfl, rfl, rfl, rfl, rfl⟩

theorem allocateTable_true_alloc (s : CUInterpolator) (n : Nat)
    (h : (s.allocateTable n).1 = true) : (s.allocateTable n).2.m_uAllocatedEntries ≠ 0 := by
  unfold CUInterpolator.allocateTable at h ⊢
  by_cases hc : n = 0 ∨ n > s.m_uAllocatedEntries
  · rw [if_pos hc] at h ⊢
    by_cases h0 : n = 0
    · simp [h0] at h
    · simp only [h0, if_false]
      rw [(allocateDerivedBuffers_frame _ _).1]
      exact h0
  · rw [if_neg hc]
    simp only []
    omega

theorem allocateTable_zero_entries (s : CUInterpolator)
    (h : s.m_uAllocatedEntries ≠ 0 ∨ s.m_uEntries = 0) :
    (s.allocateTable 0).2.m_uEntries = 0 := by
  unfold CUInterpolator.allocateTable
  simp only [true_or, if_true]
  rw [(allocateDerivedBuffers_frame _ _).2.1]
  by_cases ha : s.m_uAllocatedEntries = 0
  · have h0 : s.m_uEntries = 0 := by
      rcases h with h | h
      · exact absurd ha h
      · exact h
    simp only [ha, ne_eq, not_true_eq_false, if_false]
    exact h0
  · simp only [ha, ne_eq, not_false_eq_true, if_true]

theorem fillTable_alloc {s s2 : CUInterpolator} {src : List SUConfigurationTableEntry}
    (h : s.fillTable src = some s2) : s2.m_uAllocatedEntries = s.m_uAllocatedEntries := by
  unfold CUInterpolator.fillTable at h
  simp only [Option.bind_eq_bind, Option.pure_def] at h
  cases h1 : memcpyRows s.m_paTable src s.m_uEntries with
  | none => rw [h1] at h; simp at h
  | some t0 =>
    rw [h1] at h; simp only [Option.some_bind] at h
    cases h2 : sortTable s.m_uEntries t0 with
    | none => rw [h2] at h; simp at h
    | some t1 =>
      rw [h2] at h; simp only [Option.some_bind] at h
      cases h3 : dedupLoop s.m_uEntries 0 s.m_uEntries t1 with
      | none => rw [h3] at h; simp at h
      | some r =>
        rw [h3] at h; simp only [Option.some_bind, Option.some.injEq] at h
        rw [← h]

theorem configure_failure (s : CUInterpolator) (n : Nat)
    (src : Option (List SUConfigurationTableEntry)) (w : What) (s' : CUInterpolator)
    (h : s.configure n src = (Status.invalid_argument w, s')) :
    s' = s ∨ s'.m_uEntries = 0 := by
  unfold CUInterpolator.configure at h
  split at h
  · left; exact (Prod.mk.inj h).2.symm
  · split at h
    · left; exact (Prod.mk.inj h).2.symm
    · simp only [] at h
      split at h
      · exact absurd (Prod.mk.inj h).1 (by simp)
      · rename_i hok
        split at h
        · exact absurd (Prod.mk.inj h).1 (by simp)
        · rename_i s2 hfill
          split at h
          · right
            rw [← (Prod.mk.inj h).2]
            apply allocateTable_zero_entries
            left
            rw [fillTable_alloc hfill]
            exact allocateTable_true_alloc s n (by simpa using hok)
          · split at h
            · exact absurd (Prod.mk.inj h).1 (by simp)
            · exact absurd (Prod.mk.inj h).1 (by simp)

/-- C9 (failure atomicity).  Whenever explicit-table or parallel-array
`configure` throws `std::invalid_argument`, the object is either exactly as it
was before the call or holds no table (`m_uEntries = 0`). -/
theorem failure_atomicity (s : CUInterpolator) (n : Nat) :
    (∀ src w s', s.configure n src = (Status.invalid_argument w, s') →
      s' = s ∨ s'.m_uEntries = 0) ∧
    (∀ xs ys w s', s.configureArrays n xs ys = (Status.invalid_argument w, s') →
      s' = s ∨ s'.m_uEntries = 0) := by
  refine ⟨fun src w s' h => configure_failure s n src w s' h, ?_⟩
  intro xs ys w s' h
  unfold CUInterpolator.configureArrays at h
  split at h
  · left; exact (Prod.mk.inj h).2.symm
  · split at h
    · left; exact (Prod.mk.inj h).2.symm
    · simp only [] at h
      split at h
      · exact absurd (Prod.mk.inj h).1 (by simp)
      · exact configure_failure s n _ w s' h

theorem failure_atomicity_witness :
    ∃ s', CUInterpolator.new.configure 2 (some [⟨1, 1⟩, ⟨1, 2⟩])
        = (Status.invalid_argument What.InvalidTableLength, s') ∧
      (s' = CUInterpolator.new ∨ s'.m_uEntries = 0) :=
  ⟨(CUInterpolator.new.configure 2 (some [⟨1, 1⟩, ⟨1, 2⟩])).2, by with_unfolding_all decide,
    (failure_atomicity CUInterpolator.new 2).1 (some [⟨1, 1⟩, ⟨1, 2⟩])
      What.InvalidTableLength _ (by with_unfolding_all decide)⟩

theorem swapBounds_same (v : FloatDP) : swapBounds v v = (v, v) := by
  unfold swapBounds
  rw [if_neg (lt_irrefl v)]

/-- C10 (degenerate range is rejected).  For both range-based `configure`
shapes, a nonzero count meeting the minimum size and a non-null source, equal
range bounds make the call throw `std::invalid_argument` ("No Table Range") and
leave every member of the object as it was. -/
theorem degenerate_range_rejected (s : CUInterpolator) (n : Nat) (v : FloatDP)
    (hmin : if s.isCSpline = true then 3 ≤ n else 2 ≤ n) :
    (∀ ys : List FloatDP, s.configureRange n v v (some ys)
      = (Status.invalid_argument What.NoTableRange, s)) ∧
    (∀ (f : FloatDP → Nat → FloatDP) (ctx : Nat), s.configureMap n v v (some f) ctx
      = (Status.invalid_argument What.NoTableRange, s)) := by
  have hv : s.tableSizeIsValid n = true := by
    unfold CUInterpolator.tableSizeIsValid
    split <;> simp_all
  have hn : n ≠ 0 := by
    have := tableSizeIsValid_ge_two hv
    omega
  constructor
  · intro ys
    unfold CUInterpolator.configureRange
    rw [if_neg (by simp), if_neg (by simp [hv])]
    simp only [swapBounds_same, if_true]
  · intro f ctx
    unfold CUInterpolator.configureMap
    rw [if_neg (by simp), if_neg (by simp [hv])]
    simp only [swapBounds_same, if_true]

theorem degenerate_range_rejected_witness :
    (if (CUCSpline.new false).isCSpline = true then 3 ≤ 3 else 2 ≤ 3) ∧
    (CUCSpline.new false).configureRange 3 7 7 (some [1, 2, 3])
      = (Status.invalid_argument What.NoTableRange, CUCSpline.new false) :=
  ⟨by decide, (degenerate_range_rejected (CUCSpline.new false) 3 7 (by decide)).1 [1, 2, 3]⟩

theorem sample_reproduction_witness :
    ∃ s', (CUCSpline.new false).configure 3 (some [⟨2, 5⟩, ⟨0, 1⟩, ⟨1, 7⟩]) = (Status.ok, s') ∧
      ∀ e ∈ [(⟨2, 5⟩ : SUConfigurationTableEntry), ⟨0, 1⟩, ⟨1, 7⟩], ∀ c, c < s'.m_uEntries →
        CUInterpolator.evaluate { s' with m_uLastEntry := c } e.fIndependentValue
          = some e.fDependentValue :=
  sample_reproduction (CUCSpline.new false) (by decide) 3 [⟨2, 5⟩, ⟨0, 1⟩, ⟨1, 7⟩] rfl
    (by decide) (by decide) (by with_unfolding_all decide)

/-- C2 (sort + dedup invariant), evaluated at a failing input.  Explicit-table
`configure` of a linear evaluator from three rows that share one independent
value succeeds and leaves a table of two rows with the same independent value:
the table held is not strictly ascending. -/
theorem configure_keeps_duplicate_of_triple :
    (CUInterpolator.new.configure 3 (some [⟨1, 10⟩, ⟨1, 20⟩, ⟨1, 30⟩])).1 = Status.ok ∧
    (CUInterpolator.new.configure 3 (some [⟨1, 10⟩, ⟨1, 20⟩, ⟨1, 30⟩])).2.table
      = [⟨1, 20⟩, ⟨1, 30⟩] := by
  with_unfolding_all decide

/-- C8 (too few distinct x values is an error), evaluated at a failing input.
Explicit-table `configure` of a cubic-spline evaluator from five rows with one
distinct independent value does not throw: it returns normally with a table of
three rows. -/
theorem configure_accepts_single_x_spline :
    (([⟨1, 1⟩, ⟨1, 2⟩, ⟨1, 3⟩, ⟨1, 4⟩, ⟨1, 5⟩] : List SUConfigurationTableEntry).map
        fun e => e.fIndependentValue).dedup.length = 1 ∧
    ((CUCSpline.new true).configure 5
        (some [⟨1, 1⟩, ⟨1, 2⟩, ⟨1, 3⟩, ⟨1, 4⟩, ⟨1, 5⟩])).1 = Status.ok ∧
    ((CUCSpline.new true).configure 5
        (some [⟨1, 1⟩, ⟨1, 2⟩, ⟨1, 3⟩, ⟨1, 4⟩, ⟨1, 5⟩])).2.m_uEntries = 3 := by
  with_unfolding_all decide

/-- C3 (idempotence of configure), evaluated at a failing input.  Two
successive range-plus-array `configure` calls with the same arguments on a fresh
linear evaluator both succeed, yet `interpolate(1)` differs after the first and
after the second call. -/
theorem configureRange_twice_differs :
    (CUInterpolator.new.configureRange 3 0 2 (some [0, 1, 4])).1 = Status.ok ∧
    ((CUInterpolator.new.configureRange 3 0 2 (some [0, 1, 4])).2.configureRange 3 0 2
      (some [0, 1, 4])).1 = Status.ok ∧
    (CUInterpolator.new.configureRange 3 0 2 (some [0, 1, 4])).2.evaluate 1
      = some (21474836467 / 8589934588) ∧
    ((CUInterpolator.new.configureRange 3 0 2 (some [0, 1, 4])).2.configureRange 3 0 2
      (some [0, 1, 4])).2.evaluate 1 = some 1 := by
  decide!

/-- C4 (evenly spaced grid), evaluated at a failing input.  Range-plus-array
`configure` with count 3 over `[0, 2]` on a fresh linear evaluator produces the
independent values `0, 2 / 4294967295, 2`, not `0, 1, 2`: the grid step is taken
from the entry count held before the call. -/
theorem configureRange_grid_uses_old_count :
    (CUInterpolator.new.configureRange 3 0 2 (some [0, 1, 4])).2.table
      = [⟨0, 0⟩, ⟨2 / 4294967295, 1⟩, ⟨2, 4⟩] := by
  decide!

/-- C5 (zero count releases), evaluated at failing inputs.  With count 0 the
range-plus-array `configure` throws `std::invalid_argument` when the two bounds
are equal, and otherwise writes outside its zero-length work buffer; the
range-plus-function shape behaves the same way. -/
theorem configureRange_zero_count_fails :
    CUInterpolator.new.configureRange 0 0 0 none
      = (Status.invalid_argument What.NoTableRange, CUInterpolator.new) ∧
    (CUInterpolator.new.configureRange 0 0 1 (some [])).1 = Status.undefined_behaviour ∧
    CUInterpolator.new.configureMap 0 0 0 none 0
      = (Status.invalid_argument What.NoTableRange, CUInterpolator.new) ∧
    (CUInterpolator.new.configureMap 0 0 1 (some fun x _ => x) 0).1
      = Status.undefined_behaviour := by
  with_unfolding_all decide

theorem allocateTable_zero (s : CUInterpolator) (hwf : s.WellFormed) :
    (s.allocateTable 0).1 = false ∧ (s.allocateTable 0).2.m_uEntries = 0 ∧
      (s.isCSpline = true → (s.allocateTable 0).2.m_pafd2ydx2 = []) := by
  obtain ⟨h1, h2, h3, h4⟩ := hwf
  refine ⟨?_, allocateTable_zero_entries s (by omega), ?_⟩
  · unfold CUInterpolator.allocateTable
    simp only [true_or, if_true]
  · intro hc
    unfold CUInterpolator.allocateTable CUInterpolator.allocateDerivedBuffers
      CUCSpline.allocateDerivedBuffers
    simp only [true_or, if_true]
    by_cases ha : s.m_uAllocatedEntries = 0
    · simp only [ha, ne_eq, not_true_eq_false, if_false, hc, if_true, List.replicate_zero]
    · simp only [ha, ne_eq, not_false_eq_true, if_true, hc, List.replicate_zero]

/-- Zero count on the explicit-table and parallel-array shapes: the call returns
normally, the table is released (also the second-derivative buffer of a spline)
and the evaluator is the identity afterwards. -/
theorem configure_zero_releases (s : CUInterpolator) (hwf : s.WellFormed) :
    (∀ src, ∃ s', s.configure 0 src = (Status.ok, s') ∧ s'.m_uEntries = 0 ∧
      (s.isCSpline = true → s'.m_pafd2ydx2 = []) ∧ ∀ x, s'.interpolate x = some (x, s')) ∧
    (∀ xs ys, ∃ s', s.configureArrays 0 xs ys = (Status.ok, s') ∧ s'.m_uEntries = 0 ∧
      (s.isCSpline = true → s'.m_pafd2ydx2 = []) ∧ ∀ x, s'.interpolate x = some (x, s')) := by
  obtain ⟨ha, hb, hc⟩ := allocateTable_zero s hwf
  have h1 : ∀ src, s.configure 0 src = (Status.ok, (s.allocateTable 0).2) := by
    intro src
    unfold CUInterpolator.configure
    rw [if_neg (by simp), if_neg (by simp)]
    simp only [ha, if_true]
  constructor
  · intro src
    exact ⟨_, h1 src, hb, hc, fun x => interpolate_of_no_entries _ x hb⟩
  · intro xs ys
    refine ⟨_, ?_, hb, hc, fun x => interpolate_of_no_entries _ x hb⟩
    unfold CUInterpolator.configureArrays
    rw [if_neg (by simp), if_neg (by simp)]
    simp only [forLoop]
    exact h1 _

theorem memmoveRows_shift (t : List SUConfigurationTableEntry) (ui n : Nat)
    (hui : ui + 1 < n) (hn : n ≤ t.length) :
    ∃ t', memmoveRows t ui (ui + 1) (n - (ui + 1)) = some t' ∧ t'.length = t.length := by
  unfold memmoveRows
  rw [if_pos (by omega)]
  refine ⟨_, rfl, ?_⟩
  simp only [List.length_append, List.length_take, List.length_drop]
  omega

theorem dedupLoop_total :
    ∀ (fuel ui n : Nat) (t : List SUConfigurationTableEntry), 1 ≤ n → n ≤ t.length →
      n < UNativeInt_MOD → n - ui ≤ fuel → 1 ≤ fuel →
      ∃ n' t', dedupLoop fuel ui n t = some (n', t') ∧ 1 ≤ n' ∧ n' ≤ n ∧
        t'.length = t.length := by
  intro fuel
  induction fuel with
  | zero => intro ui n t _ _ _ _ h; omega
  | succ fuel ih =>
    intro ui n t h1 hlen hmod hfuel _
    have hu : usub n 1 = n - 1 := usub_one_of_pos (by omega) hmod
    rw [dedupLoop, hu]
    by_cases hlt : ui < n - 1
    · obtain ⟨eR, hrR, -⟩ := tableRead_of_lt (show ui + 1 < n by omega) hlen
      obtain ⟨eL, hrL, -⟩ := tableRead_of_lt (show ui < n by omega) hlen
      rw [if_pos hlt]
      simp only [hrR, hrL, Option.bind_eq_bind, Option.some_bind]
      by_cases hne : eR.fIndependentValue ≠ eL.fIndependentValue
      · rw [if_pos hne]
        exact ih (ui + 1) n t h1 hlen hmod (by omega) (by omega)
      · rw [if_neg hne]
        obtain ⟨t', hmv, hl'⟩ := memmoveRows_shift t ui n (by omega) hlen
        rw [hmv]
        simp only [Option.some_bind]
        obtain ⟨n', t'', hrun, hn1, hn2, hl''⟩ := ih (ui + 1) (n - 1) t' (by omega)
          (by omega) (by omega) (by omega) (by omega)
        exact ⟨n', t'', hrun, hn1, by omega, by omega⟩
    · rw [if_neg hlt]
      exact ⟨n, t, rfl, h1, le_refl _, rfl⟩

theorem fillTable_total (s : CUInterpolator) (src : List SUConfigurationTableEntry)
    (h0 : 0 < s.m_uEntries) (hlen : s.m_uEntries ≤ s.m_paTable.length)
    (hsrc : s.m_uEntries ≤ src.length) (hmod : s.m_uEntries < UNativeInt_MOD) :
    ∃ n t, s.fillTable src = some { s with m_paTable := t, m_uEntries := n } ∧
      1 ≤ n ∧ n ≤ s.m_uEntries ∧ t.length = s.m_paTable.length := by
  have hcpy : memcpyRows s.m_paTable src s.m_uEntries =
      some (src.take s.m_uEntries ++ s.m_paTable.drop s.m_uEntries) := by
    simp [memcpyRows, hsrc, hlen]
  have hl0 : (src.take s.m_uEntries ++ s.m_paTable.drop s.m_uEntries).length
      = s.m_paTable.length := by
    simp; omega
  obtain ⟨t1, hsort, hlt, -, -, -⟩ :=
    sortTable_spec s.m_uEntries (src.take s.m_uEntries ++ s.m_paTable.drop s.m_uEntries)
      h0 (by omega) hmod
  obtain ⟨n', t', hdd, hn1, hn2, hl'⟩ := dedupLoop_total s.m_uEntries 0 s.m_uEntries t1
    (by omega) (by omega) hmod (by omega) (by omega)
  refine ⟨n', t', ?_, hn1, hn2, by omega⟩
  unfold CUInterpolator.fillTable
  rw [hcpy]
  simp only [Option.bind_eq_bind, Option.some_bind]
  rw [hsort]
  simp only [Option.some_bind]
  rw [hdd]
  rfl

theorem allocateDerivedBuffers_zero_spline (s : CUInterpolator) (hc : s.isCSpline = true) :
    (s.allocateDerivedBuffers 0).m_uAllocatedEntries_CSpline = 0 ∧
      (s.allocateDerivedBuffers 0).m_pafd2ydx2 = [] := by
  unfold CUInterpolator.allocateDerivedBuffers CUCSpline.allocateDerivedBuffers
  rw [if_pos hc, if_pos (Or.inl rfl)]
  exact ⟨rfl, rfl⟩

theorem allocateTable_zero_wellFormed (s : CUInterpolator) (hwf : s.WellFormed) :
    (s.allocateTable 0).2.WellFormed := by
  obtain ⟨h1, h2, h3, h4⟩ := hwf
  have hM : 0 < UNativeInt_MOD := by unfold UNativeInt_MOD; omega
  have hrel : ∃ s1 : CUInterpolator, (s.allocateTable 0).2 = s1.allocateDerivedBuffers 0 ∧
      s1.m_paTable.length = 0 ∧ s1.m_uAllocatedEntries = 0 ∧ s1.m_uEntries = 0 := by
    unfold CUInterpolator.allocateTable
    simp only [true_or, if_true]
    by_cases ha : s.m_uAllocatedEntries = 0
    · refine ⟨s, ?_, by omega, ha, by omega⟩
      rw [if_neg (by simp [ha])]
    · refine ⟨{ s with m_paTable := [], m_uEntries := 0, m_uAllocatedEntries := 0 },
        ?_, rfl, rfl, rfl⟩
      rw [if_pos ha]
  obtain ⟨s1, heq, hl1, ha1, he1⟩ := hrel
  rw [heq]
  obtain ⟨f1, f2, f3, f4, -⟩ := allocateDerivedBuffers_frame s1 0
  refine ⟨by rw [f3, f1, hl1, ha1], by rw [f2, f1, he1, ha1], by rw [f1, ha1]; exact hM, ?_⟩
  intro hc
  rw [f4] at hc
  obtain ⟨g1, g2⟩ := allocateDerivedBuffers_zero_spline s1 hc
  rw [g1, g2, f1, ha1]
  exact ⟨rfl, rfl⟩

/-- Explicit-table `configure` is defined on every well-formed evaluator: given a
source array that holds the requested number of rows, no access leaves a table
or buffer, the loops finish within their bounds, and the object is well formed
afterwards (whether the call returns normally or throws). -/
theorem configure_defined (s : CUInterpolator) (hwf : s.WellFormed) (n : Nat)
    (src : Option (List SUConfigurationTableEntry)) (hmod : n < UNativeInt_MOD)
    (hsrc : ∀ l, src = some l → n ≤ l.length) :
    (s.configure n src).1 ≠ Status.undefined_behaviour ∧ (s.configure n src).2.WellFormed := by
  unfold CUInterpolator.configure
  by_cases hc1 : n ≠ 0 ∧ src = none
  · rw [if_pos hc1]; exact ⟨by simp, hwf⟩
  · rw [if_neg hc1]
    by_cases hc2 : n ≠ 0 ∧ s.tableSizeIsValid n = false
    · rw [if_pos hc2]; exact ⟨by simp, hwf⟩
    · rw [if_neg hc2]
      by_cases hn0 : n = 0
      · subst hn0
        obtain ⟨ha, -, -⟩ := allocateTable_zero s hwf
        simp only [ha, if_true]
        exact ⟨by simp, allocateTable_zero_wellFormed s hwf⟩
      · obtain ⟨l, hl⟩ : ∃ l, src = some l := by
          cases src with
          | none => exact absurd ⟨hn0, rfl⟩ hc1
          | some l => exact ⟨l, rfl⟩
        have hv : s.tableSizeIsValid n = true := by
          cases h : s.tableSizeIsValid n with
          | false => exact absurd ⟨hn0, h⟩ hc2
          | true => rfl
        obtain ⟨ha1, ha2, ha3, ha4, ha5⟩ := allocateTable_pos s n hwf hn0 hmod
        rcases hr : s.allocateTable n with ⟨ok, s1⟩
        rw [hr] at ha1 ha2 ha3 ha4 ha5
        simp only at ha1 ha2 ha3 ha4 ha5
        obtain ⟨hw1, hw2, hw3, hw4⟩ := ha3
        obtain ⟨n', t, hfill, hn1, hn2, htl⟩ := fillTable_total s1 l (by omega) (by omega)
          (by rw [ha2]; exact hsrc l hl) (by omega)
        simp only [ha1, hl, Option.getD_some, hfill]
        have hwf2 : CUInterpolator.WellFormed { s1 with m_paTable := t, m_uEntries := n' } :=
          ⟨by simp only []; omega, by simp only []; omega, hw3,
            fun hc => by have := hw4 hc; simp only []; exact this⟩
        by_cases hv2 : CUInterpolator.tableSizeIsValid
            { s1 with m_paTable := t, m_uEntries := n' } n' = false
        · simp only [hv2, if_true]
          exact ⟨by simp, allocateTable_zero_wellFormed _ hwf2⟩
        · have hv2' : CUInterpolator.tableSizeIsValid
              { s1 with m_paTable := t, m_uEntries := n' } n' = true := by
            cases h : CUInterpolator.tableSizeIsValid
                { s1 with m_paTable := t, m_uEntries := n' } n' with
            | false => exact absurd h hv2
            | true => rfl
          obtain ⟨e0, e1, eH1, eH, d2, -, -, -, -, hdl, hfin⟩ :=
            finishConfigure_ok { s1 with m_paTable := t, m_uEntries := n' } hv2'
              (by simp only []; omega) (by simp only []; omega)
              (fun hc => by
                have := (hw4 hc).2
                simp only []; omega)
          simp only [] at hdl
          simp only [hv2', hfin]
          refine ⟨by simp, ⟨?_, ?_, hw3, ?_⟩⟩
          · show t.length = s1.m_uAllocatedEntries
            omega
          · show n' ≤ s1.m_uAllocatedEntries
            omega
          · intro hc
            have := hw4 hc
            exact ⟨this.1, by show d2.length = s1.m_uAllocatedEntries; omega⟩

theorem bufRead_eq_d2At (s : CUInterpolator) (i : Nat) (hi : i < s.m_pafd2ydx2.length) :
    bufRead s.m_pafd2ydx2 i = some (d2At s i) := by
  simp [bufRead, d2At, List.getD, hi]

theorem interval_unique {n : Nat} {t : List SUConfigurationTableEntry} (hs : StrictAsc n t)
    (hn : n ≤ t.length) {x : FloatDP} {L L' : Nat} (hL : L + 1 < n) (hL' : L' + 1 < n)
    (h1 : rowX t L ≤ x) (h2 : x < rowX t (L + 1))
    (h1' : rowX t L' ≤ x) (h2' : x < rowX t (L' + 1)) : L' = L := by
  rcases Nat.lt_trichotomy L' L with h | h | h
  · exact absurd (lt_of_lt_of_le h2' (strictAsc_rowX_le hs hn (show L' + 1 ≤ L by omega)
      (by omega))) (not_lt.mpr h1)
  · exact h
  · exact absurd (lt_of_lt_of_le h2 (strictAsc_rowX_le hs hn (show L + 1 ≤ L' by omega)
      (by omega))) (not_lt.mpr h1')

/-- Value of the low extrapolation formula of the object's class. -/
theorem vDoExtrapolateLow_value (s : CUInterpolator) (hr : s.Ready) (x : FloatDP) :
    s.vDoExtrapolateLow x = some (if s.isCSpline = true then
      rowY s.m_paTable 0 - (rowX s.m_paTable 0 - x) * s.m_fdydx_L
        - 1 / 2 * (rowX s.m_paTable 0 - x) * (rowX s.m_paTable 0 - x) * d2At s 0
      else rowY s.m_paTable 0 - (rowX s.m_paTable 0 - x) * s.m_fdydx_L) := by
  obtain ⟨h2, hlen, hmod, hasc, hstep, hd⟩ := hr
  have hx := xval_eq_rowX (show 0 < s.m_uEntries by omega) hlen
  have hy := yval_eq_rowY (show 0 < s.m_uEntries by omega) hlen
  unfold CUInterpolator.vDoExtrapolateLow
  by_cases hc : s.isCSpline = true
  · have hv := bufRead_eq_d2At s 0 (by have := hd hc; omega)
    rw [if_pos hc, if_pos hc]
    simp only [CUCSpline.doExtrapolateLow, CUInterpolator.lowestTableIndex, hx, hy, hv,
      Option.bind_eq_bind, Option.some_bind, Option.pure_def]
  · rw [if_neg hc, if_neg hc]
    simp only [CUInterpolator.doExtrapolateLow, CUInterpolator.lowestTableIndex, hx, hy,
      Option.bind_eq_bind, Option.some_bind, Option.pure_def]

theorem vDoExtrapolateHigh_value (s : CUInterpolator) (hr : s.Ready) (x : FloatDP) :
    s.vDoExtrapolateHigh x = some (if s.isCSpline = true then
      rowY s.m_paTable (s.m_uEntries - 1)
        + (x - rowX s.m_paTable (s.m_uEntries - 1)) * s.m_fdydx_H
        + 1 / 2 * (x - rowX s.m_paTable (s.m_uEntries - 1))
          * (x - rowX s.m_paTable (s.m_uEntries - 1)) * d2At s (s.m_uEntries - 1)
      else rowY s.m_paTable (s.m_uEntries - 1)
        + (x - rowX s.m_paTable (s.m_uEntries - 1)) * s.m_fdydx_H) := by
  obtain ⟨h2, hlen, hmod, hasc, hstep, hd⟩ := hr
  have hH : s.highestTableIndex = s.m_uEntries - 1 := usub_one_of_pos (by omega) (by omega)
  have hx := xval_eq_rowX (show s.m_uEntries - 1 < s.m_uEntries by omega) hlen
  have hy := yval_eq_rowY (show s.m_uEntries - 1 < s.m_uEntries by omega) hlen
  unfold CUInterpolator.vDoExtrapolateHigh
  by_cases hc : s.isCSpline = true
  · have hv := bufRead_eq_d2At s (s.m_uEntries - 1) (by have := hd hc; omega)
    rw [if_pos hc, if_pos hc]
    simp only [CUCSpline.doExtrapolateHigh, hH, hx, hy, hv,
      Option.bind_eq_bind, Option.some_bind, Option.pure_def]
  · rw [if_neg hc, if_neg hc]
    simp only [CUInterpolator.doExtrapolateHigh, hH, hx, hy,
      Option.bind_eq_bind, Option.some_bind, Option.pure_def]

theorem vDoInterpolate_value (s : CUInterpolator) (hr : s.Ready) (x : FloatDP) (L : Nat)
    (hL : L + 1 < s.m_uEntries) :
    s.vDoInterpolate x L = some (if s.isCSpline = true then
      refCubicPiece s.m_paTable (d2At s) L x else refLinearPiece s.m_paTable L x) := by
  obtain ⟨h2, hlen, hmod, hasc, hstep, hd⟩ := hr
  have hR : uadd L 1 = L + 1 := uadd_of_lt (by omega)
  have hxL := xval_eq_rowX (show L < s.m_uEntries by omega) hlen
  have hyL := yval_eq_rowY (show L < s.m_uEntries by omega) hlen
  have hxR := xval_eq_rowX hL hlen
  have hyR := yval_eq_rowY hL hlen
  unfold CUInterpolator.vDoInterpolate
  by_cases hc : s.isCSpline = true
  · have hvL := bufRead_eq_d2At s L (by have := hd hc; omega)
    have hvR := bufRead_eq_d2At s (L + 1) (by have := hd hc; omega)
    rw [if_pos hc, if_pos hc]
    simp only [CUCSpline.doInterpolate, hR, hxL, hxR, hyL, hyR, hvL, hvR, Option.bind_eq_bind,
      Option.some_bind, Option.pure_def, Option.some.injEq, refCubicPiece]
    ring
  · rw [if_neg hc, if_neg hc]
    simp only [CUInterpolator.doInterpolate, hR, hxL, hxR, hyL, hyR, Option.bind_eq_bind,
      Option.some_bind, Option.pure_def, refLinearPiece]

/-- The three branches of `interpolate` on a configured evaluator with a
strictly ascending table: the value returned and the cursor left behind. -/
theorem interpolate_branches (s : CUInterpolator) (hr : s.Ready)
    (hc : s.m_uLastEntry < s.m_uEntries) (x : FloatDP) :
    (x ≤ rowX s.m_paTable 0 →
      s.interpolate x = (CUInterpolator.vDoExtrapolateLow { s with m_uLastEntry := 0 } x).map
        fun y => (y, { s with m_uLastEntry := 0 })) ∧
    (rowX s.m_paTable 0 < x → rowX s.m_paTable (s.m_uEntries - 1) ≤ x →
      s.interpolate x
        = (CUInterpolator.vDoExtrapolateHigh { s with m_uLastEntry := s.m_uEntries - 1 } x).map
          fun y => (y, { s with m_uLastEntry := s.m_uEntries - 1 })) ∧
    (rowX s.m_paTable 0 < x → x < rowX s.m_paTable (s.m_uEntries - 1) →
      ∃ L, L + 1 < s.m_uEntries ∧ rowX s.m_paTable L ≤ x ∧ x < rowX s.m_paTable (L + 1) ∧
        s.interpolate x = (CUInterpolator.vDoInterpolate { s with m_uLastEntry := L } x L).map
          fun y => (y, { s with m_uLastEntry := L })) := by
  have hr' := hr
  obtain ⟨h2, hlen, hmod, hasc, hstep, hd⟩ := hr
  have hH : s.highestTableIndex = s.m_uEntries - 1 := usub_one_of_pos (by omega) (by omega)
  have hx0 := xval_eq_rowX (show 0 < s.m_uEntries by omega) hlen
  have hxH := xval_eq_rowX (show s.m_uEntries - 1 < s.m_uEntries by omega) hlen
  have hunf : s.interpolate x =
      if x ≤ rowX s.m_paTable 0 then
        (CUInterpolator.vDoExtrapolateLow { s with m_uLastEntry := 0 } x).map
          fun y => (y, { s with m_uLastEntry := 0 })
      else if x ≥ rowX s.m_paTable (s.m_uEntries - 1) then
        (CUInterpolator.vDoExtrapolateHigh { s with m_uLastEntry := s.m_uEntries - 1 } x).map
          fun y => (y, { s with m_uLastEntry := s.m_uEntries - 1 })
      else
        (s.mapTableIndex x).bind fun uL =>
          (CUInterpolator.vDoInterpolate { s with m_uLastEntry := uL } x uL).map
            fun y => (y, { s with m_uLastEntry := uL }) := by
    unfold CUInterpolator.interpolate
    rw [if_neg (by omega)]
    simp only [CUInterpolator.lowestXval, CUInterpolator.highestXval,
      CUInterpolator.lowestTableIndex, hH, hx0, hxH, Option.bind_eq_bind, Option.some_bind,
      Option.pure_def]
    split
    · cases CUInterpolator.vDoExtrapolateLow { s with m_uLastEntry := 0 } x <;> rfl
    · split
      · cases CUInterpolator.vDoExtrapolateHigh
          { s with m_uLastEntry := s.m_uEntries - 1 } x <;> rfl
      · cases s.mapTableIndex x with
        | none => rfl
        | some uL =>
          simp only [Option.some_bind]
          cases CUInterpolator.vDoInterpolate { s with m_uLastEntry := uL } x uL <;> rfl
  refine ⟨?_, ?_, ?_⟩
  · intro h
    rw [hunf, if_pos h]
  · intro h1 h2'
    rw [hunf, if_neg (not_le.mpr h1), if_pos h2']
  · intro h1 h2'
    obtain ⟨L, hL, hL1, hL2, hL3⟩ := mapTableIndex_spec s hr' x hc h1 h2'
    refine ⟨L, hL1, hL2, hL3, ?_⟩
    rw [hunf, if_neg (not_le.mpr h1), if_neg (not_le.mpr h2'), hL]
    rfl

theorem strictAsc_of_pairwise (n : Nat) (t : List SUConfigurationTableEntry)
    (h : (t.take n).Pairwise fun a b => a.fIndependentValue < b.fIndependentValue) :
    StrictAsc n t := by
  intro a b ea eb hab hb hea heb
  have hbl : b < t.length := (List.getElem?_eq_some_iff.mp heb).1
  have ha : (t.take n)[a]? = some ea := by rw [List.getElem?_take_of_lt (by omega)]; exact hea
  have hb2 : (t.take n)[b]? = some eb := by rw [List.getElem?_take_of_lt hb]; exact heb
  obtain ⟨ha1, ha2⟩ := List.getElem?_eq_some_iff.mp ha
  obtain ⟨hb1, hb3⟩ := List.getElem?_eq_some_iff.mp hb2
  have := (List.pairwise_iff_getElem.mp h) a b ha1 hb1 hab
  rw [ha2, hb3] at this
  exact this

theorem configure_ready (s : CUInterpolator) (hwf : s.WellFormed) (n : Nat)
    (src : List SUConfigurationTableEntry) (hlen : src.length = n)
    (hmin : if s.isCSpline = true then 3 ≤ n else 2 ≤ n)
    (hmod : 2 * n ≤ UNativeInt_MOD)
    (hdist : (src.map fun e => e.fIndependentValue).Nodup) :
    ∃ s', s.configure n (some src) = (Status.ok, s') ∧ s'.Ready ∧ s'.WellFormed ∧
      s'.m_uLastEntry < s'.m_uEntries ∧ s'.m_uEntries = n ∧
      s'.isCSpline = s.isCSpline ∧ s'.m_bNaturalSpline = s.m_bNaturalSpline ∧
      (s'.m_paTable.take n).Perm src := by
  have hv : s.tableSizeIsValid n = true := by
    unfold CUInterpolator.tableSizeIsValid
    split <;> simp_all
  have h2 : 2 ≤ n := tableSizeIsValid_ge_two hv
  have htake : src.take n = src := by rw [← hlen]; exact List.take_length src
  obtain ⟨s', hcfg, hn, hwf', hsp, hfl, hasc, hperm, hstep, hcur⟩ :=
    configure_distinct s hwf n src hv (by unfold UNativeInt_MOD at *; omega) (by omega)
      (by rw [htake]; exact hdist)
  have hwf'' := hwf'
  obtain ⟨hw1, hw2, hw3, hw4⟩ := hwf'
  refine ⟨s', hcfg, ⟨by omega, by omega, by omega, by rw [hn]; exact hasc, hstep, ?_⟩, hwf'',
    by rw [hcur, hn]; omega, hn, hsp, hfl, by rw [htake] at hperm; exact hperm⟩
  intro hcs
  have := hw4 hcs
  omega

/-- C11 (linear evaluation equals its reference definition).  For a linear
evaluator holding a strictly ascending table of `n ≥ 2` rows (`Ready`), with the
cursor at any table index, and every `x`: `interpolate(x)` is
`y[0] - (x[0]-x)*dydx_low` when `x ≤ x[0]`, `y[n-1] + (x-x[n-1])*dydx_high` when
`x ≥ x[n-1]`, and otherwise the reference linear piece on the unique interval
`L` with `x[L] ≤ x < x[L+1]`. -/
theorem linear_evaluation_reference (s : CUInterpolator) (hr : s.Ready)
    (hlin : s.isCSpline = false) (hc : s.m_uLastEntry < s.m_uEntries) (x : FloatDP) :
    (x ≤ rowX s.m_paTable 0 →
      s.evaluate x = some (rowY s.m_paTable 0 - (rowX s.m_paTable 0 - x) * s.m_fdydx_L)) ∧
    (x ≥ rowX s.m_paTable (s.m_uEntries - 1) →
      s.evaluate x = some (rowY s.m_paTable (s.m_uEntries - 1)
        + (x - rowX s.m_paTable (s.m_uEntries - 1)) * s.m_fdydx_H)) ∧
    (rowX s.m_paTable 0 < x → x < rowX s.m_paTable (s.m_uEntries - 1) →
      ∃ L, L + 1 < s.m_uEntries ∧ rowX s.m_paTable L ≤ x ∧ x < rowX s.m_paTable (L + 1) ∧
        (∀ L', L' + 1 < s.m_uEntries → rowX s.m_paTable L' ≤ x →
          x < rowX s.m_paTable (L' + 1) → L' = L) ∧
        s.evaluate x = some (refLinearPiece s.m_paTable L x)) := by
  obtain ⟨b1, b2, b3⟩ := interpolate_branches s hr hc x
  have hn2 : 2 ≤ s.m_uEntries := hr.1
  have hne : ¬ (s.isCSpline = true) := by rw [hlin]; simp
  refine ⟨?_, ?_, ?_⟩
  · intro h
    have hv := vDoExtrapolateLow_value _ (ready_set_cursor hr 0) x
    simp only [] at hv
    rw [if_neg hne] at hv
    unfold CUInterpolator.evaluate
    rw [b1 h, hv]
    rfl
  · intro h
    have h0 : rowX s.m_paTable 0 < x :=
      lt_of_lt_of_le (strictAsc_rowX hr.2.2.2.1 hr.2.1 (show 0 < s.m_uEntries - 1 by omega)
        (by omega)) h
    have hv := vDoExtrapolateHigh_value _ (ready_set_cursor hr (s.m_uEntries - 1)) x
    simp only [] at hv
    rw [if_neg hne] at hv
    unfold CUInterpolator.evaluate
    rw [b2 h0 h, hv]
    rfl
  · intro h1 h2
    obtain ⟨L, hL1, hL2, hL3, hL4⟩ := b3 h1 h2
    refine ⟨L, hL1, hL2, hL3, ?_, ?_⟩
    · intro L' g1 g2 g3
      exact interval_unique hr.2.2.2.1 hr.2.1 hL1 g1 hL2 hL3 g2 g3
    · have hv := vDoInterpolate_value _ (ready_set_cursor hr L) x L hL1
      simp only [] at hv
      rw [if_neg hne] at hv
      unfold CUInterpolator.evaluate
      rw [hL4, hv]
      rfl

theorem linear_evaluation_reference_witness :
    (CUInterpolator.new.configure 3 (some [⟨0, 0⟩, ⟨1, 1⟩, ⟨2, 4⟩])).2.Ready ∧
    (CUInterpolator.new.configure 3 (some [⟨0, 0⟩, ⟨1, 1⟩, ⟨2, 4⟩])).2.evaluate (-1)
      = some (rowY (CUInterpolator.new.configure 3
            (some [⟨0, 0⟩, ⟨1, 1⟩, ⟨2, 4⟩])).2.m_paTable 0
          - (rowX (CUInterpolator.new.configure 3
            (some [⟨0, 0⟩, ⟨1, 1⟩, ⟨2, 4⟩])).2.m_paTable 0 - (-1))
            * (CUInterpolator.new.configure 3
              (some [⟨0, 0⟩, ⟨1, 1⟩, ⟨2, 4⟩])).2.m_fdydx_L) ∧
    ∃ L, L + 1 < 3 ∧
      (CUInterpolator.new.configure 3 (some [⟨0, 0⟩, ⟨1, 1⟩, ⟨2, 4⟩])).2.evaluate (3 / 2)
        = some (refLinearPiece (CUInterpolator.new.configure 3
            (some [⟨0, 0⟩, ⟨1, 1⟩, ⟨2, 4⟩])).2.m_paTable L (3 / 2)) := by
  have hr : (CUInterpolator.new.configure 3 (some [⟨0, 0⟩, ⟨1, 1⟩, ⟨2, 4⟩])).2.Ready :=
    ⟨by decide!, by decide!, by decide!, strictAsc_of_pairwise _ _ (by decide!), by decide!,
      by decide!⟩
  obtain ⟨h1, -, h3⟩ := linear_evaluation_reference _ hr (by decide!) (by decide!) (-1)
  obtain ⟨-, -, g3⟩ := linear_evaluation_reference _ hr (by decide!) (by decide!) (3 / 2)
  obtain ⟨L, l1, -, -, -, l5⟩ := g3 (by decide!) (by decide!)
  exact ⟨hr, h1 (by decide!), L, l1, l5⟩

/-- C12 (cubic-spline evaluation equals its reference definition).  For a
cubic-spline evaluator holding a strictly ascending table of `n ≥ 3` rows
(`Ready`), with second-derivative table `d2y` and the cursor at any table index,
and every `x`: `interpolate(x)` is `y[0] - h*dydx_low - h^2*d2y[0]/2` with
`h = x[0]-x` when `x ≤ x[0]`, `y[n-1] + h*dydx_high + h^2*d2y[n-1]/2` with
`h = x-x[n-1]` when `x ≥ x[n-1]`, and otherwise the reference cubic piece on the
unique interval `L` with `x[L] ≤ x < x[L+1]`. -/
theorem cubic_evaluation_reference (s : CUInterpolator) (hr : s.Ready)
    (hcub : s.isCSpline = true) (hn3 : 3 ≤ s.m_uEntries)
    (hc : s.m_uLastEntry < s.m_uEntries) (x : FloatDP) :
    (x ≤ rowX s.m_paTable 0 →
      s.evaluate x = some (rowY s.m_paTable 0 - (rowX s.m_paTable 0 - x) * s.m_fdydx_L
        - (rowX s.m_paTable 0 - x) ^ 2 * d2At s 0 / 2)) ∧
    (x ≥ rowX s.m_paTable (s.m_uEntries - 1) →
      s.evaluate x = some (rowY s.m_paTable (s.m_uEntries - 1)
        + (x - rowX s.m_paTable (s.m_uEntries - 1)) * s.m_fdydx_H
        + (x - rowX s.m_paTable (s.m_uEntries - 1)) ^ 2 * d2At s (s.m_uEntries - 1) / 2)) ∧
    (rowX s.m_paTable 0 < x → x < rowX s.m_paTable (s.m_uEntries - 1) →
      ∃ L, L + 1 < s.m_uEntries ∧ rowX s.m_paTable L ≤ x ∧ x < rowX s.m_paTable (L + 1) ∧
        (∀ L', L' + 1 < s.m_uEntries → rowX s.m_paTable L' ≤ x →
          x < rowX s.m_paTable (L' + 1) → L' = L) ∧
        s.evaluate x = some (refCubicPiece s.m_paTable (d2At s) L x)) := by
  obtain ⟨b1, b2, b3⟩ := interpolate_branches s hr hc x
  have hd2 : ∀ c i, d2At { s with m_uLastEntry := c } i = d2At s i := fun _ _ => rfl
  refine ⟨?_, ?_, ?_⟩
  · intro h
    have hv := vDoExtrapolateLow_value _ (ready_set_cursor hr 0) x
    simp only [] at hv
    rw [if_pos hcub, hd2] at hv
    unfold CUInterpolator.evaluate
    rw [b1 h, hv]
    simp only [Option.map_some', Option.some.injEq]
    ring
  · intro h
    have h0 : rowX s.m_paTable 0 < x :=
      lt_of_lt_of_le (strictAsc_rowX hr.2.2.2.1 hr.2.1 (show 0 < s.m_uEntries - 1 by omega)
        (by omega)) h
    have hv := vDoExtrapolateHigh_value _ (ready_set_cursor hr (s.m_uEntries - 1)) x
    simp only [] at hv
    rw [if_pos hcub, hd2] at hv
    unfold CUInterpolator.evaluate
    rw [b2 h0 h, hv]
    simp only [Option.map_some', Option.some.injEq]
    ring
  · intro h1 h2
    obtain ⟨L, hL1, hL2, hL3, hL4⟩ := b3 h1 h2
    refine ⟨L, hL1, hL2, hL3, ?_, ?_⟩
    · intro L' g1 g2 g3
      exact interval_unique hr.2.2.2.1 hr.2.1 hL1 g1 hL2 hL3 g2 g3
    · have hv := vDoInterpolate_value _ (ready_set_cursor hr L) x L hL1
      simp only [] at hv
      rw [if_pos hcub] at hv
      unfold CUInterpolator.evaluate
      rw [hL4, hv]
      rfl

theorem cubic_evaluation_reference_witness :
    ((CUCSpline.new true).configure 4 (some [⟨0, 0⟩, ⟨1, 1⟩, ⟨2, 8⟩, ⟨3, 27⟩])).2.Ready ∧
    ((CUCSpline.new true).configure 4 (some [⟨0, 0⟩, ⟨1, 1⟩, ⟨2, 8⟩, ⟨3, 27⟩])).2.evaluate 4
      = some (rowY ((CUCSpline.new true).configure 4
            (some [⟨0, 0⟩, ⟨1, 1⟩, ⟨2, 8⟩, ⟨3, 27⟩])).2.m_paTable (4 - 1)
          + (4 - rowX ((CUCSpline.new true).configure 4
            (some [⟨0, 0⟩, ⟨1, 1⟩, ⟨2, 8⟩, ⟨3, 27⟩])).2.m_paTable (4 - 1))
            * ((CUCSpline.new true).configure 4
              (some [⟨0, 0⟩, ⟨1, 1⟩, ⟨2, 8⟩, ⟨3, 27⟩])).2.m_fdydx_H
          + (4 - rowX ((CUCSpline.new true).configure 4
            (some [⟨0, 0⟩, ⟨1, 1⟩, ⟨2, 8⟩, ⟨3, 27⟩])).2.m_paTable (4 - 1)) ^ 2
            * d2At ((CUCSpline.new true).configure 4
              (some [⟨0, 0⟩, ⟨1, 1⟩, ⟨2, 8⟩, ⟨3, 27⟩])).2 (4 - 1) / 2) ∧
    ∃ L, L + 1 < 4 ∧
      ((CUCSpline.new true).configure 4
          (some [⟨0, 0⟩, ⟨1, 1⟩, ⟨2, 8⟩, ⟨3, 27⟩])).2.evaluate (3 / 2)
        = some (refCubicPiece ((CUCSpline.new true).configure 4
            (some [⟨0, 0⟩, ⟨1, 1⟩, ⟨2, 8⟩, ⟨3, 27⟩])).2.m_paTable
          (d2At ((CUCSpline.new true).configure 4
            (some [⟨0, 0⟩, ⟨1, 1⟩, ⟨2, 8⟩, ⟨3, 27⟩])).2) L (3 / 2)) := by
  have hr : ((CUCSpline.new true).configure 4
      (some [⟨0, 0⟩, ⟨1, 1⟩, ⟨2, 8⟩, ⟨3, 27⟩])).2.Ready :=
    ⟨by decide!, by decide!, by decide!, strictAsc_of_pairwise _ _ (by decide!), by decide!,
      by decide!⟩
  obtain ⟨-, h2, -⟩ := cubic_evaluation_reference _ hr (by decide!) (by decide!) (by decide!) 4
  obtain ⟨-, -, g3⟩ := cubic_evaluation_reference _ hr (by decide!) (by decide!) (by decide!)
    (3 / 2)
  obtain ⟨L, l1, -, -, -, l5⟩ := g3 (by decide!) (by decide!)
  exact ⟨hr, h2 (by decide!), L, l1, l5⟩

theorem bruteForceIndex_spec (s : CUInterpolator) (x : FloatDP) (L : Nat)
    (hL : L + 1 < s.m_uEntries) (h1 : rowX s.m_paTable L ≤ x)
    (h2 : x < rowX s.m_paTable (L + 1))
    (huniq : ∀ L', L' + 1 < s.m_uEntries → rowX s.m_paTable L' ≤ x →
      x < rowX s.m_paTable (L' + 1) → L' = L) :
    bruteForceIndex s x = some L := by
  unfold bruteForceIndex
  cases hf : (List.range (s.m_uEntries - 1)).find? fun L =>
      decide (rowX s.m_paTable L ≤ x ∧ x < rowX s.m_paTable (L + 1)) with
  | none =>
    rw [List.find?_eq_none] at hf
    have := hf L (List.mem_range.mpr (by omega))
    simp only [decide_eq_true_eq, not_and, not_lt] at this
    exact absurd h2 (not_lt.mpr (this h1))
  | some L' =>
    have hp := List.find?_some hf
    have hm := List.mem_of_find?_eq_some hf
    simp only [decide_eq_true_eq] at hp
    rw [List.mem_range] at hm
    rw [huniq L' (by omega) hp.1 hp.2]

/-- C15 (locality-search correctness).  For a strictly ascending table of
`n ≥ 2` rows (`Ready`), every cursor value in `0..n-1` and every `x` with
`x[0] < x < x[n-1]`, `mapTableIndex` returns an index `L` with
`x[L] ≤ x < x[L+1]`; that index is the only one with this property, it is the
index a brute-force linear scan returns, and `L ≤ n-2`, so `L+1 < n`. -/
theorem locality_search_correct (s : CUInterpolator) (hr : s.Ready)
    (hc : s.m_uLastEntry < s.m_uEntries) (x : FloatDP)
    (hlo : rowX s.m_paTable 0 < x) (hhi : x < rowX s.m_paTable (s.m_uEntries - 1)) :
    ∃ L, s.mapTableIndex x = some L ∧
      rowX s.m_paTable L ≤ x ∧ x < rowX s.m_paTable (L + 1) ∧
      (∀ L', L' + 1 < s.m_uEntries → rowX s.m_paTable L' ≤ x →
        x < rowX s.m_paTable (L' + 1) → L' = L) ∧
      bruteForceIndex s x = some L ∧ L ≤ s.m_uEntries - 2 ∧ L + 1 < s.m_uEntries := by
  obtain ⟨L, hm, hL, h1, h2⟩ := mapTableIndex_spec s hr x hc hlo hhi
  have hu : ∀ L', L' + 1 < s.m_uEntries → rowX s.m_paTable L' ≤ x →
      x < rowX s.m_paTable (L' + 1) → L' = L := fun L' g1 g2 g3 =>
    interval_unique hr.2.2.2.1 hr.2.1 hL g1 h1 h2 g2 g3
  exact ⟨L, hm, h1, h2, hu, bruteForceIndex_spec s x L hL h1 h2 hu, by omega, hL⟩

theorem locality_search_correct_witness :
    ∃ s : CUInterpolator, s.Ready ∧ s.m_uLastEntry < s.m_uEntries ∧
      rowX s.m_paTable 0 < 1 / 2 ∧ (1 / 2 : FloatDP) < rowX s.m_paTable (s.m_uEntries - 1) ∧
      ∃ L, s.mapTableIndex (1 / 2) = some L ∧
        rowX s.m_paTable L ≤ 1 / 2 ∧ (1 / 2 : FloatDP) < rowX s.m_paTable (L + 1) ∧
        (∀ L', L' + 1 < s.m_uEntries → rowX s.m_paTable L' ≤ 1 / 2 →
          (1 / 2 : FloatDP) < rowX s.m_paTable (L' + 1) → L' = L) ∧
        bruteForceIndex s (1 / 2) = some L ∧ L ≤ s.m_uEntries - 2 ∧ L + 1 < s.m_uEntries := by
  have hr : ({ CUInterpolator.new with
      m_uAllocatedEntries := 3, m_uEntries := 3, m_uLastEntry := 2,
      m_paTable := [⟨0, 0⟩, ⟨1, 1⟩, ⟨2, 4⟩] } : CUInterpolator).Ready :=
    ⟨by decide, by decide, by decide,
      strictAsc_of_pairwise 3 _ (by with_unfolding_all decide), rfl, by decide⟩
  exact ⟨_, hr, by decide, by with_unfolding_all decide, by with_unfolding_all decide,
    locality_search_correct _ hr (by decide) (1 / 2) (by with_unfolding_all decide)
      (by with_unfolding_all decide)⟩

theorem getD_set_self (l : List FloatDP) (i : Nat) (v : FloatDP) (h : i < l.length) :
    (l.set i v).getD i 0 = v := by
  simp [List.getD_eq_getElem?_getD, List.getElem?_set, h]

theorem getD_set_other (l : List FloatDP) (i j : Nat) (v : FloatDP) (h : i ≠ j) :
    (l.set i v).getD j 0 = l.getD j 0 := by
  simp [List.getD_eq_getElem?_getD, List.getElem?_set, h]

theorem bufRead_getD {buf : List FloatDP} {i : Nat} (hi : i < buf.length) :
    bufRead buf i = some (buf.getD i 0) := by
  simp [bufRead, List.getD_eq_getElem?_getD, hi]

theorem decompStep_eq (s : CUInterpolator) (ui : Nat) (st : List FloatDP × List FloatDP)
    (h1 : 1 ≤ ui) (h2 : ui + 1 < s.m_uEntries) (hlen : s.m_uEntries ≤ s.m_paTable.length)
    (hd : s.m_uEntries ≤ st.1.length) (hb : s.m_uEntries ≤ st.2.length) :
    decompStep s ui st = some
      (st.1.set ui (((rowX s.m_paTable ui - rowX s.m_paTable (ui - 1))
              / (rowX s.m_paTable (ui + 1) - rowX s.m_paTable (ui - 1)) - 1)
            / ((rowX s.m_paTable ui - rowX s.m_paTable (ui - 1))
              / (rowX s.m_paTable (ui + 1) - rowX s.m_paTable (ui - 1))
                * st.1.getD (ui - 1) 0 + 2)),
       st.2.set ui ((6 * ((rowY s.m_paTable (ui + 1) - rowY s.m_paTable ui)
                  / (rowX s.m_paTable (ui + 1) - rowX s.m_paTable ui)
                - (rowY s.m_paTable ui - rowY s.m_paTable (ui - 1))
                  / (rowX s.m_paTable ui - rowX s.m_paTable (ui - 1)))
              / (rowX s.m_paTable (ui + 1) - rowX s.m_paTable (ui - 1))
            - (rowX s.m_paTable ui - rowX s.m_paTable (ui - 1))
              / (rowX s.m_paTable (ui + 1) - rowX s.m_paTable (ui - 1)) * st.2.getD (ui - 1) 0)
            / ((rowX s.m_paTable ui - rowX s.m_paTable (ui - 1))
              / (rowX s.m_paTable (ui + 1) - rowX s.m_paTable (ui - 1))
                * st.1.getD (ui - 1) 0 + 2))) := by
  have hx0 := xval_eq_rowX (show ui - 1 < s.m_uEntries by omega) hlen
  have hx1 := xval_eq_rowX (show ui < s.m_uEntries by omega) hlen
  have hx2 := xval_eq_rowX h2 hlen
  have hy0 := yval_eq_rowY (show ui - 1 < s.m_uEntries by omega) hlen
  have hy1 := yval_eq_rowY (show ui < s.m_uEntries by omega) hlen
  have hy2 := yval_eq_rowY h2 hlen
  have r1 := bufRead_getD (show ui - 1 < st.1.length by omega)
  simp only [decompStep, hx0, hx1, hx2, hy0, hy1, hy2, r1, Option.bind_eq_bind,
    Option.some_bind, Option.pure_def]
  rw [bufWrite_of_lt _ (show ui < st.1.length by omega)]
  rw [bufWrite_of_lt _ (show ui < st.2.length by omega)]
  simp only [Option.some_bind]
  rw [bufRead_getD (show ui < (st.2.set ui _).length by simp; omega)]
  rw [bufRead_getD (show ui - 1 < (st.2.set ui _).length by simp; omega)]
  simp only [Option.some_bind]
  rw [bufWrite_of_lt _ (show ui < (st.2.set ui _).length by simp; omega)]
  rw [getD_set_self _ _ _ (by omega), getD_set_other _ _ _ _ (by omega), List.set_set]
  rfl

theorem backSubstStep_eq (pafBuffer : List FloatDP) (ui : Nat) (d2 : List FloatDP)
    (h1 : ui + 1 < d2.length) (h2 : ui < pafBuffer.length) :
    backSubstStep pafBuffer ui d2
      = some (d2.set ui (d2.getD ui 0 * d2.getD (ui + 1) 0 + pafBuffer.getD ui 0)) := by
  simp only [backSubstStep, bufRead_getD (show ui < d2.length by omega), bufRead_getD h1,
    bufRead_getD h2, Option.bind_eq_bind, Option.some_bind]
  rw [bufWrite_of_lt _ (show ui < d2.length by omega)]

theorem lowBoundary_eq (s : CUInterpolator) (h2 : 2 ≤ s.m_uEntries)
    (hlen : s.m_uEntries ≤ s.m_paTable.length) (hd : s.m_uEntries ≤ s.m_pafd2ydx2.length) :
    lowBoundary s (List.replicate s.tableEntries 0) = some
      (s.m_pafd2ydx2.set 0 (if s.m_bNaturalSpline then 0 else -(1 / 2)),
       (List.replicate s.m_uEntries (0 : FloatDP)).set 0 (if s.m_bNaturalSpline then 0
          else (3 / (rowX s.m_paTable 1 - rowX s.m_paTable 0))
            * ((rowY s.m_paTable 1 - rowY s.m_paTable 0)
                / (rowX s.m_paTable 1 - rowX s.m_paTable 0) - s.m_fdydx_L))) := by
  have hx0 := xval_eq_rowX (show 0 < s.m_uEntries by omega) hlen
  have hx1 := xval_eq_rowX (show 1 < s.m_uEntries by omega) hlen
  have hy0 := yval_eq_rowY (show 0 < s.m_uEntries by omega) hlen
  have hy1 := yval_eq_rowY (show 1 < s.m_uEntries by omega) hlen
  have hb : 0 < (List.replicate s.m_uEntries (0 : FloatDP)).length := by
    simp; omega
  unfold lowBoundary CUInterpolator.tableEntries
  by_cases hnat : s.m_bNaturalSpline = true
  · simp only [hnat, if_true, bufWrite_of_lt _ (show 0 < s.m_pafd2ydx2.length by omega),
      bufWrite_of_lt _ hb, Option.bind_eq_bind, Option.some_bind, Option.pure_def]
  · simp only [hnat, bufWrite_of_lt _ (show 0 < s.m_pafd2ydx2.length by omega),
      bufWrite_of_lt _ hb, hx0, hx1, hy0, hy1, Option.bind_eq_bind, Option.some_bind,
      Option.pure_def]
    rfl

theorem highBoundary_eq (s : CUInterpolator) (h2 : 2 ≤ s.m_uEntries)
    (hlen : s.m_uEntries ≤ s.m_paTable.length) (hmod : s.m_uEntries < UNativeInt_MOD) :
    highBoundary s = some
      ((if s.m_bNaturalSpline then 0 else 1 / 2),
       (if s.m_bNaturalSpline then 0
        else (3 / (rowX s.m_paTable (s.m_uEntries - 1) - rowX s.m_paTable (s.m_uEntries - 2)))
          * (s.m_fdydx_H - (rowY s.m_paTable (s.m_uEntries - 1)
              - rowY s.m_paTable (s.m_uEntries - 2))
            / (rowX s.m_paTable (s.m_uEntries - 1)
              - rowX s.m_paTable (s.m_uEntries - 2))))) := by
  have hH : s.highestTableIndex = s.m_uEntries - 1 := usub_one_of_pos (by omega) hmod
  have hH1 : usub (s.m_uEntries - 1) 1 = s.m_uEntries - 2 := by
    rw [usub_of_le (by omega) (by omega)]; omega
  have hxH := xval_eq_rowX (show s.m_uEntries - 1 < s.m_uEntries by omega) hlen
  have hxH1 := xval_eq_rowX (show s.m_uEntries - 2 < s.m_uEntries by omega) hlen
  have hyH := yval_eq_rowY (show s.m_uEntries - 1 < s.m_uEntries by omega) hlen
  have hyH1 := yval_eq_rowY (show s.m_uEntries - 2 < s.m_uEntries by omega) hlen
  unfold highBoundary
  by_cases hnat : s.m_bNaturalSpline = true
  · simp only [hnat, if_true]; rfl
  · simp only [hnat, hH, hH1, hxH, hxH1, hyH, hyH1, Option.bind_eq_bind, Option.some_bind,
      Option.pure_def]
    rfl

theorem deriveSecondDerivatives_spec (s : CUInterpolator) (h3 : 3 ≤ s.m_uEntries)
    (hlen : s.m_uEntries ≤ s.m_paTable.length) (hmod : s.m_uEntries < UNativeInt_MOD)
    (hd : s.m_uEntries ≤ s.m_pafd2ydx2.length) :
    ∃ d2, CUCSpline.deriveSecondDerivatives s = some { s with m_pafd2ydx2 := d2 } ∧
      d2.length = s.m_pafd2ydx2.length ∧ SplineSolved { s with m_pafd2ydx2 := d2 } := by
  have hH : s.highestTableIndex = s.m_uEntries - 1 := usub_one_of_pos (by omega) hmod
  have hH1 : usub (s.m_uEntries - 1) 1 = s.m_uEntries - 2 := by
    rw [usub_of_le (by omega) (by omega)]; omega
  obtain ⟨st0, hst0, q1, q2, q3, q4⟩ : ∃ st0,
      lowBoundary s (List.replicate s.tableEntries 0) = some st0 ∧
      st0.1.length = s.m_pafd2ydx2.length ∧ st0.2.length = s.m_uEntries ∧
      st0.1.getD 0 0 = (if s.m_bNaturalSpline then 0 else -(1 / 2)) ∧
      st0.2.getD 0 0 = (if s.m_bNaturalSpline then 0
          else (3 / (rowX s.m_paTable 1 - rowX s.m_paTable 0))
            * ((rowY s.m_paTable 1 - rowY s.m_paTable 0)
                / (rowX s.m_paTable 1 - rowX s.m_paTable 0) - s.m_fdydx_L)) :=
    ⟨_, lowBoundary_eq s (by omega) hlen hd, by simp, by simp,
      getD_set_self _ _ _ (by omega), getD_set_self _ _ _ (by simp; omega)⟩
  -- decomposition
  obtain ⟨st1, hst1, hl11, hl12, hc0, hb0, hrec⟩ := forLoop_inv (decompStep s)
    (fun j st => st.1.length = s.m_pafd2ydx2.length ∧ st.2.length = s.m_uEntries ∧
      st.1.getD 0 0 = (if s.m_bNaturalSpline then 0 else -(1 / 2)) ∧
      st.2.getD 0 0 = (if s.m_bNaturalSpline then 0
          else (3 / (rowX s.m_paTable 1 - rowX s.m_paTable 0))
            * ((rowY s.m_paTable 1 - rowY s.m_paTable 0)
                / (rowX s.m_paTable 1 - rowX s.m_paTable 0) - s.m_fdydx_L)) ∧
      ∀ i, 1 ≤ i → i < j →
        st.1.getD i 0 = ((rowX s.m_paTable i - rowX s.m_paTable (i - 1))
              / (rowX s.m_paTable (i + 1) - rowX s.m_paTable (i - 1)) - 1)
            / ((rowX s.m_paTable i - rowX s.m_paTable (i - 1))
              / (rowX s.m_paTable (i + 1) - rowX s.m_paTable (i - 1))
                * st.1.getD (i - 1) 0 + 2) ∧
        st.2.getD i 0 = (6 * ((rowY s.m_paTable (i + 1) - rowY s.m_paTable i)
                  / (rowX s.m_paTable (i + 1) - rowX s.m_paTable i)
                - (rowY s.m_paTable i - rowY s.m_paTable (i - 1))
                  / (rowX s.m_paTable i - rowX s.m_paTable (i - 1)))
              / (rowX s.m_paTable (i + 1) - rowX s.m_paTable (i - 1))
            - (rowX s.m_paTable i - rowX s.m_paTable (i - 1))
              / (rowX s.m_paTable (i + 1) - rowX s.m_paTable (i - 1)) * st.2.getD (i - 1) 0)
            / ((rowX s.m_paTable i - rowX s.m_paTable (i - 1))
              / (rowX s.m_paTable (i + 1) - rowX s.m_paTable (i - 1))
                * st.1.getD (i - 1) 0 + 2))
    (s.m_uEntries - 1 - 1) 1 st0
    ⟨q1, q2, q3, q4, fun i h1 h2 => by omega⟩
    (fun j st hj1 hj2 hp => by
      obtain ⟨p1, p2, p3, p4, p5⟩ := hp
      refine ⟨_, decompStep_eq s j st hj1 (by omega) hlen (by omega) (by omega), ?_⟩
      refine ⟨by simp [p1], by simp [p2], ?_, ?_, ?_⟩
      · simp only []; rw [getD_set_other _ _ _ _ (by omega)]; exact p3
      · simp only []; rw [getD_set_other _ _ _ _ (by omega)]; exact p4
      · intro i hi1 hi2
        simp only []
        by_cases hij : i = j
        · subst hij
          rw [getD_set_self _ _ _ (by omega), getD_set_self _ _ _ (by omega),
            getD_set_other _ _ _ _ (by omega), getD_set_other _ _ _ _ (by omega)]
          exact ⟨rfl, rfl⟩
        · rw [getD_set_other _ _ _ _ (fun h => hij h.symm),
            getD_set_other _ _ _ _ (fun h => hij h.symm),
            getD_set_other _ _ _ _ (by omega), getD_set_other _ _ _ _ (by omega)]
          exact p5 i hi1 (by omega))
  have hq := highBoundary_eq s (by omega) hlen hmod
  have hbH1 := bufRead_getD (show s.m_uEntries - 2 < st1.2.length by omega)
  have hdH1 := bufRead_getD (show s.m_uEntries - 2 < st1.1.length by omega)
  obtain ⟨d2, hd2, hl2, hlast, hlow, hback⟩ := forDown_inv (backSubstStep st1.2)
    (fun j d => d.length = s.m_pafd2ydx2.length ∧
      d.getD (s.m_uEntries - 1) 0 =
        ((if s.m_bNaturalSpline then 0
          else (3 / (rowX s.m_paTable (s.m_uEntries - 1) - rowX s.m_paTable (s.m_uEntries - 2)))
            * (s.m_fdydx_H - (rowY s.m_paTable (s.m_uEntries - 1)
                - rowY s.m_paTable (s.m_uEntries - 2))
              / (rowX s.m_paTable (s.m_uEntries - 1) - rowX s.m_paTable (s.m_uEntries - 2))))
          - (if s.m_bNaturalSpline then 0 else 1 / 2) * st1.2.getD (s.m_uEntries - 2) 0)
        / ((if s.m_bNaturalSpline then 0 else 1 / 2) * st1.1.getD (s.m_uEntries - 2) 0 + 1) ∧
      (∀ i, i < j → d.getD i 0 = st1.1.getD i 0) ∧
      ∀ i, j ≤ i → i + 1 < s.m_uEntries →
        d.getD i 0 = st1.1.getD i 0 * d.getD (i + 1) 0 + st1.2.getD i 0)
    (s.m_uEntries - 1) (st1.1.set (s.m_uEntries - 1) _)
    ⟨by simp [hl11], getD_set_self _ _ _ (by omega),
      fun i hi => getD_set_other _ _ _ _ (by omega), fun i h1 h2 => by omega⟩
    (fun j d hj hp => by
      obtain ⟨p1, p2, p3, p4⟩ := hp
      refine ⟨_, backSubstStep_eq st1.2 j d (by omega) (by omega), ?_⟩
      refine ⟨by simp [p1], ?_, ?_, ?_⟩
      · rw [getD_set_other _ _ _ _ (by omega)]; exact p2
      · intro i hi
        rw [getD_set_other _ _ _ _ (by omega)]; exact p3 i (by omega)
      · intro i hi1 hi2
        by_cases hij : i = j
        · subst hij
          rw [getD_set_self _ _ _ (by omega), getD_set_other _ _ _ _ (by omega),
            p3 i (by omega)]
        · rw [getD_set_other _ _ _ _ (fun h => hij h.symm),
            getD_set_other _ _ _ _ (by omega)]
          exact p4 i (by omega) hi2)
  refine ⟨d2, ?_, hl2, ?_⟩
  · unfold CUCSpline.deriveSecondDerivatives
    have e1 : s.m_uEntries - 1 - 1 = s.m_uEntries - 2 := by omega
    rw [e1] at hst1
    simp only [hst0, hH, hq, hH1, Option.bind_eq_bind, Option.some_bind, Option.pure_def]
    have e2 : s.m_uEntries - 1 - 1 = s.m_uEntries - 2 := by omega
    simp only [e2, hst1, Option.some_bind, hbH1, hdH1]
    rw [bufWrite_of_lt _ (show s.m_uEntries - 1 < st1.1.length by omega)]
    simp only [Option.some_bind, hd2]
  · refine ⟨fun i => st1.1.getD i 0, fun i => st1.2.getD i 0, hc0, hb0, ?_, hlast, ?_⟩
    · intro i hi1 hi2
      have hi3 : i + 1 < s.m_uEntries := hi2
      have e1 : 1 + (s.m_uEntries - 1 - 1) = s.m_uEntries - 1 := by omega
      exact hrec i hi1 (by rw [e1]; omega)
    · intro i hi
      have hi3 : i + 1 < s.m_uEntries := hi
      exact hback i (by omega) hi3

theorem tridiag_algebra (h H Mp Mi Mn cp bp ci bi D : FloatDP) (hH : H ≠ 0)
    (hp : h / H * cp + 2 ≠ 0) (e1 : Mp = cp * Mi + bp) (e2 : Mi = ci * Mn + bi)
    (e3 : ci = (h / H - 1) / (h / H * cp + 2))
    (e4 : bi = (6 * D / H - h / H * bp) / (h / H * cp + 2)) :
    h * Mp + 2 * H * Mi + (H - h) * Mn = 6 * D := by
  have key : (h / H * cp + 2) * Mi = (h / H - 1) * Mn + (6 * D / H - h / H * bp) := by
    rw [e2, e3, e4]
    generalize h / H * cp + 2 = p at hp
    field_simp
    ring
  have hh : h = H * (h / H) := by field_simp
  have : h * Mp + 2 * H * Mi + (H - h) * Mn
      = H * ((h / H * cp + 2) * Mi + h / H * bp + (1 - h / H) * Mn) := by
    rw [e1]
    field_simp
    ring
  rw [this, key]
  field_simp
  ring

theorem splineSolved_coeff_bound (s : CUInterpolator) (hn : s.m_uEntries ≤ s.m_paTable.length)
    (hs : StrictAsc s.m_uEntries s.m_paTable) (c : Nat → FloatDP)
    (hc0 : c 0 = (if s.m_bNaturalSpline then 0 else -(1 / 2)))
    (hrec : ∀ i, 1 ≤ i → i + 1 < s.m_uEntries →
      c i = ((rowX s.m_paTable i - rowX s.m_paTable (i - 1))
              / (rowX s.m_paTable (i + 1) - rowX s.m_paTable (i - 1)) - 1)
            / ((rowX s.m_paTable i - rowX s.m_paTable (i - 1))
              / (rowX s.m_paTable (i + 1) - rowX s.m_paTable (i - 1)) * c (i - 1) + 2)) :
    ∀ i, i + 1 < s.m_uEntries → -1 ≤ c i ∧ c i ≤ 0 := by
  intro i
  induction i with
  | zero =>
    intro _
    rw [hc0]
    split <;> constructor <;> norm_num
  | succ k ih =>
    intro hk
    obtain ⟨l1, l2⟩ := ih (by omega)
    have hx1 := strictAsc_rowX hs hn (show k < k + 1 by omega) (show k + 1 < s.m_uEntries by omega)
    have hx2 := strictAsc_rowX hs hn (show k + 1 < k + 1 + 1 by omega) hk
    have e := hrec (k + 1) (by omega) hk
    simp only [Nat.add_sub_cancel] at e
    have hH : 0 < rowX s.m_paTable (k + 1 + 1) - rowX s.m_paTable k := by linarith
    have hsig0 : 0 < (rowX s.m_paTable (k + 1) - rowX s.m_paTable k)
        / (rowX s.m_paTable (k + 1 + 1) - rowX s.m_paTable k) :=
      div_pos (by linarith) hH
    have hsig1 : (rowX s.m_paTable (k + 1) - rowX s.m_paTable k)
        / (rowX s.m_paTable (k + 1 + 1) - rowX s.m_paTable k) < 1 := by
      rw [div_lt_one hH]; linarith
    have hp : 1 < (rowX s.m_paTable (k + 1) - rowX s.m_paTable k)
        / (rowX s.m_paTable (k + 1 + 1) - rowX s.m_paTable k) * c k + 2 := by
      nlinarith
    rw [e]
    constructor
    · rw [le_div_iff₀ (by linarith)]; nlinarith
    · exact div_nonpos_of_nonpos_of_nonneg (by linarith) (by linarith)

theorem splineSolved_tridiagonal (s : CUInterpolator) (hn : s.m_uEntries ≤ s.m_paTable.length)
    (hs : StrictAsc s.m_uEntries s.m_paTable) (hsol : SplineSolved s) (i : Nat) (hi1 : 1 ≤ i)
    (hi2 : i + 1 < s.m_uEntries) :
    (rowX s.m_paTable i - rowX s.m_paTable (i - 1)) * d2At s (i - 1)
      + 2 * (rowX s.m_paTable (i + 1) - rowX s.m_paTable (i - 1)) * d2At s i
      + (rowX s.m_paTable (i + 1) - rowX s.m_paTable i) * d2At s (i + 1)
    = 6 * ((rowY s.m_paTable (i + 1) - rowY s.m_paTable i)
            / (rowX s.m_paTable (i + 1) - rowX s.m_paTable i)
          - (rowY s.m_paTable i - rowY s.m_paTable (i - 1))
            / (rowX s.m_paTable i - rowX s.m_paTable (i - 1))) := by
  obtain ⟨c, b, hc0, -, hrec, -, hback⟩ := hsol
  have hbound := splineSolved_coeff_bound s hn hs c hc0 (fun j h1 h2 => (hrec j h1 h2).1)
  obtain ⟨l1, l2⟩ := hbound (i - 1) (by omega)
  have hx1 := strictAsc_rowX hs hn (show i - 1 < i by omega) (show i < s.m_uEntries by omega)
  have hx2 := strictAsc_rowX hs hn (show i < i + 1 by omega) hi2
  have hH : 0 < rowX s.m_paTable (i + 1) - rowX s.m_paTable (i - 1) := by linarith
  have hsig0 : 0 < (rowX s.m_paTable i - rowX s.m_paTable (i - 1))
      / (rowX s.m_paTable (i + 1) - rowX s.m_paTable (i - 1)) := div_pos (by linarith) hH
  have hsig1 : (rowX s.m_paTable i - rowX s.m_paTable (i - 1))
      / (rowX s.m_paTable (i + 1) - rowX s.m_paTable (i - 1)) < 1 := by
    rw [div_lt_one hH]; linarith
  have hp : 1 < (rowX s.m_paTable i - rowX s.m_paTable (i - 1))
      / (rowX s.m_paTable (i + 1) - rowX s.m_paTable (i - 1)) * c (i - 1) + 2 := by
    nlinarith
  have e1 := hback (i - 1) (by omega)
  have e2 := hback i hi2
  have hi : i - 1 + 1 = i := by omega
  rw [hi] at e1
  obtain ⟨e3, e4⟩ := hrec i hi1 hi2
  have := tridiag_algebra _ _ _ _ (d2At s (i + 1)) _ _ _ _ _ (ne_of_gt hH) (by linarith)
    e1 e2 e3 e4
  rw [← this]
  ring

theorem splineSolved_natural (s : CUInterpolator) (h2 : 2 ≤ s.m_uEntries)
    (hnat : s.m_bNaturalSpline = true) (hsol : SplineSolved s) :
    d2At s 0 = 0 ∧ d2At s (s.m_uEntries - 1) = 0 := by
  obtain ⟨c, b, hc0, hb0, -, hlast, hback⟩ := hsol
  rw [hnat] at hc0 hb0 hlast
  simp only [if_true] at hc0 hb0 hlast
  refine ⟨?_, ?_⟩
  · rw [hback 0 (by omega), hc0, hb0]; ring
  · rw [hlast]; norm_num

theorem finishConfigure_spec (s : CUInterpolator)
    (hv : s.tableSizeIsValid s.m_uEntries = true)
    (hlen : s.m_uEntries ≤ s.m_paTable.length) (hmod : s.m_uEntries < UNativeInt_MOD)
    (hd : s.isCSpline = true → s.m_uEntries ≤ s.m_pafd2ydx2.length) :
    ∃ s', s.finishConfigure = some s' ∧ s'.m_paTable = s.m_paTable ∧
      s'.m_uEntries = s.m_uEntries ∧ s'.isCSpline = s.isCSpline ∧
      s'.m_bNaturalSpline = s.m_bNaturalSpline ∧
      s'.m_uAllocatedEntries = s.m_uAllocatedEntries ∧
      s'.m_uAllocatedEntries_CSpline = s.m_uAllocatedEntries_CSpline ∧
      s'.m_pafd2ydx2.length = s.m_pafd2ydx2.length ∧ s'.m_fXStep = 0 ∧
      s'.m_uLastEntry = (s.m_uEntries - 1) / 2 ∧
      s'.m_fdydx_L = (rowY s.m_paTable 1 - rowY s.m_paTable 0)
        / (rowX s.m_paTable 1 - rowX s.m_paTable 0) ∧
      s'.m_fdydx_H = (rowY s.m_paTable (s.m_uEntries - 1) - rowY s.m_paTable (s.m_uEntries - 2))
        / (rowX s.m_paTable (s.m_uEntries - 1) - rowX s.m_paTable (s.m_uEntries - 2)) ∧
      (s.isCSpline = true → SplineSolved s') ∧
      (s.isCSpline = false → s'.m_pafd2ydx2 = s.m_pafd2ydx2) := by
  have h2 : 2 ≤ s.m_uEntries := tableSizeIsValid_ge_two hv
  have hu1 : usub s.m_uEntries 1 = s.m_uEntries - 1 := usub_one_of_pos (by omega) hmod
  have hu2 : usub (s.m_uEntries - 1) 1 = s.m_uEntries - 2 := by
    rw [usub_of_le (by omega) (by omega)]; omega
  have hx0 := xval_eq_rowX (show 0 < s.m_uEntries by omega) hlen
  have hx1 := xval_eq_rowX (show 1 < s.m_uEntries by omega) hlen
  have hy0 := yval_eq_rowY (show 0 < s.m_uEntries by omega) hlen
  have hy1 := yval_eq_rowY (show 1 < s.m_uEntries by omega) hlen
  have hxH := xval_eq_rowX (show s.m_uEntries - 1 < s.m_uEntries by omega) hlen
  have hxH1 := xval_eq_rowX (show s.m_uEntries - 2 < s.m_uEntries by omega) hlen
  have hyH := yval_eq_rowY (show s.m_uEntries - 1 < s.m_uEntries by omega) hlen
  have hyH1 := yval_eq_rowY (show s.m_uEntries - 2 < s.m_uEntries by omega) hlen
  unfold CUInterpolator.xval at hx0 hx1 hxH hxH1
  unfold CUInterpolator.yval at hy0 hy1 hyH hyH1
  have hfin : ∃ d2, d2.length = s.m_pafd2ydx2.length ∧
      CUInterpolator.deriveConfiguration { s with
        m_fXStep := 0
        m_fdydx_L := (rowY s.m_paTable 1 - rowY s.m_paTable 0)
          / (rowX s.m_paTable 1 - rowX s.m_paTable 0)
        m_fdydx_H := (rowY s.m_paTable (s.m_uEntries - 1) - rowY s.m_paTable (s.m_uEntries - 2))
          / (rowX s.m_paTable (s.m_uEntries - 1) - rowX s.m_paTable (s.m_uEntries - 2)) }
      = some { s with
        m_fXStep := 0
        m_fdydx_L := (rowY s.m_paTable 1 - rowY s.m_paTable 0)
          / (rowX s.m_paTable 1 - rowX s.m_paTable 0)
        m_fdydx_H := (rowY s.m_paTable (s.m_uEntries - 1) - rowY s.m_paTable (s.m_uEntries - 2))
          / (rowX s.m_paTable (s.m_uEntries - 1) - rowX s.m_paTable (s.m_uEntries - 2))
        m_pafd2ydx2 := d2 } ∧
      (s.isCSpline = true → SplineSolved { s with
        m_fXStep := 0
        m_fdydx_L := (rowY s.m_paTable 1 - rowY s.m_paTable 0)
          / (rowX s.m_paTable 1 - rowX s.m_paTable 0)
        m_fdydx_H := (rowY s.m_paTable (s.m_uEntries - 1) - rowY s.m_paTable (s.m_uEntries - 2))
          / (rowX s.m_paTable (s.m_uEntries - 1) - rowX s.m_paTable (s.m_uEntries - 2))
        m_pafd2ydx2 := d2 }) ∧
      (s.isCSpline = false → d2 = s.m_pafd2ydx2) := by
    by_cases hc : s.isCSpline = true
    · have h3 : 3 ≤ s.m_uEntries := by
        unfold CUInterpolator.tableSizeIsValid at hv
        simp [hc] at hv; exact hv
      obtain ⟨d2, hder, hdl, hsol⟩ := deriveSecondDerivatives_spec
        { s with
          m_fXStep := 0
          m_fdydx_L := (rowY s.m_paTable 1 - rowY s.m_paTable 0)
            / (rowX s.m_paTable 1 - rowX s.m_paTable 0)
          m_fdydx_H := (rowY s.m_paTable (s.m_uEntries - 1)
              - rowY s.m_paTable (s.m_uEntries - 2))
            / (rowX s.m_paTable (s.m_uEntries - 1) - rowX s.m_paTable (s.m_uEntries - 2)) }
        h3 hlen hmod (hd hc)
      refine ⟨d2, hdl, ?_, fun _ => hsol, fun h => ?_⟩
      · unfold CUInterpolator.deriveConfiguration CUCSpline.deriveConfiguration
        rw [if_pos hc]
        exact hder
      · rw [hc] at h; exact absurd h (by simp)
    · refine ⟨s.m_pafd2ydx2, rfl, ?_, fun h => absurd h hc, fun _ => rfl⟩
      unfold CUInterpolator.deriveConfiguration
      rw [if_neg hc]
  obtain ⟨d2, hdl, hder, hsol, hlin⟩ := hfin
  refine ⟨{ s with
        m_fXStep := 0
        m_fdydx_L := (rowY s.m_paTable 1 - rowY s.m_paTable 0)
          / (rowX s.m_paTable 1 - rowX s.m_paTable 0)
        m_fdydx_H := (rowY s.m_paTable (s.m_uEntries - 1) - rowY s.m_paTable (s.m_uEntries - 2))
          / (rowX s.m_paTable (s.m_uEntries - 1) - rowX s.m_paTable (s.m_uEntries - 2))
        m_pafd2ydx2 := d2
        m_uLastEntry := (s.m_uEntries - 1) / 2 }, ?_, rfl, rfl, rfl, rfl, rfl, rfl, hdl, rfl,
        rfl, rfl, rfl, fun hc => hsol hc, hlin⟩
  unfold CUInterpolator.finishConfigure
  simp only [CUInterpolator.lowestTableIndex, CUInterpolator.highestTableIndex,
    CUInterpolator.xval, CUInterpolator.yval, Nat.zero_add, hu1, hu2, hx0, hx1, hxH, hxH1,
    hy0, hy1, hyH, hyH1, Option.bind_eq_bind, Option.some_bind, hder, Option.pure_def]

theorem configure_of_fillTable (s : CUInterpolator) (n : Nat)
    (src : List SUConfigurationTableEntry) (hv : s.tableSizeIsValid n = true)
    (ha : (s.allocateTable n).1 = true) (s2 : CUInterpolator)
    (hfill : (s.allocateTable n).2.fillTable src = some s2)
    (hv2 : s2.tableSizeIsValid s2.m_uEntries = true) (s3 : CUInterpolator)
    (hfin : s2.finishConfigure = some s3) :
    s.configure n (some src) = (Status.ok, s3) := by
  have h2 : 2 ≤ n := tableSizeIsValid_ge_two hv
  unfold CUInterpolator.configure
  rw [if_neg (by simp), if_neg (by simp [hv])]
  simp only [ha, Option.getD_some, hfill, hv2, hfin]
  simp

theorem configure_ready_solved (s : CUInterpolator) (hwf : s.WellFormed) (n : Nat)
    (src : List SUConfigurationTableEntry) (hlen : src.length = n)
    (hmin : if s.isCSpline = true then 3 ≤ n else 2 ≤ n)
    (hmod : 2 * n ≤ UNativeInt_MOD)
    (hdist : (src.map fun e => e.fIndependentValue).Nodup) :
    ∃ s', s.configure n (some src) = (Status.ok, s') ∧ s'.Ready ∧ s'.WellFormed ∧
      s'.m_uLastEntry = (n - 1) / 2 ∧ s'.m_uEntries = n ∧
      s'.isCSpline = s.isCSpline ∧ s'.m_bNaturalSpline = s.m_bNaturalSpline ∧
      (s'.m_paTable.take n).Perm src ∧
      s'.m_fdydx_L = (rowY s'.m_paTable 1 - rowY s'.m_paTable 0)
        / (rowX s'.m_paTable 1 - rowX s'.m_paTable 0) ∧
      s'.m_fdydx_H = (rowY s'.m_paTable (n - 1) - rowY s'.m_paTable (n - 2))
        / (rowX s'.m_paTable (n - 1) - rowX s'.m_paTable (n - 2)) ∧
      (s.isCSpline = true → SplineSolved s') ∧
      (s.isCSpline = false → s'.m_pafd2ydx2 = (s.allocateTable n).2.m_pafd2ydx2) := by
  obtain ⟨s', hcfg, hr, hwf', hcur, hn, hcs, hfl, hperm⟩ :=
    configure_ready s hwf n src hlen hmin hmod hdist
  have hv : s.tableSizeIsValid n = true := by
    unfold CUInterpolator.tableSizeIsValid
    split <;> simp_all
  have h2 : 2 ≤ n := tableSizeIsValid_ge_two hv
  have hmod' : n < UNativeInt_MOD := by omega
  have htake : src.take n = src := by rw [← hlen]; exact List.take_length src
  obtain ⟨ha1, ha2, ha3, ha4, ha5⟩ := allocateTable_pos s n hwf (by omega) hmod'
  obtain ⟨hw1, hw2, hw3, hw4⟩ := ha3
  obtain ⟨t, hfill, htl, hstrict, -⟩ := fillTable_distinct (s.allocateTable n).2 src
    (by omega) (by omega) (by omega) (by omega) (by rw [ha2, htake]; exact hdist)
  have hv2 : CUInterpolator.tableSizeIsValid { (s.allocateTable n).2 with m_paTable := t }
      (s.allocateTable n).2.m_uEntries = true := by
    rw [tableSizeIsValid_congr s { (s.allocateTable n).2 with m_paTable := t } ha4, ha2]
    exact hv
  obtain ⟨s3, hfin, f1, f2, f3, f4, f5, f6, f7, f8, f9, f10, f11, f12, f13⟩ :=
    finishConfigure_spec { (s.allocateTable n).2 with m_paTable := t } hv2
      (by simp only []; omega) (by simp only []; omega)
      (fun hc => by
        have := (hw4 hc).2
        simp only []; omega)
  have hcfg3 := configure_of_fillTable s n src hv ha1 _ hfill hv2 s3 hfin
  have heq : s' = s3 := by
    rw [hcfg] at hcfg3
    exact (Prod.mk.inj hcfg3).2
  subst heq
  simp only [] at f1 f2 f3 f9 f10 f11 f12 f13
  refine ⟨s', hcfg, hr, hwf', by rw [f9, ha2], hn, hcs, hfl, hperm, ?_, ?_, ?_, ?_⟩
  · rw [f10, f1]
  · rw [f11, f1, ha2]
  · intro hc
    exact f12 (by rw [ha4]; exact hc)
  · intro hc
    exact f13 (by rw [ha4]; exact hc)

theorem evaluate_low (s : CUInterpolator) (hr : s.Ready) (hc : s.m_uLastEntry < s.m_uEntries)
    (x : FloatDP) (h : x ≤ rowX s.m_paTable 0) :
    s.evaluate x = some (if s.isCSpline = true
      then rowY s.m_paTable 0 - (rowX s.m_paTable 0 - x) * s.m_fdydx_L
        - 1 / 2 * (rowX s.m_paTable 0 - x) * (rowX s.m_paTable 0 - x) * d2At s 0
      else rowY s.m_paTable 0 - (rowX s.m_paTable 0 - x) * s.m_fdydx_L) := by
  obtain ⟨b1, -, -⟩ := interpolate_branches s hr hc x
  have hv := vDoExtrapolateLow_value _ (ready_set_cursor hr 0) x
  unfold CUInterpolator.evaluate
  rw [b1 h, hv]
  rfl

theorem evaluate_high (s : CUInterpolator) (hr : s.Ready) (hc : s.m_uLastEntry < s.m_uEntries)
    (x : FloatDP) (h : rowX s.m_paTable (s.m_uEntries - 1) ≤ x) :
    s.evaluate x = some (if s.isCSpline = true
      then rowY s.m_paTable (s.m_uEntries - 1)
        + (x - rowX s.m_paTable (s.m_uEntries - 1)) * s.m_fdydx_H
        + 1 / 2 * (x - rowX s.m_paTable (s.m_uEntries - 1))
          * (x - rowX s.m_paTable (s.m_uEntries - 1)) * d2At s (s.m_uEntries - 1)
      else rowY s.m_paTable (s.m_uEntries - 1)
        + (x - rowX s.m_paTable (s.m_uEntries - 1)) * s.m_fdydx_H) := by
  obtain ⟨-, b2, -⟩ := interpolate_branches s hr hc x
  have hn2 : 2 ≤ s.m_uEntries := hr.1
  have h0 : rowX s.m_paTable 0 < x :=
    lt_of_lt_of_le (strictAsc_rowX hr.2.2.2.1 hr.2.1 (show 0 < s.m_uEntries - 1 by omega)
      (by omega)) h
  have hv := vDoExtrapolateHigh_value _ (ready_set_cursor hr (s.m_uEntries - 1)) x
  unfold CUInterpolator.evaluate
  rw [b2 h0 h, hv]
  rfl

/-- C13 (natural-spline property).  A well-formed spline evaluator with
`m_bNaturalSpline = true`, configured from `n ≥ 3` rows with pairwise distinct
`x`, holds a strictly ascending table whose derived second derivatives at index
`0` and index `n-1` are exactly `0`; hence `evaluate(x) = y[0] - (x[0]-x)*dydx_low`
for every `x ≤ x[0]` and `evaluate(x) = y[n-1] + (x-x[n-1])*dydx_high` for every
`x ≥ x[n-1]`. -/
theorem natural_spline_affine_extrapolation (s : CUInterpolator) (hwf : s.WellFormed)
    (hsp : s.isCSpline = true) (hnat : s.m_bNaturalSpline = true) (n : Nat)
    (src : List SUConfigurationTableEntry) (hlen : src.length = n) (h3 : 3 ≤ n)
    (hmod : 2 * n ≤ UNativeInt_MOD)
    (hdist : (src.map fun e => e.fIndependentValue).Nodup) :
    ∃ s', s.configure n (some src) = (Status.ok, s') ∧ s'.m_uEntries = n ∧
      StrictAsc n s'.m_paTable ∧ (s'.m_paTable.take n).Perm src ∧
      d2At s' 0 = 0 ∧ d2At s' (n - 1) = 0 ∧
      (∀ x, x ≤ rowX s'.m_paTable 0 →
        s'.evaluate x = some (rowY s'.m_paTable 0 - (rowX s'.m_paTable 0 - x) * s'.m_fdydx_L)) ∧
      (∀ x, x ≥ rowX s'.m_paTable (n - 1) →
        s'.evaluate x = some (rowY s'.m_paTable (n - 1)
          + (x - rowX s'.m_paTable (n - 1)) * s'.m_fdydx_H)) := by
  obtain ⟨s', hcfg, hr, -, hcur, hn, hcs, hfl, hperm, -, -, hsol, -⟩ :=
    configure_ready_solved s hwf n src hlen (by rw [if_pos hsp]; exact h3) hmod hdist
  have hcs' : s'.isCSpline = true := by rw [hcs]; exact hsp
  have hc : s'.m_uLastEntry < s'.m_uEntries := by rw [hcur, hn]; omega
  obtain ⟨z0, zH⟩ := splineSolved_natural s' (by omega) (by rw [hfl]; exact hnat) (hsol hsp)
  rw [hn] at zH
  refine ⟨s', hcfg, hn, by rw [← hn]; exact hr.2.2.2.1, hperm, z0, zH, ?_, ?_⟩
  · intro x hx
    rw [evaluate_low s' hr hc x hx, if_pos hcs', z0]
    simp
  · intro x hx
    have := evaluate_high s' hr hc x (by rw [hn]; exact hx)
    rw [hn] at this
    rw [this, if_pos hcs', zH]
    simp

theorem natural_spline_affine_extrapolation_witness :
    ∃ s', (CUCSpline.new true).configure 4 (some [⟨0, 0⟩, ⟨1, 1⟩, ⟨2, 8⟩, ⟨3, 27⟩])
        = (Status.ok, s') ∧ s'.m_uEntries = 4 ∧
      StrictAsc 4 s'.m_paTable ∧
      (s'.m_paTable.take 4).Perm [⟨0, 0⟩, ⟨1, 1⟩, ⟨2, 8⟩, ⟨3, 27⟩] ∧
      d2At s' 0 = 0 ∧ d2At s' (4 - 1) = 0 ∧
      (∀ x, x ≤ rowX s'.m_paTable 0 →
        s'.evaluate x = some (rowY s'.m_paTable 0 - (rowX s'.m_paTable 0 - x) * s'.m_fdydx_L)) ∧
      (∀ x, x ≥ rowX s'.m_paTable (4 - 1) →
        s'.evaluate x = some (rowY s'.m_paTable (4 - 1)
          + (x - rowX s'.m_paTable (4 - 1)) * s'.m_fdydx_H)) :=
  natural_spline_affine_extrapolation (CUCSpline.new true) (by decide) rfl rfl 4
    [⟨0, 0⟩, ⟨1, 1⟩, ⟨2, 8⟩, ⟨3, 27⟩] rfl (by decide) (by decide)
    (by with_unfolding_all decide)

theorem refCubicPiece_hasDerivAt (t : List SUConfigurationTableEntry) (d2y : Nat → FloatDP)
    (L : Nat) (x : FloatDP) (hspan : rowX t (L + 1) - rowX t L ≠ 0) :
    HasDerivAt (fun z : FloatDP => refCubicPiece t d2y L z) (refCubicSlope t d2y L x) x := by
  unfold refCubicPiece refCubicSlope
  simp only []
  have hw : HasDerivAt (fun z : FloatDP => (rowX t (L + 1) - z) / (rowX t (L + 1) - rowX t L))
      (-1 / (rowX t (L + 1) - rowX t L)) x := by
    have := ((hasDerivAt_id x).const_sub (rowX t (L + 1))).div_const
      (rowX t (L + 1) - rowX t L)
    simpa using this
  have hw' := hw.const_sub 1
  have h3 := ((((hw.pow 3).sub hw).mul_const (d2y L)).add
    (((hw'.pow 3).sub hw').mul_const (d2y (L + 1)))).mul_const
      ((rowX t (L + 1) - rowX t L) ^ 2)
  have h := ((hw.mul_const (rowY t L)).add (hw'.mul_const (rowY t (L + 1)))).add
    (h3.div_const 6)
  refine h.congr_deriv ?_
  field_simp
  ring

theorem slope_continuity_of_tridiagonal (t : List SUConfigurationTableEntry)
    (M : Nat → FloatDP) (i : Nat) (hi : 1 ≤ i) (h2 : rowX t (i + 1) - rowX t i ≠ 0)
    (htri : (rowX t i - rowX t (i - 1)) * M (i - 1)
        + 2 * (rowX t (i + 1) - rowX t (i - 1)) * M i
        + (rowX t (i + 1) - rowX t i) * M (i + 1)
      = 6 * ((rowY t (i + 1) - rowY t i) / (rowX t (i + 1) - rowX t i)
          - (rowY t i - rowY t (i - 1)) / (rowX t i - rowX t (i - 1)))) :
    refCubicSlope t M (i - 1) (rowX t i) = refCubicSlope t M i (rowX t i) := by
  have e : i - 1 + 1 = i := by omega
  unfold refCubicSlope
  simp only [e, sub_self, zero_div, div_self h2]
  linear_combination (1 / 6) * htri

/-- C14 (the tridiagonal solve yields a first-derivative-continuous spline).
For a strictly ascending table of `n ≥ 3` rows, in either boundary mode and
with any end derivatives, `deriveSecondDerivatives` returns, and the second
derivatives `M` it leaves in `m_pafd2ydx2` satisfy, for every interior index
`1 ≤ i ≤ n-2`,
`(x[i]-x[i-1])*M[i-1] + 2*(x[i+1]-x[i-1])*M[i] + (x[i+1]-x[i])*M[i+1]
 = 6*((y[i+1]-y[i])/(x[i+1]-x[i]) - (y[i]-y[i-1])/(x[i]-x[i-1]))`,
and the derivative `refCubicSlope` of the cubic piece on `[x[i-1], x[i]]` at
`x[i]` equals the derivative of the piece on `[x[i], x[i+1]]` at `x[i]`. -/
theorem tridiagonal_solve_continuity (s : CUInterpolator) (h3 : 3 ≤ s.m_uEntries)
    (hlen : s.m_uEntries ≤ s.m_paTable.length) (hmod : s.m_uEntries < UNativeInt_MOD)
    (hd : s.m_uEntries ≤ s.m_pafd2ydx2.length)
    (hasc : StrictAsc s.m_uEntries s.m_paTable) :
    ∃ s', CUCSpline.deriveSecondDerivatives s = some s' ∧ s'.m_paTable = s.m_paTable ∧
      s'.m_uEntries = s.m_uEntries ∧
      ∀ i, 1 ≤ i → i ≤ s.m_uEntries - 2 →
        (rowX s.m_paTable i - rowX s.m_paTable (i - 1)) * d2At s' (i - 1)
          + 2 * (rowX s.m_paTable (i + 1) - rowX s.m_paTable (i - 1)) * d2At s' i
          + (rowX s.m_paTable (i + 1) - rowX s.m_paTable i) * d2At s' (i + 1)
        = 6 * ((rowY s.m_paTable (i + 1) - rowY s.m_paTable i)
                / (rowX s.m_paTable (i + 1) - rowX s.m_paTable i)
              - (rowY s.m_paTable i - rowY s.m_paTable (i - 1))
                / (rowX s.m_paTable i - rowX s.m_paTable (i - 1))) ∧
        refCubicSlope s.m_paTable (d2At s') (i - 1) (rowX s.m_paTable i)
          = refCubicSlope s.m_paTable (d2At s') i (rowX s.m_paTable i) := by
  obtain ⟨d2, hder, -, hsol⟩ := deriveSecondDerivatives_spec s h3 hlen hmod hd
  refine ⟨_, hder, rfl, rfl, ?_⟩
  intro i hi1 hi2
  have htri := splineSolved_tridiagonal { s with m_pafd2ydx2 := d2 } hlen hasc hsol i hi1
    (show i + 1 < s.m_uEntries by omega)
  have hx := strictAsc_rowX hasc hlen (show i < i + 1 by omega)
    (show i + 1 < s.m_uEntries by omega)
  exact ⟨htri, slope_continuity_of_tridiagonal s.m_paTable _ i hi1
    (ne_of_gt (sub_pos.mpr hx)) htri⟩

theorem tridiagonal_solve_continuity_witness :
    ∃ s : CUInterpolator, s.m_bNaturalSpline = false ∧ 3 ≤ s.m_uEntries ∧
      StrictAsc s.m_uEntries s.m_paTable ∧
      ∃ s', CUCSpline.deriveSecondDerivatives s = some s' ∧ s'.m_paTable = s.m_paTable ∧
        s'.m_uEntries = s.m_uEntries ∧
        ∀ i, 1 ≤ i → i ≤ s.m_uEntries - 2 →
          (rowX s.m_paTable i - rowX s.m_paTable (i - 1)) * d2At s' (i - 1)
            + 2 * (rowX s.m_paTable (i + 1) - rowX s.m_paTable (i - 1)) * d2At s' i
            + (rowX s.m_paTable (i + 1) - rowX s.m_paTable i) * d2At s' (i + 1)
          = 6 * ((rowY s.m_paTable (i + 1) - rowY s.m_paTable i)
                  / (rowX s.m_paTable (i + 1) - rowX s.m_paTable i)
                - (rowY s.m_paTable i - rowY s.m_paTable (i - 1))
                  / (rowX s.m_paTable i - rowX s.m_paTable (i - 1))) ∧
          refCubicSlope s.m_paTable (d2At s') (i - 1) (rowX s.m_paTable i)
            = refCubicSlope s.m_paTable (d2At s') i (rowX s.m_paTable i) := by
  have hasc : StrictAsc 4 [⟨0, 0⟩, ⟨1, 1⟩, ⟨2, 8⟩, ⟨3, 27⟩] :=
    strictAsc_of_pairwise 4 _ (by with_unfolding_all decide)
  exact ⟨{ CUCSpline.new false with
      m_uAllocatedEntries := 4, m_uEntries := 4,
      m_paTable := [⟨0, 0⟩, ⟨1, 1⟩, ⟨2, 8⟩, ⟨3, 27⟩],
      m_fdydx_L := 1, m_fdydx_H := 19,
      m_uAllocatedEntries_CSpline := 4, m_pafd2ydx2 := [0, 0, 0, 0] }, rfl, by decide, hasc,
    tridiagonal_solve_continuity _ (by decide) (by decide) (by decide) (by decide) hasc⟩

theorem memmoveRows_get (t : List SUConfigurationTableEntry) (ui n : Nat)
    (hui : ui + 1 < n) (hn : n ≤ t.length) :
    ∃ t', memmoveRows t ui (ui + 1) (n - (ui + 1)) = some t' ∧ t'.length = t.length ∧
      (∀ i, i < ui → t'[i]? = t[i]?) ∧ (∀ i, ui ≤ i → i + 1 < n → t'[i]? = t[i + 1]?) ∧
      (∀ i, n - 1 ≤ i → t'[i]? = t[i]?) := by
  unfold memmoveRows
  rw [if_pos (by omega)]
  refine ⟨_, rfl, ?_, ?_, ?_, ?_⟩
  · simp only [List.length_append, List.length_take, List.length_drop]
    omega
  · intro i hi
    rw [List.getElem?_append_left (by simp; omega), List.getElem?_take_of_lt hi]
  · intro i h1 h2
    rw [List.getElem?_append_right (by simp; omega)]
    rw [List.getElem?_append_left (by simp; omega)]
    rw [List.getElem?_take_of_lt (by simp; omega), List.getElem?_drop]
    congr 1
    simp
    omega
  · intro i hi
    rw [List.getElem?_append_right (by simp; omega)]
    rw [List.getElem?_append_right (by simp; omega)]
    rw [List.getElem?_drop]
    congr 1
    simp
    omega

theorem rowX_congr {t t' : List SUConfigurationTableEntry} {i j : Nat} (h : t'[i]? = t[j]?) :
    rowX t' i = rowX t j := by
  simp [rowX, List.getD_eq_getElem?_getD, h]

theorem strictAsc_of_rowX (n : Nat) (t : List SUConfigurationTableEntry)
    (h : ∀ a b, a < b → b < n → rowX t a < rowX t b) : StrictAsc n t := by
  intro a b ea eb hab hb hea heb
  have := h a b hab hb
  rwa [rowX_of_get hea, rowX_of_get heb] at this

theorem dedupLoop_pairs :
    ∀ (fuel ui n : Nat) (t : List SUConfigurationTableEntry), 1 ≤ n → n ≤ t.length →
      n < UNativeInt_MOD → n - ui ≤ fuel → 1 ≤ fuel →
      (∀ a b, a ≤ b → b < n → rowX t a ≤ rowX t b) →
      (∀ i, i < ui → i + 1 < n → rowX t i < rowX t (i + 1)) →
      (∀ i, ui ≤ i → i + 2 < n → rowX t i < rowX t (i + 2)) →
      ∃ n' t', dedupLoop fuel ui n t = some (n', t') ∧ 1 ≤ n' ∧ n' ≤ n ∧
        t'.length = t.length ∧
        (∀ a b, a < b → b < n' → rowX t' a < rowX t' b) ∧
        (∀ v, (∃ i, i < n' ∧ rowX t' i = v) ↔ (∃ i, i < n ∧ rowX t i = v)) ∧
        (∀ i, i < n' → ∃ j, j < n ∧ t'[i]? = t[j]?) := by
  intro fuel
  induction fuel with
  | zero => intro ui n t _ _ _ _ h; omega
  | succ fuel ih =>
    intro ui n t h1 hlen hmod hfuel _ hsort hadj hgap
    have hu : usub n 1 = n - 1 := usub_one_of_pos (by omega) hmod
    rw [dedupLoop, hu]
    by_cases hlt : ui < n - 1
    · obtain ⟨eR, hrR, hgR⟩ := tableRead_of_lt (show ui + 1 < n by omega) hlen
      obtain ⟨eL, hrL, hgL⟩ := tableRead_of_lt (show ui < n by omega) hlen
      rw [if_pos hlt]
      simp only [hrR, hrL, Option.bind_eq_bind, Option.some_bind]
      by_cases hne : eR.fIndependentValue ≠ eL.fIndependentValue
      · rw [if_pos hne]
        refine ih (ui + 1) n t h1 hlen hmod (by omega) (by omega) hsort ?_
          (fun i hi1 hi2 => hgap i (by omega) hi2)
        intro i hi1 hi2
        by_cases hi : i < ui
        · exact hadj i hi hi2
        · have hiu : i = ui := by omega
          subst hiu
          have hle := hsort i (i + 1) (by omega) hi2
          rw [rowX_of_get hgR, rowX_of_get hgL] at *
          exact lt_of_le_of_ne hle (fun h => hne h.symm)
      · rw [if_neg hne]
        have heq : rowX t (ui + 1) = rowX t ui := by
          rw [rowX_of_get hgR, rowX_of_get hgL]
          exact not_not.mp hne
        obtain ⟨t', hmv, hl', hlo, hhi, -⟩ := memmoveRows_get t ui n (by omega) hlen
        rw [hmv]
        simp only [Option.some_bind]
        have xlo : ∀ i, i < ui → rowX t' i = rowX t i := fun i hi => rowX_congr (hlo i hi)
        have xhi : ∀ i, ui ≤ i → i + 1 < n → rowX t' i = rowX t (i + 1) :=
          fun i h1 h2 => rowX_congr (hhi i h1 h2)
        obtain ⟨n', t'', hrun, hn1, hn2, hl'', hstrict, hset, hrows⟩ :=
          ih (ui + 1) (n - 1) t' (by omega) (by omega) (by omega) (by omega) (by omega)
            (by
              intro a b hab hb
              by_cases ha : a < ui
              · by_cases hb' : b < ui
                · rw [xlo a ha, xlo b hb']; exact hsort a b hab (by omega)
                · rw [xlo a ha, xhi b (by omega) (by omega)]
                  exact hsort a (b + 1) (by omega) (by omega)
              · rw [xhi a (by omega) (by omega), xhi b (by omega) (by omega)]
                exact hsort (a + 1) (b + 1) (by omega) (by omega))
            (by
              intro i hi1 hi2
              by_cases hi : i + 1 < ui
              · rw [xlo i (by omega), xlo (i + 1) hi]; exact hadj i (by omega) (by omega)
              · by_cases hi' : i + 1 = ui
                · rw [xlo i (by omega), xhi (i + 1) (by omega) (by omega), hi', heq, ← hi']
                  exact hadj i (by omega) (by omega)
                · have hiu : i = ui := by omega
                  subst hiu
                  rw [xhi i (by omega) (by omega), xhi (i + 1) (by omega) (by omega), heq]
                  exact hgap i (by omega) (by omega))
            (by
              intro i hi1 hi2
              rw [xhi i (by omega) (by omega), xhi (i + 2) (by omega) (by omega)]
              exact hgap (i + 1) (by omega) (by omega))
        refine ⟨n', t'', hrun, hn1, by omega, by omega, hstrict, ?_, ?_⟩
        · intro v
          rw [hset v]
          constructor
          · rintro ⟨i, hi, hv⟩
            by_cases hiu : i < ui
            · exact ⟨i, by omega, by rw [← xlo i hiu]; exact hv⟩
            · exact ⟨i + 1, by omega, by rw [← xhi i (by omega) (by omega)]; exact hv⟩
          · rintro ⟨j, hj, hv⟩
            by_cases hju : j < ui
            · exact ⟨j, by omega, by rw [xlo j hju]; exact hv⟩
            · by_cases hju' : j = ui
              · refine ⟨ui, by omega, ?_⟩
                rw [xhi ui (by omega) (by omega), heq, ← hju']; exact hv
              · refine ⟨j - 1, by omega, ?_⟩
                rw [xhi (j - 1) (by omega) (by omega)]
                have : j - 1 + 1 = j := by omega
                rw [this]; exact hv
        · intro i hi
          obtain ⟨j, hj, hij⟩ := hrows i hi
          by_cases hju : j < ui
          · exact ⟨j, by omega, by rw [hij, hlo j hju]⟩
          · exact ⟨j + 1, by omega, by rw [hij, hhi j (by omega) (by omega)]⟩
    · rw [if_neg hlt]
      refine ⟨n, t, rfl, h1, le_refl _, rfl, ?_, fun v => Iff.rfl, fun i hi => ⟨i, hi, rfl⟩⟩
      intro a b hab hb
      have h1 := hsort a (b - 1) (by omega) (by omega)
      have h2 := hadj (b - 1) (by omega) (by omega)
      have e : b - 1 + 1 = b := by omega
      rw [e] at h2
      exact lt_of_le_of_lt h1 h2

theorem count_three_of_get (l : List FloatDP) (i : Nat) (v : FloatDP)
    (h0 : l[i]? = some v) (h1 : l[i + 1]? = some v) (h2 : l[i + 2]? = some v) :
    3 ≤ l.count v := by
  obtain ⟨g0, e0⟩ := List.getElem?_eq_some_iff.mp h0
  obtain ⟨g1, e1⟩ := List.getElem?_eq_some_iff.mp h1
  obtain ⟨g2, e2⟩ := List.getElem?_eq_some_iff.mp h2
  have hd : l.drop i = v :: v :: v :: l.drop (i + 3) := by
    rw [List.drop_eq_getElem_cons g0, List.drop_eq_getElem_cons g1,
      List.drop_eq_getElem_cons g2, e0, e1, e2]
  have : l.count v = (l.take i).count v + (l.drop i).count v := by
    rw [← List.count_append, List.take_append_drop]
  rw [this, hd]
  simp only [List.count_cons_self]
  omega

theorem map_take_get (t : List SUConfigurationTableEntry) (n i : Nat) (hi : i < n)
    (hn : n ≤ t.length) :
    ((t.take n).map fun e => e.fIndependentValue)[i]? = some (rowX t i) := by
  rw [List.getElem?_map, List.getElem?_take_of_lt hi]
  obtain ⟨e, he⟩ : ∃ e, t[i]? = some e := ⟨t.get ⟨i, by omega⟩, by simp⟩
  rw [he, rowX_of_get he]
  rfl

theorem mem_map_take_rowX (t : List SUConfigurationTableEntry) (n : Nat) (hn : n ≤ t.length)
    (v : FloatDP) :
    v ∈ ((t.take n).map fun e => e.fIndependentValue) ↔ ∃ i, i < n ∧ rowX t i = v := by
  constructor
  · intro h
    obtain ⟨e, he, hev⟩ := List.mem_map.mp h
    obtain ⟨k, hk, hg⟩ := mem_take_row he
    exact ⟨k, hk, by rw [rowX_of_get hg]; exact hev⟩
  · rintro ⟨i, hi, hv⟩
    have := map_take_get t n i hi hn
    rw [hv] at this
    exact List.mem_iff_getElem?.mpr ⟨i, this⟩

theorem fillTable_pairs (s : CUInterpolator) (src : List SUConfigurationTableEntry)
    (h0 : 0 < s.m_uEntries) (hlen : s.m_uEntries ≤ s.m_paTable.length)
    (hsrc : s.m_uEntries ≤ src.length) (hmod : s.m_uEntries < UNativeInt_MOD)
    (hpairs : ∀ v, ((src.take s.m_uEntries).map fun e => e.fIndependentValue).count v ≤ 2) :
    ∃ n t, s.fillTable src = some { s with m_paTable := t, m_uEntries := n } ∧
      1 ≤ n ∧ n ≤ s.m_uEntries ∧ t.length = s.m_paTable.length ∧ StrictAsc n t ∧
      n = ((src.take s.m_uEntries).map fun e => e.fIndependentValue).dedup.length ∧
      (∀ v, v ∈ ((t.take n).map fun e => e.fIndependentValue) ↔
        v ∈ ((src.take s.m_uEntries).map fun e => e.fIndependentValue)) ∧
      (∀ e, e ∈ t.take n → e ∈ src.take s.m_uEntries) := by
  have hcpy : memcpyRows s.m_paTable src s.m_uEntries =
      some (src.take s.m_uEntries ++ s.m_paTable.drop s.m_uEntries) := by
    simp [memcpyRows, hsrc, hlen]
  have hl0 : (src.take s.m_uEntries ++ s.m_paTable.drop s.m_uEntries).length
      = s.m_paTable.length := by
    simp; omega
  obtain ⟨t1, hsort, hlt, hperm, hrest, hsorted⟩ :=
    sortTable_spec s.m_uEntries (src.take s.m_uEntries ++ s.m_paTable.drop s.m_uEntries)
      h0 (by omega) hmod
  have htake : (t1.take s.m_uEntries).Perm (src.take s.m_uEntries) := by
    have := take_perm_of_rest s.m_uEntries t1 _ hperm hrest
    rwa [List.take_left' (by simp; omega)] at this
  have hn1 : s.m_uEntries ≤ t1.length := by omega
  have hget : ∀ i, i < s.m_uEntries → ∃ e, t1[i]? = some e := fun i hi =>
    ⟨t1.get ⟨i, by omega⟩, by simp⟩
  have hsx : ∀ a b, a ≤ b → b < s.m_uEntries → rowX t1 a ≤ rowX t1 b := by
    intro a b hab hb
    obtain ⟨ea, ha⟩ := hget a (by omega)
    obtain ⟨eb, hb'⟩ := hget b hb
    rw [rowX_of_get ha, rowX_of_get hb']
    exact hsorted a b hab hb _ _ ha hb'
  have hgap : ∀ i, 0 ≤ i → i + 2 < s.m_uEntries → rowX t1 i < rowX t1 (i + 2) := by
    intro i _ hi
    by_contra hnot
    have hle := le_of_not_lt hnot
    have e02 : rowX t1 (i + 2) = rowX t1 i := le_antisymm hle (hsx i (i + 2) (by omega) hi)
    have e01 : rowX t1 (i + 1) = rowX t1 i :=
      le_antisymm (by rw [← e02]; exact hsx (i + 1) (i + 2) (by omega) hi)
        (hsx i (i + 1) (by omega) (by omega))
    have c3 := count_three_of_get ((t1.take s.m_uEntries).map fun e => e.fIndependentValue)
      i (rowX t1 i) (map_take_get t1 _ i (by omega) hn1)
      (by rw [map_take_get t1 _ (i + 1) (by omega) hn1, e01])
      (by rw [map_take_get t1 _ (i + 2) (by omega) hn1, e02])
    have := hpairs (rowX t1 i)
    rw [← (htake.map fun e => e.fIndependentValue).count_eq] at this
    omega
  obtain ⟨n', t', hdd, hn'1, hn'2, hl', hstrict, hset, hrows⟩ :=
    dedupLoop_pairs s.m_uEntries 0 s.m_uEntries t1 (by omega) hn1 hmod (by omega) (by omega)
      hsx (fun i hi _ => by omega) hgap
  have hmem : ∀ v, v ∈ ((t'.take n').map fun e => e.fIndependentValue) ↔
      v ∈ ((src.take s.m_uEntries).map fun e => e.fIndependentValue) := by
    intro v
    rw [mem_map_take_rowX t' n' (by omega) v, hset v, ← mem_map_take_rowX t1 _ hn1 v]
    exact (htake.map fun e => e.fIndependentValue).mem_iff
  have hnodup : ((t'.take n').map fun e => e.fIndependentValue).Nodup := by
    rw [List.nodup_iff_getElem?_ne_getElem?]
    intro a b hab hb
    rw [List.length_map, List.length_take] at hb
    have hb' : b < n' := by omega
    rw [map_take_get t' n' a (by omega) (by omega), map_take_get t' n' b hb' (by omega)]
    intro h
    exact absurd (Option.some.inj h) (ne_of_lt (hstrict a b hab hb'))
  refine ⟨n', t', ?_, hn'1, hn'2, by omega, strictAsc_of_rowX n' t' hstrict, ?_, hmem, ?_⟩
  · unfold CUInterpolator.fillTable
    rw [hcpy]
    simp only [Option.bind_eq_bind, Option.some_bind]
    rw [hsort]
    simp only [Option.some_bind]
    rw [hdd]
    rfl
  · have hp : ((t'.take n').map fun e => e.fIndependentValue).Perm
        ((src.take s.m_uEntries).map fun e => e.fIndependentValue).dedup := by
      rw [List.perm_ext_iff_of_nodup hnodup (List.nodup_dedup _)]
      intro v
      rw [hmem v, List.mem_dedup]
    have := hp.length_eq
    rw [List.length_map, List.length_take] at this
    omega
  · intro e he
    obtain ⟨k, hk, hg⟩ := mem_take_row he
    obtain ⟨j, hj, hij⟩ := hrows k hk
    rw [hg] at hij
    have : e ∈ t1.take s.m_uEntries := by
      rw [List.mem_iff_getElem?]
      exact ⟨j, by rw [List.getElem?_take_of_lt hj]; exact hij.symm⟩
    exact htake.mem_iff.mp this

/-- C20 (duplicate pairs are collapsed).  On a well-formed evaluator, for an
input table of `n` rows in which no `x` value occurs more than twice and whose
number `k` of distinct `x` values meets the minimum size, explicit-table
`configure` succeeds and leaves a table of exactly `k` rows, strictly ascending
in `x`, whose `x` values are exactly the `x` values of the input and whose rows
are rows of the input. -/
theorem duplicate_pairs_collapsed (s : CUInterpolator) (hwf : s.WellFormed) (n : Nat)
    (src : List SUConfigurationTableEntry) (hlen : src.length = n)
    (hmod : n < UNativeInt_MOD)
    (hpairs : ∀ v ∈ src.map fun e => e.fIndependentValue,
      (src.map fun e => e.fIndependentValue).count v ≤ 2)
    (hmin : s.tableSizeIsValid (src.map fun e => e.fIndependentValue).dedup.length = true) :
    ∃ s', s.configure n (some src) = (Status.ok, s') ∧
      s'.m_uEntries = (src.map fun e => e.fIndependentValue).dedup.length ∧
      StrictAsc s'.m_uEntries s'.m_paTable ∧
      (∀ v, v ∈ (s'.table.map fun e => e.fIndependentValue) ↔
        v ∈ src.map fun e => e.fIndependentValue) ∧
      (∀ e, e ∈ s'.table → e ∈ src) := by
  have hk2 := tableSizeIsValid_ge_two hmin
  have hkn : (src.map fun e => e.fIndependentValue).dedup.length ≤ n := by
    have := (List.dedup_sublist (src.map fun e => e.fIndependentValue)).length_le
    rw [List.length_map, hlen] at this
    exact this
  have hv : s.tableSizeIsValid n = true := by
    unfold CUInterpolator.tableSizeIsValid at hmin ⊢
    by_cases hc : s.isCSpline = true
    · rw [if_pos hc] at hmin ⊢
      simp only [ge_iff_le, decide_eq_true_eq] at hmin ⊢
      omega
    · rw [if_neg hc] at hmin ⊢
      simp only [ge_iff_le, decide_eq_true_eq] at hmin ⊢
      omega
  have htake : src.take n = src := by rw [← hlen]; exact List.take_length src
  obtain ⟨ha1, ha2, ha3, ha4, ha5⟩ := allocateTable_pos s n hwf (by omega) hmod
  obtain ⟨hw1, hw2, hw3, hw4⟩ := ha3
  obtain ⟨n', t, hfill, hn1, hn2, htl, hstrict, hcount, hmem, hrows⟩ :=
    fillTable_pairs (s.allocateTable n).2 src (by omega) (by omega) (by omega) (by omega)
      (by
        intro v
        rw [ha2, htake]
        by_cases hvm : v ∈ src.map fun e => e.fIndependentValue
        · exact hpairs v hvm
        · rw [List.count_eq_zero_of_not_mem hvm]; omega)
  rw [ha2, htake] at hcount hmem hrows
  have hv2 : CUInterpolator.tableSizeIsValid
      { (s.allocateTable n).2 with m_paTable := t, m_uEntries := n' } n' = true := by
    rw [tableSizeIsValid_congr s
      { (s.allocateTable n).2 with m_paTable := t, m_uEntries := n' } ha4, hcount]
    exact hmin
  obtain ⟨s3, hfin, f1, f2, -⟩ :=
    finishConfigure_spec { (s.allocateTable n).2 with m_paTable := t, m_uEntries := n' } hv2
      (by simp only []; omega) (by simp only []; omega)
      (fun hc => by
        have := (hw4 hc).2
        simp only []; omega)
  simp only [] at f1 f2
  have hcfg := configure_of_fillTable s n src hv ha1 _ hfill hv2 s3 hfin
  refine ⟨s3, hcfg, by rw [f2, hcount], by rw [f1, f2]; exact hstrict, ?_, ?_⟩
  · intro v
    unfold CUInterpolator.table
    rw [f1, f2]
    exact hmem v
  · intro e he
    unfold CUInterpolator.table at he
    rw [f1, f2] at he
    exact hrows e he

theorem duplicate_pairs_collapsed_witness :
    ∃ s', CUInterpolator.new.configure 3 (some [⟨1, 10⟩, ⟨1, 20⟩, ⟨2, 30⟩]) = (Status.ok, s') ∧
      s'.m_uEntries = 2 ∧ StrictAsc s'.m_uEntries s'.m_paTable ∧
      (∀ v, v ∈ (s'.table.map fun e => e.fIndependentValue) ↔ v ∈ [(1 : FloatDP), 1, 2]) := by
  obtain ⟨s', h1, h2, h3, h4, -⟩ := duplicate_pairs_collapsed CUInterpolator.new (by decide) 3
    [⟨1, 10⟩, ⟨1, 20⟩, ⟨2, 30⟩] rfl (by decide) (by decide!) (by decide!)
  exact ⟨s', h1, by rw [h2]; decide!, h3, h4⟩

theorem forLoop_map {σ τ : Type} (body : Nat → σ → Option σ) (body' : Nat → τ → Option τ)
    (f : σ → τ) (P : σ → Prop)
    (hstep : ∀ i a, P a → body' i (f a) = (body i a).map f ∧ ∀ a', body i a = some a' → P a') :
    ∀ (k i : Nat) (a : σ), P a →
      forLoop body' k i (f a) = (forLoop body k i a).map f ∧
      ∀ a', forLoop body k i a = some a' → P a' := by
  intro k
  induction k with
  | zero =>
    intro i a hP
    exact ⟨rfl, fun a' h => by simp only [forLoop, Option.some.injEq] at h; rw [← h]; exact hP⟩
  | succ k ih =>
    intro i a hP
    obtain ⟨h1, h2⟩ := hstep i a hP
    simp only [forLoop]
    rw [h1]
    cases hb : body i a with
    | none => exact ⟨rfl, fun a' h => by simp at h⟩
    | some a1 =>
      obtain ⟨g1, g2⟩ := ih (i + 1) a1 (h2 a1 hb)
      simp only [Option.map_some', Option.some_bind]
      exact ⟨g1, g2⟩

theorem tableRead_append (n : Nat) (a r : List SUConfigurationTableEntry) (i : Nat)
    (hn : n ≤ a.length) : tableRead n (a ++ r) i = tableRead n a i := by
  unfold tableRead
  by_cases hi : i < n
  · rw [if_pos hi, if_pos hi, List.getElem?_append_left (by omega)]
  · rw [if_neg hi, if_neg hi]

theorem tableWrite_append (n : Nat) (a r : List SUConfigurationTableEntry) (i : Nat)
    (e : SUConfigurationTableEntry) (hn : n ≤ a.length) :
    tableWrite n (a ++ r) i e = (tableWrite n a i e).map fun t => t ++ r := by
  unfold tableWrite
  by_cases hi : i < n
  · rw [if_pos ⟨hi, by simp; omega⟩, if_pos ⟨hi, by omega⟩, Option.map_some',
      List.set_append_left _ _ (by omega)]
  · rw [if_neg (fun h => hi h.1), if_neg (fun h => hi h.1)]
    rfl

theorem tableWrite_length {n : Nat} {a a' : List SUConfigurationTableEntry} {i : Nat}
    {e : SUConfigurationTableEntry} (h : tableWrite n a i e = some a') :
    a'.length = a.length := by
  unfold tableWrite at h
  split at h
  · simp only [Option.some.injEq] at h; rw [← h]; simp
  · simp at h

theorem sortInner_append (n ui uj : Nat) (a r : List SUConfigurationTableEntry)
    (hn : n ≤ a.length) :
    sortInner n ui uj (a ++ r) = (sortInner n ui uj a).map (fun t => t ++ r) ∧
      ∀ a', sortInner n ui uj a = some a' → n ≤ a'.length := by
  unfold sortInner
  simp only [tableRead_append n a r _ hn, Option.bind_eq_bind, Option.pure_def]
  cases h1 : tableRead n a uj with
  | none => exact ⟨rfl, fun a' h => by simp at h⟩
  | some ej =>
    cases h2 : tableRead n a ui with
    | none => exact ⟨rfl, fun a' h => by simp at h⟩
    | some ei =>
      simp only [Option.some_bind]
      by_cases hlt : ej.fIndependentValue < ei.fIndependentValue
      · rw [if_pos hlt, if_pos hlt, tableWrite_append n a r uj ei hn]
        cases h3 : tableWrite n a uj ei with
        | none => exact ⟨rfl, fun a' h => by simp at h⟩
        | some a1 =>
          have hl1 := tableWrite_length h3
          simp only [Option.map_some', Option.some_bind]
          rw [tableWrite_append n a1 r ui ej (by omega)]
          refine ⟨rfl, fun a' h => ?_⟩
          have := tableWrite_length h
          omega
      · rw [if_neg hlt, if_neg hlt]
        exact ⟨rfl, fun a' h => by simp only [Option.some.injEq] at h; rw [← h]; exact hn⟩

theorem sortTable_append (n : Nat) (a r : List SUConfigurationTableEntry)
    (hn : n ≤ a.length) :
    sortTable n (a ++ r) = (sortTable n a).map (fun t => t ++ r) ∧
      ∀ a', sortTable n a = some a' → n ≤ a'.length := by
  unfold sortTable
  exact forLoop_map (sortOuter n) (sortOuter n) (fun t => t ++ r) (fun t => n ≤ t.length)
    (fun i t ht => by
      unfold sortOuter
      exact forLoop_map (sortInner n i) (sortInner n i) (fun t => t ++ r)
        (fun t => n ≤ t.length) (fun j t' ht' => sortInner_append n i j t' r ht')
        (n - (i + 1)) (i + 1) t ht)
    (usub n 1) 0 a hn

theorem memmoveRows_append (a r : List SUConfigurationTableEntry) (ui m : Nat)
    (hui : ui + 1 < m) (hm : m ≤ a.length) :
    memmoveRows (a ++ r) ui (ui + 1) (m - (ui + 1))
      = (memmoveRows a ui (ui + 1) (m - (ui + 1))).map fun t => t ++ r := by
  unfold memmoveRows
  rw [if_pos (by simp; omega), if_pos (by omega), Option.map_some']
  rw [List.take_append_of_le_length (by omega), List.drop_append_of_le_length (by omega),
    List.drop_append_of_le_length (by omega),
    List.take_append_of_le_length (by simp; omega)]
  simp only [List.append_assoc]

theorem dedupLoop_append (r : List SUConfigurationTableEntry) :
    ∀ (fuel ui m : Nat) (a : List SUConfigurationTableEntry), m ≤ a.length →
      m < UNativeInt_MOD →
      dedupLoop fuel ui m (a ++ r)
        = (dedupLoop fuel ui m a).map fun p => (p.1, p.2 ++ r) := by
  intro fuel
  induction fuel with
  | zero => intro ui m a _ _; rfl
  | succ fuel ih =>
    intro ui m a hm hmod
    rw [dedupLoop, dedupLoop]
    by_cases hlt : ui < usub m 1
    · rw [if_pos hlt, if_pos hlt]
      simp only [tableRead_append m a r _ hm, Option.bind_eq_bind]
      cases h1 : tableRead m a (ui + 1) with
      | none => rfl
      | some eR =>
        cases h2 : tableRead m a ui with
        | none => rfl
        | some eL =>
          simp only [Option.some_bind]
          have hm1 : ui + 1 < m := by
            unfold tableRead at h1
            by_cases h : ui + 1 < m
            · exact h
            · rw [if_neg h] at h1; simp at h1
          have hu : usub m 1 = m - 1 := usub_one_of_pos (by omega) hmod
          by_cases hne : eR.fIndependentValue ≠ eL.fIndependentValue
          · rw [if_pos hne, if_pos hne]
            exact ih (ui + 1) m a hm hmod
          · rw [if_neg hne, if_neg hne, memmoveRows_append a r ui m hm1 hm]
            obtain ⟨t', hmv, hl'⟩ := memmoveRows_shift a ui m hm1 hm
            rw [hmv]
            simp only [Option.map_some', Option.some_bind]
            rw [hu]
            exact ih (ui + 1) (m - 1) t' (by omega) (by omega)
    · rw [if_neg hlt, if_neg hlt]
      rfl

theorem fillTable_rows (s : CUInterpolator) (src : List SUConfigurationTableEntry)
    (hlen : s.m_uEntries ≤ s.m_paTable.length) (hsrc : s.m_uEntries ≤ src.length)
    (hmod : s.m_uEntries < UNativeInt_MOD) :
    s.fillTable src
      = ((sortTable s.m_uEntries (src.take s.m_uEntries)).bind
          (dedupLoop s.m_uEntries 0 s.m_uEntries)).map
        fun p => { s with m_paTable := p.2 ++ s.m_paTable.drop s.m_uEntries, m_uEntries := p.1 } := by
  have hcpy : memcpyRows s.m_paTable src s.m_uEntries =
      some (src.take s.m_uEntries ++ s.m_paTable.drop s.m_uEntries) := by
    simp [memcpyRows, hsrc, hlen]
  have hl : s.m_uEntries ≤ (src.take s.m_uEntries).length := by simp; omega
  obtain ⟨hs1, hs2⟩ := sortTable_append s.m_uEntries (src.take s.m_uEntries)
    (s.m_paTable.drop s.m_uEntries) hl
  unfold CUInterpolator.fillTable
  rw [hcpy]
  simp only [Option.bind_eq_bind, Option.some_bind, hs1]
  cases h1 : sortTable s.m_uEntries (src.take s.m_uEntries) with
  | none => rfl
  | some a1 =>
    simp only [Option.map_some', Option.some_bind]
    rw [dedupLoop_append _ _ _ _ a1 (hs2 a1 h1) hmod]
    cases h2 : dedupLoop s.m_uEntries 0 s.m_uEntries a1 with
    | none => rfl
    | some p => rfl

theorem evaluate_interior (s : CUInterpolator) (hr : s.Ready)
    (hc : s.m_uLastEntry < s.m_uEntries) (x : FloatDP) (h1 : rowX s.m_paTable 0 < x)
    (h2 : x < rowX s.m_paTable (s.m_uEntries - 1)) :
    ∃ L, L + 1 < s.m_uEntries ∧ rowX s.m_paTable L ≤ x ∧ x < rowX s.m_paTable (L + 1) ∧
      s.evaluate x = some (if s.isCSpline = true then
        refCubicPiece s.m_paTable (d2At s) L x else refLinearPiece s.m_paTable L x) := by
  obtain ⟨-, -, b3⟩ := interpolate_branches s hr hc x
  obtain ⟨L, hL1, hL2, hL3, hL4⟩ := b3 h1 h2
  refine ⟨L, hL1, hL2, hL3, ?_⟩
  have hv := vDoInterpolate_value _ (ready_set_cursor hr L) x L hL1
  unfold CUInterpolator.evaluate
  rw [hL4, hv]
  rfl

theorem evaluate_congr (s s' : CUInterpolator) (hr : s.Ready) (hr' : s'.Ready)
    (hc : s.m_uLastEntry < s.m_uEntries) (hc' : s'.m_uLastEntry < s'.m_uEntries)
    (hn : s'.m_uEntries = s.m_uEntries) (hk : s'.isCSpline = s.isCSpline)
    (hx : ∀ i, i < s.m_uEntries → rowX s'.m_paTable i = rowX s.m_paTable i)
    (hy : ∀ i, i < s.m_uEntries → rowY s'.m_paTable i = rowY s.m_paTable i)
    (hL : s'.m_fdydx_L = s.m_fdydx_L) (hH : s'.m_fdydx_H = s.m_fdydx_H)
    (hd : ∀ i, i < s.m_uEntries → d2At s' i = d2At s i) (x : FloatDP) :
    s'.evaluate x = s.evaluate x := by
  have h2 : 2 ≤ s.m_uEntries := hr.1
  have x0 := hx 0 (by omega)
  have xH := hx (s.m_uEntries - 1) (by omega)
  by_cases hlo : x ≤ rowX s.m_paTable 0
  · rw [evaluate_low s hr hc x hlo, evaluate_low s' hr' hc' x (by rw [x0]; exact hlo),
      hk, x0, hy 0 (by omega), hL, hd 0 (by omega)]
  · by_cases hhi : rowX s.m_paTable (s.m_uEntries - 1) ≤ x
    · rw [evaluate_high s hr hc x hhi,
        evaluate_high s' hr' hc' x (by rw [hn, xH]; exact hhi),
        hk, hn, xH, hy _ (by omega), hH, hd _ (by omega)]
    · obtain ⟨L, l1, l2, l3, l4⟩ := evaluate_interior s hr hc x (lt_of_not_le hlo)
        (lt_of_not_le hhi)
      obtain ⟨L', l1', l2', l3', l4'⟩ := evaluate_interior s' hr' hc' x
        (by rw [x0]; exact lt_of_not_le hlo) (by rw [hn, xH]; exact lt_of_not_le hhi)
      rw [hn] at l1'
      rw [hx L' (by omega)] at l2'
      rw [hx (L' + 1) (by omega)] at l3'
      have hLL := interval_unique hr.2.2.2.1 hr.2.1 l1 l1' l2 l3 l2' l3'
      subst hLL
      rw [l4, l4', hk]
      unfold refCubicPiece refLinearPiece
      rw [hx L' (by omega), hx (L' + 1) (by omega), hy L' (by omega), hy (L' + 1) (by omega),
        hd L' (by omega), hd (L' + 1) (by omega)]

theorem splineSolved_unique_rows (s s' : CUInterpolator)
    (hn : s'.m_uEntries = s.m_uEntries)
    (hx : ∀ i, i < s.m_uEntries → rowX s'.m_paTable i = rowX s.m_paTable i)
    (hy : ∀ i, i < s.m_uEntries → rowY s'.m_paTable i = rowY s.m_paTable i)
    (hf : s'.m_bNaturalSpline = s.m_bNaturalSpline)
    (hL : s'.m_fdydx_L = s.m_fdydx_L) (hH : s'.m_fdydx_H = s.m_fdydx_H)
    (h2 : 2 ≤ s.m_uEntries) (hs : SplineSolved s) (hs' : SplineSolved s') :
    ∀ i, i < s.m_uEntries → d2At s' i = d2At s i := by
  obtain ⟨c, b, hc0, hb0, hrec, hlast, hback⟩ := hs
  obtain ⟨c', b', hc0', hb0', hrec', hlast', hback'⟩ := hs'
  rw [hn] at hrec' hlast' hback'
  rw [hf] at hc0' hb0' hlast'
  rw [hx 0 (by omega), hx 1 (by omega), hy 0 (by omega), hy 1 (by omega), hL] at hb0'
  rw [hx _ (show s.m_uEntries - 1 < s.m_uEntries by omega),
    hx _ (show s.m_uEntries - 2 < s.m_uEntries by omega),
    hy _ (show s.m_uEntries - 1 < s.m_uEntries by omega),
    hy _ (show s.m_uEntries - 2 < s.m_uEntries by omega), hH] at hlast'
  have hcb : ∀ i, i + 1 < s.m_uEntries → c' i = c i ∧ b' i = b i := by
    intro i
    induction i with
    | zero => intro _; exact ⟨by rw [hc0, hc0'], by rw [hb0, hb0']⟩
    | succ k ih =>
      intro hk
      obtain ⟨i1, i2⟩ := ih (by omega)
      obtain ⟨r1, r2⟩ := hrec (k + 1) (by omega) hk
      obtain ⟨r1', r2'⟩ := hrec' (k + 1) (by omega) hk
      simp only [Nat.add_sub_cancel] at r1 r2 r1' r2'
      rw [hx k (by omega), hx (k + 1) (by omega), hx (k + 1 + 1) (by omega)] at r1' r2'
      rw [hy k (by omega), hy (k + 1) (by omega), hy (k + 1 + 1) (by omega)] at r2'
      exact ⟨by rw [r1, r1', i1], by rw [r2, r2', i1, i2]⟩
  have hdown : ∀ k, k < s.m_uEntries →
      d2At s' (s.m_uEntries - 1 - k) = d2At s (s.m_uEntries - 1 - k) := by
    intro k
    induction k with
    | zero =>
      intro _
      obtain ⟨i1, i2⟩ := hcb (s.m_uEntries - 2) (by omega)
      rw [Nat.sub_zero, hlast, hlast', i1, i2]
    | succ k ih =>
      intro hk
      have e : s.m_uEntries - 1 - (k + 1) + 1 = s.m_uEntries - 1 - k := by omega
      obtain ⟨i1, i2⟩ := hcb (s.m_uEntries - 1 - (k + 1)) (by omega)
      rw [hback _ (by omega), hback' _ (by omega), e, ih (by omega), i1, i2]
  intro i hi
  have := hdown (s.m_uEntries - 1 - i) (by omega)
  have e : s.m_uEntries - 1 - (s.m_uEntries - 1 - i) = i := by omega
  rw [e] at this
  exact this

theorem configure_pairs_solved (s : CUInterpolator) (hwf : s.WellFormed) (n : Nat)
    (src : List SUConfigurationTableEntry) (hlen : src.length = n)
    (hmod : 2 * n ≤ UNativeInt_MOD)
    (hpairs : ∀ v ∈ src.map fun e => e.fIndependentValue,
      (src.map fun e => e.fIndependentValue).count v ≤ 2)
    (hmin : s.tableSizeIsValid (src.map fun e => e.fIndependentValue).dedup.length = true) :
    ∃ s' p, (sortTable n src).bind (dedupLoop n 0 n) = some p ∧ p.2.length = n ∧ p.1 ≤ n ∧
      s.configure n (some src) = (Status.ok, s') ∧
      s'.m_paTable = p.2 ++ (s.allocateTable n).2.m_paTable.drop n ∧ s'.m_uEntries = p.1 ∧
      p.1 = (src.map fun e => e.fIndependentValue).dedup.length ∧
      s'.Ready ∧ s'.m_uLastEntry = (p.1 - 1) / 2 ∧
      s'.isCSpline = s.isCSpline ∧ s'.m_bNaturalSpline = s.m_bNaturalSpline ∧
      s'.m_fdydx_L = (rowY s'.m_paTable 1 - rowY s'.m_paTable 0)
        / (rowX s'.m_paTable 1 - rowX s'.m_paTable 0) ∧
      s'.m_fdydx_H = (rowY s'.m_paTable (p.1 - 1) - rowY s'.m_paTable (p.1 - 2))
        / (rowX s'.m_paTable (p.1 - 1) - rowX s'.m_paTable (p.1 - 2)) ∧
      (s.isCSpline = true → SplineSolved s') ∧
      (∀ v, v ∈ (s'.table.map fun e => e.fIndependentValue) ↔
        v ∈ src.map fun e => e.fIndependentValue) ∧
      (∀ e, e ∈ s'.table → e ∈ src) := by
  have hk2 := tableSizeIsValid_ge_two hmin
  have hkn : (src.map fun e => e.fIndependentValue).dedup.length ≤ n := by
    have := (List.dedup_sublist (src.map fun e => e.fIndependentValue)).length_le
    rw [List.length_map, hlen] at this
    exact this
  have hmod' : n < UNativeInt_MOD := by omega
  have hv : s.tableSizeIsValid n = true := by
    unfold CUInterpolator.tableSizeIsValid at hmin ⊢
    by_cases hc : s.isCSpline = true
    · rw [if_pos hc] at hmin ⊢
      simp only [ge_iff_le, decide_eq_true_eq] at hmin ⊢
      omega
    · rw [if_neg hc] at hmin ⊢
      simp only [ge_iff_le, decide_eq_true_eq] at hmin ⊢
      omega
  have htake : src.take n = src := by rw [← hlen]; exact List.take_length src
  obtain ⟨ha1, ha2, ha3, ha4, ha5⟩ := allocateTable_pos s n hwf (by omega) hmod'
  obtain ⟨hw1, hw2, hw3, hw4⟩ := ha3
  obtain ⟨n', t, hfill, hn1, hn2, htl, hstrict, hcount, hmem, hrows⟩ :=
    fillTable_pairs (s.allocateTable n).2 src (by omega) (by omega) (by omega) (by omega)
      (by
        intro v
        rw [ha2, htake]
        by_cases hvm : v ∈ src.map fun e => e.fIndependentValue
        · exact hpairs v hvm
        · rw [List.count_eq_zero_of_not_mem hvm]; omega)
  have hrow := fillTable_rows (s.allocateTable n).2 src (by omega) (by omega) (by omega)
  rw [ha2, htake] at hcount hmem hrows hrow
  rw [ha2] at hn2
  rw [hfill] at hrow
  obtain ⟨p, hp, hpeq⟩ : ∃ p, (sortTable n src).bind (dedupLoop n 0 n) = some p ∧
      ({ (s.allocateTable n).2 with m_paTable := t, m_uEntries := n' } : CUInterpolator)
        = { (s.allocateTable n).2 with
            m_paTable := p.2 ++ (s.allocateTable n).2.m_paTable.drop n, m_uEntries := p.1 } := by
    cases h : (sortTable n src).bind (dedupLoop n 0 n) with
    | none => rw [h] at hrow; simp at hrow
    | some p =>
      rw [h] at hrow
      simp only [Option.map_some', Option.some.injEq] at hrow
      exact ⟨p, rfl, hrow⟩
  have ht : t = p.2 ++ (s.allocateTable n).2.m_paTable.drop n :=
    congrArg CUInterpolator.m_paTable hpeq
  have hn' : n' = p.1 := congrArg CUInterpolator.m_uEntries hpeq
  have hpl : p.2.length = n := by
    have := congrArg List.length ht
    rw [List.length_append, List.length_drop] at this
    omega
  have hv2 : CUInterpolator.tableSizeIsValid
      { (s.allocateTable n).2 with m_paTable := t, m_uEntries := n' } n' = true := by
    rw [tableSizeIsValid_congr s
      { (s.allocateTable n).2 with m_paTable := t, m_uEntries := n' } ha4, hcount]
    exact hmin
  obtain ⟨s3, hfin, f1, f2, f3, f4, f5, f6, f7, f8, f9, f10, f11, f12, f13⟩ :=
    finishConfigure_spec { (s.allocateTable n).2 with m_paTable := t, m_uEntries := n' } hv2
      (by simp only []; omega) (by simp only []; omega)
      (fun hc => by
        have := (hw4 hc).2
        simp only []; omega)
  simp only [] at f1 f2 f3 f4 f7 f9 f10 f11 f12
  have hcfg := configure_of_fillTable s n src hv ha1 _ hfill hv2 s3 hfin
  refine ⟨s3, p, hp, hpl, by omega, hcfg, by rw [f1, ht], by rw [f2, hn'],
    by rw [← hn', hcount], ⟨by rw [f2]; omega, by rw [f1, f2]; omega, by rw [f2]; omega,
      by rw [f1, f2]; exact hstrict, f8, fun hc => ?_⟩, by rw [f9, hn'],
    by rw [f3, ha4], by rw [f4, ha5], by rw [f10, f1], by rw [f11, f1, hn'],
    fun hc => f12 (by rw [ha4]; exact hc), ?_, ?_⟩
  · rw [f3] at hc
    have := (hw4 hc).2
    rw [f7, f2]
    omega
  · intro v
    unfold CUInterpolator.table
    rw [f1, f2]
    exact hmem v
  · intro e he
    unfold CUInterpolator.table at he
    rw [f1, f2] at he
    exact hrows e he

theorem rowX_append_left (a r : List SUConfigurationTableEntry) (i : Nat) (hi : i < a.length) :
    rowX (a ++ r) i = rowX a i :=
  rowX_congr (List.getElem?_append_left hi)

theorem rowY_congr {t t' : List SUConfigurationTableEntry} {i j : Nat} (h : t'[i]? = t[j]?) :
    rowY t' i = rowY t j := by
  simp [rowY, List.getD_eq_getElem?_getD, h]

theorem rowY_append_left (a r : List SUConfigurationTableEntry) (i : Nat) (hi : i < a.length) :
    rowY (a ++ r) i = rowY a i :=
  rowY_congr (List.getElem?_append_left hi)

theorem configureNaturalSpline_spec (s : CUInterpolator) (hr : s.Ready)
    (hsp : s.isCSpline = true) (h3 : 3 ≤ s.m_uEntries) (hsol : SplineSolved s) (g : Bool) :
    ∃ s', CUCSpline.configureNaturalSpline s g = some s' ∧ s'.m_paTable = s.m_paTable ∧
      s'.m_uEntries = s.m_uEntries ∧ s'.isCSpline = s.isCSpline ∧
      s'.m_fdydx_L = s.m_fdydx_L ∧ s'.m_fdydx_H = s.m_fdydx_H ∧ s'.m_fXStep = s.m_fXStep ∧
      s'.m_uLastEntry = s.m_uLastEntry ∧ s'.m_bNaturalSpline = g ∧
      s'.m_pafd2ydx2.length = s.m_pafd2ydx2.length ∧ SplineSolved s' ∧
      (g = s.m_bNaturalSpline → s' = s) := by
  obtain ⟨h2, hlen, hmod, hasc, hstep, hd⟩ := hr
  unfold CUCSpline.configureNaturalSpline
  by_cases hg : s.m_bNaturalSpline ≠ g
  · rw [if_pos hg]
    obtain ⟨d2, hder, hdl, hs'⟩ := deriveSecondDerivatives_spec
      { s with m_bNaturalSpline := g } h3 hlen (by show s.m_uEntries < UNativeInt_MOD; omega)
      (hd hsp)
    unfold CUCSpline.deriveConfiguration
    rw [hder]
    exact ⟨_, rfl, rfl, rfl, rfl, rfl, rfl, rfl, rfl, rfl, hdl, hs',
      fun h => absurd h.symm hg⟩
  · rw [if_neg hg]
    have hg' : s.m_bNaturalSpline = g := not_not.mp hg
    exact ⟨s, rfl, rfl, rfl, rfl, rfl, rfl, rfl, rfl, hg', rfl, hsol, fun _ => rfl⟩

/-- C18 (toggling the boundary policy re-derives against the held table).  Let a
well-formed spline evaluator be configured from a table `T` of `n` rows in which
no `x` occurs more than twice and with at least three distinct `x`, and let `g`
be any flag value.  Then `configureNaturalSpline(g)` returns; the table, the row
count and the two end derivatives are unchanged and the flag is `g`; the held
table, the second derivatives at every table index and `evaluate(x)` for every
`x` equal those of an evaluator constructed with flag `g` and configured from
`T`; and when `g` is the flag already held the object is unchanged. -/
theorem toggle_rederives (s0 : CUInterpolator) (hwf : s0.WellFormed)
    (hsp : s0.isCSpline = true) (g : Bool) (n : Nat)
    (src : List SUConfigurationTableEntry) (hlen : src.length = n)
    (hmod : 2 * n ≤ UNativeInt_MOD)
    (hpairs : ∀ v ∈ src.map fun e => e.fIndependentValue,
      (src.map fun e => e.fIndependentValue).count v ≤ 2)
    (hmin : 3 ≤ (src.map fun e => e.fIndependentValue).dedup.length) :
    ∃ s1 s2 s1', s0.configure n (some src) = (Status.ok, s1) ∧
      (CUCSpline.new g).configure n (some src) = (Status.ok, s2) ∧
      CUCSpline.configureNaturalSpline s1 g = some s1' ∧
      s1'.m_paTable = s1.m_paTable ∧ s1'.m_uEntries = s1.m_uEntries ∧
      s1'.m_fdydx_L = s1.m_fdydx_L ∧ s1'.m_fdydx_H = s1.m_fdydx_H ∧
      s1'.m_bNaturalSpline = g ∧
      s1'.table = s2.table ∧ s1'.m_fdydx_L = s2.m_fdydx_L ∧ s1'.m_fdydx_H = s2.m_fdydx_H ∧
      (∀ i, i < s1'.m_uEntries → d2At s1' i = d2At s2 i) ∧
      (∀ x, s1'.evaluate x = s2.evaluate x) ∧
      (g = s0.m_bNaturalSpline → s1' = s1) := by
  have hv0 : s0.tableSizeIsValid (src.map fun e => e.fIndependentValue).dedup.length = true := by
    unfold CUInterpolator.tableSizeIsValid
    rw [if_pos hsp]
    exact decide_eq_true hmin
  have hvg : (CUCSpline.new g).tableSizeIsValid
      (src.map fun e => e.fIndependentValue).dedup.length = true := by
    unfold CUInterpolator.tableSizeIsValid
    rw [if_pos (show (CUCSpline.new g).isCSpline = true from rfl)]
    exact decide_eq_true hmin
  have hwfg : (CUCSpline.new g).WellFormed := by cases g <;> decide
  obtain ⟨s1, p, hp, hpl, hpn, hcfg1, ht1, hn1, hk1, hr1, hcur1, hcs1, hfl1, hL1, hH1, hsol1,
    -, -⟩ := configure_pairs_solved s0 hwf n src hlen hmod hpairs hv0
  obtain ⟨s2, p', hp', -, -, hcfg2, ht2, hn2, hk2, hr2, hcur2, hcs2, hfl2, hL2, hH2, hsol2,
    -, -⟩ := configure_pairs_solved (CUCSpline.new g) hwfg n src hlen hmod hpairs hvg
  have hpp : p = p' := by rw [hp] at hp'; exact Option.some.inj hp'
  subst hpp
  have hsp1 : s1.isCSpline = true := by rw [hcs1]; exact hsp
  have h31 : 3 ≤ s1.m_uEntries := by rw [hn1, hk1]; exact hmin
  obtain ⟨s1', htog, g1, g2, g3, g4, g5, g6, g7, g8, g9, g10, g11⟩ :=
    configureNaturalSpline_spec s1 hr1 hsp1 h31 (hsol1 hsp) g
  have hr1' : s1'.Ready := by
    obtain ⟨a1, a2, a3, a4, a5, a6⟩ := hr1
    exact ⟨by rw [g2]; exact a1, by rw [g1, g2]; exact a2, by rw [g2]; exact a3,
      by rw [g1, g2]; exact a4, by rw [g6]; exact a5,
      fun hc => by rw [g9, g2]; exact a6 hsp1⟩
  have hx : ∀ i, i < s2.m_uEntries → rowX s1'.m_paTable i = rowX s2.m_paTable i := by
    intro i hi
    rw [hn2] at hi
    rw [g1, ht1, ht2, rowX_append_left _ _ _ (by omega), rowX_append_left _ _ _ (by omega)]
  have hy : ∀ i, i < s2.m_uEntries → rowY s1'.m_paTable i = rowY s2.m_paTable i := by
    intro i hi
    rw [hn2] at hi
    rw [g1, ht1, ht2, rowY_append_left _ _ _ (by omega), rowY_append_left _ _ _ (by omega)]
  have hnn : s1'.m_uEntries = s2.m_uEntries := by rw [g2, hn1, hn2]
  have h32 : 3 ≤ s2.m_uEntries := by rw [hn2, hk2]; exact hmin
  have hn2' : p.1 = s2.m_uEntries := hn2.symm
  have hLL : s1'.m_fdydx_L = s2.m_fdydx_L := by
    rw [g4, hL1, hL2, ← g1, hx 0 (by omega), hx 1 (by omega), hy 0 (by omega), hy 1 (by omega)]
  have hHH : s1'.m_fdydx_H = s2.m_fdydx_H := by
    rw [g5, hH1, hH2, ← g1, hn2', hx _ (show s2.m_uEntries - 1 < s2.m_uEntries by omega),
      hx _ (show s2.m_uEntries - 2 < s2.m_uEntries by omega),
      hy _ (show s2.m_uEntries - 1 < s2.m_uEntries by omega),
      hy _ (show s2.m_uEntries - 2 < s2.m_uEntries by omega)]
  have hd := splineSolved_unique_rows s2 s1' hnn hx hy (by rw [g8, hfl2]; rfl) hLL hHH
    (by omega) (hsol2 rfl) g10
  refine ⟨s1, s2, s1', hcfg1, hcfg2, htog, g1, g2, g4, g5, g8, ?_, hLL, hHH,
    fun i hi => hd i (by rw [← hnn]; exact hi), ?_, ?_⟩
  · unfold CUInterpolator.table
    rw [g1, g2, ht1, ht2, hn1, hn2, List.take_append_of_le_length (by omega),
      List.take_append_of_le_length (by omega)]
  · intro x
    exact evaluate_congr s2 s1' hr2 hr1' (by rw [hcur2, hn2]; omega)
      (by rw [g7, g2, hcur1, hn1]; omega) hnn (by rw [g3, hcs1, hcs2, hsp]; rfl) hx hy hLL hHH
      hd x
  · intro hg
    exact g11 (by rw [hfl1]; exact hg)

theorem toggle_rederives_witness :
    ∃ s1 s2 s1', (CUCSpline.new true).configure 4
          (some [⟨0, 0⟩, ⟨1, 1⟩, ⟨2, 8⟩, ⟨3, 27⟩]) = (Status.ok, s1) ∧
      (CUCSpline.new false).configure 4 (some [⟨0, 0⟩, ⟨1, 1⟩, ⟨2, 8⟩, ⟨3, 27⟩])
        = (Status.ok, s2) ∧
      CUCSpline.configureNaturalSpline s1 false = some s1' ∧
      s1'.m_paTable = s1.m_paTable ∧ s1'.m_uEntries = s1.m_uEntries ∧
      s1'.m_fdydx_L = s1.m_fdydx_L ∧ s1'.m_fdydx_H = s1.m_fdydx_H ∧
      s1'.m_bNaturalSpline = false ∧
      s1'.table = s2.table ∧ s1'.m_fdydx_L = s2.m_fdydx_L ∧ s1'.m_fdydx_H = s2.m_fdydx_H ∧
      (∀ i, i < s1'.m_uEntries → d2At s1' i = d2At s2 i) ∧
      (∀ x, s1'.evaluate x = s2.evaluate x) ∧
      (false = (CUCSpline.new true).m_bNaturalSpline → s1' = s1) :=
  toggle_rederives (CUCSpline.new true) (by decide) rfl false 4
    [⟨0, 0⟩, ⟨1, 1⟩, ⟨2, 8⟩, ⟨3, 27⟩] rfl (by decide) (by decide!) (by decide!)

/-- C19 (worked cubic example).  A natural cubic-spline evaluator configured
from `{(0,0),(1,1),(2,8),(3,27)}` derives the second derivatives
`0, 24/5, 84/5, 0` and the end slope `dydx_low = 1`; `interpolate(-1)` is
`y[0] - (x[0] - (-1)) * dydx_low = -1`, and `interpolate(3/2)` is `63/20`, within
`1/4` of the cubic value `27/8`. -/
theorem worked_cubic_example :
    ((CUCSpline.new true).configure 4 (some [⟨0, 0⟩, ⟨1, 1⟩, ⟨2, 8⟩, ⟨3, 27⟩])).1 = Status.ok ∧
    ((CUCSpline.new true).configure 4 (some [⟨0, 0⟩, ⟨1, 1⟩, ⟨2, 8⟩, ⟨3, 27⟩])).2.m_pafd2ydx2
      = [0, 24 / 5, 84 / 5, 0] ∧
    ((CUCSpline.new true).configure 4 (some [⟨0, 0⟩, ⟨1, 1⟩, ⟨2, 8⟩, ⟨3, 27⟩])).2.m_fdydx_L = 1 ∧
    ((CUCSpline.new true).configure 4 (some [⟨0, 0⟩, ⟨1, 1⟩, ⟨2, 8⟩, ⟨3, 27⟩])).2.evaluate (-1)
      = some (0 - (0 - (-1)) * 1) ∧
    ((CUCSpline.new true).configure 4 (some [⟨0, 0⟩, ⟨1, 1⟩, ⟨2, 8⟩, ⟨3, 27⟩])).2.evaluate (-1)
      = some (-1) ∧
    ((CUCSpline.new true).configure 4 (some [⟨0, 0⟩, ⟨1, 1⟩, ⟨2, 8⟩, ⟨3, 27⟩])).2.evaluate (3 / 2)
      = some (63 / 20) ∧
    |(63 / 20 : FloatDP) - 27 / 8| ≤ 1 / 4 := by
  refine ⟨?_, ?_, ?_, ?_, ?_, ?_, ?_⟩
  · decide!
  · decide!
  · decide!
  · decide!
  · decide!
  · decide!
  · rw [abs_le]; constructor <;> norm_num

/-- C16 (query-order independence), evaluated at a failing input.  A linear
evaluator configured from `{(0,0),(1,10),(1,20),(1,30),(2,40)}` configures
successfully and keeps the four rows `(0,0),(1,20),(1,30),(2,40)`; the first
`interpolate(1)` returns `20`, the same query repeated returns `30`. -/
theorem repeated_query_differs :
    (CUInterpolator.new.configure 5
        (some [⟨0, 0⟩, ⟨1, 10⟩, ⟨1, 20⟩, ⟨1, 30⟩, ⟨2, 40⟩])).1 = Status.ok ∧
    (CUInterpolator.new.configure 5
        (some [⟨0, 0⟩, ⟨1, 10⟩, ⟨1, 20⟩, ⟨1, 30⟩, ⟨2, 40⟩])).2.table
      = [⟨0, 0⟩, ⟨1, 20⟩, ⟨1, 30⟩, ⟨2, 40⟩] ∧
    interpolateAll (CUInterpolator.new.configure 5
        (some [⟨0, 0⟩, ⟨1, 10⟩, ⟨1, 20⟩, ⟨1, 30⟩, ⟨2, 40⟩])).2 [1, 1] = some [20, 30] := by
  refine ⟨?_, ?_, ?_⟩
  · decide!
  · decide!
  · decide!

/-- C17 (copy is faithful), evaluated at failing inputs.  A linear evaluator
configured successfully from `{(1,10),(1,20),(1,30)}` holds two rows; copying
it throws `std::invalid_argument` and leaves the destination without a table.
One configured from `{(0,0),(1,10),(1,20),(1,30),(2,40)}` holds four rows; its
copy holds three. -/
theorem copy_drops_rows :
    (CUInterpolator.new.configure 3 (some [⟨1, 10⟩, ⟨1, 20⟩, ⟨1, 30⟩])).1 = Status.ok ∧
    (CUInterpolator.new.configure 3 (some [⟨1, 10⟩, ⟨1, 20⟩, ⟨1, 30⟩])).2.m_uEntries = 2 ∧
    (CUInterpolator.new.copy
        (CUInterpolator.new.configure 3 (some [⟨1, 10⟩, ⟨1, 20⟩, ⟨1, 30⟩])).2).1
      = Status.invalid_argument What.InvalidTableLength ∧
    (CUInterpolator.new.copy
        (CUInterpolator.new.configure 3 (some [⟨1, 10⟩, ⟨1, 20⟩, ⟨1, 30⟩])).2).2.m_uEntries = 0 ∧
    (CUInterpolator.new.configure 5
        (some [⟨0, 0⟩, ⟨1, 10⟩, ⟨1, 20⟩, ⟨1, 30⟩, ⟨2, 40⟩])).2.m_uEntries = 4 ∧
    (CUInterpolator.new.copy (CUInterpolator.new.configure 5
        (some [⟨0, 0⟩, ⟨1, 10⟩, ⟨1, 20⟩, ⟨1, 30⟩, ⟨2, 40⟩])).2).1 = Status.ok ∧
    (CUInterpolator.new.copy (CUInterpolator.new.configure 5
        (some [⟨0, 0⟩, ⟨1, 10⟩, ⟨1, 20⟩, ⟨1, 30⟩, ⟨2, 40⟩])).2).2.table
      = [⟨0, 0⟩, ⟨1, 30⟩, ⟨2, 40⟩] := by
  refine ⟨?_, ?_, ?_, ?_, ?_, ?_, ?_⟩
  · decide!
  · decide!
  · decide!
  · decide!
  · decide!
  · decide!
  · decide!

theorem dedupLoop_sorted :
    ∀ (fuel ui n : Nat) (t : List SUConfigurationTableEntry), 1 ≤ n → n ≤ t.length →
      n < UNativeInt_MOD → n - ui ≤ fuel → 1 ≤ fuel →
      (∀ a b, a ≤ b → b < n → rowX t a ≤ rowX t b) →
      ∃ n' t', dedupLoop fuel ui n t = some (n', t') ∧ 1 ≤ n' ∧ n' ≤ n ∧
        t'.length = t.length ∧
        (∀ a b, a ≤ b → b < n' → rowX t' a ≤ rowX t' b) ∧
        (∀ v, (∃ i, i < n' ∧ rowX t' i = v) ↔ (∃ i, i < n ∧ rowX t i = v)) ∧
        (∀ i, i < n' → ∃ j, j < n ∧ t'[i]? = t[j]?) := by
  intro fuel
  induction fuel with
  | zero => intro ui n t _ _ _ _ h; omega
  | succ fuel ih =>
    intro ui n t h1 hlen hmod hfuel _ hsort
    have hu : usub n 1 = n - 1 := usub_one_of_pos (by omega) hmod
    rw [dedupLoop, hu]
    by_cases hlt : ui < n - 1
    · obtain ⟨eR, hrR, hgR⟩ := tableRead_of_lt (show ui + 1 < n by omega) hlen
      obtain ⟨eL, hrL, hgL⟩ := tableRead_of_lt (show ui < n by omega) hlen
      rw [if_pos hlt]
      simp only [hrR, hrL, Option.bind_eq_bind, Option.some_bind]
      by_cases hne : eR.fIndependentValue ≠ eL.fIndependentValue
      · rw [if_pos hne]
        exact ih (ui + 1) n t h1 hlen hmod (by omega) (by omega) hsort
      · rw [if_neg hne]
        have heq : rowX t (ui + 1) = rowX t ui := by
          rw [rowX_of_get hgR, rowX_of_get hgL]
          exact not_not.mp hne
        obtain ⟨t', hmv, hl', hlo, hhi, -⟩ := memmoveRows_get t ui n (by omega) hlen
        rw [hmv]
        simp only [Option.some_bind]
        have xlo : ∀ i, i < ui → rowX t' i = rowX t i := fun i hi => rowX_congr (hlo i hi)
        have xhi : ∀ i, ui ≤ i → i + 1 < n → rowX t' i = rowX t (i + 1) :=
          fun i h1 h2 => rowX_congr (hhi i h1 h2)
        obtain ⟨n', t'', hrun, hn1, hn2, hl'', hsorted, hset, hrows⟩ :=
          ih (ui + 1) (n - 1) t' (by omega) (by omega) (by omega) (by omega) (by omega)
            (by
              intro a b hab hb
              by_cases ha : a < ui
              · by_cases hb' : b < ui
                · rw [xlo a ha, xlo b hb']; exact hsort a b hab (by omega)
                · rw [xlo a ha, xhi b (by omega) (by omega)]
                  exact hsort a (b + 1) (by omega) (by omega)
              · rw [xhi a (by omega) (by omega), xhi b (by omega) (by omega)]
                exact hsort (a + 1) (b + 1) (by omega) (by omega))
        refine ⟨n', t'', hrun, hn1, by omega, by omega, hsorted, ?_, ?_⟩
        · intro v
          rw [hset v]
          constructor
          · rintro ⟨i, hi, hv⟩
            by_cases hiu : i < ui
            · exact ⟨i, by omega, by rw [← xlo i hiu]; exact hv⟩
            · exact ⟨i + 1, by omega, by rw [← xhi i (by omega) (by omega)]; exact hv⟩
          · rintro ⟨j, hj, hv⟩
            by_cases hju : j < ui
            · exact ⟨j, by omega, by rw [xlo j hju]; exact hv⟩
            · by_cases hju' : j = ui
              · refine ⟨ui, by omega, ?_⟩
                rw [xhi ui (by omega) (by omega), heq, ← hju']; exact hv
              · refine ⟨j - 1, by omega, ?_⟩
                rw [xhi (j - 1) (by omega) (by omega)]
                have : j - 1 + 1 = j := by omega
                rw [this]; exact hv
        · intro i hi
          obtain ⟨j, hj, hij⟩ := hrows i hi
          by_cases hju : j < ui
          · exact ⟨j, by omega, by rw [hij, hlo j hju]⟩
          · exact ⟨j + 1, by omega, by rw [hij, hhi j (by omega) (by omega)]⟩
    · rw [if_neg hlt]
      exact ⟨n, t, rfl, h1, le_refl _, rfl, hsort, fun v => Iff.rfl, fun i hi => ⟨i, hi, rfl⟩⟩

theorem fillTable_sorted (s : CUInterpolator) (src : List SUConfigurationTableEntry)
    (h0 : 0 < s.m_uEntries) (hlen : s.m_uEntries ≤ s.m_paTable.length)
    (hsrc : s.m_uEntries ≤ src.length) (hmod : s.m_uEntries < UNativeInt_MOD) :
    ∃ n t, s.fillTable src = some { s with m_paTable := t, m_uEntries := n } ∧
      1 ≤ n ∧ n ≤ s.m_uEntries ∧ t.length = s.m_paTable.length ∧
      (∀ a b, a ≤ b → b < n → rowX t a ≤ rowX t b) ∧
      (∀ v, v ∈ ((t.take n).map fun e => e.fIndependentValue) ↔
        v ∈ ((src.take s.m_uEntries).map fun e => e.fIndependentValue)) ∧
      (∀ e, e ∈ t.take n → e ∈ src.take s.m_uEntries) := by
  have hcpy : memcpyRows s.m_paTable src s.m_uEntries =
      some (src.take s.m_uEntries ++ s.m_paTable.drop s.m_uEntries) := by
    simp [memcpyRows, hsrc, hlen]
  have hl0 : (src.take s.m_uEntries ++ s.m_paTable.drop s.m_uEntries).length
      = s.m_paTable.length := by
    simp; omega
  obtain ⟨t1, hsort, hlt, hperm, hrest, hsorted⟩ :=
    sortTable_spec s.m_uEntries (src.take s.m_uEntries ++ s.m_paTable.drop s.m_uEntries)
      h0 (by omega) hmod
  have htake : (t1.take s.m_uEntries).Perm (src.take s.m_uEntries) := by
    have := take_perm_of_rest s.m_uEntries t1 _ hperm hrest
    rwa [List.take_left' (by simp; omega)] at this
  have hn1 : s.m_uEntries ≤ t1.length := by omega
  have hget : ∀ i, i < s.m_uEntries → ∃ e, t1[i]? = some e := fun i hi =>
    ⟨t1.get ⟨i, by omega⟩, by simp⟩
  have hsx : ∀ a b, a ≤ b → b < s.m_uEntries → rowX t1 a ≤ rowX t1 b := by
    intro a b hab hb
    obtain ⟨ea, ha⟩ := hget a (by omega)
    obtain ⟨eb, hb'⟩ := hget b hb
    rw [rowX_of_get ha, rowX_of_get hb']
    exact hsorted a b hab hb _ _ ha hb'
  obtain ⟨n', t', hdd, hn'1, hn'2, hl', hsorted', hset, hrows⟩ :=
    dedupLoop_sorted s.m_uEntries 0 s.m_uEntries t1 (by omega) hn1 hmod (by omega) (by omega)
      hsx
  refine ⟨n', t', ?_, hn'1, hn'2, by omega, hsorted', ?_, ?_⟩
  · unfold CUInterpolator.fillTable
    rw [hcpy]
    simp only [Option.bind_eq_bind, Option.some_bind]
    rw [hsort]
    simp only [Option.some_bind]
    rw [hdd]
    rfl
  · intro v
    rw [mem_map_take_rowX t' n' (by omega) v, hset v, ← mem_map_take_rowX t1 _ hn1 v]
    exact (htake.map fun e => e.fIndependentValue).mem_iff
  · intro e he
    obtain ⟨k, hk, hg⟩ := mem_take_row he
    obtain ⟨j, hj, hij⟩ := hrows k hk
    rw [hg] at hij
    have : e ∈ t1.take s.m_uEntries := by
      rw [List.mem_iff_getElem?]
      exact ⟨j, by rw [List.getElem?_take_of_lt hj]; exact hij.symm⟩
    exact htake.mem_iff.mp this

theorem configure_ok_spec (s : CUInterpolator) (hwf : s.WellFormed) (n : Nat)
    (src : List SUConfigurationTableEntry) (hn0 : n ≠ 0) (hmod : n < UNativeInt_MOD)
    (hsrc : n ≤ src.length) (s' : CUInterpolator)
    (h : s.configure n (some src) = (Status.ok, s')) :
    s.tableSizeIsValid n = true ∧ s'.WellFormed ∧
      s'.tableSizeIsValid s'.m_uEntries = true ∧ s'.m_uEntries ≤ n ∧
      s'.isCSpline = s.isCSpline ∧ s'.m_bNaturalSpline = s.m_bNaturalSpline ∧
      (∀ a b, a ≤ b → b < s'.m_uEntries → rowX s'.m_paTable a ≤ rowX s'.m_paTable b) ∧
      (∀ v, v ∈ (s'.table.map fun e => e.fIndependentValue) ↔
        v ∈ ((src.take n).map fun e => e.fIndependentValue)) ∧
      (∀ e, e ∈ s'.table → e ∈ src.take n) ∧
      s'.m_fXStep = 0 ∧ s'.m_uLastEntry = (s'.m_uEntries - 1) / 2 ∧
      s'.m_fdydx_L = (rowY s'.m_paTable 1 - rowY s'.m_paTable 0)
        / (rowX s'.m_paTable 1 - rowX s'.m_paTable 0) ∧
      s'.m_fdydx_H = (rowY s'.m_paTable (s'.m_uEntries - 1)
          - rowY s'.m_paTable (s'.m_uEntries - 2))
        / (rowX s'.m_paTable (s'.m_uEntries - 1) - rowX s'.m_paTable (s'.m_uEntries - 2)) ∧
      (s.isCSpline = true → SplineSolved s') := by
  have hv : s.tableSizeIsValid n = true := by
    cases hv : s.tableSizeIsValid n with
    | true => rfl
    | false =>
      unfold CUInterpolator.configure at h
      rw [if_neg (by simp), if_pos ⟨hn0, hv⟩] at h
      exact absurd (Prod.mk.inj h).1 (by simp)
  obtain ⟨ha1, ha2, ha3, ha4, ha5⟩ := allocateTable_pos s n hwf hn0 hmod
  obtain ⟨hw1, hw2, hw3, hw4⟩ := ha3
  obtain ⟨n', t, hfill, hn1, hn2, htl, hsorted, hmem, hrows⟩ :=
    fillTable_sorted (s.allocateTable n).2 src (by omega) (by omega) (by omega) (by omega)
  rw [ha2] at hmem hrows hn2
  have hv2 : CUInterpolator.tableSizeIsValid
      { (s.allocateTable n).2 with m_paTable := t, m_uEntries := n' } n' = true := by
    cases hv2 : CUInterpolator.tableSizeIsValid
        { (s.allocateTable n).2 with m_paTable := t, m_uEntries := n' } n' with
    | true => rfl
    | false =>
      unfold CUInterpolator.configure at h
      rw [if_neg (by simp), if_neg (by simp [hv])] at h
      simp only [ha1, Option.getD_some, hfill, hv2] at h
      simp at h
  obtain ⟨s3, hfin, f1, f2, f3, f4, f5, f6, f7, f8, f9, f10, f11, f12, f13⟩ :=
    finishConfigure_spec { (s.allocateTable n).2 with m_paTable := t, m_uEntries := n' } hv2
      (by simp only []; omega) (by simp only []; omega)
      (fun hc => by
        have := (hw4 hc).2
        simp only []; omega)
  simp only [] at f1 f2 f3 f4 f5 f6 f7 f9 f10 f11 f12
  have hcfg := configure_of_fillTable s n src hv ha1 _ hfill hv2 s3 hfin
  have heq : s' = s3 := by
    rw [h] at hcfg
    exact (Prod.mk.inj hcfg).2
  subst heq
  refine ⟨hv, ⟨by rw [f1, f5]; omega, by rw [f2, f5]; omega, by rw [f5]; exact hw3, ?_⟩, ?_,
    by rw [f2]; exact hn2, by rw [f3, ha4], by rw [f4, ha5],
    by rw [f1, f2]; exact hsorted, ?_, ?_, f8, by rw [f9, f2], by rw [f10, f1],
    by rw [f11, f1, f2], fun hc => f12 (by rw [ha4]; exact hc)⟩
  · intro hc
    rw [f3] at hc
    have := hw4 hc
    rw [f6, f7, f5]
    exact this
  · rw [f2, tableSizeIsValid_congr (s.allocateTable n).2 s' f3]
    exact hv2
  · intro v
    unfold CUInterpolator.table
    rw [f1, f2]
    exact hmem v
  · intro e he
    unfold CUInterpolator.table at he
    rw [f1, f2] at he
    exact hrows e he

theorem zipLoop_eq (n : Nat) (xs ys : List FloatDP) (hx : n ≤ xs.length) (hy : n ≤ ys.length) :
    forLoop (zipStep n xs ys) n 0 (List.replicate n default)
      = some (List.zipWith SUConfigurationTableEntry.mk (xs.take n) (ys.take n)) := by
  obtain ⟨t, hrun, hl, hrows⟩ := forLoop_inv (zipStep n xs ys)
    (fun j t => t.length = n ∧
      ∀ m, m < j → t[m]? = some ⟨xs.getD m 0, ys.getD m 0⟩)
    n 0 (List.replicate n default) ⟨by simp, fun m hm => by omega⟩
    (fun j t _ hj2 hp => by
      obtain ⟨p1, p2⟩ := hp
      refine ⟨t.set j ⟨xs.getD j 0, ys.getD j 0⟩, ?_, by simp [p1], ?_⟩
      · unfold zipStep
        rw [bufRead_getD (show j < xs.length by omega), bufRead_getD (show j < ys.length by omega)]
        simp only [Option.bind_eq_bind, Option.some_bind]
        unfold tableWrite
        rw [if_pos ⟨by omega, by omega⟩]
      · intro m hm
        by_cases hmj : m = j
        · subst hmj
          rw [List.getElem?_set_self (by omega)]
        · rw [List.getElem?_set_ne (fun h => hmj h.symm)]
          exact p2 m (by omega))
  rw [hrun]
  congr 1
  apply List.ext_getElem?
  intro m
  by_cases hm : m < n
  · rw [hrows m (by omega), List.getElem?_zipWith]
    rw [List.getElem?_take_of_lt hm, List.getElem?_take_of_lt hm]
    have e1 : xs[m]? = some (xs.getD m 0) := by
      rw [List.getD_eq_getElem?_getD, List.getElem?_eq_getElem (by omega)]; rfl
    have e2 : ys[m]? = some (ys.getD m 0) := by
      rw [List.getD_eq_getElem?_getD, List.getElem?_eq_getElem (by omega)]; rfl
    rw [e1, e2]
  · rw [List.getElem?_eq_none (by omega), List.getElem?_eq_none (by simp; omega)]

theorem configureArrays_eq (s : CUInterpolator) (n : Nat) (xs ys : List FloatDP)
    (hx : n ≤ xs.length) (hy : n ≤ ys.length) :
    s.configureArrays n (some xs) (some ys)
      = s.configure n (some (List.zipWith SUConfigurationTableEntry.mk
          (xs.take n) (ys.take n))) := by
  unfold CUInterpolator.configureArrays
  rw [if_neg (by simp)]
  by_cases hv : n ≠ 0 ∧ s.tableSizeIsValid n = false
  · rw [if_pos hv]
    unfold CUInterpolator.configure
    rw [if_neg (by simp), if_pos hv]
  · rw [if_neg hv]
    simp only [Option.getD_some]
    rw [zipLoop_eq n xs ys hx hy]

/-- C23 (parallel-array configure is explicit-table configure of the zipped
pairs).  For every count `n`, every starting state and all arrays `xs`, `ys` of
length `n`, `configure(n, xs, ys)` returns the same status and leaves the same
evaluator state as `configure(n, [(xs[0],ys[0]), ..., (xs[n-1],ys[n-1])])`. -/
theorem parallel_arrays_refine_explicit (s : CUInterpolator) (n : Nat) (xs ys : List FloatDP)
    (hx : xs.length = n) (hy : ys.length = n) :
    s.configureArrays n (some xs) (some ys)
      = s.configure n (some (List.zipWith SUConfigurationTableEntry.mk xs ys)) := by
  have h := configureArrays_eq s n xs ys (by omega) (by omega)
  rw [← hx] at h
  rw [List.take_length] at h
  rw [← hx, h]
  have : ys.take xs.length = ys := by rw [hx, ← hy]; exact List.take_length ys
  rw [this]

theorem parallel_arrays_refine_explicit_witness :
    CUInterpolator.new.configureArrays 3 (some [0, 1, 2]) (some [0, 1, 4])
        = CUInterpolator.new.configure 3
          (some (List.zipWith SUConfigurationTableEntry.mk [0, 1, 2] [0, 1, 4])) ∧
      (CUInterpolator.new.configureArrays 3 (some [0, 1, 2]) (some [0, 1, 4])).1 = Status.ok ∧
      (CUInterpolator.new.configureArrays 3 (some [0, 1, 2]) (some [0, 1, 4])).2.table
        = [⟨0, 0⟩, ⟨1, 1⟩, ⟨2, 4⟩] :=
  ⟨parallel_arrays_refine_explicit CUInterpolator.new 3 [0, 1, 2] [0, 1, 4] rfl rfl,
    by decide!, by decide!⟩

theorem extractLoop_eq (s : CUInterpolator) (hlen : s.m_uEntries ≤ s.m_paTable.length)
    (k : Nat) (hk : k ≤ s.m_uEntries) (dst : List SUConfigurationTableEntry)
    (hd : k ≤ dst.length) :
    forLoop (fun uEntry (d : List SUConfigurationTableEntry) => do
        let e ← tableRead s.m_uEntries s.m_paTable uEntry
        tableWrite d.length d uEntry e) k 0 dst
      = some (s.m_paTable.take k ++ dst.drop k) := by
  obtain ⟨t, hrun, hl, hrows, hrest⟩ := forLoop_inv
    (fun uEntry (d : List SUConfigurationTableEntry) => do
        let e ← tableRead s.m_uEntries s.m_paTable uEntry
        tableWrite d.length d uEntry e)
    (fun j t => t.length = dst.length ∧ (∀ m, m < j → t[m]? = s.m_paTable[m]?) ∧
      ∀ m, j ≤ m → t[m]? = dst[m]?)
    k 0 dst ⟨rfl, fun m hm => by omega, fun m _ => rfl⟩
    (fun j t _ hj2 hp => by
      obtain ⟨p1, p2, p3⟩ := hp
      obtain ⟨e, hr, hg⟩ := tableRead_of_lt (show j < s.m_uEntries by omega) hlen
      refine ⟨t.set j e, ?_, by simp [p1], ?_, ?_⟩
      · simp only [hr, Option.bind_eq_bind, Option.some_bind]
        unfold tableWrite
        rw [if_pos ⟨by omega, by omega⟩]
      · intro m hm
        by_cases hmj : m = j
        · subst hmj
          rw [List.getElem?_set_self (by omega), hg]
        · rw [List.getElem?_set_ne (fun h => hmj h.symm)]
          exact p2 m (by omega)
      · intro m hm
        rw [List.getElem?_set_ne (by omega)]
        exact p3 m (by omega))
  rw [hrun]
  congr 1
  apply List.ext_getElem?
  intro m
  by_cases hm : m < k
  · rw [hrows m (by omega), List.getElem?_append_left (by simp; omega),
      List.getElem?_take_of_lt hm]
  · rw [hrest m (by omega), List.getElem?_append_right (by simp; omega), List.getElem?_drop]
    congr 1
    simp
    omega

/-- C24 (`extractTable` returns a prefix of the table).  For every evaluator
state whose table buffer holds its `n` entries, every `uMaxValues` and every
destination (null, or an array with room for `min(uMaxValues, n)` entries),
`extractTable` returns `min(uMaxValues, n)` and the destination receives exactly
the first `min(uMaxValues, n)` table entries in table order, its remaining
elements untouched.  The method is `const`: the model function returns no
evaluator state. -/
theorem extractTable_leading_rows (s : CUInterpolator) (hlen : s.m_uEntries ≤ s.m_paTable.length)
    (uMaxValues : Nat) (paTable : Option (List SUConfigurationTableEntry))
    (hroom : ∀ d, paTable = some d → min uMaxValues s.m_uEntries ≤ d.length) :
    s.extractTable paTable uMaxValues
      = some (min uMaxValues s.m_uEntries,
          paTable.map fun d => s.table.take (min uMaxValues s.m_uEntries)
            ++ d.drop (min uMaxValues s.m_uEntries)) := by
  unfold CUInterpolator.extractTable
  by_cases h0 : 0 = s.m_uEntries
  · rw [if_pos h0, ← h0]
    cases paTable with
    | none => simp
    | some d => simp
  · rw [if_neg h0]
    have hmin : (if uMaxValues > s.m_uEntries then s.m_uEntries else uMaxValues)
        = min uMaxValues s.m_uEntries := by
      split <;> omega
    simp only [hmin]
    cases paTable with
    | none => rfl
    | some d =>
      simp only [Option.map_some']
      rw [extractLoop_eq s hlen _ (Nat.min_le_right _ _) d (hroom d rfl)]
      unfold CUInterpolator.table
      rw [List.take_take, Nat.min_assoc, Nat.min_self]
      rfl

theorem extractTable_leading_rows_witness :
    (CUInterpolator.new.configure 3 (some [⟨2, 4⟩, ⟨0, 0⟩, ⟨1, 1⟩])).2.extractTable
        (some [⟨9, 9⟩, ⟨9, 9⟩, ⟨9, 9⟩]) 2
      = some (min 2 (CUInterpolator.new.configure 3 (some [⟨2, 4⟩, ⟨0, 0⟩, ⟨1, 1⟩])).2.m_uEntries,
          (some [⟨9, 9⟩, ⟨9, 9⟩, ⟨9, 9⟩]).map fun d =>
            (CUInterpolator.new.configure 3 (some [⟨2, 4⟩, ⟨0, 0⟩, ⟨1, 1⟩])).2.table.take
              (min 2 (CUInterpolator.new.configure 3
                (some [⟨2, 4⟩, ⟨0, 0⟩, ⟨1, 1⟩])).2.m_uEntries)
            ++ d.drop (min 2 (CUInterpolator.new.configure 3
                (some [⟨2, 4⟩, ⟨0, 0⟩, ⟨1, 1⟩])).2.m_uEntries)) ∧
    (CUInterpolator.new.configure 3 (some [⟨2, 4⟩, ⟨0, 0⟩, ⟨1, 1⟩])).2.extractTable
        (some [⟨9, 9⟩, ⟨9, 9⟩, ⟨9, 9⟩]) 2
      = some (2, some [⟨0, 0⟩, ⟨1, 1⟩, ⟨9, 9⟩]) :=
  ⟨extractTable_leading_rows _ (by decide!) 2 _ (by decide!), by decide!⟩

theorem table_get_of_lt (s : CUInterpolator) (hlen : s.m_uEntries ≤ s.m_paTable.length)
    (i : Nat) (hi : i < s.m_uEntries) :
    ∃ e, s.table[i]? = some e ∧ s.m_paTable[i]? = some e ∧ e ∈ s.table ∧
      rowX s.m_paTable i = e.fIndependentValue ∧ rowY s.m_paTable i = e.fDependentValue ∧
      s.xval i = some e.fIndependentValue ∧ s.yval i = some e.fDependentValue := by
  obtain ⟨e, hg, hx, hy⟩ := row_of_lt hi hlen
  have ht : s.table[i]? = some e := by
    unfold CUInterpolator.table
    rw [List.getElem?_take_of_lt hi]; exact hg
  exact ⟨e, ht, hg, List.mem_iff_getElem?.mpr ⟨i, ht⟩, rowX_of_get hg, rowY_of_get hg, hx, hy⟩

/-- C22 (table bounds accessors).  After a successful explicit-table `configure`
of a well-formed evaluator from any `n ≥ 1` input rows, the first and the last
table entries `e0`, `eH` satisfy: `lowestIndependentValue()` is `e0.x`, an `x`
of the input not above any input `x` (the minimum); `highestIndependentValue()`
is `eH.x`, an `x` of the input not below any input `x` (the maximum);
`lowestDependentValue()` and `highestDependentValue()` are `e0.y` and `eH.y`, the
`y` values held at the lowest and highest table index. -/
theorem table_bounds_accessors (s : CUInterpolator) (hwf : s.WellFormed) (n : Nat)
    (src : List SUConfigurationTableEntry) (hn0 : n ≠ 0) (hmod : n < UNativeInt_MOD)
    (hlen : src.length = n) (s' : CUInterpolator)
    (h : s.configure n (some src) = (Status.ok, s')) :
    ∃ e0 eH, s'.table[0]? = some e0 ∧ s'.table[s'.table.length - 1]? = some eH ∧
      s'.lowestIndependentValue = some e0.fIndependentValue ∧
      s'.highestIndependentValue = some eH.fIndependentValue ∧
      s'.lowestDependentValue = some e0.fDependentValue ∧
      s'.highestDependentValue = some eH.fDependentValue ∧
      e0.fIndependentValue ∈ (src.map fun e => e.fIndependentValue) ∧
      eH.fIndependentValue ∈ (src.map fun e => e.fIndependentValue) ∧
      ∀ v, v ∈ (src.map fun e => e.fIndependentValue) →
        e0.fIndependentValue ≤ v ∧ v ≤ eH.fIndependentValue := by
  obtain ⟨-, hwf', hv', -, -, -, hsorted, hmem, -, -, -, -, -, -⟩ :=
    configure_ok_spec s hwf n src hn0 hmod (by omega) s' h
  have htake : src.take n = src := by rw [← hlen]; exact List.take_length src
  rw [htake] at hmem
  have h2 := tableSizeIsValid_ge_two hv'
  obtain ⟨w1, w2, w3, -⟩ := hwf'
  have hl : s'.m_uEntries ≤ s'.m_paTable.length := by omega
  have hmodn : s'.m_uEntries < UNativeInt_MOD := by omega
  obtain ⟨e0, a1, a2, a3, a4, a5, a6, a7⟩ := table_get_of_lt s' hl 0 (by omega)
  obtain ⟨eH, b1, b2, b3, b4, b5, b6, b7⟩ := table_get_of_lt s' hl (s'.m_uEntries - 1) (by omega)
  have htl : s'.table.length = s'.m_uEntries := by
    unfold CUInterpolator.table; rw [List.length_take]; omega
  have hH : s'.highestTableIndex = s'.m_uEntries - 1 := usub_one_of_pos (by omega) hmodn
  refine ⟨e0, eH, a1, by rw [htl]; exact b1, ?_, ?_, ?_, ?_, ?_, ?_, ?_⟩
  · unfold CUInterpolator.lowestIndependentValue CUInterpolator.lowestXval
      CUInterpolator.lowestTableIndex
    exact a6
  · unfold CUInterpolator.highestIndependentValue CUInterpolator.highestXval
    rw [hH]; exact b6
  · unfold CUInterpolator.lowestDependentValue CUInterpolator.lowestYval
      CUInterpolator.lowestTableIndex
    exact a7
  · unfold CUInterpolator.highestDependentValue CUInterpolator.highestYval
    rw [hH]; exact b7
  · exact (hmem _).mp (List.mem_map.mpr ⟨e0, a3, rfl⟩)
  · exact (hmem _).mp (List.mem_map.mpr ⟨eH, b3, rfl⟩)
  · intro v hv
    obtain ⟨e, he, hev⟩ := List.mem_map.mp ((hmem v).mpr hv)
    obtain ⟨k, hk, hg⟩ := mem_take_row he
    have hxk : rowX s'.m_paTable k = v := by rw [rowX_of_get hg]; exact hev
    rw [← a4, ← b4, ← hxk]
    exact ⟨hsorted 0 k (by omega) hk, hsorted k (s'.m_uEntries - 1) (by omega) (by omega)⟩

theorem table_bounds_accessors_witness :
    ∃ e0 eH : SUConfigurationTableEntry,
      (CUInterpolator.new.configure 3 (some [⟨2, 3⟩, ⟨0, 5⟩, ⟨1, 1⟩])).2.table[0]? = some e0 ∧
      e0 = ⟨0, 5⟩ ∧ eH = ⟨2, 3⟩ ∧
      (CUInterpolator.new.configure 3
        (some [⟨2, 3⟩, ⟨0, 5⟩, ⟨1, 1⟩])).2.lowestIndependentValue
        = some e0.fIndependentValue ∧
      (CUInterpolator.new.configure 3
        (some [⟨2, 3⟩, ⟨0, 5⟩, ⟨1, 1⟩])).2.highestIndependentValue
        = some eH.fIndependentValue ∧
      (CUInterpolator.new.configure 3
        (some [⟨2, 3⟩, ⟨0, 5⟩, ⟨1, 1⟩])).2.lowestDependentValue = some e0.fDependentValue ∧
      (CUInterpolator.new.configure 3
        (some [⟨2, 3⟩, ⟨0, 5⟩, ⟨1, 1⟩])).2.highestDependentValue = some eH.fDependentValue ∧
      ∀ v, v ∈ ([⟨2, 3⟩, ⟨0, 5⟩, ⟨1, 1⟩].map fun e : SUConfigurationTableEntry =>
          e.fIndependentValue) → e0.fIndependentValue ≤ v ∧ v ≤ eH.fIndependentValue := by
  obtain ⟨e0, eH, h1, h2, h3, h4, h5, h6, -, -, h9⟩ :=
    table_bounds_accessors CUInterpolator.new (by decide) 3 [⟨2, 3⟩, ⟨0, 5⟩, ⟨1, 1⟩]
      (by decide) (by decide) rfl
      (CUInterpolator.new.configure 3 (some [⟨2, 3⟩, ⟨0, 5⟩, ⟨1, 1⟩])).2 (by decide!)
  have g0 : (CUInterpolator.new.configure 3 (some [⟨2, 3⟩, ⟨0, 5⟩, ⟨1, 1⟩])).2.table[0]?
      = some ⟨0, 5⟩ := by decide!
  have gH : (CUInterpolator.new.configure 3 (some [⟨2, 3⟩, ⟨0, 5⟩, ⟨1, 1⟩])).2.table[
      (CUInterpolator.new.configure 3 (some [⟨2, 3⟩, ⟨0, 5⟩, ⟨1, 1⟩])).2.table.length - 1]?
      = some ⟨2, 3⟩ := by decide!
  rw [g0] at h1
  rw [gH] at h2
  exact ⟨e0, eH, by rw [g0, h1], (Option.some.inj h1).symm, (Option.some.inj h2).symm,
    h3, h4, h5, h6, h9⟩

theorem strictAsc_pairwise (n : Nat) (t : List SUConfigurationTableEntry) (hs : StrictAsc n t) :
    (t.take n).Pairwise fun a b => a.fIndependentValue < b.fIndependentValue := by
  rw [List.pairwise_iff_getElem]
  intro i j hi hj hij
  have hj' : j < n := by rw [List.length_take] at hj; omega
  have e1 : t[i]? = some (t.take n)[i] := by
    rw [← List.getElem?_take_of_lt (show i < n by omega)]
    exact List.getElem?_eq_getElem hi
  have e2 : t[j]? = some (t.take n)[j] := by
    rw [← List.getElem?_take_of_lt hj']
    exact List.getElem?_eq_getElem hj
  exact hs i j _ _ hij hj' e1 e2

theorem sorted_rows_pairwise (n : Nat) (t : List SUConfigurationTableEntry)
    (hn : n ≤ t.length) (hs : ∀ a b, a ≤ b → b < n → rowX t a ≤ rowX t b) :
    ((t.take n).map fun e => e.fIndependentValue).Pairwise (· ≤ ·) := by
  rw [List.pairwise_iff_getElem]
  intro i j hi hj hij
  have hj' : j < n := by rw [List.length_map, List.length_take] at hj; omega
  have e1 := map_take_get t n i (by omega) hn
  have e2 := map_take_get t n j hj' hn
  rw [List.getElem?_eq_getElem hi] at e1
  rw [List.getElem?_eq_getElem hj] at e2
  rw [Option.some.inj e1, Option.some.inj e2]
  exact hs i j (by omega) hj'

theorem tables_eq_of_perm (n : Nat) (t1 t2 : List SUConfigurationTableEntry)
    (h1 : StrictAsc n t1) (h2 : StrictAsc n t2) (hp : (t1.take n).Perm (t2.take n)) :
    t1.take n = t2.take n := by
  haveI : IsAntisymm SUConfigurationTableEntry
      (fun a b => a.fIndependentValue < b.fIndependentValue) :=
    ⟨fun a b g1 g2 => absurd g1 (lt_asymm g2)⟩
  exact List.eq_of_perm_of_sorted hp (strictAsc_pairwise n t1 h1) (strictAsc_pairwise n t2 h2)

theorem configure_distinct_table (s : CUInterpolator) (hwf : s.WellFormed) (n : Nat)
    (src : List SUConfigurationTableEntry) (hn0 : n ≠ 0) (hmod : n < UNativeInt_MOD)
    (hlen : src.length = n) (hnodup : (src.map fun e => e.fIndependentValue).Nodup)
    (s' : CUInterpolator) (h : s.configure n (some src) = (Status.ok, s')) :
    s'.m_uEntries = n ∧ StrictAsc n s'.m_paTable ∧ (s'.m_paTable.take n).Perm src := by
  obtain ⟨hv, -⟩ := configure_ok_spec s hwf n src hn0 hmod (by omega) s' h
  have htake : src.take n = src := by rw [← hlen]; exact List.take_length src
  obtain ⟨s'', hcfg, hn, -, -, -, hasc, hperm, -, -⟩ :=
    configure_distinct s hwf n src hv hmod (by omega) (by rw [htake]; exact hnodup)
  have : s'' = s' := by rw [h] at hcfg; exact ((Prod.mk.inj hcfg).2).symm
  subst this
  rw [htake] at hperm
  exact ⟨hn, hasc, hperm⟩

/-- C27 (configure preserves the set of `x` values and sorts them).  For every
input of `n` rows on which explicit-table `configure` of a well-formed evaluator
succeeds, the `x` sequence of the resulting table is non-decreasing, every table
entry is an input entry, and every `x` of the input occurs in the table; and if
the input `x` values are pairwise distinct, a successful `configure` (of any
well-formed evaluator) from any permutation of the input leaves the same
table. -/
theorem configure_sorts_and_preserves (s : CUInterpolator) (hwf : s.WellFormed) (n : Nat)
    (src : List SUConfigurationTableEntry) (hmod : n < UNativeInt_MOD)
    (hlen : src.length = n) (s' : CUInterpolator)
    (h : s.configure n (some src) = (Status.ok, s')) :
    (s'.table.map fun e => e.fIndependentValue).Pairwise (· ≤ ·) ∧
      (∀ e, e ∈ s'.table → e ∈ src) ∧
      (∀ v, v ∈ (src.map fun e => e.fIndependentValue) →
        v ∈ (s'.table.map fun e => e.fIndependentValue)) ∧
      ((src.map fun e => e.fIndependentValue).Nodup →
        ∀ (s0 : CUInterpolator) (src2 : List SUConfigurationTableEntry) (s2' : CUInterpolator),
          s0.WellFormed → src2.Perm src →
          s0.configure n (some src2) = (Status.ok, s2') → s2'.table = s'.table) := by
  by_cases hn0 : n = 0
  · subst hn0
    have hsrc : src = [] := List.eq_nil_of_length_eq_zero hlen
    obtain ⟨s1, hc1, he1, -⟩ := (configure_zero_releases s hwf).1 (some src)
    have hs1 : s1 = s' := by rw [h] at hc1; exact ((Prod.mk.inj hc1).2).symm
    subst hs1
    have ht : s1.table = [] := by unfold CUInterpolator.table; rw [he1]; rfl
    rw [ht, hsrc]
    refine ⟨List.Pairwise.nil, fun e he => he, fun v hv => hv, ?_⟩
    intro _ s0 src2 s2' hwf0 _ hc2
    obtain ⟨s3, hc3, he3, -⟩ := (configure_zero_releases s0 hwf0).1 (some src2)
    have hs3 : s3 = s2' := by rw [hc2] at hc3; exact ((Prod.mk.inj hc3).2).symm
    subst hs3
    unfold CUInterpolator.table; rw [he3]; rfl
  · obtain ⟨-, hwf', -, -, -, -, hsorted, hmem, hrows, -⟩ :=
      configure_ok_spec s hwf n src hn0 hmod (by omega) s' h
    have htake : src.take n = src := by rw [← hlen]; exact List.take_length src
    rw [htake] at hmem hrows
    obtain ⟨w1, w2, -, -⟩ := hwf'
    refine ⟨sorted_rows_pairwise _ _ (by omega) hsorted, hrows, fun v hv => (hmem v).mpr hv, ?_⟩
    intro hnodup s0 src2 s2' hwf0 hperm hc2
    obtain ⟨a1, a2, a3⟩ := configure_distinct_table s hwf n src hn0 hmod hlen hnodup s' h
    obtain ⟨b1, b2, b3⟩ := configure_distinct_table s0 hwf0 n src2 hn0 hmod
      (by rw [hperm.length_eq, hlen])
      ((List.Perm.nodup_iff (hperm.map _)).mpr hnodup) s2' hc2
    unfold CUInterpolator.table
    rw [a1, b1]
    exact tables_eq_of_perm n _ _ b2 a2 ((b3.trans hperm).trans a3.symm)

theorem configure_sorts_and_preserves_witness :
    ((CUInterpolator.new.configure 3 (some [⟨2, 4⟩, ⟨0, 0⟩, ⟨1, 1⟩])).2.table.map
        fun e => e.fIndependentValue).Pairwise (· ≤ ·) ∧
      (∀ e, e ∈ (CUInterpolator.new.configure 3 (some [⟨2, 4⟩, ⟨0, 0⟩, ⟨1, 1⟩])).2.table →
        e ∈ [(⟨2, 4⟩ : SUConfigurationTableEntry), ⟨0, 0⟩, ⟨1, 1⟩]) ∧
      (∀ v, v ∈ ([⟨2, 4⟩, ⟨0, 0⟩, ⟨1, 1⟩].map fun e : SUConfigurationTableEntry =>
          e.fIndependentValue) →
        v ∈ ((CUInterpolator.new.configure 3 (some [⟨2, 4⟩, ⟨0, 0⟩, ⟨1, 1⟩])).2.table.map
          fun e => e.fIndependentValue)) ∧
      (([⟨2, 4⟩, ⟨0, 0⟩, ⟨1, 1⟩].map fun e : SUConfigurationTableEntry =>
          e.fIndependentValue).Nodup →
        ∀ (s0 : CUInterpolator) (src2 : List SUConfigurationTableEntry) (s2' : CUInterpolator),
          s0.WellFormed → src2.Perm [⟨2, 4⟩, ⟨0, 0⟩, ⟨1, 1⟩] →
          s0.configure 3 (some src2) = (Status.ok, s2') →
          s2'.table
            = (CUInterpolator.new.configure 3 (some [⟨2, 4⟩, ⟨0, 0⟩, ⟨1, 1⟩])).2.table) :=
  configure_sorts_and_preserves CUInterpolator.new (by decide) 3 [⟨2, 4⟩, ⟨0, 0⟩, ⟨1, 1⟩]
    (by decide) rfl _ (by decide!)

/-- C28 (end-derivative estimates).  After every successful explicit-table or
parallel-array `configure` of a well-formed evaluator with a nonzero count, the
table left has `n ≥ 2` entries, `dydx_low = (y[1]-y[0])/(x[1]-x[0])` and
`dydx_high = (y[n-1]-y[n-2])/(x[n-1]-x[n-2])` on the sorted, deduplicated table,
and for a cubic spline the second derivatives left by the derive hook satisfy
the solver relation `SplineSolved` stated with these two end derivatives: the
hook ran after they were set. -/
theorem end_derivative_estimates (s : CUInterpolator) (hwf : s.WellFormed) (n : Nat)
    (hn0 : n ≠ 0) (hmod : n < UNativeInt_MOD) (s' : CUInterpolator)
    (h : (∃ src : List SUConfigurationTableEntry, n ≤ src.length ∧
          s.configure n (some src) = (Status.ok, s')) ∨
        (∃ xs ys : List FloatDP, n ≤ xs.length ∧ n ≤ ys.length ∧
          s.configureArrays n (some xs) (some ys) = (Status.ok, s'))) :
    2 ≤ s'.m_uEntries ∧
      s'.m_fdydx_L = (rowY s'.m_paTable 1 - rowY s'.m_paTable 0)
        / (rowX s'.m_paTable 1 - rowX s'.m_paTable 0) ∧
      s'.m_fdydx_H = (rowY s'.m_paTable (s'.m_uEntries - 1)
          - rowY s'.m_paTable (s'.m_uEntries - 2))
        / (rowX s'.m_paTable (s'.m_uEntries - 1) - rowX s'.m_paTable (s'.m_uEntries - 2)) ∧
      (s'.isCSpline = true → SplineSolved s') := by
  have key : ∃ src : List SUConfigurationTableEntry, n ≤ src.length ∧
      s.configure n (some src) = (Status.ok, s') := by
    rcases h with h | ⟨xs, ys, hx, hy, hc⟩
    · exact h
    · rw [configureArrays_eq s n xs ys hx hy] at hc
      exact ⟨_, by rw [List.length_zipWith, List.length_take, List.length_take]; omega, hc⟩
  obtain ⟨src, hsrc, hc⟩ := key
  obtain ⟨-, -, hv', -, hcs, -, -, -, -, -, -, hL, hH, hsol⟩ :=
    configure_ok_spec s hwf n src hn0 hmod hsrc s' hc
  exact ⟨tableSizeIsValid_ge_two hv', hL, hH, fun hc' => hsol (by rw [← hcs]; exact hc')⟩

theorem end_derivative_estimates_witness :
    2 ≤ ((CUCSpline.new false).configure 4
        (some [⟨0, 0⟩, ⟨1, 1⟩, ⟨2, 8⟩, ⟨3, 27⟩])).2.m_uEntries ∧
      ((CUCSpline.new false).configure 4
          (some [⟨0, 0⟩, ⟨1, 1⟩, ⟨2, 8⟩, ⟨3, 27⟩])).2.m_fdydx_L = 1 ∧
      ((CUCSpline.new false).configure 4
          (some [⟨0, 0⟩, ⟨1, 1⟩, ⟨2, 8⟩, ⟨3, 27⟩])).2.m_fdydx_H = 19 ∧
      SplineSolved ((CUCSpline.new false).configure 4
          (some [⟨0, 0⟩, ⟨1, 1⟩, ⟨2, 8⟩, ⟨3, 27⟩])).2 := by
  obtain ⟨h1, -, -, h4⟩ := end_derivative_estimates (CUCSpline.new false) (by decide) 4
    (by decide) (by decide)
    ((CUCSpline.new false).configure 4 (some [⟨0, 0⟩, ⟨1, 1⟩, ⟨2, 8⟩, ⟨3, 27⟩])).2
    (Or.inl ⟨[⟨0, 0⟩, ⟨1, 1⟩, ⟨2, 8⟩, ⟨3, 27⟩], by decide, by decide!⟩)
  exact ⟨h1, by decide!, by decide!, h4 (by decide!)⟩

theorem gap_of_count (n : Nat) (t : List SUConfigurationTableEntry) (hn : n ≤ t.length)
    (hsx : ∀ a b, a ≤ b → b < n → rowX t a ≤ rowX t b)
    (hpairs : ∀ v, ((t.take n).map fun e => e.fIndependentValue).count v ≤ 2) :
    ∀ i, i + 2 < n → rowX t i < rowX t (i + 2) := by
  intro i hi
  by_contra hnot
  have hle := le_of_not_lt hnot
  have e02 : rowX t (i + 2) = rowX t i := le_antisymm hle (hsx i (i + 2) (by omega) hi)
  have e01 : rowX t (i + 1) = rowX t i :=
    le_antisymm (by rw [← e02]; exact hsx (i + 1) (i + 2) (by omega) hi)
      (hsx i (i + 1) (by omega) (by omega))
  have c3 := count_three_of_get ((t.take n).map fun e => e.fIndependentValue)
    i (rowX t i) (map_take_get t _ i (by omega) hn)
    (by rw [map_take_get t _ (i + 1) (by omega) hn, e01])
    (by rw [map_take_get t _ (i + 2) (by omega) hn, e02])
  have := hpairs (rowX t i)
  omega

theorem dedupLoop_keeps_last :
    ∀ (fuel ui n : Nat) (t : List SUConfigurationTableEntry), 1 ≤ n → n ≤ t.length →
      n < UNativeInt_MOD →
      (∀ a b, a ≤ b → b < n → rowX t a ≤ rowX t b) →
      (∀ i, i < ui → i + 1 < n → rowX t i < rowX t (i + 1)) →
      (∀ i, ui ≤ i → i + 2 < n → rowX t i < rowX t (i + 2)) →
      ∀ n' t', dedupLoop fuel ui n t = some (n', t') →
        ∀ i, i < n' → ∃ j, j < n ∧ t'[i]? = t[j]? ∧
          (j + 1 < n → rowX t j < rowX t (j + 1)) := by
  intro fuel
  induction fuel with
  | zero => intro ui n t _ _ _ _ _ _ n' t' h; simp [dedupLoop] at h
  | succ fuel ih =>
    intro ui n t h1 hlen hmod hsort hadj hgap n' t'' hrun
    have hu : usub n 1 = n - 1 := usub_one_of_pos (by omega) hmod
    rw [dedupLoop, hu] at hrun
    by_cases hlt : ui < n - 1
    · obtain ⟨eR, hrR, hgR⟩ := tableRead_of_lt (show ui + 1 < n by omega) hlen
      obtain ⟨eL, hrL, hgL⟩ := tableRead_of_lt (show ui < n by omega) hlen
      rw [if_pos hlt] at hrun
      simp only [hrR, hrL, Option.bind_eq_bind, Option.some_bind] at hrun
      by_cases hne : eR.fIndependentValue ≠ eL.fIndependentValue
      · rw [if_pos hne] at hrun
        refine ih (ui + 1) n t h1 hlen hmod hsort ?_
          (fun i hi1 hi2 => hgap i (by omega) hi2) n' t'' hrun
        intro i hi1 hi2
        by_cases hi : i < ui
        · exact hadj i hi hi2
        · have hiu : i = ui := by omega
          subst hiu
          have hle := hsort i (i + 1) (by omega) hi2
          rw [rowX_of_get hgR, rowX_of_get hgL] at *
          exact lt_of_le_of_ne hle (fun h => hne h.symm)
      · rw [if_neg hne] at hrun
        have heq : rowX t (ui + 1) = rowX t ui := by
          rw [rowX_of_get hgR, rowX_of_get hgL]
          exact not_not.mp hne
        obtain ⟨t', hmv, hl', hlo, hhi, -⟩ := memmoveRows_get t ui n (by omega) hlen
        rw [hmv] at hrun
        simp only [Option.some_bind] at hrun
        have xlo : ∀ i, i < ui → rowX t' i = rowX t i := fun i hi => rowX_congr (hlo i hi)
        have xhi : ∀ i, ui ≤ i → i + 1 < n → rowX t' i = rowX t (i + 1) :=
          fun i h1 h2 => rowX_congr (hhi i h1 h2)
        have hrec := ih (ui + 1) (n - 1) t' (by omega) (by omega) (by omega)
            (by
              intro a b hab hb
              by_cases ha : a < ui
              · by_cases hb' : b < ui
                · rw [xlo a ha, xlo b hb']; exact hsort a b hab (by omega)
                · rw [xlo a ha, xhi b (by omega) (by omega)]
                  exact hsort a (b + 1) (by omega) (by omega)
              · rw [xhi a (by omega) (by omega), xhi b (by omega) (by omega)]
                exact hsort (a + 1) (b + 1) (by omega) (by omega))
            (by
              intro i hi1 hi2
              by_cases hi : i + 1 < ui
              · rw [xlo i (by omega), xlo (i + 1) hi]; exact hadj i (by omega) (by omega)
              · by_cases hi' : i + 1 = ui
                · rw [xlo i (by omega), xhi (i + 1) (by omega) (by omega), hi', heq, ← hi']
                  exact hadj i (by omega) (by omega)
                · have hiu : i = ui := by omega
                  subst hiu
                  rw [xhi i (by omega) (by omega), xhi (i + 1) (by omega) (by omega), heq]
                  exact hgap i (by omega) (by omega))
            (by
              intro i hi1 hi2
              rw [xhi i (by omega) (by omega), xhi (i + 2) (by omega) (by omega)]
              exact hgap (i + 1) (by omega) (by omega))
            n' t'' hrun
        intro i hi
        obtain ⟨j, hj, hij, hlast⟩ := hrec i hi
        by_cases hju : j < ui
        · refine ⟨j, by omega, by rw [hij, hlo j hju], fun _ => hadj j hju (by omega)⟩
        · refine ⟨j + 1, by omega, by rw [hij, hhi j (by omega) (by omega)], fun hj2 => ?_⟩
          have := hlast (by omega)
          rw [xhi j (by omega) (by omega), xhi (j + 1) (by omega) (by omega)] at this
          exact this
    · rw [if_neg hlt] at hrun
      simp only [Option.pure_def, Option.some.injEq, Prod.mk.injEq] at hrun
      obtain ⟨rfl, rfl⟩ := hrun
      intro i hi
      exact ⟨i, hi, rfl, fun hi2 => hadj i (by omega) hi2⟩

theorem configure_ok_rows (s : CUInterpolator) (hwf : s.WellFormed) (n : Nat)
    (src : List SUConfigurationTableEntry) (hn0 : n ≠ 0) (hmod : n < UNativeInt_MOD)
    (hsrc : n ≤ src.length) (s' : CUInterpolator)
    (h : s.configure n (some src) = (Status.ok, s')) :
    ∃ t1 p, sortTable n (src.take n) = some t1 ∧ dedupLoop n 0 n t1 = some p ∧
      s'.m_uEntries = p.1 ∧
      s'.m_paTable = p.2 ++ (s.allocateTable n).2.m_paTable.drop n ∧
      p.2.length = n ∧ 1 ≤ p.1 ∧ p.1 ≤ n := by
  obtain ⟨hv, -⟩ := configure_ok_spec s hwf n src hn0 hmod hsrc s' h
  obtain ⟨ha1, ha2, ha3, ha4, ha5⟩ := allocateTable_pos s n hwf hn0 hmod
  obtain ⟨hw1, hw2, hw3, hw4⟩ := ha3
  obtain ⟨n', t, hfill, hn1, hn2, htl, -, -, -⟩ :=
    fillTable_sorted (s.allocateTable n).2 src (by omega) (by omega) (by omega) (by omega)
  have hrow := fillTable_rows (s.allocateTable n).2 src (by omega) (by omega) (by omega)
  rw [ha2] at hrow hn2
  rw [hfill] at hrow
  obtain ⟨t1, p, ht1, hp, hpeq⟩ : ∃ t1 p, sortTable n (src.take n) = some t1 ∧
      dedupLoop n 0 n t1 = some p ∧
      ({ (s.allocateTable n).2 with m_paTable := t, m_uEntries := n' } : CUInterpolator)
        = { (s.allocateTable n).2 with
            m_paTable := p.2 ++ (s.allocateTable n).2.m_paTable.drop n, m_uEntries := p.1 } := by
    cases h1 : sortTable n (src.take n) with
    | none => rw [h1] at hrow; simp at hrow
    | some t1 =>
      rw [h1] at hrow
      simp only [Option.some_bind] at hrow
      cases h2 : dedupLoop n 0 n t1 with
      | none => rw [h2] at hrow; simp at hrow
      | some p =>
        rw [h2] at hrow
        simp only [Option.map_some', Option.some.injEq] at hrow
        exact ⟨t1, p, rfl, h2, hrow⟩
  have ht : t = p.2 ++ (s.allocateTable n).2.m_paTable.drop n :=
    congrArg CUInterpolator.m_paTable hpeq
  have hn' : n' = p.1 := congrArg CUInterpolator.m_uEntries hpeq
  have hpl : p.2.length = n := by
    have := congrArg List.length ht
    rw [List.length_append, List.length_drop] at this
    omega
  have hv2 : CUInterpolator.tableSizeIsValid
      { (s.allocateTable n).2 with m_paTable := t, m_uEntries := n' } n' = true := by
    cases hv2 : CUInterpolator.tableSizeIsValid
        { (s.allocateTable n).2 with m_paTable := t, m_uEntries := n' } n' with
    | true => rfl
    | false =>
      unfold CUInterpolator.configure at h
      rw [if_neg (by simp), if_neg (by simp [hv])] at h
      simp only [ha1, Option.getD_some, hfill, hv2] at h
      simp at h
  obtain ⟨s3, hfin, f1, f2, -⟩ :=
    finishConfigure_spec { (s.allocateTable n).2 with m_paTable := t, m_uEntries := n' } hv2
      (by simp only []; omega) (by simp only []; omega)
      (fun hc => by
        have := (hw4 hc).2
        simp only []; omega)
  simp only [] at f1 f2
  have hcfg := configure_of_fillTable s n src hv ha1 _ hfill hv2 s3 hfin
  have heq : s' = s3 := by
    rw [h] at hcfg
    exact (Prod.mk.inj hcfg).2
  subst heq
  exact ⟨t1, p, ht1, hp, by rw [f2, hn'], by rw [f1, ht], hpl, by omega, by omega⟩

/-- C25 (the sort is not stable), evaluated at a failing input.  The sort step
of `configure` on the three rows `(2,10),(2,20),(1,30)` exchanges rows 0 and 2
and leaves `(1,30),(2,20),(2,10)`: the two rows with `x = 2` have changed their
relative order; `configure` of a linear evaluator from this input then holds
`(1,30),(2,10)`. -/
theorem sort_reorders_ties :
    sortTable 3 [⟨2, 10⟩, ⟨2, 20⟩, ⟨1, 30⟩] = some [⟨1, 30⟩, ⟨2, 20⟩, ⟨2, 10⟩] ∧
    (CUInterpolator.new.configure 3 (some [⟨2, 10⟩, ⟨2, 20⟩, ⟨1, 30⟩])).1 = Status.ok ∧
    (CUInterpolator.new.configure 3 (some [⟨2, 10⟩, ⟨2, 20⟩, ⟨1, 30⟩])).2.table
      = [⟨1, 30⟩, ⟨2, 10⟩] := by
  refine ⟨?_, ?_, ?_⟩
  · decide!
  · decide!
  · decide!

/-- C25, amended (the sort yields a sorted permutation).  For `n ≥ 1` rows held
in a buffer, the sort step of `configure` returns, leaves the first `n` rows a
permutation of the rows it was given, in non-decreasing order of `x`, and does
not touch the buffer beyond them. -/
theorem sort_is_sorted_permutation (n : Nat) (t0 : List SUConfigurationTableEntry)
    (h0 : 0 < n) (hn : n ≤ t0.length) (hmod : n < UNativeInt_MOD) :
    ∃ t, sortTable n t0 = some t ∧ (t.take n).Perm (t0.take n) ∧
      ((t.take n).map fun e => e.fIndependentValue).Pairwise (· ≤ ·) ∧
      t.drop n = t0.drop n := by
  obtain ⟨t, hsort, hlt, hperm, hrest, hsorted⟩ := sortTable_spec n t0 h0 hn hmod
  have hget : ∀ i, i < n → ∃ e, t[i]? = some e := fun i hi =>
    ⟨t.get ⟨i, by omega⟩, by simp⟩
  refine ⟨t, hsort, take_perm_of_rest n t t0 hperm hrest, ?_, ?_⟩
  · refine sorted_rows_pairwise n t (by omega) ?_
    intro a b hab hb
    obtain ⟨ea, ha⟩ := hget a (by omega)
    obtain ⟨eb, hb'⟩ := hget b hb
    rw [rowX_of_get ha, rowX_of_get hb']
    exact hsorted a b hab hb _ _ ha hb'
  · apply List.ext_getElem?
    intro i
    rw [List.getElem?_drop, List.getElem?_drop]
    exact hrest (n + i) (by omega)

theorem sort_is_sorted_permutation_witness :
    ∃ t, sortTable 3 [⟨2, 10⟩, ⟨2, 20⟩, ⟨1, 30⟩] = some t ∧
      (t.take 3).Perm ([(⟨2, 10⟩ : SUConfigurationTableEntry), ⟨2, 20⟩, ⟨1, 30⟩].take 3) ∧
      ((t.take 3).map fun e => e.fIndependentValue).Pairwise (· ≤ ·) ∧
      t.drop 3 = [(⟨2, 10⟩ : SUConfigurationTableEntry), ⟨2, 20⟩, ⟨1, 30⟩].drop 3 :=
  sort_is_sorted_permutation 3 [⟨2, 10⟩, ⟨2, 20⟩, ⟨1, 30⟩] (by decide) (by decide) (by decide)

/-- C26 (which duplicate is removed), evaluated at the claim's example.  A
linear evaluator configured from `{(1,10),(1,20),(2,30)}` holds
`{(1,20),(2,30)}`, not `{(1,10),(2,30)}`: the earlier row was removed. -/
theorem dedup_example_keeps_later :
    (CUInterpolator.new.configure 3 (some [⟨1, 10⟩, ⟨1, 20⟩, ⟨2, 30⟩])).1 = Status.ok ∧
    (CUInterpolator.new.configure 3 (some [⟨1, 10⟩, ⟨1, 20⟩, ⟨2, 30⟩])).2.table
      = [⟨1, 20⟩, ⟨2, 30⟩] ∧
    (CUInterpolator.new.configure 3 (some [⟨1, 10⟩, ⟨1, 20⟩, ⟨2, 30⟩])).2.table
      ≠ [⟨1, 10⟩, ⟨2, 30⟩] := by
  refine ⟨?_, ?_, ?_⟩
  · decide!
  · decide!
  · decide!

/-- C26, amended (duplicate removal drops the earlier entry).  For an input of
`n ≥ 1` rows in which no `x` occurs more than twice, with `t1` the rows after
the sort step: after a successful `configure` every row of the table is a row
`t1[j]` that is the last row of `t1` with its `x` (row `j+1`, if there is one,
has a larger `x`).  Of two sorted-adjacent rows sharing an `x` the later one and
its `y` are kept. -/
theorem duplicate_removal_keeps_later (s : CUInterpolator) (hwf : s.WellFormed) (n : Nat)
    (src : List SUConfigurationTableEntry) (hn0 : n ≠ 0) (hmod : n < UNativeInt_MOD)
    (hlen : src.length = n)
    (hpairs : ∀ v ∈ src.map fun e => e.fIndependentValue,
      (src.map fun e => e.fIndependentValue).count v ≤ 2)
    (s' : CUInterpolator) (h : s.configure n (some src) = (Status.ok, s')) :
    ∃ t1, sortTable n src = some t1 ∧
      ∀ e, e ∈ s'.table → ∃ j, j < n ∧ t1[j]? = some e ∧
        (j + 1 < n → rowX t1 j < rowX t1 (j + 1)) := by
  have htake : src.take n = src := by rw [← hlen]; exact List.take_length src
  obtain ⟨t1, p, ht1, hp, e1, e2, e3, e4, e5⟩ :=
    configure_ok_rows s hwf n src hn0 hmod (by omega) s' h
  rw [htake] at ht1
  obtain ⟨t1', hsort, hlt, hperm, hrest, hsorted⟩ :=
    sortTable_spec n src (by omega) (by omega) hmod
  have : t1' = t1 := by rw [ht1] at hsort; exact (Option.some.inj hsort).symm
  subst this
  have hn1 : n ≤ t1'.length := by omega
  have hget : ∀ i, i < n → ∃ e, t1'[i]? = some e := fun i hi =>
    ⟨t1'.get ⟨i, by omega⟩, by simp⟩
  have hsx : ∀ a b, a ≤ b → b < n → rowX t1' a ≤ rowX t1' b := by
    intro a b hab hb
    obtain ⟨ea, ha⟩ := hget a (by omega)
    obtain ⟨eb, hb'⟩ := hget b hb
    rw [rowX_of_get ha, rowX_of_get hb']
    exact hsorted a b hab hb _ _ ha hb'
  have hcount : ∀ v, ((t1'.take n).map fun e => e.fIndependentValue).count v ≤ 2 := by
    intro v
    have hp' : (t1'.take n).Perm src := by
      have := take_perm_of_rest n t1' src hperm hrest
      rwa [htake] at this
    rw [(hp'.map fun e => e.fIndependentValue).count_eq]
    by_cases hvm : v ∈ src.map fun e => e.fIndependentValue
    · exact hpairs v hvm
    · rw [List.count_eq_zero_of_not_mem hvm]; omega
  have hgap := gap_of_count n t1' hn1 hsx hcount
  have hkeep := dedupLoop_keeps_last n 0 n t1' (by omega) hn1 hmod hsx
    (fun i hi _ => by omega) (fun i _ hi => hgap i hi) p.1 p.2 hp
  refine ⟨t1', ht1, ?_⟩
  intro e he
  unfold CUInterpolator.table at he
  obtain ⟨k, hk, hg⟩ := mem_take_row he
  rw [e1] at hk
  rw [e2, List.getElem?_append_left (by omega)] at hg
  obtain ⟨j, hj, hij, hlast⟩ := hkeep k hk
  exact ⟨j, hj, by rw [← hij]; exact hg, hlast⟩

theorem duplicate_removal_keeps_later_witness :
    ∃ t1, sortTable 3 [⟨1, 10⟩, ⟨1, 20⟩, ⟨2, 30⟩] = some t1 ∧
      ∀ e, e ∈ (CUInterpolator.new.configure 3
            (some [⟨1, 10⟩, ⟨1, 20⟩, ⟨2, 30⟩])).2.table →
        ∃ j, j < 3 ∧ t1[j]? = some e ∧ (j + 1 < 3 → rowX t1 j < rowX t1 (j + 1)) :=
  duplicate_removal_keeps_later CUInterpolator.new (by decide) 3
    [⟨1, 10⟩, ⟨1, 20⟩, ⟨2, 30⟩] (by decide) (by decide) rfl (by decide!) _ (by decide!)

theorem configure_invariant (s : CUInterpolator) (hinv : s.ClassInvariant) (n : Nat)
    (src : Option (List SUConfigurationTableEntry)) (hmod : n < UNativeInt_MOD)
    (hsrc : ∀ l, src = some l → n ≤ l.length) :
    (s.configure n src).2.ClassInvariant := by
  obtain ⟨hub, hwf'⟩ := configure_defined s hinv.1 n src hmod hsrc
  refine ⟨hwf', ?_⟩
  by_cases hn0 : n = 0
  · subst hn0
    obtain ⟨s1, hc1, he1, -⟩ := (configure_zero_releases s hinv.1).1 src
    rw [hc1]
    exact Or.inl he1
  · rcases hr : s.configure n src with ⟨st, s'⟩
    rw [hr] at hub
    cases st with
    | undefined_behaviour => exact absurd rfl hub
    | invalid_argument w =>
      rcases configure_failure s n src w s' hr with h | h
      · rw [h]; exact hinv.2
      · exact Or.inl h
    | ok =>
      cases src with
      | none =>
        unfold CUInterpolator.configure at hr
        rw [if_pos ⟨hn0, rfl⟩] at hr
        exact absurd (Prod.mk.inj hr).1 (by simp)
      | some l =>
        obtain ⟨-, -, hv', -, -, -, -, -, -, hstep, hcur, -⟩ :=
          configure_ok_spec s hinv.1 n l hn0 hmod (hsrc l rfl) s' hr
        have h2 := tableSizeIsValid_ge_two hv'
        exact Or.inr ⟨hv', by show s'.m_uLastEntry < s'.m_uEntries; rw [hcur]; omega, hstep⟩

theorem configureArrays_invariant (s : CUInterpolator) (hinv : s.ClassInvariant) (n : Nat)
    (xs ys : Option (List FloatDP)) (hmod : n < UNativeInt_MOD)
    (hx : ∀ l, xs = some l → n ≤ l.length) (hy : ∀ l, ys = some l → n ≤ l.length) :
    (s.configureArrays n xs ys).2.ClassInvariant := by
  by_cases hn0 : n = 0
  · subst hn0
    obtain ⟨s1, hc1, he1, -⟩ := (configure_zero_releases s hinv.1).2 xs ys
    have hwf1 := (configure_defined s hinv.1 0 (some []) hmod (fun l _ => Nat.zero_le _)).2
    have hc0 : s.configureArrays 0 xs ys = s.configure 0 (some []) := by
      unfold CUInterpolator.configureArrays
      rw [if_neg (by simp), if_neg (by simp)]
      rfl
    rw [hc0]
    rw [hc0] at hc1
    refine ⟨hwf1, Or.inl ?_⟩
    rw [hc1]; exact he1
  · cases xs with
    | none =>
      unfold CUInterpolator.configureArrays
      rw [if_pos ⟨hn0, Or.inl rfl⟩]
      exact hinv
    | some lx =>
      cases ys with
      | none =>
        unfold CUInterpolator.configureArrays
        rw [if_pos ⟨hn0, Or.inr rfl⟩]
        exact hinv
      | some ly =>
        rw [configureArrays_eq s n lx ly (hx lx rfl) (hy ly rfl)]
        refine configure_invariant s hinv n _ hmod ?_
        intro l hl
        cases hl
        rw [List.length_zipWith, List.length_take, List.length_take]
        have := hx lx rfl
        have := hy ly rfl
        omega

theorem classInvariant_flag (s : CUInterpolator) (hinv : s.ClassInvariant) (b : Bool) :
    CUInterpolator.ClassInvariant { s with m_bNaturalSpline := b } := hinv

theorem copy_invariant (s r : CUInterpolator) (hinv : s.ClassInvariant)
    (hr : r.ClassInvariant) : (s.copy r).2.ClassInvariant := by
  obtain ⟨⟨r1, r2, r3, -⟩, -⟩ := hr
  have hargs : ∀ l, ptrOf r.m_paTable = some l → r.tableEntries ≤ l.length := by
    intro l hl
    unfold ptrOf at hl
    split at hl
    · cases hl
    · cases hl
      unfold CUInterpolator.tableEntries
      omega
  have hm : r.tableEntries < UNativeInt_MOD := by
    unfold CUInterpolator.tableEntries; omega
  unfold CUInterpolator.copy CUInterpolator.doCopy
  simp only []
  split
  · exact configure_invariant _ (classInvariant_flag s hinv _) _ _ hm hargs
  · exact configure_invariant _ hinv _ _ hm hargs

theorem configureNaturalSpline_invariant (s : CUInterpolator) (hinv : s.ClassInvariant)
    (hsp : s.isCSpline = true) (hn0 : s.m_uEntries ≠ 0) (b : Bool) :
    ∃ s', CUCSpline.configureNaturalSpline s b = some s' ∧ s'.ClassInvariant ∧
      s'.m_uEntries = s.m_uEntries ∧ s'.m_uLastEntry = s.m_uLastEntry ∧
      s'.isCSpline = s.isCSpline := by
  obtain ⟨⟨w1, w2, w3, w4⟩, hcase⟩ := hinv
  rcases hcase with h0 | ⟨hv, hc, hstep⟩
  · exact absurd h0 hn0
  · have h3 : 3 ≤ s.m_uEntries := by
      unfold CUInterpolator.tableSizeIsValid at hv
      rw [if_pos hsp] at hv
      exact of_decide_eq_true hv
    unfold CUCSpline.configureNaturalSpline
    by_cases hg : s.m_bNaturalSpline ≠ b
    · rw [if_pos hg]
      obtain ⟨d2, hder, hdl⟩ := deriveSecondDerivatives_ok
        { s with m_bNaturalSpline := b } h3 (by show s.m_uEntries ≤ s.m_paTable.length; omega)
        (by show s.m_uEntries < UNativeInt_MOD; omega)
        (by show s.m_uEntries ≤ s.m_pafd2ydx2.length; have := (w4 hsp).2; omega)
      unfold CUCSpline.deriveConfiguration
      rw [hder]
      refine ⟨_, rfl, ⟨⟨w1, w2, w3, fun hc' => ?_⟩, Or.inr ⟨hv, hc, hstep⟩⟩, rfl, rfl, rfl⟩
      have := w4 hsp
      exact ⟨this.1, by show d2.length = s.m_uAllocatedEntries; rw [hdl]; exact this.2⟩
    · rw [if_neg hg]
      exact ⟨s, rfl, ⟨⟨w1, w2, w3, w4⟩, Or.inr ⟨hv, hc, hstep⟩⟩, rfl, rfl, rfl⟩

theorem xval_some_lt {s : CUInterpolator} {i : Nat} {v : FloatDP} (h : s.xval i = some v) :
    i < s.m_uEntries := by
  unfold CUInterpolator.xval tableRead at h
  by_contra hi
  rw [if_neg hi] at h
  simp at h

theorem vDoInterpolate_some_lt {s : CUInterpolator} {x y : FloatDP} {L : Nat}
    (h : s.vDoInterpolate x L = some y) : L < s.m_uEntries := by
  unfold CUInterpolator.vDoInterpolate at h
  split at h
  · unfold CUCSpline.doInterpolate at h
    simp only [Option.bind_eq_bind] at h
    cases hR : s.xval (uadd L 1) with
    | none => rw [hR] at h; simp at h
    | some xR =>
      rw [hR] at h
      simp only [Option.some_bind] at h
      cases hL : s.xval L with
      | none => rw [hL] at h; simp at h
      | some xL => exact xval_some_lt hL
  · unfold CUInterpolator.doInterpolate at h
    simp only [Option.bind_eq_bind] at h
    cases hR : s.xval (uadd L 1) with
    | none => rw [hR] at h; simp at h
    | some xR =>
      rw [hR] at h
      simp only [Option.some_bind] at h
      cases hL : s.xval L with
      | none => rw [hL] at h; simp at h
      | some xL => exact xval_some_lt hL

theorem interpolate_some_cursor (s : CUInterpolator)
    (hlen : s.m_uEntries ≤ s.m_paTable.length) (hmod : s.m_uEntries < UNativeInt_MOD)
    (hn0 : s.m_uEntries ≠ 0) (x y : FloatDP) (s' : CUInterpolator)
    (h : s.interpolate x = some (y, s')) :
    ∃ c, s' = { s with m_uLastEntry := c } ∧ c < s.m_uEntries ∧
      (x ≤ rowX s.m_paTable 0 → c = 0) ∧
      (rowX s.m_paTable 0 < x → rowX s.m_paTable (s.m_uEntries - 1) ≤ x →
        c = s.m_uEntries - 1) ∧
      (rowX s.m_paTable 0 < x → x < rowX s.m_paTable (s.m_uEntries - 1) →
        s.mapTableIndex x = some c) := by
  have hH : s.highestTableIndex = s.m_uEntries - 1 := usub_one_of_pos (by omega) hmod
  have hxl : s.lowestXval = some (rowX s.m_paTable 0) := by
    unfold CUInterpolator.lowestXval CUInterpolator.lowestTableIndex
    exact xval_eq_rowX (by omega) hlen
  have hxh : s.highestXval = some (rowX s.m_paTable (s.m_uEntries - 1)) := by
    unfold CUInterpolator.highestXval
    rw [hH]
    exact xval_eq_rowX (by omega) hlen
  unfold CUInterpolator.interpolate at h
  rw [if_neg (fun h0 => hn0 h0.symm)] at h
  simp only [hxl, Option.bind_eq_bind, Option.some_bind, Option.pure_def] at h
  by_cases hlo : x ≤ rowX s.m_paTable 0
  · rw [if_pos hlo] at h
    cases hv : CUInterpolator.vDoExtrapolateLow
        { s with m_uLastEntry := s.lowestTableIndex } x with
    | none => rw [hv] at h; simp at h
    | some v =>
      rw [hv] at h
      simp only [Option.some_bind, Option.some.injEq, Prod.mk.injEq] at h
      refine ⟨0, h.2.symm, by omega, fun _ => rfl, fun g => absurd hlo (not_le.mpr g),
        fun g => absurd hlo (not_le.mpr g)⟩
  · rw [if_neg hlo] at h
    simp only [hxh, Option.some_bind] at h
    by_cases hhi : x ≥ rowX s.m_paTable (s.m_uEntries - 1)
    · rw [if_pos hhi] at h
      cases hv : CUInterpolator.vDoExtrapolateHigh
          { s with m_uLastEntry := s.highestTableIndex } x with
      | none => rw [hv] at h; simp at h
      | some v =>
        rw [hv] at h
        simp only [Option.some_bind, Option.some.injEq, Prod.mk.injEq] at h
        refine ⟨s.m_uEntries - 1, by rw [← hH]; exact h.2.symm, by omega,
          fun g => absurd g hlo, fun _ _ => rfl, fun _ g => absurd hhi (not_le.mpr g)⟩
    · rw [if_neg hhi] at h
      cases hm : s.mapTableIndex x with
      | none => rw [hm] at h; simp at h
      | some L =>
        rw [hm] at h
        simp only [Option.some_bind] at h
        cases hv : CUInterpolator.vDoInterpolate { s with m_uLastEntry := L } x L with
        | none => rw [hv] at h; simp at h
        | some v =>
          rw [hv] at h
          simp only [Option.some_bind, Option.some.injEq, Prod.mk.injEq] at h
          have hL : L < s.m_uEntries := vDoInterpolate_some_lt hv
          refine ⟨L, h.2.symm, hL, fun g => absurd g hlo,
            fun _ g => absurd g hhi, fun _ _ => rfl⟩

theorem interpolate_invariant (s : CUInterpolator) (hinv : s.ClassInvariant) (x y : FloatDP)
    (s' : CUInterpolator) (h : s.interpolate x = some (y, s')) :
    s'.ClassInvariant ∧ s'.m_uEntries = s.m_uEntries ∧ s'.isCSpline = s.isCSpline := by
  obtain ⟨⟨w1, w2, w3, w4⟩, hcase⟩ := hinv
  by_cases hn0 : s.m_uEntries = 0
  · rw [interpolate_of_no_entries s x hn0] at h
    simp only [Option.some.injEq, Prod.mk.injEq] at h
    rw [← h.2]
    exact ⟨⟨⟨w1, w2, w3, w4⟩, hcase⟩, rfl, rfl⟩
  · obtain ⟨c, hs', hc, -⟩ := interpolate_some_cursor s (by omega) (by omega) hn0 x y s' h
    rw [hs']
    rcases hcase with h0 | ⟨hv, -, hstep⟩
    · exact absurd h0 hn0
    · exact ⟨⟨⟨w1, w2, w3, w4⟩, Or.inr ⟨hv, hc, hstep⟩⟩, rfl, rfl⟩

theorem reachable_invariant (s : CUInterpolator) (h : Reachable s) : s.ClassInvariant := by
  induction h with
  | linear => exact ⟨by decide, Or.inl rfl⟩
  | spline b => exact ⟨by cases b <;> decide, Or.inl rfl⟩
  | configure s n src _ hmod hsrc ih => exact configure_invariant s ih n src hmod hsrc
  | configureArrays s n xs ys _ hmod hx hy ih =>
    exact configureArrays_invariant s ih n xs ys hmod hx hy
  | copy s r _ _ _ ih1 ih2 => exact copy_invariant s r ih1 ih2
  | configureNaturalSpline s b s' _ hsp hn0 hrun ih =>
    obtain ⟨s'', hrun', hinv', -⟩ := configureNaturalSpline_invariant s ih hsp hn0 b
    rw [hrun] at hrun'
    cases hrun'
    exact hinv'
  | interpolate s x y s' _ hrun ih => exact (interpolate_invariant s ih x y s' hrun).1

theorem bsearch_bound (s : CUInterpolator) (fxval : FloatDP)
    (hlen : s.m_uEntries ≤ s.m_paTable.length) (hmod : 2 * s.m_uEntries ≤ UNativeInt_MOD) :
    ∀ fuel uL uR, uL < uR → uR < s.m_uEntries → uR - uL ≤ fuel + 1 →
      ∃ L, bsearch s fxval fuel uL uR = some L ∧ uL ≤ L ∧ L < uR := by
  intro fuel
  induction fuel with
  | zero =>
    intro uL uR h1 h2 h3
    have hu : usub uR uL = uR - uL := usub_of_le (by omega) (by omega)
    refine ⟨uL, ?_, le_refl _, h1⟩
    rw [bsearch, hu, if_neg (by omega)]
  | succ fuel ih =>
    intro uL uR h1 h2 h3
    have hu : usub uR uL = uR - uL := usub_of_le (by omega) (by omega)
    rw [bsearch, hu]
    by_cases hw : uR - uL > 1
    · have ha : uadd uR uL = uR + uL := uadd_of_lt (by omega)
      have hT1 : uL < (uR + uL) / 2 := by omega
      have hT2 : (uR + uL) / 2 < uR := by omega
      rw [if_pos hw]
      simp only [ha, shiftRight_one_eq]
      rw [xval_eq_rowX (show (uR + uL) / 2 < s.m_uEntries by omega) hlen]
      simp only [Option.some_bind]
      by_cases hgt : rowX s.m_paTable ((uR + uL) / 2) > fxval
      · rw [if_pos hgt]
        obtain ⟨L, hL, hL1, hL2⟩ := ih uL ((uR + uL) / 2) hT1 (by omega) (by omega)
        exact ⟨L, hL, hL1, by omega⟩
      · rw [if_neg hgt]
        obtain ⟨L, hL, hL1, hL2⟩ := ih ((uR + uL) / 2) uR hT2 h2 (by omega)
        exact ⟨L, hL, by omega, hL2⟩
    · rw [if_neg hw]
      exact ⟨uL, rfl, le_refl _, h1⟩

theorem mapTableIndex_bound (s : CUInterpolator) (h2 : 2 ≤ s.m_uEntries)
    (hlen : s.m_uEntries ≤ s.m_paTable.length) (hmod : 2 * s.m_uEntries ≤ UNativeInt_MOD)
    (hstep : s.m_fXStep = 0) (hc : s.m_uLastEntry < s.m_uEntries) (fxval : FloatDP)
    (hlo : rowX s.m_paTable 0 < fxval)
    (hhi : fxval < rowX s.m_paTable (s.m_uEntries - 1)) :
    ∃ L, s.mapTableIndex fxval = some L ∧ L + 1 < s.m_uEntries := by
  have hmod' : s.m_uEntries < UNativeInt_MOD := by omega
  have hH : s.highestTableIndex = s.m_uEntries - 1 := usub_one_of_pos (by omega) hmod'
  unfold CUInterpolator.mapTableIndex
  rw [if_neg (by simp [hstep]), hH]
  simp only [CUInterpolator.lowestTableIndex]
  obtain ⟨uL, huL, hLlt⟩ : ∃ uL, (if s.m_uLastEntry = s.m_uEntries - 1 then usub s.m_uLastEntry 1
      else s.m_uLastEntry) = uL ∧ uL + 1 < s.m_uEntries := by
    by_cases hce : s.m_uLastEntry = s.m_uEntries - 1
    · rw [if_pos hce, usub_of_le (by omega) (by omega)]
      exact ⟨_, rfl, by omega⟩
    · rw [if_neg hce]
      exact ⟨_, rfl, by omega⟩
  rw [huL]
  have hR0 : uadd uL 1 = uL + 1 := uadd_of_lt (by omega)
  rw [hR0, inInterval_eq s fxval uL (uL + 1) hlen (by omega) hLlt]
  simp only [Option.bind_eq_bind, Option.some_bind, Option.pure_def]
  by_cases hin : rowX s.m_paTable uL ≤ fxval ∧ fxval < rowX s.m_paTable (uL + 1)
  · simp only [hin, and_self, decide_True, if_true]
    exact ⟨uL, rfl, hLlt⟩
  · simp only [hin, decide_False, Bool.false_eq_true, if_false]
    rw [xval_eq_rowX (show uL < s.m_uEntries by omega) hlen]
    simp only [Option.some_bind]
    by_cases hgt : fxval > rowX s.m_paTable uL
    · rw [if_pos hgt]
      have hge : rowX s.m_paTable (uL + 1) ≤ fxval := by
        by_contra hcon
        exact hin ⟨le_of_lt hgt, not_le.mp hcon⟩
      have hne : uL + 1 ≠ s.m_uEntries - 1 := by
        intro heq
        rw [heq] at hge
        exact absurd hhi (not_lt.mpr hge)
      have hR1 : uadd (uL + 1) 1 = uL + 2 := by
        rw [uadd_of_lt (by omega)]
      rw [hR1, inInterval_eq s fxval (uL + 1) (uL + 2) hlen (by omega) (by omega)]
      simp only [Option.some_bind]
      by_cases hin2 : rowX s.m_paTable (uL + 1) ≤ fxval ∧ fxval < rowX s.m_paTable (uL + 2)
      · simp only [hin2, and_self, decide_True, if_true]
        exact ⟨uL + 1, rfl, by omega⟩
      · simp only [hin2, decide_False, Bool.false_eq_true, if_false]
        obtain ⟨L, hL, hL1, hL2⟩ := bsearch_bound s fxval hlen hmod s.m_uEntries
          (uL + 1) (s.m_uEntries - 1) (by omega) (by omega) (by omega)
        exact ⟨L, hL, by omega⟩
    · rw [if_neg hgt]
      have hpos : 0 < uL := by
        rcases Nat.eq_zero_or_pos uL with h | h
        · rw [h] at hgt
          exact absurd hlo hgt
        · exact h
      have hL1 : usub uL 1 = uL - 1 := usub_of_le (by omega) (by omega)
      have hR1 : usub (uL + 1) 1 = uL := by
        rw [usub_of_le (by omega) (by omega)]; omega
      rw [hL1, hR1, inInterval_eq s fxval (uL - 1) uL hlen (by omega) (by omega)]
      simp only [Option.some_bind]
      by_cases hin2 : rowX s.m_paTable (uL - 1) ≤ fxval ∧ fxval < rowX s.m_paTable uL
      · simp only [hin2, and_self, decide_True, if_true]
        exact ⟨uL - 1, rfl, by omega⟩
      · simp only [hin2, decide_False, Bool.false_eq_true, if_false]
        obtain ⟨L, hL, hL1, hL2⟩ := bsearch_bound s fxval hlen hmod s.m_uEntries
          0 uL hpos (by omega) (by omega)
        exact ⟨L, hL, by omega⟩

theorem vDoExtrapolateLow_defined (s : CUInterpolator) (h1 : 1 ≤ s.m_uEntries)
    (hlen : s.m_uEntries ≤ s.m_paTable.length)
    (hd : s.isCSpline = true → s.m_uEntries ≤ s.m_pafd2ydx2.length) (x : FloatDP) :
    ∃ y, s.vDoExtrapolateLow x = some y := by
  have hx := xval_eq_rowX (show 0 < s.m_uEntries by omega) hlen
  have hy := yval_eq_rowY (show 0 < s.m_uEntries by omega) hlen
  unfold CUInterpolator.vDoExtrapolateLow
  by_cases hc : s.isCSpline = true
  · rw [if_pos hc]
    unfold CUCSpline.doExtrapolateLow CUInterpolator.lowestTableIndex
    have := hd hc
    simp only [hx, hy, bufRead_getD (show 0 < s.m_pafd2ydx2.length by omega),
      Option.bind_eq_bind, Option.some_bind, Option.pure_def]
    exact ⟨_, rfl⟩
  · rw [if_neg hc]
    unfold CUInterpolator.doExtrapolateLow CUInterpolator.lowestTableIndex
    simp only [hx, hy, Option.bind_eq_bind, Option.some_bind, Option.pure_def]
    exact ⟨_, rfl⟩

theorem vDoExtrapolateHigh_defined (s : CUInterpolator) (h1 : 1 ≤ s.m_uEntries)
    (hlen : s.m_uEntries ≤ s.m_paTable.length) (hmod : s.m_uEntries < UNativeInt_MOD)
    (hd : s.isCSpline = true → s.m_uEntries ≤ s.m_pafd2ydx2.length) (x : FloatDP) :
    ∃ y, s.vDoExtrapolateHigh x = some y := by
  have hH : s.highestTableIndex = s.m_uEntries - 1 := usub_one_of_pos (by omega) hmod
  have hx := xval_eq_rowX (show s.m_uEntries - 1 < s.m_uEntries by omega) hlen
  have hy := yval_eq_rowY (show s.m_uEntries - 1 < s.m_uEntries by omega) hlen
  unfold CUInterpolator.vDoExtrapolateHigh
  by_cases hc : s.isCSpline = true
  · rw [if_pos hc]
    unfold CUCSpline.doExtrapolateHigh
    have := hd hc
    simp only [hH, hx, hy,
      bufRead_getD (show s.m_uEntries - 1 < s.m_pafd2ydx2.length by omega),
      Option.bind_eq_bind, Option.some_bind, Option.pure_def]
    exact ⟨_, rfl⟩
  · rw [if_neg hc]
    unfold CUInterpolator.doExtrapolateHigh
    simp only [hH, hx, hy, Option.bind_eq_bind, Option.some_bind, Option.pure_def]
    exact ⟨_, rfl⟩

theorem vDoInterpolate_defined (s : CUInterpolator)
    (hlen : s.m_uEntries ≤ s.m_paTable.length) (hmod : s.m_uEntries < UNativeInt_MOD)
    (hd : s.isCSpline = true → s.m_uEntries ≤ s.m_pafd2ydx2.length) (x : FloatDP) (L : Nat)
    (hL : L + 1 < s.m_uEntries) :
    ∃ y, s.vDoInterpolate x L = some y := by
  have hR : uadd L 1 = L + 1 := uadd_of_lt (by omega)
  have hxL := xval_eq_rowX (show L < s.m_uEntries by omega) hlen
  have hyL := yval_eq_rowY (show L < s.m_uEntries by omega) hlen
  have hxR := xval_eq_rowX hL hlen
  have hyR := yval_eq_rowY hL hlen
  unfold CUInterpolator.vDoInterpolate
  by_cases hc : s.isCSpline = true
  · rw [if_pos hc]
    unfold CUCSpline.doInterpolate
    have := hd hc
    simp only [hR, hxL, hyL, hxR, hyR, bufRead_getD (show L < s.m_pafd2ydx2.length by omega),
      bufRead_getD (show L + 1 < s.m_pafd2ydx2.length by omega),
      Option.bind_eq_bind, Option.some_bind, Option.pure_def]
    exact ⟨_, rfl⟩
  · rw [if_neg hc]
    unfold CUInterpolator.doInterpolate
    simp only [hR, hxL, hyL, hxR, hyR, Option.bind_eq_bind, Option.some_bind, Option.pure_def]
    exact ⟨_, rfl⟩

theorem interpolate_defined (s : CUInterpolator) (hinv : s.ClassInvariant)
    (hmod : 2 * s.m_uEntries ≤ UNativeInt_MOD) (x : FloatDP) :
    ∃ y s', s.interpolate x = some (y, s') := by
  obtain ⟨⟨w1, w2, w3, w4⟩, hcase⟩ := hinv
  rcases hcase with h0 | ⟨hv, hc, hstep⟩
  · exact ⟨x, s, interpolate_of_no_entries s x h0⟩
  · have h2 := tableSizeIsValid_ge_two hv
    have hlen : s.m_uEntries ≤ s.m_paTable.length := by omega
    have hmod' : s.m_uEntries < UNativeInt_MOD := by omega
    have hd : s.isCSpline = true → s.m_uEntries ≤ s.m_pafd2ydx2.length := fun h => by
      have := (w4 h).2; omega
    have hH : s.highestTableIndex = s.m_uEntries - 1 := usub_one_of_pos (by omega) hmod'
    have hxl : s.lowestXval = some (rowX s.m_paTable 0) := by
      unfold CUInterpolator.lowestXval CUInterpolator.lowestTableIndex
      exact xval_eq_rowX (by omega) hlen
    have hxh : s.highestXval = some (rowX s.m_paTable (s.m_uEntries - 1)) := by
      unfold CUInterpolator.highestXval
      rw [hH]
      exact xval_eq_rowX (by omega) hlen
    unfold CUInterpolator.interpolate
    rw [if_neg (by omega)]
    simp only [hxl, Option.bind_eq_bind, Option.some_bind, Option.pure_def]
    by_cases hlo : x ≤ rowX s.m_paTable 0
    · rw [if_pos hlo]
      obtain ⟨y, hy⟩ := vDoExtrapolateLow_defined { s with m_uLastEntry := s.lowestTableIndex }
        (by show 1 ≤ s.m_uEntries; omega) hlen hd x
      rw [hy]
      exact ⟨_, _, rfl⟩
    · rw [if_neg hlo]
      simp only [hxh, Option.some_bind]
      by_cases hhi : x ≥ rowX s.m_paTable (s.m_uEntries - 1)
      · rw [if_pos hhi]
        obtain ⟨y, hy⟩ := vDoExtrapolateHigh_defined
          { s with m_uLastEntry := s.highestTableIndex }
          (by show 1 ≤ s.m_uEntries; omega) hlen hmod' hd x
        rw [hy]
        exact ⟨_, _, rfl⟩
      · rw [if_neg hhi]
        obtain ⟨L, hL, hL1⟩ := mapTableIndex_bound s h2 hlen hmod hstep hc x
          (lt_of_not_le hlo) (lt_of_not_le hhi)
        rw [hL]
        simp only [Option.some_bind]
        obtain ⟨y, hy⟩ := vDoInterpolate_defined { s with m_uLastEntry := L } hlen hmod' hd x L
          hL1
        rw [hy]
        exact ⟨_, _, rfl⟩

theorem interpolate_unfold (s : CUInterpolator) (h1 : 1 ≤ s.m_uEntries)
    (hlen : s.m_uEntries ≤ s.m_paTable.length) (hmod : s.m_uEntries < UNativeInt_MOD)
    (x : FloatDP) :
    s.interpolate x =
      if x ≤ rowX s.m_paTable 0 then
        (CUInterpolator.vDoExtrapolateLow { s with m_uLastEntry := 0 } x).map
          fun y => (y, { s with m_uLastEntry := 0 })
      else if x ≥ rowX s.m_paTable (s.m_uEntries - 1) then
        (CUInterpolator.vDoExtrapolateHigh { s with m_uLastEntry := s.m_uEntries - 1 } x).map
          fun y => (y, { s with m_uLastEntry := s.m_uEntries - 1 })
      else
        (s.mapTableIndex x).bind fun uL =>
          (CUInterpolator.vDoInterpolate { s with m_uLastEntry := uL } x uL).map
            fun y => (y, { s with m_uLastEntry := uL }) := by
  have hH : s.highestTableIndex = s.m_uEntries - 1 := usub_one_of_pos (by omega) hmod
  have hx0 := xval_eq_rowX (show 0 < s.m_uEntries by omega) hlen
  have hxH := xval_eq_rowX (show s.m_uEntries - 1 < s.m_uEntries by omega) hlen
  unfold CUInterpolator.interpolate
  rw [if_neg (by omega)]
  simp only [CUInterpolator.lowestXval, CUInterpolator.highestXval,
    CUInterpolator.lowestTableIndex, hH, hx0, hxH, Option.bind_eq_bind, Option.some_bind,
    Option.pure_def]
  split
  · cases CUInterpolator.vDoExtrapolateLow { s with m_uLastEntry := 0 } x <;> rfl
  · split
    · cases CUInterpolator.vDoExtrapolateHigh
        { s with m_uLastEntry := s.m_uEntries - 1 } x <;> rfl
    · cases s.mapTableIndex x with
      | none => rfl
      | some uL =>
        simp only [Option.some_bind]
        cases CUInterpolator.vDoInterpolate { s with m_uLastEntry := uL } x uL <;> rfl

theorem mapTableIndex_cursor_outside (s : CUInterpolator) (hstep : s.m_fXStep = 0)
    (hmod : s.m_uEntries < UNativeInt_MOD) (h1 : 1 ≤ s.m_uEntries)
    (hc : s.m_uEntries ≤ s.m_uLastEntry) (x : FloatDP) : s.mapTableIndex x = none := by
  have hH : s.highestTableIndex = s.m_uEntries - 1 := usub_one_of_pos (by omega) hmod
  have hx : s.xval s.m_uLastEntry = none := by
    unfold CUInterpolator.xval tableRead
    rw [if_neg (by omega)]
    rfl
  have hne : ¬ (s.m_uLastEntry = s.m_uEntries - 1) := by omega
  unfold CUInterpolator.mapTableIndex
  rw [if_neg (by simp [hstep]), hH]
  simp only [if_neg hne]
  unfold inInterval
  simp only [hx, Option.bind_eq_bind, Option.none_bind]

/-- C21 (size invariant).  In every state reachable from a fresh linear or
cubic-spline evaluator by explicit-table and parallel-array `configure` calls
(successful or failing), `copy`, `configureNaturalSpline` on a configured
spline, and `interpolate`, the table size is `0` or at least the minimum size:
`3` for a cubic spline, `2` for a linear evaluator. -/
theorem size_invariant (s : CUInterpolator) (h : Reachable s) :
    s.m_uEntries = 0 ∨ (if s.isCSpline = true then 3 ≤ s.m_uEntries else 2 ≤ s.m_uEntries) := by
  obtain ⟨-, hcase⟩ := reachable_invariant s h
  rcases hcase with h0 | ⟨hv, -, -⟩
  · exact Or.inl h0
  · right
    unfold CUInterpolator.tableSizeIsValid at hv
    by_cases hc : s.isCSpline = true
    · rw [if_pos hc] at hv ⊢
      exact of_decide_eq_true hv
    · rw [if_neg hc] at hv ⊢
      exact of_decide_eq_true hv

theorem size_invariant_witness :
    Reachable ((CUCSpline.new true).configure 5
        (some [⟨1, 1⟩, ⟨1, 2⟩, ⟨1, 3⟩, ⟨2, 4⟩, ⟨3, 9⟩])).2 ∧
      ((CUCSpline.new true).configure 5
        (some [⟨1, 1⟩, ⟨1, 2⟩, ⟨1, 3⟩, ⟨2, 4⟩, ⟨3, 9⟩])).2.m_uEntries = 4 ∧
      (((CUCSpline.new true).configure 5
          (some [⟨1, 1⟩, ⟨1, 2⟩, ⟨1, 3⟩, ⟨2, 4⟩, ⟨3, 9⟩])).2.m_uEntries = 0 ∨
        (if ((CUCSpline.new true).configure 5
            (some [⟨1, 1⟩, ⟨1, 2⟩, ⟨1, 3⟩, ⟨2, 4⟩, ⟨3, 9⟩])).2.isCSpline = true
          then 3 ≤ ((CUCSpline.new true).configure 5
            (some [⟨1, 1⟩, ⟨1, 2⟩, ⟨1, 3⟩, ⟨2, 4⟩, ⟨3, 9⟩])).2.m_uEntries
          else 2 ≤ ((CUCSpline.new true).configure 5
            (some [⟨1, 1⟩, ⟨1, 2⟩, ⟨1, 3⟩, ⟨2, 4⟩, ⟨3, 9⟩])).2.m_uEntries)) := by
  have hreach : Reachable ((CUCSpline.new true).configure 5
      (some [⟨1, 1⟩, ⟨1, 2⟩, ⟨1, 3⟩, ⟨2, 4⟩, ⟨3, 9⟩])).2 :=
    Reachable.configure _ 5 _ (Reachable.spline true) (by decide)
      (fun l hl => by cases hl; decide)
  exact ⟨hreach, by decide!, size_invariant _ hreach⟩

/-- C29 (cursor discipline).  For every reachable state `s`: if it holds a table
of `n` entries the cursor is at most `n-1`; a successful explicit-table
`configure` from `s` that leaves a table sets the cursor to `(n'-1)/2`, `n'` the
size after duplicate removal; when `interpolate(x)` returns from a configured
`s` it has set the cursor to `0` if `x ≤ x[0]`, else to `n-1` if `x ≥ x[n-1]`,
else to the index `mapTableIndex(x)` returned; and `interpolate` does return on
`s` provided `2*n ≤ 2^32`. -/
theorem cursor_discipline (s : CUInterpolator) (h : Reachable s) :
    (s.m_uEntries ≠ 0 → s.m_uLastEntry ≤ s.m_uEntries - 1) ∧
    (∀ (n : Nat) (src : List SUConfigurationTableEntry) (s' : CUInterpolator),
      n < UNativeInt_MOD → n ≤ src.length →
      s.configure n (some src) = (Status.ok, s') → s'.m_uEntries ≠ 0 →
      s'.m_uLastEntry = (s'.m_uEntries - 1) / 2) ∧
    (s.m_uEntries ≠ 0 → ∀ (x y : FloatDP) (s' : CUInterpolator),
      s.interpolate x = some (y, s') →
      (x ≤ rowX s.m_paTable 0 → s'.m_uLastEntry = 0) ∧
      (rowX s.m_paTable 0 < x → rowX s.m_paTable (s.m_uEntries - 1) ≤ x →
        s'.m_uLastEntry = s.m_uEntries - 1) ∧
      (rowX s.m_paTable 0 < x → x < rowX s.m_paTable (s.m_uEntries - 1) →
        s.mapTableIndex x = some s'.m_uLastEntry)) ∧
    (2 * s.m_uEntries ≤ UNativeInt_MOD → ∀ x, ∃ y s', s.interpolate x = some (y, s')) := by
  have hinv := reachable_invariant s h
  obtain ⟨⟨w1, w2, w3, w4⟩, hcase⟩ := hinv
  refine ⟨?_, ?_, ?_, ?_⟩
  · intro hn0
    rcases hcase with h0 | ⟨-, hc, -⟩
    · exact absurd h0 hn0
    · omega
  · intro n src s' hmod hsrc hcfg hn0'
    have hn0 : n ≠ 0 := by
      intro hz
      subst hz
      obtain ⟨s1, hc1, he1, -⟩ := (configure_zero_releases s ⟨w1, w2, w3, w4⟩).1 (some src)
      rw [hcfg] at hc1
      have : s' = s1 := (Prod.mk.inj hc1).2
      rw [this] at hn0'
      exact hn0' he1
    obtain ⟨-, -, -, -, -, -, -, -, -, -, hcur, -⟩ :=
      configure_ok_spec s ⟨w1, w2, w3, w4⟩ n src hn0 hmod hsrc s' hcfg
    exact hcur
  · intro hn0 x y s' hrun
    obtain ⟨c, hs', -, c1, c2, c3⟩ :=
      interpolate_some_cursor s (by omega) (by omega) hn0 x y s' hrun
    rw [hs']
    exact ⟨c1, c2, c3⟩
  · intro hmod x
    exact interpolate_defined s ⟨⟨w1, w2, w3, w4⟩, hcase⟩ hmod x

theorem cursor_discipline_witness :
    Reachable (CUInterpolator.new.configure 5
        (some [⟨0, 0⟩, ⟨1, 10⟩, ⟨1, 20⟩, ⟨1, 30⟩, ⟨2, 40⟩])).2 ∧
      (CUInterpolator.new.configure 5
        (some [⟨0, 0⟩, ⟨1, 10⟩, ⟨1, 20⟩, ⟨1, 30⟩, ⟨2, 40⟩])).2.m_uEntries = 4 ∧
      (CUInterpolator.new.configure 5
        (some [⟨0, 0⟩, ⟨1, 10⟩, ⟨1, 20⟩, ⟨1, 30⟩, ⟨2, 40⟩])).2.m_uLastEntry = 1 ∧
      (CUInterpolator.new.configure 5
          (some [⟨0, 0⟩, ⟨1, 10⟩, ⟨1, 20⟩, ⟨1, 30⟩, ⟨2, 40⟩])).2.m_uLastEntry
        ≤ (CUInterpolator.new.configure 5
          (some [⟨0, 0⟩, ⟨1, 10⟩, ⟨1, 20⟩, ⟨1, 30⟩, ⟨2, 40⟩])).2.m_uEntries - 1 ∧
      ∃ y s', (CUInterpolator.new.configure 5
          (some [⟨0, 0⟩, ⟨1, 10⟩, ⟨1, 20⟩, ⟨1, 30⟩, ⟨2, 40⟩])).2.interpolate 1 = some (y, s') := by
  have hreach : Reachable (CUInterpolator.new.configure 5
      (some [⟨0, 0⟩, ⟨1, 10⟩, ⟨1, 20⟩, ⟨1, 30⟩, ⟨2, 40⟩])).2 :=
    Reachable.configure _ 5 _ Reachable.linear (by decide) (fun l hl => by cases hl; decide)
  obtain ⟨h1, -, -, h4⟩ := cursor_discipline _ hreach
  exact ⟨hreach, by decide!, by decide!, h1 (by decide!), h4 (by decide!) 1⟩

/-- C30 (the cursor may be reset to any value), evaluated at a failing input.
A linear evaluator configured from `{(0,0),(1,1),(2,4)}` holds a strictly
ascending table of `n = 3` entries and `interpolate(1/2)` returns `1/2`.  With
the cursor reset to `3`, `mapTableIndex(1/2)` starts with `uL = 3` and its first
test reads `xval(3)`, outside the table: the call is undefined. -/
theorem cursor_reset_reads_outside :
    (CUInterpolator.new.configure 3 (some [⟨0, 0⟩, ⟨1, 1⟩, ⟨2, 4⟩])).1 = Status.ok ∧
    (CUInterpolator.new.configure 3 (some [⟨0, 0⟩, ⟨1, 1⟩, ⟨2, 4⟩])).2.table
      = [⟨0, 0⟩, ⟨1, 1⟩, ⟨2, 4⟩] ∧
    (CUInterpolator.new.configure 3 (some [⟨0, 0⟩, ⟨1, 1⟩, ⟨2, 4⟩])).2.evaluate (1 / 2)
      = some (1 / 2) ∧
    CUInterpolator.xval
      { (CUInterpolator.new.configure 3 (some [⟨0, 0⟩, ⟨1, 1⟩, ⟨2, 4⟩])).2 with
        m_uLastEntry := 3 } 3 = none ∧
    CUInterpolator.mapTableIndex
      { (CUInterpolator.new.configure 3 (some [⟨0, 0⟩, ⟨1, 1⟩, ⟨2, 4⟩])).2 with
        m_uLastEntry := 3 } (1 / 2) = none ∧
    CUInterpolator.evaluate
      { (CUInterpolator.new.configure 3 (some [⟨0, 0⟩, ⟨1, 1⟩, ⟨2, 4⟩])).2 with
        m_uLastEntry := 3 } (1 / 2) = none := by
  refine ⟨?_, ?_, ?_, ?_, ?_, ?_⟩
  · decide!
  · decide!
  · decide!
  · decide!
  · decide!
  · decide!

/-- C30, amended (the cursor may be reset to any table index).  For a configured
evaluator with a strictly ascending table of `n` entries (`Ready`) and its
cursor inside the table: resetting the cursor to any `c < n` leaves
`evaluate(x)` unchanged for every `x`, and `evaluate` returns (every read is
inside the table); a query at or beyond either end of the table does not read
the cursor, so there any cursor value leaves `evaluate(x)` unchanged; but for a
query strictly inside the table a cursor `c ≥ n` makes `mapTableIndex` read
`xval(c)` outside the table. -/
theorem cursor_reset_within_table (s : CUInterpolator) (hr : s.Ready)
    (hc : s.m_uLastEntry < s.m_uEntries) :
    (∀ c x, c < s.m_uEntries →
      CUInterpolator.evaluate { s with m_uLastEntry := c } x = s.evaluate x) ∧
    (∀ x, ∃ y, s.evaluate x = some y) ∧
    (∀ c x, (x ≤ rowX s.m_paTable 0 ∨ rowX s.m_paTable (s.m_uEntries - 1) ≤ x) →
      CUInterpolator.evaluate { s with m_uLastEntry := c } x = s.evaluate x) ∧
    (∀ c x, s.m_uEntries ≤ c → rowX s.m_paTable 0 < x →
      x < rowX s.m_paTable (s.m_uEntries - 1) →
      CUInterpolator.xval { s with m_uLastEntry := c } c = none ∧
      CUInterpolator.mapTableIndex { s with m_uLastEntry := c } x = none ∧
      CUInterpolator.evaluate { s with m_uLastEntry := c } x = none) := by
  have hr' := hr
  obtain ⟨h2, hlen, hmod, hasc, hstep, hd⟩ := hr
  have hmod' : s.m_uEntries < UNativeInt_MOD := by omega
  refine ⟨?_, ?_, ?_, ?_⟩
  · intro c x hcn
    exact evaluate_congr s { s with m_uLastEntry := c } hr' (ready_set_cursor hr' c) hc hcn
      rfl rfl (fun _ _ => rfl) (fun _ _ => rfl) rfl rfl (fun _ _ => rfl) x
  · intro x
    by_cases hlo : x ≤ rowX s.m_paTable 0
    · exact ⟨_, evaluate_low s hr' hc x hlo⟩
    · by_cases hhi : rowX s.m_paTable (s.m_uEntries - 1) ≤ x
      · exact ⟨_, evaluate_high s hr' hc x hhi⟩
      · obtain ⟨L, -, -, -, hL⟩ := evaluate_interior s hr' hc x (lt_of_not_le hlo)
          (lt_of_not_le hhi)
        exact ⟨_, hL⟩
  · intro c x hx
    unfold CUInterpolator.evaluate
    rw [interpolate_unfold s (by omega) hlen hmod' x,
      interpolate_unfold { s with m_uLastEntry := c } (by show 1 ≤ s.m_uEntries; omega) hlen
        hmod' x]
    by_cases hlo : x ≤ rowX s.m_paTable 0
    · rw [if_pos hlo, if_pos hlo]
    · have hhi : x ≥ rowX s.m_paTable (s.m_uEntries - 1) := by
        rcases hx with h | h
        · exact absurd h hlo
        · exact h
      rw [if_neg hlo, if_neg hlo, if_pos hhi, if_pos hhi]
  · intro c x hcn hlo hhi
    have hm := mapTableIndex_cursor_outside { s with m_uLastEntry := c } hstep hmod'
      (by show 1 ≤ s.m_uEntries; omega) hcn x
    refine ⟨?_, hm, ?_⟩
    · unfold CUInterpolator.xval tableRead
      rw [if_neg (by show ¬ c < s.m_uEntries; omega)]
      rfl
    · unfold CUInterpolator.evaluate
      rw [interpolate_unfold { s with m_uLastEntry := c } (by show 1 ≤ s.m_uEntries; omega)
        hlen hmod' x, if_neg (not_le.mpr hlo), if_neg (not_le.mpr hhi), hm]
      rfl

theorem cursor_reset_within_table_witness :
    (CUInterpolator.new.configure 3 (some [⟨0, 0⟩, ⟨1, 1⟩, ⟨2, 4⟩])).2.Ready ∧
    CUInterpolator.evaluate
      { (CUInterpolator.new.configure 3 (some [⟨0, 0⟩, ⟨1, 1⟩, ⟨2, 4⟩])).2 with
        m_uLastEntry := 2 } (1 / 2)
      = (CUInterpolator.new.configure 3 (some [⟨0, 0⟩, ⟨1, 1⟩, ⟨2, 4⟩])).2.evaluate (1 / 2) ∧
    (∃ y, (CUInterpolator.new.configure 3
        (some [⟨0, 0⟩, ⟨1, 1⟩, ⟨2, 4⟩])).2.evaluate (1 / 2) = some y) ∧
    CUInterpolator.evaluate
      { (CUInterpolator.new.configure 3 (some [⟨0, 0⟩, ⟨1, 1⟩, ⟨2, 4⟩])).2 with
        m_uLastEntry := 7 } 5
      = (CUInterpolator.new.configure 3 (some [⟨0, 0⟩, ⟨1, 1⟩, ⟨2, 4⟩])).2.evaluate 5 ∧
    CUInterpolator.mapTableIndex
      { (CUInterpolator.new.configure 3 (some [⟨0, 0⟩, ⟨1, 1⟩, ⟨2, 4⟩])).2 with
        m_uLastEntry := 7 } (1 / 2) = none := by
  have hr : (CUInterpolator.new.configure 3 (some [⟨0, 0⟩, ⟨1, 1⟩, ⟨2, 4⟩])).2.Ready :=
    ⟨by decide!, by decide!, by decide!, strictAsc_of_pairwise _ _ (by decide!), by decide!,
      by decide!⟩
  obtain ⟨h1, h2, h3, h4⟩ := cursor_reset_within_table _ hr (by decide!)
  exact ⟨hr, h1 2 (1 / 2) (by decide!), h2 (1 / 2), h3 7 5 (Or.inr (by decide!)),
    (h4 7 (1 / 2) (by decide!) (by decide!) (by decide!)).2.1⟩

theorem doInterpolate_ends (s : CUInterpolator) (hlen : s.m_uEntries ≤ s.m_paTable.length)
    (hmod : s.m_uEntries < UNativeInt_MOD) (hasc : StrictAsc s.m_uEntries s.m_paTable)
    (L : Nat) (hL : L + 1 < s.m_uEntries) :
    s.doInterpolate (rowX s.m_paTable L) L = some (rowY s.m_paTable L) ∧
    s.doInterpolate (rowX s.m_paTable (L + 1)) L = some (rowY s.m_paTable (L + 1)) ∧
    (s.m_uEntries ≤ s.m_pafd2ydx2.length →
      CUCSpline.doInterpolate s (rowX s.m_paTable L) L = some (rowY s.m_paTable L) ∧
      CUCSpline.doInterpolate s (rowX s.m_paTable (L + 1)) L
        = some (rowY s.m_paTable (L + 1))) := by
  have hR : uadd L 1 = L + 1 := uadd_of_lt (by omega)
  have hxL := xval_eq_rowX (show L < s.m_uEntries by omega) hlen
  have hyL := yval_eq_rowY (show L < s.m_uEntries by omega) hlen
  have hxR := xval_eq_rowX hL hlen
  have hyR := yval_eq_rowY hL hlen
  have hne : rowX s.m_paTable (L + 1) - rowX s.m_paTable L ≠ 0 :=
    sub_ne_zero.mpr (ne_of_gt (strictAsc_rowX hasc hlen (by omega) hL))
  refine ⟨?_, ?_, fun hd => ⟨?_, ?_⟩⟩
  · simp only [CUInterpolator.doInterpolate, hR, hxL, hxR, hyL, hyR, Option.bind_eq_bind,
      Option.some_bind, Option.pure_def, Option.some.injEq]
    rw [div_self hne]
    ring
  · simp only [CUInterpolator.doInterpolate, hR, hxL, hxR, hyL, hyR, Option.bind_eq_bind,
      Option.some_bind, Option.pure_def, Option.some.injEq]
    rw [sub_self, zero_div]
    ring
  · obtain ⟨vL, hvL⟩ := bufRead_some_of_lt (show L < s.m_pafd2ydx2.length by omega)
    obtain ⟨vR, hvR⟩ := bufRead_some_of_lt (show L + 1 < s.m_pafd2ydx2.length by omega)
    simp only [CUCSpline.doInterpolate, hR, hxL, hxR, hyL, hyR, hvL, hvR, Option.bind_eq_bind,
      Option.some_bind, Option.pure_def, Option.some.injEq]
    rw [div_self hne]
    ring
  · obtain ⟨vL, hvL⟩ := bufRead_some_of_lt (show L < s.m_pafd2ydx2.length by omega)
    obtain ⟨vR, hvR⟩ := bufRead_some_of_lt (show L + 1 < s.m_pafd2ydx2.length by omega)
    simp only [CUCSpline.doInterpolate, hR, hxL, hxR, hyL, hyR, hvL, hvR, Option.bind_eq_bind,
      Option.some_bind, Option.pure_def, Option.some.injEq]
    rw [sub_self, zero_div]
    ring

/-- C32 (each interpolation piece hits both of its end points).  For every
strictly ascending table of `n` entries, every interval index `L ≤ n-2` and any
contents of the second-derivative buffer, the linear `doInterpolate` and the
cubic `doInterpolate` both return `y[L]` at `x[L]` and `y[L+1]` at `x[L+1]`;
hence at every interior table point `x[L]` (`1 ≤ L`) the piece to its left and
the piece to its right give the same value, as does the virtual dispatch of
either class. -/
theorem piece_hits_end_points (s : CUInterpolator) (h2 : 2 ≤ s.m_uEntries)
    (hlen : s.m_uEntries ≤ s.m_paTable.length) (hmod : s.m_uEntries < UNativeInt_MOD)
    (hasc : StrictAsc s.m_uEntries s.m_paTable) (L : Nat) (hL : L ≤ s.m_uEntries - 2) :
    s.doInterpolate (rowX s.m_paTable L) L = some (rowY s.m_paTable L) ∧
    s.doInterpolate (rowX s.m_paTable (L + 1)) L = some (rowY s.m_paTable (L + 1)) ∧
    (1 ≤ L → s.doInterpolate (rowX s.m_paTable L) (L - 1)
      = s.doInterpolate (rowX s.m_paTable L) L) ∧
    (s.m_uEntries ≤ s.m_pafd2ydx2.length →
      CUCSpline.doInterpolate s (rowX s.m_paTable L) L = some (rowY s.m_paTable L) ∧
      CUCSpline.doInterpolate s (rowX s.m_paTable (L + 1)) L
        = some (rowY s.m_paTable (L + 1)) ∧
      (1 ≤ L → CUCSpline.doInterpolate s (rowX s.m_paTable L) (L - 1)
        = CUCSpline.doInterpolate s (rowX s.m_paTable L) L)) ∧
    ((s.isCSpline = true → s.m_uEntries ≤ s.m_pafd2ydx2.length) →
      s.vDoInterpolate (rowX s.m_paTable L) L = some (rowY s.m_paTable L) ∧
      s.vDoInterpolate (rowX s.m_paTable (L + 1)) L = some (rowY s.m_paTable (L + 1)) ∧
      (1 ≤ L → s.vDoInterpolate (rowX s.m_paTable L) (L - 1)
        = s.vDoInterpolate (rowX s.m_paTable L) L)) := by
  have hL1 : L + 1 < s.m_uEntries := by omega
  obtain ⟨a1, a2, a3⟩ := doInterpolate_ends s hlen hmod hasc L hL1
  have hprev : 1 ≤ L → L - 1 + 1 = L := fun h => by omega
  have b : 1 ≤ L → s.doInterpolate (rowX s.m_paTable L) (L - 1) = some (rowY s.m_paTable L) ∧
      (s.m_uEntries ≤ s.m_pafd2ydx2.length →
        CUCSpline.doInterpolate s (rowX s.m_paTable L) (L - 1) = some (rowY s.m_paTable L)) := by
    intro h1
    obtain ⟨_, c2, c3⟩ := doInterpolate_ends s hlen hmod hasc (L - 1) (by omega)
    rw [hprev h1] at c2 c3
    exact ⟨c2, fun hd => (c3 hd).2⟩
  refine ⟨a1, a2, fun h1 => by rw [(b h1).1, a1], fun hd => ⟨(a3 hd).1, (a3 hd).2,
    fun h1 => by rw [(b h1).2 hd, (a3 hd).1]⟩, fun hd => ?_⟩
  unfold CUInterpolator.vDoInterpolate
  by_cases hc : s.isCSpline = true
  · simp only [if_pos hc]
    exact ⟨(a3 (hd hc)).1, (a3 (hd hc)).2, fun h1 => by rw [(b h1).2 (hd hc), (a3 (hd hc)).1]⟩
  · simp only [if_neg hc]
    exact ⟨a1, a2, fun h1 => by rw [(b h1).1, a1]⟩

theorem piece_hits_end_points_witness :
    StrictAsc 4
      ((CUCSpline.new false).configure 4 (some [⟨0, 0⟩, ⟨1, 1⟩, ⟨2, 8⟩, ⟨3, 27⟩])).2.m_paTable ∧
    CUCSpline.doInterpolate
      ((CUCSpline.new false).configure 4 (some [⟨0, 0⟩, ⟨1, 1⟩, ⟨2, 8⟩, ⟨3, 27⟩])).2 2 1
      = some 8 ∧
    CUCSpline.doInterpolate
      ((CUCSpline.new false).configure 4 (some [⟨0, 0⟩, ⟨1, 1⟩, ⟨2, 8⟩, ⟨3, 27⟩])).2 2 2
      = some 8 := by
  have h := piece_hits_end_points
    ((CUCSpline.new false).configure 4 (some [⟨0, 0⟩, ⟨1, 1⟩, ⟨2, 8⟩, ⟨3, 27⟩])).2
    (by decide!) (by decide!) (by decide!)
    (strictAsc_of_pairwise _ _ (by decide!)) 2 (by decide!)
  refine ⟨strictAsc_of_pairwise _ _ (by decide!), ?_, ?_⟩
  · have h3 := (h.2.2.2.1 (by decide!)).2.2 (by decide)
    have h4 := (h.2.2.2.1 (by decide!)).1
    have e : rowX ((CUCSpline.new false).configure 4
        (some [⟨0, 0⟩, ⟨1, 1⟩, ⟨2, 8⟩, ⟨3, 27⟩])).2.m_paTable 2 = 2 := by decide!
    have e2 : rowY ((CUCSpline.new false).configure 4
        (some [⟨0, 0⟩, ⟨1, 1⟩, ⟨2, 8⟩, ⟨3, 27⟩])).2.m_paTable 2 = 8 := by decide!
    rw [e, e2] at h4
    rw [e] at h3
    rw [h3, h4]
  · have h4 := (h.2.2.2.1 (by decide!)).1
    have e : rowX ((CUCSpline.new false).configure 4
        (some [⟨0, 0⟩, ⟨1, 1⟩, ⟨2, 8⟩, ⟨3, 27⟩])).2.m_paTable 2 = 2 := by decide!
    have e2 : rowY ((CUCSpline.new false).configure 4
        (some [⟨0, 0⟩, ⟨1, 1⟩, ⟨2, 8⟩, ⟨3, 27⟩])).2.m_paTable 2 = 8 := by decide!
    rw [e, e2] at h4
    exact h4

theorem refLinearPiece_weight (t : List SUConfigurationTableEntry) (L : Nat) (x : FloatDP)
    (hlt : rowX t L < rowX t (L + 1)) (h1 : rowX t L ≤ x) (h2 : x ≤ rowX t (L + 1)) :
    ∃ w : FloatDP, 0 ≤ w ∧ w ≤ 1 ∧ w = (rowX t (L + 1) - x) / (rowX t (L + 1) - rowX t L) ∧
      refLinearPiece t L x = w * rowY t L + (1 - w) * rowY t (L + 1) := by
  have hpos : 0 < rowX t (L + 1) - rowX t L := sub_pos.mpr hlt
  refine ⟨(rowX t (L + 1) - x) / (rowX t (L + 1) - rowX t L), ?_, ?_, rfl, rfl⟩
  · exact div_nonneg (by linarith) hpos.le
  · rw [div_le_one hpos]; linarith

theorem refLinearPiece_between (t : List SUConfigurationTableEntry) (L : Nat) (x : FloatDP)
    (hlt : rowX t L < rowX t (L + 1)) (h1 : rowX t L ≤ x) (h2 : x ≤ rowX t (L + 1)) :
    min (rowY t L) (rowY t (L + 1)) ≤ refLinearPiece t L x ∧
      refLinearPiece t L x ≤ max (rowY t L) (rowY t (L + 1)) := by
  obtain ⟨w, hw0, hw1, -, hv⟩ := refLinearPiece_weight t L x hlt h1 h2
  rw [hv]
  rcases le_total (rowY t L) (rowY t (L + 1)) with h | h
  · rw [min_eq_left h, max_eq_right h]
    constructor <;> nlinarith
  · rw [min_eq_right h, max_eq_left h]
    constructor <;> nlinarith

theorem refLinearPiece_mono (t : List SUConfigurationTableEntry) (L : Nat) (x1 x2 : FloatDP)
    (hlt : rowX t L < rowX t (L + 1)) (hy : rowY t L ≤ rowY t (L + 1)) (h12 : x1 ≤ x2) :
    refLinearPiece t L x1 ≤ refLinearPiece t L x2 := by
  have hpos : 0 < rowX t (L + 1) - rowX t L := sub_pos.mpr hlt
  have hw : (rowX t (L + 1) - x2) / (rowX t (L + 1) - rowX t L)
      ≤ (rowX t (L + 1) - x1) / (rowX t (L + 1) - rowX t L) :=
    div_le_div_of_nonneg_right (by linarith) hpos.le
  show (rowX t (L + 1) - x1) / (rowX t (L + 1) - rowX t L) * rowY t L
      + (1 - (rowX t (L + 1) - x1) / (rowX t (L + 1) - rowX t L)) * rowY t (L + 1)
    ≤ (rowX t (L + 1) - x2) / (rowX t (L + 1) - rowX t L) * rowY t L
      + (1 - (rowX t (L + 1) - x2) / (rowX t (L + 1) - rowX t L)) * rowY t (L + 1)
  nlinarith

/-- The value of `evaluate` on a configured linear evaluator, by region. -/
theorem linear_value_regions (s : CUInterpolator) (hr : s.Ready) (hlin : s.isCSpline = false)
    (hc : s.m_uLastEntry < s.m_uEntries) (x : FloatDP) :
    ∃ v, s.evaluate x = some v ∧
      (x ≤ rowX s.m_paTable 0 →
        v = rowY s.m_paTable 0 - (rowX s.m_paTable 0 - x) * s.m_fdydx_L) ∧
      (rowX s.m_paTable (s.m_uEntries - 1) ≤ x →
        v = rowY s.m_paTable (s.m_uEntries - 1)
          + (x - rowX s.m_paTable (s.m_uEntries - 1)) * s.m_fdydx_H) ∧
      (rowX s.m_paTable 0 < x → x < rowX s.m_paTable (s.m_uEntries - 1) →
        ∃ L, L + 1 < s.m_uEntries ∧ rowX s.m_paTable L ≤ x ∧ x < rowX s.m_paTable (L + 1) ∧
          v = refLinearPiece s.m_paTable L x) := by
  have hne : ¬ (s.isCSpline = true) := by rw [hlin]; decide
  have h0H : rowX s.m_paTable 0 < rowX s.m_paTable (s.m_uEntries - 1) :=
    strictAsc_rowX hr.2.2.2.1 hr.2.1 (by have := hr.1; omega) (by have := hr.1; omega)
  by_cases hlo : x ≤ rowX s.m_paTable 0
  · have h := evaluate_low s hr hc x hlo
    rw [if_neg hne] at h
    exact ⟨_, h, fun _ => rfl, fun h' => absurd h' (by linarith), fun h' => absurd hlo (by linarith)⟩
  · by_cases hhi : rowX s.m_paTable (s.m_uEntries - 1) ≤ x
    · have h := evaluate_high s hr hc x hhi
      rw [if_neg hne] at h
      exact ⟨_, h, fun h' => absurd h' hlo, fun _ => rfl, fun _ h' => absurd hhi (by linarith)⟩
    · obtain ⟨L, hL, h1, h2, h⟩ := evaluate_interior s hr hc x (lt_of_not_le hlo) (lt_of_not_le hhi)
      rw [if_neg hne] at h
      exact ⟨_, h, fun h' => absurd h' hlo, fun h' => absurd h' hhi,
        fun _ _ => ⟨L, hL, h1, h2, rfl⟩⟩

/-- C39 (linear interpolation is order preserving).  For a configured linear
evaluator with a strictly ascending table and its cursor inside the table:
if the `y` values are non-decreasing along the table and the end derivatives
are the first differences `configure` leaves, `evaluate` returns for every `x`
and `x1 ≤ x2` implies `evaluate(x1) ≤ evaluate(x2)`, across interpolation and
both extrapolation branches; and, whatever the `y` values and end derivatives,
every `x` with `x[L] ≤ x ≤ x[L+1]` gives
`min(y[L], y[L+1]) ≤ evaluate(x) ≤ max(y[L], y[L+1])`. -/
theorem linear_order_preserving (s : CUInterpolator) (hr : s.Ready)
    (hlin : s.isCSpline = false) (hc : s.m_uLastEntry < s.m_uEntries) :
    ((∀ a b, a ≤ b → b < s.m_uEntries → rowY s.m_paTable a ≤ rowY s.m_paTable b) →
      s.m_fdydx_L = (rowY s.m_paTable 1 - rowY s.m_paTable 0)
        / (rowX s.m_paTable 1 - rowX s.m_paTable 0) →
      s.m_fdydx_H = (rowY s.m_paTable (s.m_uEntries - 1) - rowY s.m_paTable (s.m_uEntries - 2))
        / (rowX s.m_paTable (s.m_uEntries - 1) - rowX s.m_paTable (s.m_uEntries - 2)) →
      ∀ x1 x2 : FloatDP, x1 ≤ x2 →
        ∃ v1 v2, s.evaluate x1 = some v1 ∧ s.evaluate x2 = some v2 ∧ v1 ≤ v2) ∧
    (∀ (L : Nat) (x : FloatDP), L + 1 < s.m_uEntries →
      rowX s.m_paTable L ≤ x → x ≤ rowX s.m_paTable (L + 1) →
      ∃ v, s.evaluate x = some v ∧
        min (rowY s.m_paTable L) (rowY s.m_paTable (L + 1)) ≤ v ∧
        v ≤ max (rowY s.m_paTable L) (rowY s.m_paTable (L + 1))) := by
  have hn2 := hr.1
  have hlen := hr.2.1
  have hasc := hr.2.2.2.1
  constructor
  · intro hy hL hH x1 x2 h12
    have hdL : 0 ≤ s.m_fdydx_L := by
      rw [hL]
      exact div_nonneg (sub_nonneg.mpr (hy 0 1 (by omega) (by omega)))
        (sub_nonneg.mpr (strictAsc_rowX_le hasc hlen (by omega) (by omega)))
    have hdH : 0 ≤ s.m_fdydx_H := by
      rw [hH]
      exact div_nonneg (sub_nonneg.mpr (hy _ _ (by omega) (by omega)))
        (sub_nonneg.mpr (strictAsc_rowX_le hasc hlen (by omega) (by omega)))
    obtain ⟨v1, e1, a1, b1, c1⟩ := linear_value_regions s hr hlin hc x1
    obtain ⟨v2, e2, a2, b2, c2⟩ := linear_value_regions s hr hlin hc x2
    refine ⟨v1, v2, e1, e2, ?_⟩
    -- bounds of an interior value
    have hint : ∀ (x v : FloatDP) (L : Nat), L + 1 < s.m_uEntries → rowX s.m_paTable L ≤ x →
        x < rowX s.m_paTable (L + 1) → v = refLinearPiece s.m_paTable L x →
        rowY s.m_paTable L ≤ v ∧ v ≤ rowY s.m_paTable (L + 1) := by
      intro x v L hL1 h1 h2 hv
      have hlt := strictAsc_rowX hasc hlen (show L < L + 1 by omega) hL1
      have hyy := hy L (L + 1) (by omega) hL1
      have hb := refLinearPiece_between s.m_paTable L x hlt h1 h2.le
      rw [min_eq_left hyy, max_eq_right hyy] at hb
      rw [hv]; exact hb
    have hy0 : ∀ k, k < s.m_uEntries → rowY s.m_paTable 0 ≤ rowY s.m_paTable k :=
      fun k hk => hy 0 k (by omega) hk
    have hyH : ∀ k, k < s.m_uEntries →
        rowY s.m_paTable k ≤ rowY s.m_paTable (s.m_uEntries - 1) :=
      fun k hk => hy k _ (by omega) (by omega)
    by_cases hlo1 : x1 ≤ rowX s.m_paTable 0
    · have hv1 := a1 hlo1
      have hv1le : v1 ≤ rowY s.m_paTable 0 := by rw [hv1]; nlinarith
      by_cases hlo2 : x2 ≤ rowX s.m_paTable 0
      · rw [hv1, a2 hlo2]; nlinarith
      · by_cases hhi2 : rowX s.m_paTable (s.m_uEntries - 1) ≤ x2
        · have hv2 := b2 hhi2
          have := hyH 0 (by omega)
          have : rowY s.m_paTable (s.m_uEntries - 1) ≤ v2 := by rw [hv2]; nlinarith
          linarith
        · obtain ⟨L, hL1, h1, h2, hv⟩ := c2 (lt_of_not_le hlo2) (lt_of_not_le hhi2)
          have := (hint x2 v2 L hL1 h1 h2 hv).1
          have := hy0 L (by omega)
          linarith
    · have hlo2 : ¬ x2 ≤ rowX s.m_paTable 0 := fun h => hlo1 (le_trans h12 h)
      by_cases hhi1 : rowX s.m_paTable (s.m_uEntries - 1) ≤ x1
      · have hhi2 : rowX s.m_paTable (s.m_uEntries - 1) ≤ x2 := le_trans hhi1 h12
        rw [b1 hhi1, b2 hhi2]; nlinarith
      · obtain ⟨L1, hL1, h11, h12', hv1⟩ := c1 (lt_of_not_le hlo1) (lt_of_not_le hhi1)
        have hb1 := hint x1 v1 L1 hL1 h11 h12' hv1
        by_cases hhi2 : rowX s.m_paTable (s.m_uEntries - 1) ≤ x2
        · have hv2 := b2 hhi2
          have : rowY s.m_paTable (s.m_uEntries - 1) ≤ v2 := by rw [hv2]; nlinarith
          have := hyH (L1 + 1) hL1
          linarith
        · obtain ⟨L2, hL2, h21, h22, hv2⟩ := c2 (lt_of_not_le hlo2) (lt_of_not_le hhi2)
          have hb2 := hint x2 v2 L2 hL2 h21 h22 hv2
          by_cases heq : L1 = L2
          · subst heq
            rw [hv1, hv2]
            exact refLinearPiece_mono _ _ _ _
              (strictAsc_rowX hasc hlen (show L1 < L1 + 1 by omega) hL1)
              (hy L1 (L1 + 1) (by omega) hL1) h12
          · have hlt : L1 < L2 := by
              by_contra hge
              have hle : L2 + 1 ≤ L1 := by omega
              have := strictAsc_rowX_le hasc hlen hle (show L1 < s.m_uEntries by omega)
              linarith
            have := hy (L1 + 1) L2 (by omega) (by omega)
            linarith
  · intro L x hL1 h1 h2
    have hlt := strictAsc_rowX hasc hlen (show L < L + 1 by omega) hL1
    rcases eq_or_lt_of_le h1 with he | hl
    · refine ⟨rowY s.m_paTable L, ?_, min_le_left _ _, le_max_left _ _⟩
      rw [← he]; exact evaluate_at_row s hr hc L (by omega)
    · rcases eq_or_lt_of_le h2 with he | hl2
      · refine ⟨rowY s.m_paTable (L + 1), ?_, min_le_right _ _, le_max_right _ _⟩
        rw [he]; exact evaluate_at_row s hr hc (L + 1) hL1
      · have h0 : rowX s.m_paTable 0 < x :=
          lt_of_le_of_lt (strictAsc_rowX_le hasc hlen (Nat.zero_le L) (by omega)) hl
        have hH : x < rowX s.m_paTable (s.m_uEntries - 1) :=
          lt_of_lt_of_le hl2 (strictAsc_rowX_le hasc hlen (by omega) (by omega))
        obtain ⟨v, e, -, -, c⟩ := linear_value_regions s hr hlin hc x
        obtain ⟨L', hL', h1', h2', hv⟩ := c h0 hH
        have hLL : L' = L := interval_unique hasc hlen hL1 hL' h1 hl2 h1' h2'
        subst hLL
        refine ⟨v, e, ?_⟩
        rw [hv]
        exact refLinearPiece_between _ _ _ hlt h1 h2

theorem linear_order_preserving_witness :
    (CUInterpolator.new.configure 3 (some [⟨0, 0⟩, ⟨1, 1⟩, ⟨2, 4⟩])).2.Ready ∧
    (∃ v1 v2,
      (CUInterpolator.new.configure 3 (some [⟨0, 0⟩, ⟨1, 1⟩, ⟨2, 4⟩])).2.evaluate (1 / 2)
        = some v1 ∧
      (CUInterpolator.new.configure 3 (some [⟨0, 0⟩, ⟨1, 1⟩, ⟨2, 4⟩])).2.evaluate 5
        = some v2 ∧ v1 ≤ v2) ∧
    (CUInterpolator.new.configure 3 (some [⟨0, 0⟩, ⟨1, 1⟩, ⟨2, 4⟩])).2.evaluate (1 / 2)
      = some (1 / 2) ∧
    (CUInterpolator.new.configure 3 (some [⟨0, 0⟩, ⟨1, 1⟩, ⟨2, 4⟩])).2.evaluate 5
      = some 13 := by
  have hr : (CUInterpolator.new.configure 3 (some [⟨0, 0⟩, ⟨1, 1⟩, ⟨2, 4⟩])).2.Ready :=
    ⟨by decide!, by decide!, by decide!, strictAsc_of_pairwise _ _ (by decide!), by decide!,
      by decide!⟩
  have hn : (CUInterpolator.new.configure 3 (some [⟨0, 0⟩, ⟨1, 1⟩, ⟨2, 4⟩])).2.m_uEntries = 3 := by
    decide!
  refine ⟨hr, ?_, by decide!, by decide!⟩
  refine (linear_order_preserving _ hr (by decide!) (by decide!)).1 ?_ (by decide!) (by decide!)
    (1 / 2) 5 (by norm_num)
  intro a b hab hb
  rw [hn] at hb
  interval_cases b <;> interval_cases a <;> decide!

/-- On affine data the tridiagonal solve leaves every second derivative `0`. -/
theorem splineSolved_affine (s : CUInterpolator) (h2 : 2 ≤ s.m_uEntries)
    (hlen : s.m_uEntries ≤ s.m_paTable.length)
    (hasc : StrictAsc s.m_uEntries s.m_paTable) (a b : FloatDP)
    (haff : ∀ i, i < s.m_uEntries → rowY s.m_paTable i = a * rowX s.m_paTable i + b)
    (hL : s.m_fdydx_L = (rowY s.m_paTable 1 - rowY s.m_paTable 0)
        / (rowX s.m_paTable 1 - rowX s.m_paTable 0))
    (hH : s.m_fdydx_H = (rowY s.m_paTable (s.m_uEntries - 1) - rowY s.m_paTable (s.m_uEntries - 2))
        / (rowX s.m_paTable (s.m_uEntries - 1) - rowX s.m_paTable (s.m_uEntries - 2)))
    (hsol : SplineSolved s) : ∀ i, i < s.m_uEntries → d2At s i = 0 := by
  obtain ⟨c, bb, hc0, hb0, hrec, hlast, hback⟩ := hsol
  have hslope : ∀ i, i + 1 < s.m_uEntries →
      (rowY s.m_paTable (i + 1) - rowY s.m_paTable i)
        / (rowX s.m_paTable (i + 1) - rowX s.m_paTable i) = a := by
    intro i hi
    have hne : rowX s.m_paTable (i + 1) - rowX s.m_paTable i ≠ 0 :=
      sub_ne_zero.mpr (ne_of_gt (strictAsc_rowX hasc hlen (by omega) hi))
    rw [haff (i + 1) hi, haff i (by omega)]
    field_simp
    ring
  have hb00 : bb 0 = 0 := by
    rw [hb0, hL]
    split
    · rfl
    · rw [sub_self, mul_zero]
  have hbz : ∀ i, i + 1 < s.m_uEntries → bb i = 0 := by
    intro i
    induction i with
    | zero => intro _; exact hb00
    | succ k ih =>
      intro hk
      have hr := (hrec (k + 1) (by omega) hk).2
      have e1 := hslope (k + 1) hk
      have e2 := hslope k (by omega)
      rw [Nat.add_sub_cancel] at hr
      rw [hr, e1, e2, ih (by omega)]
      simp
  have hun : (if s.m_bNaturalSpline then (0 : FloatDP)
        else (3 / (rowX s.m_paTable (s.m_uEntries - 1) - rowX s.m_paTable (s.m_uEntries - 2)))
          * (s.m_fdydx_H - (rowY s.m_paTable (s.m_uEntries - 1)
              - rowY s.m_paTable (s.m_uEntries - 2))
            / (rowX s.m_paTable (s.m_uEntries - 1) - rowX s.m_paTable (s.m_uEntries - 2)))) = 0 := by
    split
    · rfl
    · rw [hH, sub_self, mul_zero]
  have hlast0 : d2At s (s.m_uEntries - 1) = 0 := by
    rw [hlast, hun, hbz (s.m_uEntries - 2) (by omega)]
    simp
  have hdown : ∀ k, k < s.m_uEntries → d2At s (s.m_uEntries - 1 - k) = 0 := by
    intro k
    induction k with
    | zero => intro _; exact hlast0
    | succ j ih =>
      intro hj
      have hb := hback (s.m_uEntries - 1 - (j + 1)) (by omega)
      have e : s.m_uEntries - 1 - (j + 1) + 1 = s.m_uEntries - 1 - j := by omega
      rw [e, ih (by omega), hbz _ (by omega)] at hb
      rw [hb]; ring
  intro i hi
  have := hdown (s.m_uEntries - 1 - i) (by omega)
  have e : s.m_uEntries - 1 - (s.m_uEntries - 1 - i) = i := by omega
  rw [e] at this
  exact this

/-- A configured evaluator of either class holding affine data returns
`a*x + b` everywhere. -/
theorem evaluate_affine (s : CUInterpolator) (hr : s.Ready)
    (hc : s.m_uLastEntry < s.m_uEntries) (a b : FloatDP)
    (haff : ∀ i, i < s.m_uEntries → rowY s.m_paTable i = a * rowX s.m_paTable i + b)
    (hL : s.m_fdydx_L = (rowY s.m_paTable 1 - rowY s.m_paTable 0)
        / (rowX s.m_paTable 1 - rowX s.m_paTable 0))
    (hH : s.m_fdydx_H = (rowY s.m_paTable (s.m_uEntries - 1) - rowY s.m_paTable (s.m_uEntries - 2))
        / (rowX s.m_paTable (s.m_uEntries - 1) - rowX s.m_paTable (s.m_uEntries - 2)))
    (hd : s.isCSpline = true → ∀ i, i < s.m_uEntries → d2At s i = 0) (x : FloatDP) :
    s.evaluate x = some (a * x + b) := by
  have h2 := hr.1
  have hlen := hr.2.1
  have hasc := hr.2.2.2.1
  have hne : ∀ i, i + 1 < s.m_uEntries → rowX s.m_paTable (i + 1) - rowX s.m_paTable i ≠ 0 :=
    fun i hi => sub_ne_zero.mpr (ne_of_gt (strictAsc_rowX hasc hlen (by omega) hi))
  have hdL : s.m_fdydx_L = a := by
    rw [hL, haff 1 (by omega), haff 0 (by omega)]
    have := hne 0 (by omega)
    simp only [Nat.zero_add] at this
    field_simp
    ring
  have hdH : s.m_fdydx_H = a := by
    rw [hH, haff _ (show s.m_uEntries - 1 < s.m_uEntries by omega),
      haff _ (show s.m_uEntries - 2 < s.m_uEntries by omega)]
    have := hne (s.m_uEntries - 2) (by omega)
    have e : s.m_uEntries - 2 + 1 = s.m_uEntries - 1 := by omega
    rw [e] at this
    field_simp
    ring
  by_cases hlo : x ≤ rowX s.m_paTable 0
  · rw [evaluate_low s hr hc x hlo]
    by_cases hk : s.isCSpline = true
    · rw [if_pos hk, hd hk 0 (by omega), hdL, haff 0 (by omega)]
      congr 1; ring
    · rw [if_neg hk, hdL, haff 0 (by omega)]
      congr 1; ring
  · by_cases hhi : rowX s.m_paTable (s.m_uEntries - 1) ≤ x
    · rw [evaluate_high s hr hc x hhi]
      by_cases hk : s.isCSpline = true
      · rw [if_pos hk, hd hk _ (show s.m_uEntries - 1 < s.m_uEntries by omega), hdH,
          haff _ (show s.m_uEntries - 1 < s.m_uEntries by omega)]
        congr 1; ring
      · rw [if_neg hk, hdH, haff _ (show s.m_uEntries - 1 < s.m_uEntries by omega)]
        congr 1; ring
    · obtain ⟨L, hL1, h1, h2', h⟩ :=
        evaluate_interior s hr hc x (lt_of_not_le hlo) (lt_of_not_le hhi)
      rw [h]
      have hn := hne L hL1
      by_cases hk : s.isCSpline = true
      · rw [if_pos hk]
        simp only [refCubicPiece, hd hk L (by omega), hd hk (L + 1) hL1, haff L (by omega),
          haff (L + 1) hL1]
        congr 1
        field_simp
        ring
      · rw [if_neg hk]
        simp only [refLinearPiece, haff L (by omega), haff (L + 1) hL1]
        congr 1
        field_simp
        ring

/-- C35 (affine data is reproduced exactly).  For a well-formed evaluator of
either class (and, for a cubic spline, either boundary flag) and an input of
`n` rows with `y = a*x + b` in every row, no `x` occurring more than twice and
enough distinct `x` for the class: `configure` succeeds, and afterwards, from
any cursor inside the table, `evaluate(x) = a*x + b` for every `x`, inside and
outside the table; for a cubic spline every derived second derivative is `0`. -/
theorem affine_data_reproduced (s : CUInterpolator) (hwf : s.WellFormed) (n : Nat)
    (src : List SUConfigurationTableEntry) (hlen : src.length = n)
    (hmod : 2 * n ≤ UNativeInt_MOD)
    (hpairs : ∀ v ∈ src.map fun e => e.fIndependentValue,
      (src.map fun e => e.fIndependentValue).count v ≤ 2)
    (hmin : s.tableSizeIsValid (src.map fun e => e.fIndependentValue).dedup.length = true)
    (a b : FloatDP)
    (haff : ∀ e, e ∈ src → e.fDependentValue = a * e.fIndependentValue + b) :
    ∃ s', s.configure n (some src) = (Status.ok, s') ∧
      StrictAsc s'.m_uEntries s'.m_paTable ∧
      (s'.isCSpline = true → ∀ i, i < s'.m_uEntries → d2At s' i = 0) ∧
      ∀ (c : Nat) (x : FloatDP), c < s'.m_uEntries →
        CUInterpolator.evaluate { s' with m_uLastEntry := c } x = some (a * x + b) := by
  obtain ⟨s', p, -, -, -, hcfg, -, hn', -, hr, -, hk, -, hL, hH, hsol, -, hrows⟩ :=
    configure_pairs_solved s hwf n src hlen hmod hpairs hmin
  rw [← hn'] at hH
  have hlen' := hr.2.1
  have haff' : ∀ i, i < s'.m_uEntries →
      rowY s'.m_paTable i = a * rowX s'.m_paTable i + b := by
    intro i hi
    obtain ⟨e, -, -, hmem, hx, hy, -, -⟩ := table_get_of_lt s' hlen' i hi
    rw [hx, hy]
    exact haff e (hrows e hmem)
  have hd : s'.isCSpline = true → ∀ i, i < s'.m_uEntries → d2At s' i = 0 := fun hc =>
    splineSolved_affine s' hr.1 hlen' hr.2.2.2.1 a b haff' hL hH (hsol (hk ▸ hc))
  refine ⟨s', hcfg, hr.2.2.2.1, hd, fun c x hc => ?_⟩
  exact evaluate_affine { s' with m_uLastEntry := c } (ready_set_cursor hr c) hc a b haff' hL hH
    hd x

theorem affine_data_reproduced_witness :
    ∃ s', (CUCSpline.new false).configure 4 (some [⟨3, 7⟩, ⟨0, 1⟩, ⟨1, 3⟩, ⟨2, 5⟩])
        = (Status.ok, s') ∧
      StrictAsc s'.m_uEntries s'.m_paTable ∧
      (s'.isCSpline = true → ∀ i, i < s'.m_uEntries → d2At s' i = 0) ∧
      ∀ (c : Nat) (x : FloatDP), c < s'.m_uEntries →
        CUInterpolator.evaluate { s' with m_uLastEntry := c } x = some (2 * x + 1) :=
  affine_data_reproduced (CUCSpline.new false) (by decide) 4
    [⟨3, 7⟩, ⟨0, 1⟩, ⟨1, 3⟩, ⟨2, 5⟩] rfl (by decide)
    (by decide!) (by decide!) 2 1 (by decide!)

/-- With the boundary flag off and the end derivatives at their default
estimates, the solver relation gives the two end conditions. -/
theorem splineSolved_end_conditions (s : CUInterpolator) (h2 : 2 ≤ s.m_uEntries)
    (hlen : s.m_uEntries ≤ s.m_paTable.length)
    (hasc : StrictAsc s.m_uEntries s.m_paTable) (hnat : s.m_bNaturalSpline = false)
    (hL : s.m_fdydx_L = (rowY s.m_paTable 1 - rowY s.m_paTable 0)
        / (rowX s.m_paTable 1 - rowX s.m_paTable 0))
    (hH : s.m_fdydx_H = (rowY s.m_paTable (s.m_uEntries - 1) - rowY s.m_paTable (s.m_uEntries - 2))
        / (rowX s.m_paTable (s.m_uEntries - 1) - rowX s.m_paTable (s.m_uEntries - 2)))
    (hsol : SplineSolved s) :
    2 * d2At s 0 + d2At s 1 = 0 ∧
      2 * d2At s (s.m_uEntries - 1) + d2At s (s.m_uEntries - 2) = 0 := by
  obtain ⟨c, bb, hc0, hb0, hrec, hlast, hback⟩ := hsol
  have hcb := splineSolved_coeff_bound s hlen hasc c hc0 (fun i h1 h2 => (hrec i h1 h2).1)
  simp only [hnat, Bool.false_eq_true, if_false] at hc0 hb0 hlast
  rw [hL, sub_self, mul_zero] at hb0
  rw [hH, sub_self, mul_zero] at hlast
  constructor
  · have h := hback 0 (by omega)
    rw [Nat.zero_add, hc0, hb0] at h
    rw [h]; ring
  · have h := hback (s.m_uEntries - 2) (by omega)
    have e : s.m_uEntries - 2 + 1 = s.m_uEntries - 1 := by omega
    rw [e] at h
    obtain ⟨hc1, hc2⟩ := hcb (s.m_uEntries - 2) (by omega)
    have hden : (1 / 2 : FloatDP) * c (s.m_uEntries - 2) + 1 ≠ 0 := by
      have : (0 : FloatDP) < 1 / 2 * c (s.m_uEntries - 2) + 1 := by linarith
      exact ne_of_gt this
    have hmul := (eq_div_iff hden).mp hlast
    rw [h]
    linear_combination 2 * hmul

/-- Slope of a cubic piece at its left and right end points. -/
theorem refCubicSlope_ends (t : List SUConfigurationTableEntry) (M : Nat → FloatDP) (L : Nat)
    (hne : rowX t (L + 1) - rowX t L ≠ 0) :
    refCubicSlope t M L (rowX t L)
        = (rowY t (L + 1) - rowY t L) / (rowX t (L + 1) - rowX t L)
          - (2 * M L + M (L + 1)) * (rowX t (L + 1) - rowX t L) / 6 ∧
      refCubicSlope t M L (rowX t (L + 1))
        = (rowY t (L + 1) - rowY t L) / (rowX t (L + 1) - rowX t L)
          + (2 * M (L + 1) + M L) * (rowX t (L + 1) - rowX t L) / 6 := by
  constructor
  · simp only [refCubicSlope]
    rw [div_self hne]; ring
  · simp only [refCubicSlope]
    rw [sub_self, zero_div]; ring

/-- C31 (end conditions of the derivative-estimated spline).  For a well-formed
cubic spline with the natural-spline flag off and an input of `n` rows with at
least three distinct `x`, none occurring more than twice: `configure` succeeds
and leaves a strictly ascending table of `n' ≥ 3` entries whose second
derivatives `M` satisfy `2*M[0] + M[1] = 0` and `2*M[n'-1] + M[n'-2] = 0`; the
first cubic piece has derivative `dydx_low` at `x[0]` and the last cubic piece
has derivative `dydx_high` at `x[n'-1]`; and for any values `M` each end
condition is equivalent to the corresponding statement about the slope. -/
theorem derivative_boundary_condition (s : CUInterpolator) (hwf : s.WellFormed)
    (hsp : s.isCSpline = true) (hnat : s.m_bNaturalSpline = false) (n : Nat)
    (src : List SUConfigurationTableEntry) (hlen : src.length = n)
    (hmod : 2 * n ≤ UNativeInt_MOD)
    (hpairs : ∀ v ∈ src.map fun e => e.fIndependentValue,
      (src.map fun e => e.fIndependentValue).count v ≤ 2)
    (hmin : 3 ≤ (src.map fun e => e.fIndependentValue).dedup.length) :
    ∃ s', s.configure n (some src) = (Status.ok, s') ∧ 3 ≤ s'.m_uEntries ∧
      StrictAsc s'.m_uEntries s'.m_paTable ∧
      2 * d2At s' 0 + d2At s' 1 = 0 ∧
      2 * d2At s' (s'.m_uEntries - 1) + d2At s' (s'.m_uEntries - 2) = 0 ∧
      HasDerivAt (fun z : FloatDP => refCubicPiece s'.m_paTable (d2At s') 0 z)
        s'.m_fdydx_L (rowX s'.m_paTable 0) ∧
      HasDerivAt (fun z : FloatDP =>
          refCubicPiece s'.m_paTable (d2At s') (s'.m_uEntries - 2) z)
        s'.m_fdydx_H (rowX s'.m_paTable (s'.m_uEntries - 1)) ∧
      (∀ M : Nat → FloatDP,
        (refCubicSlope s'.m_paTable M 0 (rowX s'.m_paTable 0) = s'.m_fdydx_L
          ↔ 2 * M 0 + M 1 = 0) ∧
        (refCubicSlope s'.m_paTable M (s'.m_uEntries - 2) (rowX s'.m_paTable (s'.m_uEntries - 1))
            = s'.m_fdydx_H
          ↔ 2 * M (s'.m_uEntries - 1) + M (s'.m_uEntries - 2) = 0)) := by
  have hmin' : s.tableSizeIsValid (src.map fun e => e.fIndependentValue).dedup.length = true := by
    unfold CUInterpolator.tableSizeIsValid
    rw [if_pos hsp]
    exact decide_eq_true hmin
  obtain ⟨s', p, -, -, -, hcfg, -, hn', hp, hr, -, hk, hf, hL, hH, hsol, -, -⟩ :=
    configure_pairs_solved s hwf n src hlen hmod hpairs hmin'
  rw [← hn'] at hH
  have h3 : 3 ≤ s'.m_uEntries := by rw [hn', hp]; exact hmin
  have hlen' := hr.2.1
  have hasc := hr.2.2.2.1
  have hnat' : s'.m_bNaturalSpline = false := by rw [hf, hnat]
  obtain ⟨e1, e2⟩ := splineSolved_end_conditions s' (by omega) hlen' hasc hnat' hL hH (hsol hsp)
  have hne0 : rowX s'.m_paTable (0 + 1) - rowX s'.m_paTable 0 ≠ 0 :=
    sub_ne_zero.mpr (ne_of_gt (strictAsc_rowX hasc hlen' (by omega) (by omega)))
  have hidx : s'.m_uEntries - 2 + 1 = s'.m_uEntries - 1 := by omega
  have hneH : rowX s'.m_paTable (s'.m_uEntries - 2 + 1) - rowX s'.m_paTable (s'.m_uEntries - 2)
      ≠ 0 :=
    sub_ne_zero.mpr (ne_of_gt (strictAsc_rowX hasc hlen' (by omega) (by omega)))
  have hs0 : ∀ M : Nat → FloatDP, refCubicSlope s'.m_paTable M 0 (rowX s'.m_paTable 0)
      = s'.m_fdydx_L - (2 * M 0 + M 1) * (rowX s'.m_paTable 1 - rowX s'.m_paTable 0) / 6 := by
    intro M
    rw [(refCubicSlope_ends s'.m_paTable M 0 hne0).1, hL]
  have hsH : ∀ M : Nat → FloatDP,
      refCubicSlope s'.m_paTable M (s'.m_uEntries - 2) (rowX s'.m_paTable (s'.m_uEntries - 1))
      = s'.m_fdydx_H + (2 * M (s'.m_uEntries - 1) + M (s'.m_uEntries - 2))
          * (rowX s'.m_paTable (s'.m_uEntries - 1) - rowX s'.m_paTable (s'.m_uEntries - 2)) / 6 := by
    intro M
    have h := (refCubicSlope_ends s'.m_paTable M (s'.m_uEntries - 2) hneH).2
    rw [hidx] at h
    rw [h, hH]
  rw [Nat.zero_add] at hne0
  rw [hidx] at hneH
  refine ⟨s', hcfg, h3, hasc, e1, e2, ?_, ?_, fun M => ⟨?_, ?_⟩⟩
  · have h := refCubicPiece_hasDerivAt s'.m_paTable (d2At s') 0 (rowX s'.m_paTable 0)
      (by rw [Nat.zero_add]; exact hne0)
    rw [hs0, e1] at h
    simpa using h
  · have h := refCubicPiece_hasDerivAt s'.m_paTable (d2At s') (s'.m_uEntries - 2)
      (rowX s'.m_paTable (s'.m_uEntries - 1)) (by rw [hidx]; exact hneH)
    rw [hsH, e2] at h
    simpa using h
  · rw [hs0]
    constructor
    · intro h
      have : (2 * M 0 + M 1) * (rowX s'.m_paTable 1 - rowX s'.m_paTable 0) = 0 := by linarith
      rcases mul_eq_zero.mp this with h' | h'
      · exact h'
      · exact absurd h' hne0
    · intro h; rw [h]; ring
  · rw [hsH]
    constructor
    · intro h
      have : (2 * M (s'.m_uEntries - 1) + M (s'.m_uEntries - 2))
          * (rowX s'.m_paTable (s'.m_uEntries - 1) - rowX s'.m_paTable (s'.m_uEntries - 2)) = 0 := by
        linarith
      rcases mul_eq_zero.mp this with h' | h'
      · exact h'
      · exact absurd h' hneH
    · intro h; rw [h]; ring

theorem derivative_boundary_condition_witness :
    ∃ s', (CUCSpline.new false).configure 4 (some [⟨0, 0⟩, ⟨1, 1⟩, ⟨2, 8⟩, ⟨3, 27⟩])
        = (Status.ok, s') ∧ 3 ≤ s'.m_uEntries ∧
      2 * d2At s' 0 + d2At s' 1 = 0 ∧
      2 * d2At s' (s'.m_uEntries - 1) + d2At s' (s'.m_uEntries - 2) = 0 ∧
      HasDerivAt (fun z : FloatDP => refCubicPiece s'.m_paTable (d2At s') 0 z)
        s'.m_fdydx_L (rowX s'.m_paTable 0) := by
  obtain ⟨s', h1, h2, -, h4, h5, h6, -⟩ :=
    derivative_boundary_condition (CUCSpline.new false) (by decide) rfl rfl 4
      [⟨0, 0⟩, ⟨1, 1⟩, ⟨2, 8⟩, ⟨3, 27⟩] rfl (by decide) (by decide!) (by decide!)
  exact ⟨s', h1, h2, h4, h5, h6⟩

/-- The decomposition loop of `deriveSecondDerivatives` runs to its end, and the
coefficients it leaves in `m_pafd2ydx2` obey the elimination recurrence. -/
theorem decomposition_spec (s : CUInterpolator) (h3 : 3 ≤ s.m_uEntries)
    (hlen : s.m_uEntries ≤ s.m_paTable.length) (hmod : s.m_uEntries < UNativeInt_MOD)
    (hd : s.m_uEntries ≤ s.m_pafd2ydx2.length) :
    ∃ st0 st1, lowBoundary s (List.replicate s.tableEntries 0) = some st0 ∧
      forLoop (decompStep s) (s.highestTableIndex - 1) 1 st0 = some st1 ∧
      st1.1.length = s.m_pafd2ydx2.length ∧ st1.2.length = s.m_uEntries ∧
      st1.1.getD 0 0 = (if s.m_bNaturalSpline then 0 else -(1 / 2)) ∧
      ∀ i, 1 ≤ i → i + 1 < s.m_uEntries →
        st1.1.getD i 0 = ((rowX s.m_paTable i - rowX s.m_paTable (i - 1))
              / (rowX s.m_paTable (i + 1) - rowX s.m_paTable (i - 1)) - 1)
            / ((rowX s.m_paTable i - rowX s.m_paTable (i - 1))
              / (rowX s.m_paTable (i + 1) - rowX s.m_paTable (i - 1))
                * st1.1.getD (i - 1) 0 + 2) := by
  have hH : s.highestTableIndex = s.m_uEntries - 1 := usub_one_of_pos (by omega) hmod
  obtain ⟨st0, hst0, q1, q2, q3⟩ : ∃ st0,
      lowBoundary s (List.replicate s.tableEntries 0) = some st0 ∧
      st0.1.length = s.m_pafd2ydx2.length ∧ st0.2.length = s.m_uEntries ∧
      st0.1.getD 0 0 = (if s.m_bNaturalSpline then 0 else -(1 / 2)) :=
    ⟨_, lowBoundary_eq s (by omega) hlen hd, by simp, by simp,
      getD_set_self _ _ _ (by omega)⟩
  obtain ⟨st1, hst1, hl11, hl12, hc0, hrec⟩ := forLoop_inv (decompStep s)
    (fun j st => st.1.length = s.m_pafd2ydx2.length ∧ st.2.length = s.m_uEntries ∧
      st.1.getD 0 0 = (if s.m_bNaturalSpline then 0 else -(1 / 2)) ∧
      ∀ i, 1 ≤ i → i < j →
        st.1.getD i 0 = ((rowX s.m_paTable i - rowX s.m_paTable (i - 1))
              / (rowX s.m_paTable (i + 1) - rowX s.m_paTable (i - 1)) - 1)
            / ((rowX s.m_paTable i - rowX s.m_paTable (i - 1))
              / (rowX s.m_paTable (i + 1) - rowX s.m_paTable (i - 1))
                * st.1.getD (i - 1) 0 + 2))
    (s.m_uEntries - 1 - 1) 1 st0
    ⟨q1, q2, q3, fun i h1 h2 => by omega⟩
    (fun j st hj1 hj2 hp => by
      obtain ⟨p1, p2, p3, p5⟩ := hp
      refine ⟨_, decompStep_eq s j st hj1 (by omega) hlen (by omega) (by omega), ?_⟩
      refine ⟨by simp [p1], by simp [p2], ?_, ?_⟩
      · simp only []; rw [getD_set_other _ _ _ _ (by omega)]; exact p3
      · intro i hi1 hi2
        simp only []
        by_cases hij : i = j
        · subst hij
          rw [getD_set_self _ _ _ (by omega), getD_set_other _ _ _ _ (by omega)]
        · rw [getD_set_other _ _ _ _ (fun h => hij h.symm),
            getD_set_other _ _ _ _ (by omega)]
          exact p5 i hi1 (by omega))
  refine ⟨st0, st1, hst0, by rw [hH]; exact hst1, hl11, hl12, hc0, fun i hi1 hi2 => ?_⟩
  have hi3 : i + 1 < s.m_uEntries := hi2
  have e1 : 1 + (s.m_uEntries - 1 - 1) = s.m_uEntries - 1 := by omega
  exact hrec i hi1 (by rw [e1]; omega)

/-- Bounds of the elimination coefficients and pivots on a strictly ascending
table. -/
theorem elimination_bounds (s : CUInterpolator) (hn : s.m_uEntries ≤ s.m_paTable.length)
    (hs : StrictAsc s.m_uEntries s.m_paTable) (c : Nat → FloatDP)
    (hc0 : c 0 = (if s.m_bNaturalSpline then 0 else -(1 / 2)))
    (hrec : ∀ i, 1 ≤ i → i + 1 < s.m_uEntries →
      c i = ((rowX s.m_paTable i - rowX s.m_paTable (i - 1))
              / (rowX s.m_paTable (i + 1) - rowX s.m_paTable (i - 1)) - 1)
            / ((rowX s.m_paTable i - rowX s.m_paTable (i - 1))
              / (rowX s.m_paTable (i + 1) - rowX s.m_paTable (i - 1)) * c (i - 1) + 2)) :
    (∀ i, i + 1 < s.m_uEntries → -(1 / 2) ≤ c i ∧ c i ≤ 0) ∧
    (∀ i, 1 ≤ i → i + 1 < s.m_uEntries →
      3 / 2 ≤ (rowX s.m_paTable i - rowX s.m_paTable (i - 1))
        / (rowX s.m_paTable (i + 1) - rowX s.m_paTable (i - 1)) * c (i - 1) + 2) := by
  have hsig : ∀ k, k + 1 + 1 < s.m_uEntries →
      0 < (rowX s.m_paTable (k + 1) - rowX s.m_paTable k)
        / (rowX s.m_paTable (k + 1 + 1) - rowX s.m_paTable k) ∧
      (rowX s.m_paTable (k + 1) - rowX s.m_paTable k)
        / (rowX s.m_paTable (k + 1 + 1) - rowX s.m_paTable k) < 1 := by
    intro k hk
    have hx1 := strictAsc_rowX hs hn (show k < k + 1 by omega) (show k + 1 < s.m_uEntries by omega)
    have hx2 := strictAsc_rowX hs hn (show k + 1 < k + 1 + 1 by omega) hk
    have hH : 0 < rowX s.m_paTable (k + 1 + 1) - rowX s.m_paTable k := by linarith
    exact ⟨div_pos (by linarith) hH, by rw [div_lt_one hH]; linarith⟩
  have hb : ∀ i, i + 1 < s.m_uEntries → -(1 / 2) ≤ c i ∧ c i ≤ 0 := by
    intro i
    induction i with
    | zero =>
      intro _
      rw [hc0]
      split <;> constructor <;> norm_num
    | succ k ih =>
      intro hk
      obtain ⟨l1, l2⟩ := ih (by omega)
      obtain ⟨hsig0, hsig1⟩ := hsig k hk
      have e := hrec (k + 1) (by omega) hk
      simp only [Nat.add_sub_cancel] at e
      have hp : 1 < (rowX s.m_paTable (k + 1) - rowX s.m_paTable k)
          / (rowX s.m_paTable (k + 1 + 1) - rowX s.m_paTable k) * c k + 2 := by
        nlinarith
      rw [e]
      constructor
      · rw [le_div_iff₀ (by linarith)]; nlinarith
      · exact div_nonpos_of_nonpos_of_nonneg (by linarith) (by linarith)
  refine ⟨hb, fun i hi1 hi2 => ?_⟩
  obtain ⟨k, rfl⟩ : ∃ k, i = k + 1 := ⟨i - 1, by omega⟩
  obtain ⟨l1, l2⟩ := hb k (by omega)
  obtain ⟨hsig0, hsig1⟩ := hsig k hi2
  simp only [Nat.add_sub_cancel]
  nlinarith

/-- C34 (the tridiagonal solve never divides by zero).  For every strictly
ascending table of `n ≥ 3` entries and either boundary flag,
`deriveSecondDerivatives` runs to its end; every coefficient the decomposition
leaves in `m_pafd2ydx2[0..n-2]` lies in `[-1/2, 0]` and for `i ≥ 1` is
`(fSig-1)/fTemp` with the pivot `fTemp = fSig*d2y[i-1] + 2 ≥ 3/2`; the final
denominator `fqn*d2y[n-2] + 1` is at least `3/4`; the divisors `x[i+1]-x[i]`
and `x[i+1]-x[i-1]` are nonzero; and the same run with a second-derivative
buffer of exactly `n` elements also runs to its end, so every buffer index used
lies in `0..n-1` (the working buffer has `n` elements, and a table read outside
`0..n-1` would stop the run). -/
theorem tridiagonal_solve_safe (s : CUInterpolator) (h3 : 3 ≤ s.m_uEntries)
    (hlen : s.m_uEntries ≤ s.m_paTable.length) (hmod : s.m_uEntries < UNativeInt_MOD)
    (hd : s.m_uEntries ≤ s.m_pafd2ydx2.length)
    (hasc : StrictAsc s.m_uEntries s.m_paTable) :
    ∃ st0 st1 q d2,
      lowBoundary s (List.replicate s.tableEntries 0) = some st0 ∧
      forLoop (decompStep s) (s.highestTableIndex - 1) 1 st0 = some st1 ∧
      highBoundary s = some q ∧
      CUCSpline.deriveSecondDerivatives s = some { s with m_pafd2ydx2 := d2 } ∧
      (∀ i, i + 1 < s.m_uEntries → -(1 / 2) ≤ st1.1.getD i 0 ∧ st1.1.getD i 0 ≤ 0) ∧
      (∀ i, 1 ≤ i → i + 1 < s.m_uEntries →
        st1.1.getD i 0 = ((rowX s.m_paTable i - rowX s.m_paTable (i - 1))
              / (rowX s.m_paTable (i + 1) - rowX s.m_paTable (i - 1)) - 1)
            / ((rowX s.m_paTable i - rowX s.m_paTable (i - 1))
              / (rowX s.m_paTable (i + 1) - rowX s.m_paTable (i - 1))
                * st1.1.getD (i - 1) 0 + 2) ∧
        3 / 2 ≤ (rowX s.m_paTable i - rowX s.m_paTable (i - 1))
          / (rowX s.m_paTable (i + 1) - rowX s.m_paTable (i - 1)) * st1.1.getD (i - 1) 0 + 2) ∧
      3 / 4 ≤ q.1 * st1.1.getD (s.m_uEntries - 2) 0 + 1 ∧
      (∀ i, i + 1 < s.m_uEntries → rowX s.m_paTable (i + 1) - rowX s.m_paTable i ≠ 0) ∧
      (∀ i, 1 ≤ i → i + 1 < s.m_uEntries →
        rowX s.m_paTable (i + 1) - rowX s.m_paTable (i - 1) ≠ 0) ∧
      ∃ d2', CUCSpline.deriveSecondDerivatives
          { s with m_pafd2ydx2 := s.m_pafd2ydx2.take s.m_uEntries }
        = some { s with m_pafd2ydx2 := d2' } ∧ d2'.length = s.m_uEntries := by
  obtain ⟨st0, st1, hst0, hst1, -, -, hc0, hrec⟩ := decomposition_spec s h3 hlen hmod hd
  obtain ⟨d2, hd2, -⟩ := deriveSecondDerivatives_ok s h3 hlen hmod hd
  have hq := highBoundary_eq s (by omega) hlen hmod
  obtain ⟨hb, hp⟩ := elimination_bounds s hlen hasc (fun i => st1.1.getD i 0) hc0 hrec
  have htake : (s.m_pafd2ydx2.take s.m_uEntries).length = s.m_uEntries := by
    rw [List.length_take]; omega
  obtain ⟨d2', hd2', hl2'⟩ := deriveSecondDerivatives_ok
    { s with m_pafd2ydx2 := s.m_pafd2ydx2.take s.m_uEntries } h3 hlen hmod
    (by show s.m_uEntries ≤ (s.m_pafd2ydx2.take s.m_uEntries).length; omega)
  refine ⟨st0, st1, _, d2, hst0, hst1, hq, hd2, hb, fun i h1 h2 => ⟨hrec i h1 h2, hp i h1 h2⟩,
    ?_, ?_, ?_, d2', hd2', by rw [hl2']; exact htake⟩
  · obtain ⟨l1, l2⟩ := hb (s.m_uEntries - 2) (by omega)
    show 3 / 4 ≤ (if s.m_bNaturalSpline then (0 : FloatDP) else 1 / 2)
      * st1.1.getD (s.m_uEntries - 2) 0 + 1
    split
    · norm_num
    · linarith
  · intro i hi
    exact sub_ne_zero.mpr (ne_of_gt (strictAsc_rowX hasc hlen (by omega) hi))
  · intro i h1 hi
    exact sub_ne_zero.mpr (ne_of_gt (strictAsc_rowX hasc hlen (by omega) hi))

theorem tridiagonal_solve_safe_witness :
    ∃ s : CUInterpolator, s.m_bNaturalSpline = false ∧ s.m_uEntries = 4 ∧
      ∃ st0 st1 q d2,
        lowBoundary s (List.replicate s.tableEntries 0) = some st0 ∧
        forLoop (decompStep s) (s.highestTableIndex - 1) 1 st0 = some st1 ∧
        highBoundary s = some q ∧
        CUCSpline.deriveSecondDerivatives s = some { s with m_pafd2ydx2 := d2 } ∧
        (∀ i, i + 1 < s.m_uEntries → -(1 / 2) ≤ st1.1.getD i 0 ∧ st1.1.getD i 0 ≤ 0) ∧
        3 / 4 ≤ q.1 * st1.1.getD (s.m_uEntries - 2) 0 + 1 := by
  refine ⟨((CUCSpline.new false).configure 4 (some [⟨0, 0⟩, ⟨1, 1⟩, ⟨2, 8⟩, ⟨3, 27⟩])).2,
    by decide!, by decide!, ?_⟩
  obtain ⟨st0, st1, q, d2, a1, a2, a3, a4, a5, -, a7, -⟩ := tridiagonal_solve_safe
    ((CUCSpline.new false).configure 4 (some [⟨0, 0⟩, ⟨1, 1⟩, ⟨2, 8⟩, ⟨3, 27⟩])).2
    (by decide!) (by decide!) (by decide!) (by decide!)
    (strictAsc_of_pairwise _ _ (by decide!))
  exact ⟨st0, st1, q, d2, a1, a2, a3, a4, a5, a7⟩

theorem bsearchChecked_eq (s : CUInterpolator) (fxval : FloatDP)
    (hmod : 2 * s.m_uEntries ≤ UNativeInt_MOD) :
    ∀ fuel uL uR, uL < uR → uR < s.m_uEntries →
      bsearchChecked s fxval fuel uL uR = bsearch s fxval fuel uL uR := by
  intro fuel
  induction fuel with
  | zero => intro uL uR _ _; rfl
  | succ fuel ih =>
    intro uL uR h1 h2
    have hu : usub uR uL = uR - uL := usub_of_le (by omega) (by omega)
    rw [bsearchChecked, bsearch, hu]
    by_cases hw : uR - uL > 1
    · have ha : uadd uR uL = uR + uL := uadd_of_lt (by omega)
      have hT1 : uL < (uR + uL) / 2 := by omega
      have hT2 : (uR + uL) / 2 < uR := by omega
      have hu1 : usub ((uR + uL) / 2) uL = (uR + uL) / 2 - uL := usub_of_le (by omega) (by omega)
      have hu2 : usub uR ((uR + uL) / 2) = uR - (uR + uL) / 2 := usub_of_le (by omega) (by omega)
      rw [if_pos hw, if_pos hw]
      simp only [ha, shiftRight_one_eq, hu1, hu2]
      rw [if_pos (show (uR + uL) / 2 - uL < uR - uL by omega),
        if_pos (show uR - (uR + uL) / 2 < uR - uL by omega),
        ih uL ((uR + uL) / 2) hT1 (by omega), ih ((uR + uL) / 2) uR hT2 h2]
    · rw [if_neg hw, if_neg hw]

/-- C33 (locator safety and termination).  For a configured evaluator with a
strictly ascending table of `n ≥ 2` entries (`2*n ≤ 2^32`), every cursor in
`0..n-1` and every `x` with `x[0] < x < x[n-1]`: `mapTableIndex(x)` returns an
index `L ≤ n-2` with `x[L] ≤ x < x[L+1]`, so every table read was inside
`0..n-1` and the binary search ended within `n` iterations; and the checked
search, which stops on an index decremented below `0` or incremented past
`n-1` and on a binary-search iteration that does not narrow `uR - uL`, returns
the same index. -/
theorem locator_safe (s : CUInterpolator) (hr : s.Ready) (fxval : FloatDP)
    (hc : s.m_uLastEntry < s.m_uEntries)
    (hlo : rowX s.m_paTable 0 < fxval)
    (hhi : fxval < rowX s.m_paTable (s.m_uEntries - 1)) :
    ∃ L, s.mapTableIndex fxval = some L ∧ s.localitySearchChecked fxval = some L ∧
      L + 1 < s.m_uEntries ∧
      rowX s.m_paTable L ≤ fxval ∧ fxval < rowX s.m_paTable (L + 1) := by
  obtain ⟨L, hL, hL1, hL2, hL3⟩ := mapTableIndex_spec s hr fxval hc hlo hhi
  refine ⟨L, hL, ?_, hL1, hL2, hL3⟩
  rw [← hL]
  obtain ⟨h2, hlen, hmod, hasc, hstep, -⟩ := hr
  have hmod' : s.m_uEntries < UNativeInt_MOD := by omega
  have hH : s.highestTableIndex = s.m_uEntries - 1 := usub_one_of_pos (by omega) hmod'
  have hns : ¬ (s.m_fXStep ≠ 0) := by simp [hstep]
  unfold CUInterpolator.mapTableIndex CUInterpolator.localitySearchChecked
  rw [if_neg hns, hH]
  simp only [CUInterpolator.lowestTableIndex]
  obtain ⟨uL, huL, huL', hLlt⟩ : ∃ uL, (if s.m_uLastEntry = s.m_uEntries - 1
        then usub s.m_uLastEntry 1 else s.m_uLastEntry) = uL ∧
      (if s.m_uLastEntry = s.m_uEntries - 1 then checkedDec s.m_uLastEntry
        else some s.m_uLastEntry) = some uL ∧ uL + 1 < s.m_uEntries := by
    by_cases hce : s.m_uLastEntry = s.m_uEntries - 1
    · rw [if_pos hce, if_pos hce, usub_of_le (by omega) (by omega)]
      refine ⟨_, rfl, ?_, by omega⟩
      unfold checkedDec
      rw [if_pos (by omega)]
    · rw [if_neg hce, if_neg hce]
      exact ⟨_, rfl, rfl, by omega⟩
  simp only [huL, huL']
  have hR0 : uadd uL 1 = uL + 1 := uadd_of_lt (by omega)
  have hI0 : s.checkedInc uL = some (uL + 1) := by
    unfold CUInterpolator.checkedInc; rw [if_pos hLlt]
  rw [hR0]
  simp only [Option.bind_eq_bind, Option.some_bind, Option.pure_def, hI0]
  rw [inInterval_eq s fxval uL (uL + 1) hlen (by omega) hLlt]
  simp only [Option.some_bind]
  by_cases hin : rowX s.m_paTable uL ≤ fxval ∧ fxval < rowX s.m_paTable (uL + 1)
  · simp only [hin, and_self, decide_True, if_true]
  · simp only [hin, decide_False, Bool.false_eq_true, if_false]
    rw [xval_eq_rowX (show uL < s.m_uEntries by omega) hlen]
    simp only [Option.some_bind]
    by_cases hgt : fxval > rowX s.m_paTable uL
    · rw [if_pos hgt, if_pos hgt]
      have hge : rowX s.m_paTable (uL + 1) ≤ fxval := by
        by_contra hcon
        exact hin ⟨le_of_lt hgt, not_le.mp hcon⟩
      have hne : uL + 1 ≠ s.m_uEntries - 1 := by
        intro heq
        rw [heq] at hge
        exact absurd hhi (not_lt.mpr hge)
      have hR1 : uadd (uL + 1) 1 = uL + 2 := by
        rw [uadd_of_lt (by omega)]
      have hI1 : s.checkedInc (uL + 1) = some (uL + 2) := by
        unfold CUInterpolator.checkedInc; rw [if_pos (by omega)]
      rw [hR1, hI1]
      simp only [Option.some_bind]
      rw [inInterval_eq s fxval (uL + 1) (uL + 2) hlen (by omega) (by omega)]
      simp only [Option.some_bind]
      by_cases hin2 : rowX s.m_paTable (uL + 1) ≤ fxval ∧ fxval < rowX s.m_paTable (uL + 2)
      · simp only [hin2, and_self, decide_True, if_true]
      · simp only [hin2, decide_False, Bool.false_eq_true, if_false]
        exact bsearchChecked_eq s fxval hmod _ _ _ (by omega) (by omega)
    · rw [if_neg hgt, if_neg hgt]
      have hlt : fxval < rowX s.m_paTable uL := by
        rcases lt_or_eq_of_le (not_lt.mp hgt) with h | h
        · exact h
        · exfalso
          apply hin
          refine ⟨le_of_eq h.symm, ?_⟩
          rw [h]
          exact strictAsc_rowX hasc hlen (by omega) hLlt
      have hpos : 0 < uL := by
        rcases Nat.eq_zero_or_pos uL with h | h
        · rw [h] at hlt
          exact absurd hlo (not_lt.mpr (le_of_lt hlt))
        · exact h
      have hL1 : usub uL 1 = uL - 1 := usub_of_le (by omega) (by omega)
      have hR1 : usub (uL + 1) 1 = uL := by
        rw [usub_of_le (by omega) (by omega)]; omega
      have hD1 : checkedDec uL = some (uL - 1) := by
        unfold checkedDec; rw [if_pos hpos]
      have hD2 : checkedDec (uL + 1) = some uL := by
        unfold checkedDec; rw [if_pos (by omega)]; rfl
      rw [hL1, hR1, hD1, hD2]
      simp only [Option.some_bind]
      rw [inInterval_eq s fxval (uL - 1) uL hlen (by omega) (by omega)]
      simp only [Option.some_bind]
      by_cases hin2 : rowX s.m_paTable (uL - 1) ≤ fxval ∧ fxval < rowX s.m_paTable uL
      · simp only [hin2, and_self, decide_True, if_true]
      · simp only [hin2, decide_False, Bool.false_eq_true, if_false]
        exact bsearchChecked_eq s fxval hmod _ _ _ hpos (by omega)

theorem locator_safe_witness :
    (CUInterpolator.new.configure 5
      (some [⟨0, 0⟩, ⟨1, 1⟩, ⟨2, 4⟩, ⟨3, 9⟩, ⟨4, 16⟩])).2.m_uLastEntry = 2 ∧
    ∃ L, (CUInterpolator.new.configure 5
          (some [⟨0, 0⟩, ⟨1, 1⟩, ⟨2, 4⟩, ⟨3, 9⟩, ⟨4, 16⟩])).2.mapTableIndex (1 / 2) = some L ∧
      (CUInterpolator.new.configure 5
          (some [⟨0, 0⟩, ⟨1, 1⟩, ⟨2, 4⟩, ⟨3, 9⟩, ⟨4, 16⟩])).2.localitySearchChecked (1 / 2)
        = some L ∧ L = 0 := by
  refine ⟨by decide!, ?_⟩
  obtain ⟨L, h1, h2, -, -, -⟩ := locator_safe
    (CUInterpolator.new.configure 5 (some [⟨0, 0⟩, ⟨1, 1⟩, ⟨2, 4⟩, ⟨3, 9⟩, ⟨4, 16⟩])).2
    ⟨by decide!, by decide!, by decide!, strictAsc_of_pairwise _ _ (by decide!), by decide!,
      by decide!⟩ (1 / 2) (by decide!) (by decide!) (by decide!)
  refine ⟨L, h1, h2, ?_⟩
  have h3 : (CUInterpolator.new.configure 5
      (some [⟨0, 0⟩, ⟨1, 1⟩, ⟨2, 4⟩, ⟨3, 9⟩, ⟨4, 16⟩])).2.mapTableIndex (1 / 2) = some 0 := by
    decide!
  rw [h3] at h1
  exact (Option.some.inj h1).symm

theorem sameConfiguration_xval {s s' : CUInterpolator} (h : s.SameConfiguration s') (i : Nat) :
    s'.xval i = s.xval i ∧ s'.yval i = s.yval i := by
  obtain ⟨-, -, hn, ht, -⟩ := h
  unfold CUInterpolator.table at ht
  unfold CUInterpolator.xval CUInterpolator.yval tableRead
  rw [hn]
  by_cases hi : i < s.m_uEntries
  · have e : s'.m_paTable[i]? = s.m_paTable[i]? := by
      rw [← List.getElem?_take_of_lt hi, ← hn, ht, List.getElem?_take_of_lt hi]
    rw [if_pos hi, if_pos hi, e]
    exact ⟨rfl, rfl⟩
  · rw [if_neg hi, if_neg hi]
    exact ⟨rfl, rfl⟩

theorem sameConfiguration_bufRead {s s' : CUInterpolator} (h : s.SameConfiguration s')
    (hk : s.isCSpline = true) (i : Nat) (hi : i < s.m_uEntries) :
    bufRead s'.m_pafd2ydx2 i = bufRead s.m_pafd2ydx2 i := by
  obtain ⟨-, -, hn, -, -, -, -, -, hd⟩ := h
  have e := hd hk
  rw [hn] at e
  unfold bufRead
  rw [← List.getElem?_take_of_lt hi, e, List.getElem?_take_of_lt hi]

theorem sameConfiguration_cursor {s s' : CUInterpolator} (h : s.SameConfiguration s') (c : Nat) :
    CUInterpolator.SameConfiguration { s with m_uLastEntry := c } { s' with m_uLastEntry := c } := by
  obtain ⟨h1, h2, h3, h4, h5, h6, h7, -, h9⟩ := h
  exact ⟨h1, h2, h3, h4, h5, h6, h7, rfl, h9⟩

theorem sameConfiguration_inInterval {s s' : CUInterpolator} (h : s.SameConfiguration s')
    (x : FloatDP) (a b : Nat) : inInterval s' x a b = inInterval s x a b := by
  unfold inInterval
  rw [(sameConfiguration_xval h a).1, (sameConfiguration_xval h b).1]

theorem sameConfiguration_bsearch {s s' : CUInterpolator} (h : s.SameConfiguration s')
    (x : FloatDP) : ∀ fuel a b, bsearch s' x fuel a b = bsearch s x fuel a b := by
  intro fuel
  induction fuel with
  | zero => intro a b; rfl
  | succ k ih =>
    intro a b
    rw [bsearch, bsearch]
    simp only [(sameConfiguration_xval h _).1, ih]

theorem sameConfiguration_mapTableIndex {s s' : CUInterpolator} (h : s.SameConfiguration s')
    (x : FloatDP) : s'.mapTableIndex x = s.mapTableIndex x := by
  have hx := fun i => (sameConfiguration_xval h i).1
  have hin := sameConfiguration_inInterval h x
  have hbs := sameConfiguration_bsearch h x
  obtain ⟨-, -, hn, -, -, -, hstep, hcur, -⟩ := h
  unfold CUInterpolator.mapTableIndex
  simp only [CUInterpolator.highestTableIndex, CUInterpolator.lowestTableIndex, hn, hstep, hcur,
    hx, hin, hbs]

theorem sameConfiguration_low {s s' : CUInterpolator} (h : s.SameConfiguration s')
    (x : FloatDP) : s'.vDoExtrapolateLow x = s.vDoExtrapolateLow x := by
  have hx := fun i => (sameConfiguration_xval h i).1
  have hy := fun i => (sameConfiguration_xval h i).2
  have hb := sameConfiguration_bufRead h
  obtain ⟨hk, -, hn, -, hL, -, -, -, -⟩ := h
  unfold CUInterpolator.vDoExtrapolateLow
  rw [hk]
  by_cases hc : s.isCSpline = true
  · rw [if_pos hc, if_pos hc]
    unfold CUCSpline.doExtrapolateLow
    simp only [CUInterpolator.lowestTableIndex, hx, hy, hL]
    cases hx0 : s.xval 0 with
    | none => rfl
    | some v =>
      rw [hb hc 0 (xval_some_lt hx0)]
  · rw [if_neg hc, if_neg hc]
    unfold CUInterpolator.doExtrapolateLow
    simp only [CUInterpolator.lowestTableIndex, hx, hy, hL]

theorem sameConfiguration_high {s s' : CUInterpolator} (h : s.SameConfiguration s')
    (x : FloatDP) : s'.vDoExtrapolateHigh x = s.vDoExtrapolateHigh x := by
  have hx := fun i => (sameConfiguration_xval h i).1
  have hy := fun i => (sameConfiguration_xval h i).2
  have hb := sameConfiguration_bufRead h
  obtain ⟨hk, -, hn, -, -, hH, -, -, -⟩ := h
  unfold CUInterpolator.vDoExtrapolateHigh
  rw [hk]
  by_cases hc : s.isCSpline = true
  · rw [if_pos hc, if_pos hc]
    unfold CUCSpline.doExtrapolateHigh
    simp only [CUInterpolator.highestTableIndex, hn, hx, hy, hH]
    cases hx0 : s.xval (usub s.m_uEntries 1) with
    | none => rfl
    | some v =>
      rw [hb hc _ (xval_some_lt hx0)]
  · rw [if_neg hc, if_neg hc]
    unfold CUInterpolator.doExtrapolateHigh
    simp only [CUInterpolator.highestTableIndex, hn, hx, hy, hH]

theorem sameConfiguration_piece {s s' : CUInterpolator} (h : s.SameConfiguration s')
    (x : FloatDP) (L : Nat) : s'.vDoInterpolate x L = s.vDoInterpolate x L := by
  have hx := fun i => (sameConfiguration_xval h i).1
  have hy := fun i => (sameConfiguration_xval h i).2
  have hb := sameConfiguration_bufRead h
  obtain ⟨hk, -, hn, -, -, -, -, -, -⟩ := h
  unfold CUInterpolator.vDoInterpolate
  rw [hk]
  by_cases hc : s.isCSpline = true
  · rw [if_pos hc, if_pos hc]
    unfold CUCSpline.doInterpolate
    simp only [hx, hy]
    cases hxR : s.xval (uadd L 1) with
    | none => rfl
    | some vR =>
      cases hxL : s.xval L with
      | none => rfl
      | some vL =>
        rw [hb hc _ (xval_some_lt hxL), hb hc _ (xval_some_lt hxR)]
  · rw [if_neg hc, if_neg hc]
    unfold CUInterpolator.doInterpolate
    simp only [hx, hy]

/-- One query on two objects holding the same configuration: the same value,
and the same configuration afterwards. -/
theorem sameConfiguration_interpolate {s s' : CUInterpolator} (h : s.SameConfiguration s')
    (x : FloatDP) :
    (s.interpolate x = none → s'.interpolate x = none) ∧
    ∀ y t, s.interpolate x = some (y, t) →
      ∃ t', s'.interpolate x = some (y, t') ∧ t.SameConfiguration t' := by
  have hn := h.2.2.1
  have hXL : s'.lowestXval = s.lowestXval := (sameConfiguration_xval h _).1
  have hXH : s'.highestXval = s.highestXval := by
    unfold CUInterpolator.highestXval CUInterpolator.highestTableIndex
    rw [hn]; exact (sameConfiguration_xval h _).1
  have hHT : s'.highestTableIndex = s.highestTableIndex := by
    unfold CUInterpolator.highestTableIndex; rw [hn]
  have h0' : (0 = s'.m_uEntries) ↔ (0 = s.m_uEntries) := by rw [hn]
  unfold CUInterpolator.interpolate
  by_cases h0 : 0 = s.m_uEntries
  · rw [if_pos h0, if_pos (h0'.mpr h0)]
    refine ⟨fun hh => (by cases hh), fun y t hh => ?_⟩
    have hh' := Option.some.inj hh
    have e1 : x = y := congrArg Prod.fst hh'
    have e2 : s = t := congrArg Prod.snd hh'
    subst e1; subst e2
    exact ⟨s', rfl, h⟩
  · rw [if_neg h0, if_neg (fun hh => h0 (h0'.mp hh)), hXL, hXH, hHT,
      sameConfiguration_mapTableIndex h x]
    simp only [CUInterpolator.lowestTableIndex]
    cases hx0 : s.lowestXval with
    | none => exact ⟨fun _ => rfl, fun y t hh => by cases hh⟩
    | some xLow =>
      simp only [Option.bind_eq_bind, Option.some_bind, Option.pure_def]
      by_cases hlo : x ≤ xLow
      · simp only [if_pos hlo]
        rw [sameConfiguration_low (sameConfiguration_cursor h 0) x]
        cases hv : CUInterpolator.vDoExtrapolateLow { s with m_uLastEntry := 0 } x with
        | none => exact ⟨fun _ => rfl, fun y t hh => by cases hh⟩
        | some v =>
          refine ⟨fun hh => (by cases hh), fun y t hh => ?_⟩
          have hh' := Option.some.inj hh
          have e1 : v = y := congrArg Prod.fst hh'
          have e2 : _ = t := congrArg Prod.snd hh'
          subst e1; subst e2
          exact ⟨_, rfl, sameConfiguration_cursor h 0⟩
      · simp only [if_neg hlo]
        cases hxH : s.highestXval with
        | none => exact ⟨fun _ => rfl, fun y t hh => by cases hh⟩
        | some xHigh =>
          simp only [Option.some_bind]
          by_cases hhi : x ≥ xHigh
          · simp only [if_pos hhi]
            rw [sameConfiguration_high (sameConfiguration_cursor h s.highestTableIndex) x]
            cases hv : CUInterpolator.vDoExtrapolateHigh
                { s with m_uLastEntry := s.highestTableIndex } x with
            | none => exact ⟨fun _ => rfl, fun y t hh => by cases hh⟩
            | some v =>
              refine ⟨fun hh => (by cases hh), fun y t hh => ?_⟩
              have hh' := Option.some.inj hh
              have e1 : v = y := congrArg Prod.fst hh'
              have e2 : _ = t := congrArg Prod.snd hh'
              subst e1; subst e2
              exact ⟨_, rfl, sameConfiguration_cursor h _⟩
          · simp only [if_neg hhi]
            cases hm : s.mapTableIndex x with
            | none => exact ⟨fun _ => rfl, fun y t hh => by cases hh⟩
            | some uL =>
              simp only [Option.some_bind]
              rw [sameConfiguration_piece (sameConfiguration_cursor h uL) x uL]
              cases hv : CUInterpolator.vDoInterpolate { s with m_uLastEntry := uL } x uL with
              | none => exact ⟨fun _ => rfl, fun y t hh => by cases hh⟩
              | some v =>
                refine ⟨fun hh => (by cases hh), fun y t hh => ?_⟩
                have hh' := Option.some.inj hh
                have e1 : v = y := congrArg Prod.fst hh'
                have e2 : _ = t := congrArg Prod.snd hh'
                subst e1; subst e2
                exact ⟨_, rfl, sameConfiguration_cursor h _⟩

theorem sameConfiguration_evaluate {s s' : CUInterpolator} (h : s.SameConfiguration s')
    (x : FloatDP) : s'.evaluate x = s.evaluate x := by
  obtain ⟨h1, h2⟩ := sameConfiguration_interpolate h x
  unfold CUInterpolator.evaluate
  cases hi : s.interpolate x with
  | none => rw [h1 hi]
  | some r =>
    obtain ⟨t', e, -⟩ := h2 r.1 r.2 hi
    rw [e]; rfl

theorem sameConfiguration_interpolateAll :
    ∀ (xs : List FloatDP) (s s' : CUInterpolator), s.SameConfiguration s' →
      interpolateAll s' xs = interpolateAll s xs := by
  intro xs
  induction xs with
  | nil => intro s s' _; rfl
  | cons x xs ih =>
    intro s s' h
    obtain ⟨h1, h2⟩ := sameConfiguration_interpolate h x
    rw [interpolateAll, interpolateAll]
    cases hi : s.interpolate x with
    | none => rw [h1 hi]
    | some r =>
      obtain ⟨t', e, hR⟩ := h2 r.1 r.2 hi
      rw [e]
      simp only [Option.some_bind]
      rw [ih r.2 t' hR]

theorem interpolateAll_of_no_entries (s : CUInterpolator) (h : s.m_uEntries = 0) :
    ∀ xs, interpolateAll s xs = some xs := by
  intro xs
  induction xs with
  | nil => rfl
  | cons x xs ih =>
    rw [interpolateAll, interpolate_of_no_entries s x h]
    simp only [Option.some_bind, ih, Option.map_some']

/-- A successful `configure` from the same rows leaves the same configuration
whatever well-formed object of the same class and boundary flag it starts
from. -/
theorem configure_same (s1 s2 : CUInterpolator) (hwf1 : s1.WellFormed) (hwf2 : s2.WellFormed)
    (hk : s2.isCSpline = s1.isCSpline) (hf : s2.m_bNaturalSpline = s1.m_bNaturalSpline)
    (n : Nat) (src : List SUConfigurationTableEntry) (hn0 : n ≠ 0) (hmod : n < UNativeInt_MOD)
    (hsrc : n ≤ src.length) (s1' : CUInterpolator)
    (h1 : s1.configure n (some src) = (Status.ok, s1')) :
    ∃ s2', s2.configure n (some src) = (Status.ok, s2') ∧ s1'.SameConfiguration s2' := by
  obtain ⟨hv1, hwf1', hv1', hle1, hk1, hf1, -, -, -, hst1, hcu1, hL1, hH1, hsol1⟩ :=
    configure_ok_spec s1 hwf1 n src hn0 hmod hsrc s1' h1
  obtain ⟨t1, p, hsort, hdedup, hn1, ht1, hpl, hp1, hpn⟩ :=
    configure_ok_rows s1 hwf1 n src hn0 hmod hsrc s1' h1
  -- the second object succeeds as well
  obtain ⟨ha1, ha2, ha3, ha4, ha5⟩ := allocateTable_pos s2 n hwf2 hn0 hmod
  have hv2 : s2.tableSizeIsValid n = true := by
    rw [tableSizeIsValid_congr s1 s2 hk]; exact hv1
  have hlenA : (s2.allocateTable n).2.m_uEntries ≤ (s2.allocateTable n).2.m_paTable.length := by
    have := ha3.1
    have := ha3.2.1
    omega
  have hfill := fillTable_rows (s2.allocateTable n).2 src hlenA
    (by rw [ha2]; exact hsrc) (by rw [ha2]; exact hmod)
  rw [ha2, hsort] at hfill
  simp only [Option.some_bind, hdedup, Option.map_some'] at hfill
  have hvp : (s2.allocateTable n).2.tableSizeIsValid p.1 = true := by
    rw [tableSizeIsValid_congr s1' _ (by rw [ha4, hk, hk1]), ← hn1]; exact hv1'
  obtain ⟨s3, hfin, -⟩ := finishConfigure_spec
    { (s2.allocateTable n).2 with
      m_paTable := p.2 ++ (s2.allocateTable n).2.m_paTable.drop n, m_uEntries := p.1 }
    hvp (by show p.1 ≤ (p.2 ++ _).length; rw [List.length_append]; omega)
    (by show p.1 < UNativeInt_MOD; omega)
    (fun hc => by
      show p.1 ≤ (s2.allocateTable n).2.m_pafd2ydx2.length
      have := (ha3.2.2.2 hc).2
      have := ha3.2.1
      rw [ha2] at this
      omega)
  have h2 := configure_of_fillTable s2 n src hv2 ha1 _ hfill hvp s3 hfin
  refine ⟨s3, h2, ?_⟩
  obtain ⟨-, hwf2', -, -, hk2, hf2, -, -, -, hst2, hcu2, hL2, hH2, hsol2⟩ :=
    configure_ok_spec s2 hwf2 n src hn0 hmod hsrc s3 h2
  obtain ⟨t1', p', hsort', hdedup', hn2, ht2, -, -, -⟩ :=
    configure_ok_rows s2 hwf2 n src hn0 hmod hsrc s3 h2
  rw [hsort] at hsort'
  obtain rfl := Option.some.inj hsort'
  rw [hdedup] at hdedup'
  obtain rfl := Option.some.inj hdedup'
  have hnn : s3.m_uEntries = s1'.m_uEntries := by rw [hn1, hn2]
  have h2n : 2 ≤ s1'.m_uEntries := tableSizeIsValid_ge_two hv1'
  have hx : ∀ i, i < s1'.m_uEntries → rowX s3.m_paTable i = rowX s1'.m_paTable i := by
    intro i hi
    rw [ht1, ht2, rowX_append_left _ _ _ (by omega), rowX_append_left _ _ _ (by omega)]
  have hy : ∀ i, i < s1'.m_uEntries → rowY s3.m_paTable i = rowY s1'.m_paTable i := by
    intro i hi
    rw [ht1, ht2, rowY_append_left _ _ _ (by omega), rowY_append_left _ _ _ (by omega)]
  have hL : s3.m_fdydx_L = s1'.m_fdydx_L := by
    rw [hL1, hL2, hx 0 (by omega), hx 1 (by omega), hy 0 (by omega), hy 1 (by omega)]
  have hH : s3.m_fdydx_H = s1'.m_fdydx_H := by
    rw [hH1, hH2, hnn, hx _ (show s1'.m_uEntries - 1 < s1'.m_uEntries by omega),
      hx _ (show s1'.m_uEntries - 2 < s1'.m_uEntries by omega),
      hy _ (show s1'.m_uEntries - 1 < s1'.m_uEntries by omega),
      hy _ (show s1'.m_uEntries - 2 < s1'.m_uEntries by omega)]
  refine ⟨by rw [hk2, hk, hk1], by rw [hf2, hf, hf1], hnn, ?_, hL, hH, by rw [hst1, hst2],
    by rw [hcu1, hcu2, hnn], fun hc => ?_⟩
  · unfold CUInterpolator.table
    rw [hn1, hn2, ht1, ht2, List.take_append_of_le_length (by omega),
      List.take_append_of_le_length (by omega)]
  · have hd := splineSolved_unique_rows s1' s3 hnn hx hy (by rw [hf2, hf, hf1]) hL hH h2n
      (hsol1 (hk1 ▸ hc)) (hsol2 (by rw [hk, ← hk1]; exact hc))
    have hl1 : s1'.m_uEntries ≤ s1'.m_pafd2ydx2.length := by
      have := (hwf1'.2.2.2 hc).2
      have := hwf1'.2.1
      omega
    have hl2 : s3.m_uEntries ≤ s3.m_pafd2ydx2.length := by
      have := (hwf2'.2.2.2 (by rw [hk2, hk, ← hk1]; exact hc)).2
      have := hwf2'.2.1
      omega
    rw [hnn]
    apply List.ext_getElem?
    intro i
    rw [List.getElem?_take, List.getElem?_take]
    by_cases hi : i < s1'.m_uEntries
    · rw [if_pos hi, if_pos hi]
      have e1 := bufRead_getD (show i < s1'.m_pafd2ydx2.length by omega)
      have e2 := bufRead_getD (show i < s3.m_pafd2ydx2.length by omega)
      unfold bufRead at e1 e2
      rw [e1, e2]
      exact congrArg some (hd i hi)
    · rw [if_neg hi, if_neg hi]

/-- C36 (configure-from-table is history independent).  Let two well-formed
evaluator objects of the same class and boundary flag be in any states
(never configured, holding a larger table whose buffer is reused, or holding a
smaller one).  If explicit-table `configure` from `n` rows succeeds on the
first, it succeeds on the second, and the two are left with the same table size
and table entries, answering every query and every sequence of queries alike;
for `n ≥ 1` they are also left with the same end derivatives, spacing step,
cursor and second derivatives. -/
theorem configure_history_independent (s1 s2 : CUInterpolator) (hwf1 : s1.WellFormed)
    (hwf2 : s2.WellFormed) (hk : s2.isCSpline = s1.isCSpline)
    (hf : s2.m_bNaturalSpline = s1.m_bNaturalSpline) (n : Nat)
    (src : List SUConfigurationTableEntry) (hmod : n < UNativeInt_MOD) (hsrc : n ≤ src.length)
    (s1' : CUInterpolator) (h1 : s1.configure n (some src) = (Status.ok, s1')) :
    ∃ s2', s2.configure n (some src) = (Status.ok, s2') ∧
      s2'.m_uEntries = s1'.m_uEntries ∧ s2'.table = s1'.table ∧
      (∀ x, s2'.evaluate x = s1'.evaluate x) ∧
      (∀ xs, interpolateAll s2' xs = interpolateAll s1' xs) ∧
      (n ≠ 0 → s1'.SameConfiguration s2') := by
  by_cases hn0 : n = 0
  · subst hn0
    obtain ⟨a1, ha1, hz1, -, hi1⟩ := (configure_zero_releases s1 hwf1).1 (some src)
    obtain ⟨a2, ha2, hz2, -, hi2⟩ := (configure_zero_releases s2 hwf2).1 (some src)
    rw [h1] at ha1
    have e : s1' = a1 := congrArg Prod.snd ha1
    subst e
    refine ⟨a2, ha2, by rw [hz1, hz2], ?_, fun x => ?_, fun xs => ?_, fun h => absurd rfl h⟩
    · unfold CUInterpolator.table; rw [hz1, hz2]; rfl
    · unfold CUInterpolator.evaluate; rw [hi1, hi2]; rfl
    · rw [interpolateAll_of_no_entries _ hz1, interpolateAll_of_no_entries _ hz2]
  · obtain ⟨s2', h2, hR⟩ := configure_same s1 s2 hwf1 hwf2 hk hf n src hn0 hmod hsrc s1' h1
    exact ⟨s2', h2, hR.2.2.1, hR.2.2.2.1, sameConfiguration_evaluate hR,
      fun xs => sameConfiguration_interpolateAll xs _ _ hR, fun _ => hR⟩

theorem configure_history_independent_witness :
    ((CUCSpline.new true).configure 5
      (some [⟨0, 0⟩, ⟨1, 1⟩, ⟨2, 8⟩, ⟨3, 27⟩, ⟨4, 64⟩])).2.m_uAllocatedEntries = 5 ∧
    ∃ s2', ((CUCSpline.new true).configure 5
          (some [⟨0, 0⟩, ⟨1, 1⟩, ⟨2, 8⟩, ⟨3, 27⟩, ⟨4, 64⟩])).2.configure 3
          (some [⟨2, 4⟩, ⟨0, 0⟩, ⟨1, 1⟩]) = (Status.ok, s2') ∧
      s2'.m_uEntries
        = ((CUCSpline.new true).configure 3 (some [⟨2, 4⟩, ⟨0, 0⟩, ⟨1, 1⟩])).2.m_uEntries ∧
      s2'.table = ((CUCSpline.new true).configure 3 (some [⟨2, 4⟩, ⟨0, 0⟩, ⟨1, 1⟩])).2.table ∧
      (∀ x, s2'.evaluate x
        = ((CUCSpline.new true).configure 3 (some [⟨2, 4⟩, ⟨0, 0⟩, ⟨1, 1⟩])).2.evaluate x) ∧
      (∀ xs, interpolateAll s2' xs
        = interpolateAll ((CUCSpline.new true).configure 3
            (some [⟨2, 4⟩, ⟨0, 0⟩, ⟨1, 1⟩])).2 xs) ∧
      ((3 : Nat) ≠ 0 → CUInterpolator.SameConfiguration
        ((CUCSpline.new true).configure 3 (some [⟨2, 4⟩, ⟨0, 0⟩, ⟨1, 1⟩])).2 s2') :=
  ⟨by decide!, configure_history_independent (CUCSpline.new true)
    ((CUCSpline.new true).configure 5
      (some [⟨0, 0⟩, ⟨1, 1⟩, ⟨2, 8⟩, ⟨3, 27⟩, ⟨4, 64⟩])).2
    (by decide) (by decide!) (by decide!) (by decide!) 3 [⟨2, 4⟩, ⟨0, 0⟩, ⟨1, 1⟩]
    (by decide) (by decide)
    ((CUCSpline.new true).configure 3 (some [⟨2, 4⟩, ⟨0, 0⟩, ⟨1, 1⟩])).2
    (Prod.ext (by decide!) rfl)⟩

/-- C37 (reversed range bounds), evaluated at a failing input.  The three
assignments meant to exchange the bounds leave them as they were
(`swapBounds 5 1 = (5, 1)`), so the grid starts at the larger bound.  On a
fresh linear evaluator `configure(2, 5, 1, {10, 20})` pairs `ys[0] = 10` with
`x = 5` and leaves the table `(1,20),(5,10)`, while the call with the bounds
exchanged, `configure(2, 1, 5, {10, 20})`, leaves `(1,10),(5,20)`.  With a
mapping function and three entries the two calls also leave different tables:
the reversed call places the middle grid point next to `5`, the other next to
`1`. -/
theorem reversed_bounds_not_exchanged :
    swapBounds 5 1 = (5, 1) ∧
    (CUInterpolator.new.configureRange 2 5 1 (some [10, 20])).1 = Status.ok ∧
    (CUInterpolator.new.configureRange 2 5 1 (some [10, 20])).2.table = [⟨1, 20⟩, ⟨5, 10⟩] ∧
    (CUInterpolator.new.configureRange 2 1 5 (some [10, 20])).1 = Status.ok ∧
    (CUInterpolator.new.configureRange 2 1 5 (some [10, 20])).2.table = [⟨1, 10⟩, ⟨5, 20⟩] ∧
    (CUInterpolator.new.configureRange 2 5 1 (some [10, 20])).2.evaluate 1 = some 20 ∧
    (CUInterpolator.new.configureRange 2 1 5 (some [10, 20])).2.evaluate 1 = some 10 ∧
    (CUInterpolator.new.configureMap 3 5 1 (some fun x _ => 2 * x) 0).1 = Status.ok ∧
    (CUInterpolator.new.configureMap 3 1 5 (some fun x _ => 2 * x) 0).1 = Status.ok ∧
    (CUInterpolator.new.configureMap 3 5 1 (some fun x _ => 2 * x) 0).2.table
      = [⟨1, 2⟩, ⟨5 - 4 / 4294967295, 2 * (5 - 4 / 4294967295)⟩, ⟨5, 10⟩] ∧
    (CUInterpolator.new.configureMap 3 1 5 (some fun x _ => 2 * x) 0).2.table
      = [⟨1, 2⟩, ⟨1 + 4 / 4294967295, 2 * (1 + 4 / 4294967295)⟩, ⟨5, 10⟩] := by
  refine ⟨?_, ?_, ?_, ?_, ?_, ?_, ?_, ?_, ?_, ?_, ?_⟩
  · decide!
  · decide!
  · decide!
  · decide!
  · decide!
  · decide!
  · decide!
  · decide!
  · decide!
  · decide!
  · decide!

/-- C38 (toggling the boundary flag on an unconfigured spline), evaluated at a
failing input.  A freshly constructed `CUCSpline(true)` holds no table and no
second-derivative buffer; `configureNaturalSpline(false)` records the flag and
runs `deriveSecondDerivatives`, whose first statement writes `m_pafd2ydx2[0]`:
an access outside the (absent) buffer, so the call has no defined result.  The
same holds in the other direction and for a spline whose table was released by
`configure(0, NULL)`.  A call that does not change the flag does nothing. -/
theorem toggle_unconfigured_faults :
    (CUCSpline.new true).m_uEntries = 0 ∧ (CUCSpline.new true).m_pafd2ydx2 = [] ∧
    lowBoundary { CUCSpline.new true with m_bNaturalSpline := false } (List.replicate 0 0)
      = none ∧
    CUCSpline.deriveSecondDerivatives { CUCSpline.new true with m_bNaturalSpline := false }
      = none ∧
    CUCSpline.configureNaturalSpline (CUCSpline.new true) false = none ∧
    CUCSpline.configureNaturalSpline (CUCSpline.new false) true = none ∧
    CUCSpline.configureNaturalSpline (CUCSpline.new true) true = some (CUCSpline.new true) ∧
    (((CUCSpline.new true).configure 3 (some [⟨0, 0⟩, ⟨1, 1⟩, ⟨2, 4⟩])).2.configure 0 none).1
      = Status.ok ∧
    CUCSpline.configureNaturalSpline
      (((CUCSpline.new true).configure 3 (some [⟨0, 0⟩, ⟨1, 1⟩, ⟨2, 4⟩])).2.configure 0 none).2
      false = none := by
  refine ⟨?_, ?_, ?_, ?_, ?_, ?_, ?_, ?_, ?_⟩
  · decide
  · decide
  · decide!
  · decide!
  · decide!
  · decide!
  · decide!
  · decide!
  · decide!

end IotBuilder
